import Mathlib

/-!
# A verification development for the TDHF response solver (src/apps/bryan/TDHF.cc)

Conventions of the embedding.

* A `double` is a rational number: every statement is over exact arithmetic. The one
  statement that needs square roots, the one on `normalize`, is over the real numbers, and
  `inner` and `normalize` are written for any scalar type for that purpose.
* A one-dimensional `Tensor<double>` is a `List ℚ`; a two-dimensional one is the
  list of its rows, `List (List ℚ)`.
* A `real_function_3d` is an element of an arbitrary rational vector space `F`;
  the inner product of two functions is a parameter `ip : F → F → ℚ`.
* A `std::vector<real_function_3d>` is a `List F`, a response set is a `List (List F)`.
* A `MADNESS_ASSERT` that fails is the value `Except.error`, and so is a read or write
  beyond the end of a tensor or vector in `sort` and `sort_eigenvalues`.
-/

namespace TDHF

/-! ## Loops whose body can fail -/

/-- A loop `for (i = 0; i < n; i++) body` whose body can fail, over the listed values of
`i`. -/
def for_except {σ : Type} (body : Nat → σ → Except String σ) : List Nat → σ → Except String σ
  | [], s => Except.ok s
  | i :: rest, s =>
    match body i s with
    | Except.ok s2 => for_except body rest s2
    | Except.error e => Except.error e

/-! ## Sorting of eigenvalues (TDHF::sort_eigenvalues, TDHF::sort) -/

/-- The tolerance `1e-8` of the index search in `sort` and `sort_eigenvalues`: the value of
the `double` literal, `3022314549036573 / 2^78`, a little above `10^-8`. -/
def match_tol : ℚ := 3022314549036573 / 302231454903657293676544

/-- The value `10000.0` written over an entry of `vals_copy2` once it has been taken. -/
def taken_mark : ℚ := 10000

/-- The call `std::sort(vals_copy.begin(), vals_copy.end())`: the ascending rearrangement
of the list (on a linear order it is the same list whatever algorithm produces it). -/
def std_sort (l : List ℚ) : List ℚ := l.insertionSort (· ≤ ·)

/-- The search loop `int j = 0; while(fabs(x - vals_copy2[j]) > 1e-8 && j < k) j++;`
started at `j` and run for at most `fuel` passes (`k + 1` passes always suffice): the final
value of `j`. The loop tests the entry before the bound, so the result `k` means that no
entry within the tolerance was found and that `vals_copy2[k]`, one entry beyond the tensor,
has been read; `sort_eigenvalues_step` and `sort_step` make that an error. -/
def find_index (x : ℚ) (vals_copy2 : List ℚ) (k : Nat) : Nat → Nat → Nat
  | 0, j => j
  | fuel + 1, j =>
    if |x - vals_copy2.getD j 0| > match_tol ∧ j < k then
      find_index x vals_copy2 k fuel (j + 1)
    else j

/-- Column `j` of a matrix given by its rows, `vecs_copy(_,j)`. The value `oob` fills the
place of a row that has no entry `j`; `sort_eigenvalues_step` reads a column only after it
has checked that every row has one. -/
def column (oob : ℚ) (rows : List (List ℚ)) (j : Nat) : List ℚ :=
  rows.map (fun row => row.getD j oob)

/-- The assignment `vecs(_,i) = col`. -/
def set_column (rows : List (List ℚ)) (i : Nat) (col : List ℚ) : List (List ℚ) :=
  List.zipWith (fun row v => row.set i v) rows col

/-- The variables the loop of `sort_eigenvalues` updates. -/
structure EigState where
  vals : List ℚ
  vecs : List (List ℚ)
  selected : List Nat
  vals_copy2 : List ℚ
deriving DecidableEq

/-- One pass `i` of the loop of `sort_eigenvalues` (lines 2129-2144). When the search ends
at `j = k` the source has read `vals_copy2[k]` and goes on to read column `k` of
`vecs_copy` and to write `vals_copy2[k]`, all beyond the tensors; the columns `i` and `j`
also have to exist in `vecs`. An access beyond a tensor is `Except.error`. -/
def sort_eigenvalues_step (k : Nat) (vals_copy : List ℚ) (vecs_copy : List (List ℚ))
    (i : Nat) (st : EigState) : Except String EigState :=
  let j := find_index (vals_copy.getD i 0) st.vals_copy2 k (k + 1) 0
  if j < k ∧ ∀ row ∈ vecs_copy, i < row.length ∧ j < row.length then
    Except.ok
      { selected := st.selected.set i j
        vals := st.vals.set i (vals_copy.getD i 0)
        vecs := set_column st.vecs i (column 0 vecs_copy j)
        vals_copy2 := st.vals_copy2.set j taken_mark }
  else Except.error "index out of range"

/-- The function `TDHF::sort_eigenvalues(world, vals, vecs)`: the final values of `vals`, `vecs`
and of the returned tensor `selected`, or `Except.error` when a pass reads or writes beyond
a tensor. -/
def sort_eigenvalues (vals : List ℚ) (vecs : List (List ℚ)) : Except String EigState :=
  let k := vals.length
  for_except (sort_eigenvalues_step k (std_sort vals) vecs) (List.range k)
    { vals := vals, vecs := vecs, selected := List.replicate k 0, vals_copy2 := vals }

/-- The variables the loop of `sort` updates; `α` is the type of one response vector. -/
structure SortState (α : Type) where
  vals : List ℚ
  val_residuals : List ℚ
  f : List α
  f_diff : List α
  selected : List Nat
  vals_copy2 : List ℚ

/-- One pass `i` of the loop of `sort` (lines 2082-2100). When the search ends at `j = k`
the source has read `vals_copy2[k]` beyond the tensor; `f_copy[j]`, `f_diff_copy[j]`,
`val_residuals_copy(j)` and `val_residuals[i]` also have to exist. An access beyond a
vector or tensor is `Except.error`. -/
def sort_step {α : Type} (k : Nat) (vals_copy : List ℚ)
    (val_residuals_copy : List ℚ) (f_copy f_diff_copy : List α)
    (i : Nat) (st : SortState α) : Except String (SortState α) :=
  let j := find_index (vals_copy.getD i 0) st.vals_copy2 k (k + 1) 0
  match f_copy[j]?, f_diff_copy[j]?, val_residuals_copy[j]? with
  | some a, some b, some r =>
    if j < k ∧ i < st.val_residuals.length then
      Except.ok
        { selected := st.selected.set i j
          f := st.f ++ [a]
          f_diff := st.f_diff ++ [b]
          vals := st.vals.set i (vals_copy.getD i 0)
          val_residuals := st.val_residuals.set i r
          vals_copy2 := st.vals_copy2.set j taken_mark }
    else Except.error "index out of range"
  | _, _, _ => Except.error "index out of range"

/-- The function `TDHF::sort(world, vals, val_residuals, f, f_diff)`: the final values of its
arguments and of the returned tensor `selected`, or `Except.error` when a pass reads or
writes beyond a vector or tensor. -/
def sort {α : Type} (vals val_residuals : List ℚ)
    (f f_diff : List α) : Except String (SortState α) :=
  let k := vals.length
  for_except (sort_step k (std_sort vals) val_residuals f f_diff) (List.range k)
    { vals := vals, val_residuals := val_residuals, f := [], f_diff := [],
      selected := List.replicate k 0, vals_copy2 := vals }

/-- The tensor `Tensor<double> result(m,n)`.
Modelled from the spec: the constructor of the `Tensor` class (not among the sources) leaves
every entry zero, as the spec's "else zero" for the entries `create_shift` never writes
requires. -/
def zeros2 (m n : Nat) : List (List ℚ) := List.replicate m (List.replicate n 0)

/-- The entry `t(k,p)`. -/
def get2 (t : List (List ℚ)) (k p : Nat) : ℚ := (t.getD k []).getD p 0

/-- The assignment `t(k,p) = v`. -/
def set2 (t : List (List ℚ)) (k p : Nat) (v : ℚ) : List (List ℚ) :=
  t.set k ((t.getD k []).set p v)

/-- A table with `m` rows of `n` entries. -/
def HasShape {α : Type} (m n : Nat) (t : List (List α)) : Prop :=
  t.length = m ∧ ∀ row ∈ t, row.length = n

/-- The loop nest `for(k = 0; k < m; k++) for(p = 0; p < n; p++) body`. -/
def for2 {σ : Type} (m n : Nat) (body : Nat → Nat → σ → σ) (init : σ) : σ :=
  (List.range m).foldl (fun t k => (List.range n).foldl (fun t p => body k p t) t) init

/-! ## The energy shift (TDHF::create_shift, TDHF::create_bsh_operators) -/

/-- The function `TDHF::create_shift(world, ground, omega, print_level, xy)` (lines 1112-1152);
the printing is left out. -/
def create_shift (ground omega : List ℚ) : List (List ℚ) :=
  let m := omega.length
  let n := ground.length
  for2 m n (fun k p result =>
    if ground.getD p 0 + omega.getD k 0 > 0 then
      set2 result k p (-(ground.getD p 0 + omega.getD k 0 + 5 / 100))
    else result) (zeros2 m n)

/-- The number `-2.0 * (ground(p) + omega(k) + shift(k,p))` whose square root
`create_bsh_operators` passes to `BSHOperatorPtr3D` (line 1209). -/
def bsh_argument (shift : List (List ℚ)) (ground omega : List ℚ) (k p : Nat) : ℚ :=
  -2 * (ground.getD p 0 + omega.getD k 0 + get2 shift k p)

/-- The function `TDHF::create_bsh_operators` (lines 1185-1218); `bsh x` stands for
`BSHOperatorPtr3D(world, sqrt(x), small, thresh)`, and the zero-based push_back loop over the
states `k` with the inner fill over the orbitals `p` is a map over both index ranges. -/
def create_bsh_operators {β : Type} (bsh : ℚ → β) (shift : List (List ℚ))
    (ground omega : List ℚ) : List (List β) :=
  let n := ground.length
  let m := omega.length
  (List.range m).map (fun k => (List.range n).map (fun p => bsh (bsh_argument shift ground omega k p)))

/-! ## Functions, vectors of functions and the operations the solver borrows

The numerical library (functions, derivative operators, truncation) and the header
`TDHF_Basic_Operators.h` are not among the sources; their operations are parameters or are
modelled from the spec. -/

/-- The operations on single functions that the library supplies. -/
structure FieldOps (F : Type) where
  /-- The inner product `inner(f, g)` of two functions. -/
  ip : F → F → ℚ
  /-- The derivative operator `real_derivative_3d Dx(world, 0)`. -/
  Dx : F → F
  /-- The derivative operator `real_derivative_3d Dy(world, 1)`. -/
  Dy : F → F
  /-- The derivative operator `real_derivative_3d Dz(world, 2)`. -/
  Dz : F → F
  /-- Truncation of one function to the current threshold. -/
  trunc : F → F
  /-- The call `std::sqrt`. -/
  sqrt : ℚ → ℚ

/-- The entry `t[k][p]` of a set of response vectors. -/
def getF {F : Type} [Zero F] (t : List (List F)) (k p : Nat) : F := (t.getD k []).getD p 0

/-- Modelled from the spec: `inner(a, b)` for two vectors of the same number of functions
(`TDHF_Basic_Operators.h` is not among the sources); "the inner product sums over
occupied-orbital index implicitly", `Σ_p ⟨a[p], b[p]⟩`. The definition is the source's
value only on two vectors of one length: on vectors of different lengths, where the library
call underneath fails (`inner_world`), it sums over the shorter one, a value the source
never produces. The scalars are those of the inner product `ip` of single functions: the
rational numbers everywhere but in the statement on `normalize`, which needs exact square
roots and takes them real. -/
def inner {K F : Type} [Add K] [Zero K] (ip : F → F → K) (a b : List F) : K :=
  (List.zipWith ip a b).sum

/-- Modelled from the spec: `a + b` on sets of response vectors, the FieldAlgebra
"addition" entry by entry. -/
def operator_add {F : Type} [Add F] (a b : List (List F)) : List (List F) :=
  List.zipWith (List.zipWith (· + ·)) a b

/-- Modelled from the spec: `a - b` on sets of response vectors, entry by entry. -/
def operator_sub {F : Type} [Sub F] (a b : List (List F)) : List (List F) :=
  List.zipWith (List.zipWith (· - ·)) a b

/-- Modelled from the spec: `scale(a, c)`, the FieldAlgebra "scaling" of every entry. -/
def scale {F : Type} [SMul ℚ F] (a : List (List F)) (c : ℚ) : List (List F) :=
  a.map (fun row => row.map (fun g => c • g))

/-- Modelled from the spec: `apply(world, D, f)`, the operator applied to every entry. -/
def apply {F : Type} (D : F → F) (f : List (List F)) : List (List F) :=
  f.map (fun row => row.map D)

/-- Modelled from the spec: `truncate(world, f)`, the FieldAlgebra "truncation to a
threshold" of every entry. -/
def truncate {F : Type} (ops : FieldOps F) (f : List (List F)) : List (List F) :=
  f.map (fun row => row.map ops.trunc)

/-! ## Matrices of inner products -/

/-- Modelled from the spec: the library call `inner(world, a, b)` on two vectors of
functions (the numerical library is not among the sources), the tensor of the inner products
`⟨a[p], b[p]⟩` of the components; "mismatched vector/orbital counts" are a "fatal
precondition violation", so two vectors of different lengths make the call fail. -/
def inner_world {F : Type} (ip : F → F → ℚ) (a b : List F) : Except String (List ℚ) :=
  if a.length = b.length then Except.ok (List.zipWith ip a b)
  else Except.error "inner: mismatched vector sizes"

/-- The function `TDHF::expectation(world, a, b)` (lines 844-871): the three assertions in
their order, then the loop nest `result(p,k) = inner(world, a[p], b[k]).sum()`, which stops
at the first call of `inner` that fails. -/
def expectation {F : Type} (ops : FieldOps F) (a b : List (List F)) :
    Except String (List (List ℚ)) :=
  if ¬ (a.length > 0) then Except.error "MADNESS_ASSERT(a.size() > 0)"
  else if ¬ (a.length = b.length) then Except.error "MADNESS_ASSERT(a.size() == b.size())"
  else if ¬ ((b.getD 0 []).length > 0) then Except.error "MADNESS_ASSERT(b[0].size() > 0)"
  else
    let dim_a := a.length
    let dim_b := b.length
    for_except (fun p result =>
      for_except (fun k result =>
        match inner_world ops.ip (a.getD p []) (b.getD k []) with
        | Except.ok t => Except.ok (set2 result p k t.sum)
        | Except.error e => Except.error e) (List.range dim_b) result)
      (List.range dim_a) (zeros2 dim_a dim_b)

/-- The function `TDHF::create_overlap(world, f, g, print_level, xy)` (lines 874-907); the
printing is left out. -/
def create_overlap {F : Type} (ops : FieldOps F) (f g : List (List F)) : List (List ℚ) :=
  let m := f.length
  for2 m m (fun i j S => set2 S i j (inner ops.ip (f.getD i []) (g.getD j []))) (zeros2 m m)

/-- The function `TDHF::create_fock(world, V, f, print_level, xy)` (lines 910-969); the
diagnostic blocks guarded by `print_level >= 2`, which only print, are left out. -/
def create_fock {F : Type} [AddCommGroup F] [Module ℚ F] (ops : FieldOps F)
    (V f : List (List F)) : List (List F) :=
  let dvx := apply ops.Dx f
  let dvy := apply ops.Dy f
  let dvz := apply ops.Dz f
  let dvx2 := apply ops.Dx dvx
  let dvy2 := apply ops.Dy dvy
  let dvz2 := apply ops.Dz dvz
  let fock := scale (operator_add (operator_add dvx2 dvy2) dvz2) (-(1 / 2))
  let fock := operator_add fock V
  truncate ops fock

/-- The function `TDHF::create_response_matrix` (lines 972-1045): the returned matrix `A` and
the final value of the output argument `fe`. The argument `scale_2d` is the function of that
name of `TDHF_Basic_Operators.h` (the product `H f` of the spec); the diagnostic blocks
guarded by `print_level`, which only print, are left out. -/
def create_response_matrix {F : Type} [AddCommGroup F] [Module ℚ F] (ops : FieldOps F)
    (scale_2d : List (List F) → List (List ℚ) → List (List F))
    (gamma V f : List (List F)) (hamiltonian : List (List ℚ)) :
    List (List ℚ) × List (List F) :=
  let m := V.length
  let fock_resp := create_fock ops V f
  let energy_resp := scale_2d f hamiltonian
  let fe := operator_sub fock_resp energy_resp
  let temp := operator_add gamma fe
  let A := for2 m m (fun k j A => set2 A k j (inner ops.ip (f.getD k []) (temp.getD j [])))
    (zeros2 m m)
  (A, fe)

/-- The unary minus `-B` of a tensor. -/
def neg2 (t : List (List ℚ)) : List (List ℚ) := t.map (fun row => row.map (fun v => -v))

/-- Modelled from the spec: the slice assignment
`t(Slice(rlo, rhi, 1), Slice(clo, chi, 1)) = src` of the `Tensor` class (not among the
sources); the spec's block placement `[[A_x, B_y],[-B_x, -A_y]]` fixes `Slice(lo, hi, 1)` as
the index range `lo..hi` with both ends included. -/
def set_slice (t : List (List ℚ)) (rlo rhi clo chi : Nat) (src : List (List ℚ)) :
    List (List ℚ) :=
  for2 (rhi + 1 - rlo) (chi + 1 - clo)
    (fun i j t => set2 t (rlo + i) (clo + j) (get2 src i j)) t

/-- The function `TDHF::create_full_response_matrix` (lines 1050-1106); `create_B` is the
function of that name (lines 569-641) with its arguments `small` and `thresh` fixed, and the
printing is left out. -/
def create_full_response_matrix {F : Type} [AddCommGroup F] [Module ℚ F] (ops : FieldOps F)
    (scale_2d : List (List F) → List (List ℚ) → List (List F))
    (create_B : List (List F) → List F → List (List F))
    (x_b Vx x y_b Vy y : List (List F)) (ground_orbitals : List F)
    (ground_ham : List (List ℚ)) : Except String (List (List ℚ)) := do
  let m := x.length
  let A_x := (create_response_matrix ops scale_2d x_b Vx x ground_ham).1
  let A_y := (create_response_matrix ops scale_2d y_b Vy y ground_ham).1
  let tmp1 := create_B x ground_orbitals
  let tmp2 := create_B y ground_orbitals
  let B_x ← expectation ops x tmp1
  let B_y ← expectation ops y tmp2
  let response_matrix := zeros2 (2 * m) (2 * m)
  let response_matrix := set_slice response_matrix 0 (m - 1) 0 (m - 1) A_x
  let response_matrix := set_slice response_matrix 0 (m - 1) m (2 * m - 1) B_y
  let response_matrix := set_slice response_matrix m (2 * m - 1) 0 (m - 1) (neg2 B_x)
  let response_matrix := set_slice response_matrix m (2 * m - 1) m (2 * m - 1) (neg2 A_y)
  return response_matrix

/-! ## Normalisation -/

/-- The function `TDHF::normalize(world, f)` (lines 261-275); `ip` is the inner product of two
functions and `sqrt` the call `sqrt(norm)`, over the scalars of `ip`. -/
def normalize {K F : Type} [Add K] [Zero K] [One K] [Div K] [SMul K F] (ip : F → F → K)
    (sqrt : K → K) (f : List (List F)) : List (List F) :=
  (List.range f.length).foldl (fun f i =>
    let norm := inner ip (f.getD i []) (f.getD i [])
    let norm := sqrt norm
    f.set i ((f.getD i []).map (fun g => (1 / norm) • g))) f

/-- A concrete instance for evaluation: functions on a one-point domain are rational
numbers, the inner product is the product, the three operators are multiplications by
constants, truncation is exact, and `sqrt` takes the root of `25` (and of `0`). -/
def sample_ops : FieldOps ℚ :=
  { ip := fun a b => a * b
    Dx := fun a => a
    Dy := fun a => 2 * a
    Dz := fun _ => 0
    trunc := fun a => a
    sqrt := fun v => v / 5 }

/-- A second concrete instance for evaluation: as `sample_ops`, with a truncation that drops
a function whose value is below `1` in absolute value. -/
def threshold_ops : FieldOps ℚ :=
  { ip := fun a b => a * b
    Dx := fun a => a
    Dy := fun a => 2 * a
    Dz := fun _ => 0
    trunc := fun a => if |a| < 1 then 0 else a
    sqrt := fun v => v / 5 }

/-! ## Eigenvector post-processing (get_fock_transformation, get_full_response_transformation) -/

/-- The table with `m` rows of `n` entries whose entry `(i,j)` is `e i j`. -/
def tabulate2 (m n : Nat) (e : Nat → Nat → ℚ) : List (List ℚ) :=
  (List.range m).map (fun i => (List.range n).map (fun j => e i j))

/-- Modelled from the spec: the copy `copy(t(Slice(rlo, rhi), Slice(clo, chi)))` of a block
of a tensor (the `Tensor` class is not among the sources), the "cluster's sub-block" of the
spec, both ends of each index range included. -/
def slice2 (t : List (List ℚ)) (rlo rhi clo chi : Nat) : List (List ℚ) :=
  tabulate2 (rhi + 1 - rlo) (chi + 1 - clo) (fun i j => get2 t (rlo + i) (clo + j))

/-- Modelled from the spec: the matrix product `inner(A, B)` of two tensors, which sums over
the last index of `A` and the first index of `B` (the tensor library is not among the
sources; the spec's "polar decomposition" needs the product `W*VH`). -/
def inner2 (A B : List (List ℚ)) : List (List ℚ) :=
  tabulate2 A.length (B.getD 0 []).length
    (fun i j => ∑ k in Finset.range B.length, get2 A i k * get2 B k j)

/-- Modelled from the spec: the transposed tensor `transpose(t)` (the tensor library is not
among the sources). -/
def transpose2 (t : List (List ℚ)) : List (List ℚ) :=
  tabulate2 (t.getD 0 []).length t.length (fun i j => get2 t j i)

/-- The rotation of one cluster `[ilo, ihi]` with `nclus > 1` (lines 1540-1549 of
`get_fock_transformation`, repeated as lines 2023-2032 of
`get_full_response_transformation`); `svd q` stands for the call `svd(q, W, sigma, VH)` of
the linear-algebra library and returns `(W, sigma, VH)`. -/
def rotate_cluster (svd : List (List ℚ) → List (List ℚ) × List ℚ × List (List ℚ))
    (U : List (List ℚ)) (ilo ihi : Nat) : List (List ℚ) :=
  let q := slice2 U ilo ihi ilo ihi
  let W := (svd q).1
  let VH := (svd q).2.2
  let q := transpose2 (inner2 W VH)
  set_slice U 0 (U.length - 1) ilo ihi (inner2 (slice2 U 0 (U.length - 1) ilo ihi) q)

/-- The diagonal matrix of the singular values. -/
def diag2 (sigma : List ℚ) : List (List ℚ) :=
  tabulate2 sigma.length sigma.length (fun i j => if i = j then sigma.getD i 0 else 0)

/-- Modelled from the spec: the largest entry `t.max()` of a non-empty tensor (the `Tensor`
class is not among the sources; the spec speaks of the "imaginary part exceeding" a bound for
any eigenvalue, the largest one decides). -/
def tensor_max (t : List ℚ) : ℚ :=
  match t with
  | [] => 0
  | a :: rest => rest.foldl max a

/-- Lines 1976-1979 of `get_full_response_transformation`: the eigenvalues `omega` of the
non-symmetric solver are pairs (real part, imaginary part);
`max_imag = abs(imag(omega)).max()`, `MADNESS_ASSERT(max_imag == 0)`,
`evals = real(omega)`. -/
def real_eigenvalues (omega : List (ℚ × ℚ)) : Except String (List ℚ) :=
  let max_imag := tensor_max (omega.map (fun z => |z.2|))
  if ¬ (max_imag = 0) then Except.error "MADNESS_ASSERT(max_imag == 0)"
  else Except.ok (omega.map (fun z => z.1))

/-- The function `TDHF::get_full_response_transformation` (lines 1956-2046) as far as the
handling of the solver output goes: `ggevp full_response overlap` stands for the call of the
non-symmetric eigensolver and returns `(U, omega)`; `post U evals` stands for lines
1981-2045 (column swaps, phases, cluster rotation, sorting), which run only after the
assertion has passed. -/
def get_full_response_transformation {β : Type}
    (ggevp : List (List ℚ) → List (List ℚ) → List (List ℚ) × List (ℚ × ℚ))
    (post : List (List ℚ) → List ℚ → Except String β)
    (overlap full_response : List (List ℚ)) : Except String β := do
  let U := (ggevp full_response overlap).1
  let omega := (ggevp full_response overlap).2
  let evals ← real_eigenvalues omega
  post U evals

/-- The identity matrix of size `c`. -/
def identity2 (c : Nat) : List (List ℚ) :=
  tabulate2 c c (fun i j => if i = j then 1 else 0)

/-! ## The iteration loops (TDHF::iterate, TDHF::IterateFrequencyResponse) -/

/-- Modelled from the spec: the largest absolute entry `t.absmax()` of a tensor (the `Tensor`
class is not among the sources), the "worst-case energy residual" of the spec. -/
def absmax (t : List ℚ) : ℚ := tensor_max (t.map (fun v => |v|))

/-- Modelled from the spec: the tensor `abs(a - b)` of the absolute differences, entry by
entry (the `Tensor` class is not among the sources), the spec's
"energy residual = |ω_new − ω_old|". -/
def abs_diff (a b : List ℚ) : List ℚ := List.zipWith (fun x y => |x - y|) a b

/-- The variables of `TDHF::iterate` that decide the course of its loop; `rest` holds the
response functions and every other quantity. -/
structure IterateState (σ : Type) where
  iteration : Int
  converged : Bool
  x_omega : List ℚ
  y_omega : List ℚ
  old_x_energy : List ℚ
  old_y_energy : List ℚ
  energy_x_residuals : List ℚ
  energy_y_residuals : List ℚ
  rest : σ

/-- One pass of the loop of `TDHF::iterate` (lines 2207-2612). `update` stands for lines
2208-2483 (projection, potentials, diagonalisation, shifts, BSH application, mask), which
produce the new functions and the energies `x_omega`, `y_omega` of this pass; `finish` stands
for lines 2524-2532 (truncate and normalize). Lines 2485-2522 are spelled out. -/
def iterate_pass {σ : Type} (tda : Bool) (econv : ℚ)
    (update : Int → σ → List ℚ → List ℚ → σ × List ℚ × List ℚ) (finish : σ → σ)
    (st : IterateState σ) : IterateState σ :=
  let r := update st.iteration st.rest st.x_omega st.y_omega
  let x_omega := r.2.1
  let y_omega := r.2.2
  let energy_x_residuals := abs_diff x_omega st.old_x_energy
  let old_x_energy := x_omega
  let energy_y_residuals :=
    if ¬ tda then abs_diff y_omega st.old_y_energy else st.energy_y_residuals
  let old_y_energy := if ¬ tda then y_omega else st.old_y_energy
  let converged :=
    if ¬ tda then
      if st.iteration ≥ 1 ∧ absmax energy_x_residuals < econv
          ∧ absmax energy_y_residuals < econv then true
      else st.converged
    else
      if st.iteration ≥ 1 ∧ absmax energy_x_residuals < econv then true
      else st.converged
  { iteration := st.iteration + 1
    converged := converged
    x_omega := x_omega
    y_omega := y_omega
    old_x_energy := old_x_energy
    old_y_energy := old_y_energy
    energy_x_residuals := energy_x_residuals
    energy_y_residuals := energy_y_residuals
    rest := finish r.1 }

/-- The loop `while(iteration < Rparams.max_iter && !converged)` of `TDHF::iterate` run for at
most `fuel` passes: the list of the states reached at the end of each executed pass. -/
def iterate_loop {σ : Type} (tda : Bool) (econv : ℚ) (max_iter : Int)
    (update : Int → σ → List ℚ → List ℚ → σ × List ℚ × List ℚ) (finish : σ → σ) :
    Nat → IterateState σ → List (IterateState σ)
  | 0, _ => []
  | fuel + 1, st =>
    if st.iteration < max_iter ∧ ¬ st.converged then
      iterate_pass tda econv update finish st
        :: iterate_loop tda econv max_iter update finish fuel
            (iterate_pass tda econv update finish st)
    else []

/-- The state in which `TDHF::iterate` enters its loop (lines 2154-2200): pass counter `0`,
not converged, the old energies `Tensor<double>(m)`, all zero. -/
def iterate_init {σ : Type} (m : Nat) (x_omega y_omega : List ℚ) (rest : σ) :
    IterateState σ :=
  { iteration := 0
    converged := false
    x_omega := x_omega
    y_omega := y_omega
    old_x_energy := List.replicate m 0
    old_y_energy := List.replicate m 0
    energy_x_residuals := []
    energy_y_residuals := []
    rest := rest }

/-- The loop of `TDHF::iterate` from its initial state: the states at the end of each
executed pass. The loop needs no more than `max_iter` passes, which is the fuel given. -/
def iterate {σ : Type} (tda : Bool) (econv : ℚ) (max_iter : Int) (m : Nat)
    (update : Int → σ → List ℚ → List ℚ → σ × List ℚ × List ℚ) (finish : σ → σ)
    (x_omega y_omega : List ℚ) (rest : σ) : List (IterateState σ) :=
  iterate_loop tda econv max_iter update finish max_iter.toNat
    (iterate_init m x_omega y_omega rest)

/-- The state after the loop: the state at the end of the last executed pass, or the initial
state when no pass was executed. -/
def final_state {α : Type} (init : α) (passes : List α) : α := passes.getLastD init

/-- The variables of `TDHF::IterateFrequencyResponse` that decide the course of its loop. -/
structure FrequencyState (σ : Type) where
  iteration : Int
  converged : Bool
  rest : σ

/-- One pass of the loop of `TDHF::IterateFrequencyResponse` (iterate_freq.cc, lines
123-307) and whether it left the loop by `break`. `first_half` stands for lines 124-209
(it yields the new functions and the residual norms `x_norms`, `y_norms`); `second_half`
stands for the lines after the convergence check except `iteration += 1`. -/
def frequency_pass {σ : Type} (dconv : ℚ)
    (first_half : Int → σ → σ × List ℚ × List ℚ) (second_half : Int → σ → σ)
    (st : FrequencyState σ) : FrequencyState σ × Bool :=
  let r := first_half st.iteration st.rest
  let x_norms := r.2.1
  let y_norms := r.2.2
  if max (absmax x_norms) (absmax y_norms) < dconv ∧ st.iteration > 0 then
    ({ iteration := st.iteration, converged := true, rest := r.1 }, true)
  else
    ({ iteration := st.iteration + 1, converged := st.converged,
       rest := second_half st.iteration r.1 }, false)

/-- The loop `while (iteration < Rparams.max_iter and !converged)` of
`TDHF::IterateFrequencyResponse` run for at most `fuel` passes: the states at the end of each
executed pass. -/
def frequency_loop {σ : Type} (dconv : ℚ) (max_iter : Int)
    (first_half : Int → σ → σ × List ℚ × List ℚ) (second_half : Int → σ → σ) :
    Nat → FrequencyState σ → List (FrequencyState σ)
  | 0, _ => []
  | fuel + 1, st =>
    if st.iteration < max_iter ∧ ¬ st.converged then
      if (frequency_pass dconv first_half second_half st).2 then
        [(frequency_pass dconv first_half second_half st).1]
      else
        (frequency_pass dconv first_half second_half st).1
          :: frequency_loop dconv max_iter first_half second_half fuel
              (frequency_pass dconv first_half second_half st).1
    else []

/-- The loop of `TDHF::IterateFrequencyResponse` from its initial state (`iteration = 0`,
`converged = false`), with fuel `max_iter`. -/
def IterateFrequencyResponse {σ : Type} (dconv : ℚ) (max_iter : Int)
    (first_half : Int → σ → σ × List ℚ × List ℚ) (second_half : Int → σ → σ) (rest : σ) :
    List (FrequencyState σ) :=
  frequency_loop dconv max_iter first_half second_half max_iter.toNat
    { iteration := 0, converged := false, rest := rest }

/-! ## Subspace augmentation (TDHF::augment, TDHF::unaugment) -/

/-- The sum `a + b` of two tensors, entry by entry. -/
def add2 (a b : List (List ℚ)) : List (List ℚ) :=
  List.zipWith (List.zipWith (· + ·)) a b

/-- The product `c * t` of a number and a tensor. -/
def scale2 (c : ℚ) (t : List (List ℚ)) : List (List ℚ) :=
  t.map (fun row => row.map (fun v => c * v))

/-- The quantities `augment` and `unaugment` read and write. -/
structure Subspace (F : Type) where
  x_omega : List ℚ
  S_x : List (List ℚ)
  A_x : List (List ℚ)
  x_gamma : List (List F)
  x_response : List (List F)
  V_x_response : List (List F)
  x_fe : List (List F)
  old_S_x : List (List ℚ)
  old_A_x : List (List ℚ)
  old_x_gamma : List (List F)
  old_x_response : List (List F)
  old_V_x_response : List (List F)
  old_x_fe : List (List F)

/-- The function `TDHF::augment` (lines 1667-1781); the printing is left out. -/
def augment {F : Type} [Add F] (ops : FieldOps F) (st : Subspace F) : Subspace F :=
  let m := st.x_gamma.length
  let temp_S := zeros2 (2 * m) (2 * m)
  let temp_A := zeros2 (2 * m) (2 * m)
  let temp_cur := operator_add st.x_gamma st.x_fe
  let temp_old := operator_add st.old_x_gamma st.old_x_fe
  let off := zeros2 m m
  let off := for2 m m (fun k j off =>
    set2 off k j (inner ops.ip (st.x_response.getD k []) (temp_old.getD j []))) off
  let temp_A := set_slice temp_A 0 (m - 1) m (2 * m - 1) off
  let off := for2 m m (fun k j off =>
    set2 off k j (inner ops.ip (st.old_x_response.getD k []) (temp_cur.getD j []))) off
  let temp_A := set_slice temp_A m (2 * m - 1) 0 (m - 1) off
  let temp_A := set_slice temp_A 0 (m - 1) 0 (m - 1) st.A_x
  let temp_A := set_slice temp_A m (2 * m - 1) m (2 * m - 1) st.old_A_x
  let A_x := scale2 (1 / 2) (add2 temp_A (transpose2 temp_A))
  let off := create_overlap ops st.x_response st.old_x_response
  let temp_S := set_slice temp_S 0 (m - 1) m (2 * m - 1) off
  let off := transpose2 off
  let temp_S := set_slice temp_S m (2 * m - 1) 0 (m - 1) off
  let temp_S := set_slice temp_S 0 (m - 1) 0 (m - 1) st.S_x
  let temp_S := set_slice temp_S m (2 * m - 1) m (2 * m - 1) st.old_S_x
  let S_x := temp_S
  let st := { st with A_x := A_x, S_x := S_x }
  (List.range m).foldl (fun st i =>
    { st with
      x_response := st.x_response ++ [st.old_x_response.getD i []]
      x_gamma := st.x_gamma ++ [st.old_x_gamma.getD i []]
      V_x_response := st.V_x_response ++ [st.old_V_x_response.getD i []]
      x_fe := st.x_fe ++ [st.old_x_fe.getD i []] }) st

/-- Modelled from the spec: the part `t(Slice(lo, hi))` of a one-dimensional tensor (the
`Tensor` class is not among the sources), positions `lo..hi` with both ends included, as
"selecting the lowest `m` eigenpairs" requires of `x_omega(Slice(0,m-1))`. -/
def slice1 (t : List ℚ) (lo hi : Nat) : List ℚ := (t.drop lo).take (hi + 1 - lo)

/-- The function `TDHF::unaugment` (lines 1784-1853); the printing is left out. -/
def unaugment {F : Type} (m : Nat) (iter : Int) (selected : List Nat) (st : Subspace F) :
    Subspace F :=
  let x_omega := slice1 st.x_omega 0 (m - 1)
  let st := { st with x_omega := x_omega }
  let st :=
    if iter > 0 then
      (List.range m).foldl (fun st _ =>
        { st with
          x_fe := st.x_fe.dropLast
          V_x_response := st.V_x_response.dropLast
          x_gamma := st.x_gamma.dropLast
          x_response := st.x_response.dropLast }) st
    else st
  let old_x_fe := st.x_fe
  let old_x_gamma := st.x_gamma
  let old_V_x_response := st.V_x_response
  let temp := zeros2 m m
  let temp := (List.range m).foldl (fun temp i => set2 temp i i 1) temp
  let old_S_x := temp
  let temp := for2 m m (fun i j temp =>
    set2 temp i j (get2 st.A_x (selected.getD i 0) (selected.getD j 0))) temp
  let old_A_x := temp
  { st with
    old_x_fe := old_x_fe
    old_x_gamma := old_x_gamma
    old_V_x_response := old_V_x_response
    old_S_x := old_S_x
    old_A_x := old_A_x }

/-- A concrete subspace for evaluation: one state of two functions on a one-point domain,
with its previous-iteration copies. -/
def sample_subspace : Subspace ℚ :=
  { x_omega := [3]
    S_x := [[1]]
    A_x := [[3]]
    x_gamma := [[1, 2]]
    x_response := [[1, 0]]
    V_x_response := [[2, 2]]
    x_fe := [[0, 1]]
    old_S_x := [[1]]
    old_A_x := [[4]]
    old_x_gamma := [[2, 1]]
    old_x_response := [[0, 1]]
    old_V_x_response := [[1, 1]]
    old_x_fe := [[1, 0]] }

/-- A one-state problem after augmentation and diagonalisation: every list holds `2 m = 2`
entries and `A_x` is 2-by-2. -/
def sample_augmented : Subspace ℚ :=
  { x_omega := [3, 7]
    S_x := [[1, 0], [0, 1]]
    A_x := [[3, 5], [5, 7]]
    x_gamma := [[1, 2], [2, 1]]
    x_response := [[1, 0], [0, 1]]
    V_x_response := [[2, 2], [1, 1]]
    x_fe := [[0, 1], [1, 0]]
    old_S_x := [[1]]
    old_A_x := [[4]]
    old_x_gamma := [[2, 1]]
    old_x_response := [[0, 1]]
    old_V_x_response := [[1, 1]]
    old_x_fe := [[1, 0]] }

/-! ## The matrix exponential (TDHF::matrix_exponential) -/

/-- Modelled from the spec: the extent `t.dim(k)` of a two-index tensor along index `k` (the
`Tensor` class is not among the sources; the spec speaks of a "non-square matrix where
square is required"). A tensor is a list of rows: `dim(0)` is the number of rows, `dim(1)`
the length of a row. -/
def dim (t : List (List ℚ)) (k : Nat) : Nat :=
  if k = 0 then t.length else (t.getD 0 []).length

/-- Modelled from the spec: the square of the Frobenius norm `t.normf()` (the `Tensor` class
is not among the sources); the norm itself is the square root of this sum. -/
def normf_sq (t : List (List ℚ)) : ℚ :=
  (t.map (fun row => (row.map (fun v => v * v)).sum)).sum

/-- The comparison `t.normf() * s > c` for `s ≥ 0` and `c ≥ 0`, decided on the squares. -/
def normf_times_gt (t : List (List ℚ)) (s c : ℚ) : Bool :=
  decide (c * c < normf_sq t * (s * s))

/-- The argument of the assertion of line 1440, `A.dim((0) == A.dim(1))`: the comparison
`(0) == A.dim(1)` is evaluated first and its truth value, 1 or 0, is the index handed to
`A.dim`. -/
def matrix_exponential_assert_arg (A : List (List ℚ)) : Nat :=
  dim A (if 0 = dim A 1 then 1 else 0)

/-- Lines 1443-1450: `while (anorm * scale > 0.1) { ++n; scale *= 0.5; }`; the result is
`none` when the passes allowed by the first argument do not suffice. -/
def scale_loop (A : List (List ℚ)) : Nat → Nat → ℚ → Option (Nat × ℚ)
  | 0, _, _ => none
  | fuel + 1, n, scale =>
    if normf_times_gt A scale (1 / 10) then scale_loop A fuel (n + 1) (scale * (1 / 2))
    else some (n, scale)

/-- Lines 1458-1466: `while (term.normf() > tol) { expB += term; term = inner(term, B); ++k;
term.scale(1.0 / k); }`; the result is `none` when the passes allowed do not suffice. -/
def taylor_loop (inner : List (List ℚ) → List (List ℚ) → List (List ℚ)) (tol : ℚ)
    (B : List (List ℚ)) : Nat → List (List ℚ) → List (List ℚ) → Nat → Option (List (List ℚ))
  | 0, _, _, _ => none
  | fuel + 1, expB, term, k =>
    if normf_times_gt term 1 tol then
      taylor_loop inner tol B fuel (add2 expB term)
        (scale2 (1 / ((k : ℚ) + 1)) (inner term B)) (k + 1)
    else some expB

/-- The function `TDHF::matrix_exponential(A)` (lines 1437-1475). `inner` is the tensor
product of the tensor library. The result is `none` when a loop needs more passes than the
first argument allows, `some (Except.error _)` when the assertion of line 1440 fails and
`some (Except.ok expB)` when the function returns `expB`. -/
def matrix_exponential (inner : List (List ℚ) → List (List ℚ) → List (List ℚ)) (fuel : Nat)
    (A : List (List ℚ)) : Option (Except String (List (List ℚ))) :=
  let tol : ℚ := 1 / 10000000000000
  if matrix_exponential_assert_arg A = 0 then
    some (Except.error "MADNESS_ASSERT(A.dim((0) == A.dim(1)))")
  else
    match scale_loop A fuel 0 1 with
    | none => none
    | some (n, scale) =>
      let B := scale2 scale A
      let expB := zeros2 (dim B 0) (dim B 1)
      let expB := (List.range (dim expB 0)).foldl (fun e i => set2 e i i 1) expB
      match taylor_loop inner tol B fuel expB B 1 with
      | none => none
      | some expB => some (Except.ok ((List.range n).foldl (fun e _ => inner e e) expB))

/-! ## Undoing the rotations of the eigensolver (get_fock_transformation, diag_fock_matrix) -/

/-- The variables the column-swap loop updates. -/
structure SwapState where
  U : List (List ℚ)
  evals : List ℚ
  switched : Bool

/-- The exchange `std::swap(evals[i], evals[j])`. -/
def swap_entries (evals : List ℚ) (i j : Nat) : List ℚ :=
  (evals.set i (evals.getD j 0)).set j (evals.getD i 0)

/-- The exchange of columns `i` and `j`:
`tmp = copy(U(_, i)); U(_, i) = U(_, j); U(_, j) = tmp;`. -/
def swap_columns (U : List (List ℚ)) (i j : Nat) : List (List ℚ) :=
  let tmp := column 0 U i
  let U := set_column U i (column 0 U j)
  set_column U j tmp

/-- The body of the loop nest of lines 1503-1518 for one pair `i < j`. -/
def swap_body (i j : Nat) (st : SwapState) : SwapState :=
  let sold := get2 st.U i i * get2 st.U i i + get2 st.U j j * get2 st.U j j
  let snew := get2 st.U i j * get2 st.U i j + get2 st.U j i * get2 st.U j i
  if snew > sold then
    { U := swap_columns st.U i j, evals := swap_entries st.evals i j, switched := true }
  else st

/-- One pass of `while (switched)`: `switched = false;` followed by the loop nest
`for (i = 0; i < nmo; i++) for (j = i + 1; j < nmo; j++)`. -/
def swap_pass (nmo : Nat) (st : SwapState) : SwapState :=
  (List.range nmo).foldl
    (fun st i => (List.range (nmo - (i + 1))).foldl (fun st d => swap_body i (i + 1 + d) st) st)
    { st with switched := false }

/-- The loop `while (switched) { ... }` of lines 1499-1519, entered with `switched = true`;
the result is `none` when the passes allowed by the first argument do not suffice. -/
def swap_loop (nmo : Nat) : Nat → SwapState → Option SwapState
  | 0, _ => none
  | fuel + 1, st =>
    if (swap_pass nmo st).switched then swap_loop nmo fuel (swap_pass nmo st)
    else some (swap_pass nmo st)

/-- Lines 1523-1525: `for (i = 0; i < nmo; ++i) if (U(i, i) < 0.0) U(_, i).scale(-1.0);`. -/
def fix_phases (nmo : Nat) (U : List (List ℚ)) : List (List ℚ) :=
  (List.range nmo).foldl
    (fun U i => if get2 U i i < 0 then set_column U i ((column 0 U i).map (fun v => v * (-1)))
      else U) U

/-- The inner loop of the cluster scan (lines 1533-1538), started with the given `ihi`:
`while (fabs(evals[ilo] - evals[ihi + 1]) < thresh_degenerate * 10.0 *
std::max(fabs(evals[ilo]), 1.0)) { ++ihi; if (ihi == nmo - 1) break; }`. The result is the
final `ihi`; a read of `evals` at a position the list does not have is
`some (Except.error _)`, and `none` means that the passes allowed by the first argument do
not suffice. -/
def scan_ihi (thresh_degenerate : ℚ) (evals : List ℚ) (nmo ilo : Nat) :
    Nat → Nat → Option (Except String Nat)
  | 0, _ => none
  | fuel + 1, ihi =>
    match evals.get? ilo, evals.get? (ihi + 1) with
    | some a, some b =>
      if |a - b| < thresh_degenerate * 10 * max |a| 1 then
        if ((ihi + 1 : Nat) : Int) = (nmo : Int) - 1 then some (Except.ok (ihi + 1))
        else scan_ihi thresh_degenerate evals nmo ilo fuel (ihi + 1)
      else some (Except.ok ihi)
    | _, _ => some (Except.error "evals: index out of range")

/-- The cluster loop of lines 1529-1567 (and 2010-2035), started with the given `ilo`:
`while (ilo < nmo - 1) { ihi = ilo; <inner loop>; nclus = ihi - ilo + 1;
if (nclus > 1) { <rotation of the cluster> } ilo = ihi + 1; }`. The rotation branch is the
argument `rotate`, acting on what the branch updates; `fuel` bounds the passes of each inner
loop and the first recursive argument those of the outer loop. -/
def cluster_loop {σ : Type} (rotate : σ → Nat → Nat → σ) (thresh_degenerate : ℚ)
    (evals : List ℚ) (nmo fuel : Nat) : Nat → Nat → σ → Option (Except String σ)
  | 0, _, _ => none
  | passes + 1, ilo, U =>
    if (ilo : Int) < (nmo : Int) - 1 then
      match scan_ihi thresh_degenerate evals nmo ilo fuel ilo with
      | none => none
      | some (Except.error e) => some (Except.error e)
      | some (Except.ok ihi) =>
        let nclus := ihi - ilo + 1
        cluster_loop rotate thresh_degenerate evals nmo fuel passes (ihi + 1)
          (if nclus > 1 then rotate U ilo ihi else U)
    else some (Except.ok U)

/-- A rotation branch that only notes the cluster `[ilo, ihi]` it is entered for. -/
def note_cluster (l : List (Nat × Nat)) (ilo ihi : Nat) : List (Nat × Nat) := l ++ [(ilo, ihi)]

/-- What `get_fock_transformation` leaves behind: the returned `U` and the final values of
the arguments `fock` and `evals`. -/
structure FockTransformation where
  U : List (List ℚ)
  fock : List (List ℚ)
  evals : List ℚ

/-- The function `TDHF::get_fock_transformation(world, overlap, fock, evals,
thresh_degenerate)` (lines 1485-1573). `sygvp fock overlap` stands for the call
`sygvp(world, fock, overlap, 1, U, evals)` of the symmetric eigensolver and returns
`(U, evals)`; `svd` is the singular value decomposition of the linear-algebra library;
`fuel` bounds the passes of every loop. -/
def get_fock_transformation
    (sygvp : List (List ℚ) → List (List ℚ) → List (List ℚ) × List ℚ)
    (svd : List (List ℚ) → List (List ℚ) × List ℚ × List (List ℚ))
    (fuel : Nat) (overlap fock : List (List ℚ)) (thresh_degenerate : ℚ) :
    Option (Except String FockTransformation) :=
  let U := (sygvp fock overlap).1
  let evals := (sygvp fock overlap).2
  let nmo := dim fock 0
  match swap_loop nmo fuel { U := U, evals := evals, switched := true } with
  | none => none
  | some st =>
    let U := fix_phases nmo st.U
    let evals := st.evals
    match cluster_loop (rotate_cluster svd) thresh_degenerate evals nmo fuel fuel 0 U with
    | none => none
    | some (Except.error e) => some (Except.error e)
    | some (Except.ok U) =>
      let fock := zeros2 (dim fock 0) (dim fock 1)
      let fock := (List.range nmo).foldl (fun fock i => set2 fock i i (evals.getD i 0)) fock
      some (Except.ok { U := U, fock := fock, evals := evals })

/-- Modelled from the spec: `gaxpy(world, alpha, a, beta, b)`, the FieldAlgebra update
`a = alpha * a + beta * b` of a vector of functions, entry by entry. -/
def gaxpy {F : Type} [Add F] [SMul ℚ F] (alpha : ℚ) (a : List F) (beta : ℚ) (b : List F) :
    List F :=
  List.zipWith (fun x y => alpha • x + beta • y) a b

/-- The function `TDHF::transform(world, f, U)` (lines 1638-1664):
`result[i] = Σ_j U(j,i) * f[j]`, then truncated. -/
def transform {F : Type} [AddCommGroup F] [Module ℚ F] (ops : FieldOps F)
    (f : List (List F)) (U : List (List ℚ)) : List (List F) :=
  let result := (List.range f.length).foldl
    (fun result i =>
      let temp := List.replicate (f.getD 0 []).length (0 : F)
      let temp := (List.range f.length).foldl
        (fun temp j => gaxpy 1 temp (get2 U j i) (f.getD j [])) temp
      result ++ [temp]) []
  truncate ops result

/-- What `diag_fock_matrix` leaves behind: the returned `selected`, the matrix `U` it has
applied, and the final values of its arguments. -/
structure DiagFock (F : Type) where
  selected : List Nat
  U : List (List ℚ)
  fock : List (List ℚ)
  evals : List ℚ
  psi : List (List F)
  Vpsi : List (List F)
  gamma : List (List F)
  fe : List (List F)

/-- The function `TDHF::diag_fock_matrix(world, fock, psi, Vpsi, gamma, fe, evals, overlap,
thresh)` (lines 1587-1634); the printing is left out. -/
def diag_fock_matrix {F : Type} [AddCommGroup F] [Module ℚ F] (ops : FieldOps F)
    (sygvp : List (List ℚ) → List (List ℚ) → List (List ℚ) × List ℚ)
    (svd : List (List ℚ) → List (List ℚ) × List ℚ × List (List ℚ))
    (fuel : Nat) (fock : List (List ℚ)) (psi Vpsi gamma fe : List (List F))
    (overlap : List (List ℚ)) (thresh : ℚ) : Option (Except String (DiagFock F)) :=
  match get_fock_transformation sygvp svd fuel overlap fock thresh with
  | none => none
  | some (Except.error e) => some (Except.error e)
  | some (Except.ok r) =>
    match sort_eigenvalues r.evals r.U with
    | Except.error e => some (Except.error e)
    | Except.ok sorted =>
      let U := sorted.vecs
      let Vpsi := transform ops Vpsi U
      let gamma := transform ops gamma U
      let fe := transform ops fe U
      let psi := transform ops psi U
      let Vpsi := truncate ops Vpsi
      let gamma := truncate ops gamma
      let fe := truncate ops fe
      let psi := truncate ops psi
      let psi := normalize ops.ip ops.sqrt psi
      some (Except.ok
        { selected := sorted.selected
          U := U
          fock := r.fock
          evals := sorted.vals
          psi := psi
          Vpsi := Vpsi
          gamma := gamma
          fe := fe })

/-! ## Saving and loading a response density (FirstOrderDensity::SaveDensity, LoadDensity) -/

/-- Modelled from the spec: one record of the checkpoint archive, "an ordered,
length-prefixed record sequence" (the archive classes are not among the sources): a label, a
tensor, a count or a function. -/
inductive Record (F : Type) where
  | str (s : String)
  | tensor (t : List (List ℚ))
  | num (n : Int)
  | func (f : F)

/-- Modelled from the spec: the "property-operator vector" with its number of operators
(the class `Property` is not among the sources; `SaveDensity` and `LoadDensity` use its
members `num_operators` and `operator_vector`). -/
structure Property (F : Type) where
  num_operators : Int
  operator_vector : List F

/-- The members of a `FirstOrderDensity` that `SaveDensity` and `LoadDensity` touch. -/
structure FirstOrderDensity (F : Type) where
  property : String
  omega : List (List ℚ)
  num_response_states : Int
  num_ground_states : Int
  x : List (List F)
  y : List (List F)
  rho_omega : List F
  property_operator : Property F
  P : List (List F)
  Q : List (List F)

/-- The loop `for (i = 0; i < n; i++) ar & v[i];` of `SaveDensity`, appending to the
archive. A read beyond the vector, which an object with `n` entries never makes, yields the
zero function here. -/
def save_vector {F : Type} [Zero F] (n : Nat) (v : List F) (ar : List (Record F)) :
    List (Record F) :=
  (List.range n).foldl (fun ar i => ar ++ [Record.func (v.getD i 0)]) ar

/-- The loop nest `for (i = 0; i < n; i++) for (j = 0; j < m; j++) ar & t[i][j];` of
`SaveDensity`. -/
def save_table {F : Type} [Zero F] (n m : Nat) (t : List (List F)) (ar : List (Record F)) :
    List (Record F) :=
  for2 n m (fun i j ar => ar ++ [Record.func (getF t i j)]) ar

/-- The function `FirstOrderDensity::SaveDensity(world, name)` (lines 182-222): the records
written, in order. -/
def SaveDensity {F : Type} [Zero F] (self : FirstOrderDensity F) : List (Record F) :=
  let nrs := self.num_response_states.toNat
  let ngs := self.num_ground_states.toNat
  let ar := [Record.str self.property, Record.tensor self.omega,
    Record.num self.num_response_states, Record.num self.num_ground_states]
  let ar := save_table nrs ngs self.x ar
  let ar := save_table nrs ngs self.y ar
  let ar := save_vector nrs self.rho_omega ar
  let ar := save_vector self.property_operator.num_operators.toNat
    self.property_operator.operator_vector ar
  let ar := save_table nrs ngs self.P ar
  save_table nrs ngs self.Q ar

/-- The statement `ar & v[i];` of `LoadDensity`: the next record of the archive, which has
to be a function, is stored in `v[i]`. Modelled from the spec: the archive is "read and
written in a fixed field order", so a record of another kind, or none, is an error; so is a
position `i` the vector does not have. -/
def load_entry {F : Type} (i : Nat) (s : List F × List (Record F)) :
    Except String (List F × List (Record F)) :=
  match s.2 with
  | Record.func f :: rest =>
    if i < s.1.length then Except.ok (s.1.set i f, rest)
    else Except.error "index out of range"
  | _ :: _ => Except.error "archive: record of another kind"
  | [] => Except.error "archive: end of data"

/-- The loop `for (i = 0; i < n; i++) ar & v[i];` of `LoadDensity`. -/
def load_vector {F : Type} (n : Nat) (s : List F × List (Record F)) :
    Except String (List F × List (Record F)) :=
  for_except load_entry (List.range n) s

/-- The statement `ar & t[i][j];` of `LoadDensity`: the next record of the archive, which
has to be a function, is stored in `t[i][j]`; a position the table does not have is an
error. -/
def load_cell {F : Type} (i j : Nat) (s : List (List F) × List (Record F)) :
    Except String (List (List F) × List (Record F)) :=
  match s.2 with
  | Record.func f :: rest =>
    if i < s.1.length ∧ j < (s.1.getD i []).length then
      Except.ok (s.1.set i ((s.1.getD i []).set j f), rest)
    else Except.error "index out of range"
  | _ :: _ => Except.error "archive: record of another kind"
  | [] => Except.error "archive: end of data"

/-- The inner loop `for (j = 0; j < m; j++) ar & t[i][j];` of `LoadDensity` for row `i`. -/
def load_row {F : Type} (m i : Nat) (s : List (List F) × List (Record F)) :
    Except String (List (List F) × List (Record F)) :=
  for_except (load_cell i) (List.range m) s

/-- The loop nest `for (i = 0; i < n; i++) for (j = 0; j < m; j++) ar & t[i][j];` of
`LoadDensity`. -/
def load_table {F : Type} (n m : Nat) (s : List (List F) × List (Record F)) :
    Except String (List (List F) × List (Record F)) :=
  for_except (load_row m) (List.range n) s

/-- Modelled from the spec: `ResponseFunction(world, n, m)`, `n` response vectors of `m`
zero functions (the class is not among the sources). -/
def ResponseFunction {F : Type} [Zero F] (n m : Int) : List (List F) :=
  List.replicate n.toNat (List.replicate m.toNat 0)

/-- Lines 235-241 of `LoadDensity`: the property operator the object works with after the
label has been read. `dipole` stands for `Property(world, "dipole")`, `nuclear` for
`Property(world, "nuclear", Gparams.molecule)`; for any other label the object keeps the
operator `current` it holds. -/
def select_property {F : Type} (dipole nuclear current : Property F) (property : String) :
    Property F :=
  if property = "dipole" then dipole
  else if property = "nuclear" then nuclear
  else current

/-- The function `FirstOrderDensity::LoadDensity(world, name, Rparams, Gparams)`
(lines 224-303) on the object `self`, reading the records `ar`: the object after the call
and the records left unread; the set-up of the exchange-correlation functional and the
printing are left out. -/
def LoadDensity {F : Type} [Zero F] (dipole nuclear : Property F) (Rparams_states : Int)
    (Gparams_num_orbitals : Nat) (self : FirstOrderDensity F) (ar : List (Record F)) :
    Except String (FirstOrderDensity F × List (Record F)) :=
  match ar with
  | Record.str property :: Record.tensor omega :: Record.num num_response_states ::
      Record.num num_ground_states :: ar =>
    let property_operator := select_property dipole nuclear self.property_operator property
    let x : List (List F) := ResponseFunction num_response_states num_ground_states
    let y : List (List F) := ResponseFunction num_response_states num_ground_states
    let P : List (List F) := ResponseFunction num_response_states num_ground_states
    let Q : List (List F) := ResponseFunction num_response_states num_ground_states
    match load_table Rparams_states.toNat Gparams_num_orbitals (x, ar) with
    | Except.error e => Except.error e
    | Except.ok (x, ar) =>
    match load_table Rparams_states.toNat Gparams_num_orbitals (y, ar) with
    | Except.error e => Except.error e
    | Except.ok (y, ar) =>
    match load_vector num_response_states.toNat
        (List.replicate num_response_states.toNat 0, ar) with
    | Except.error e => Except.error e
    | Except.ok (rho_omega, ar) =>
    match load_vector property_operator.num_operators.toNat
        (property_operator.operator_vector, ar) with
    | Except.error e => Except.error e
    | Except.ok (operator_vector, ar) =>
    match load_table Rparams_states.toNat Gparams_num_orbitals (P, ar) with
    | Except.error e => Except.error e
    | Except.ok (P, ar) =>
    match load_table Rparams_states.toNat Gparams_num_orbitals (Q, ar) with
    | Except.error e => Except.error e
    | Except.ok (Q, ar) =>
      Except.ok
        ({ property := property
           omega := omega
           num_response_states := num_response_states
           num_ground_states := num_ground_states
           x := x
           y := y
           rho_omega := rho_omega
           property_operator :=
             { num_operators := property_operator.num_operators
               operator_vector := operator_vector }
           P := P
           Q := Q }, ar)
  | _ => Except.error "archive: record of another kind"

/-- A saved state for evaluation: one response state, one ground orbital, one property
operator, functions on a one-point domain. -/
def sample_density : FirstOrderDensity ℚ :=
  { property := "excited"
    omega := [[1 / 2]]
    num_response_states := 1
    num_ground_states := 1
    x := [[1]]
    y := [[2]]
    rho_omega := [3]
    property_operator := { num_operators := 1, operator_vector := [7] }
    P := [[4]]
    Q := [[5]] }

/-- A receiving object that holds no property operator. -/
def sample_receiver : FirstOrderDensity ℚ :=
  { property := ""
    omega := []
    num_response_states := 0
    num_ground_states := 0
    x := []
    y := []
    rho_omega := []
    property_operator := { num_operators := 0, operator_vector := [] }
    P := []
    Q := [] }

/-- A property object with three operators, for evaluation. -/
def sample_dipole : Property ℚ := { num_operators := 3, operator_vector := [0, 0, 0] }

/-! ## The frequency shift (TDHF::IterateFrequencyResponse, iterate_freq.cc) -/

/-- Lines 75-90 of `TDHF::IterateFrequencyResponse` (iterate_freq.cc): the value of `x_shifts`
after `omega_n = abs(Rparams.omega)`, `x_shifts{0}` and
`if ((Gparams.energies[n - 1] + omega_n) >= 0.0) x_shifts = -(omega_n +
Gparams.energies[n - 1]);`, with `n` the number of ground energies. -/
def x_shifts (energies : List ℚ) (Rparams_omega : ℚ) : ℚ :=
  let n := energies.length
  let omega_n := |Rparams_omega|
  if energies.getD (n - 1) 0 + omega_n ≥ 0 then -(omega_n + energies.getD (n - 1) 0) else 0

/-! ## In-place addition and subtraction of functions (mra.h) -/

/-- Modelled from the spec: the implementation object behind a function (the class
`FunctionImpl` is not among the sources): whether it is held in the compressed (wavelet)
basis, and its coefficients; the spec's FieldAlgebra has "compression" as an operation that
changes the representation only. -/
structure FunctionImpl (α : Type) where
  compressed : Bool
  coeffs : α

/-- The class `Function` of mra.h as far as `operator+=`, `operator-=` and `gaxpy` go: the
shared pointer `impl`, which is null for a function that is not initialized. -/
structure MraFunction (α : Type) where
  impl : Option (FunctionImpl α)

/-- The member `is_compressed()` (lines 266-271). -/
def MraFunction.is_compressed {α : Type} (f : MraFunction α) : Bool :=
  match f.impl with
  | some i => i.compressed
  | none => false

/-- The member `compress()` (lines 432-436): nothing happens for a function that is not
initialized or already compressed; otherwise `impl->compress` leaves it compressed. -/
def MraFunction.compress {α : Type} (f : MraFunction α) : MraFunction α :=
  match f.impl with
  | none => f
  | some i => if i.compressed then f else { impl := some { i with compressed := true } }

/-- The member `gaxpy(alpha, other, beta)` (lines 589-598):
`verify(); other.verify(); MADNESS_ASSERT(is_compressed() && other.is_compressed());
impl->gaxpy_inplace(alpha, *other.impl, beta, fence);`, the last being
`this <-- this*alpha + other*beta`. -/
def MraFunction.gaxpy {α : Type} [Add α] [SMul ℚ α] (self : MraFunction α) (alpha : ℚ)
    (other : MraFunction α) (beta : ℚ) : Except String (MraFunction α) :=
  match self.impl, other.impl with
  | none, _ => Except.error "MADNESS_ASSERT(impl)"
  | some _, none => Except.error "MADNESS_ASSERT(impl)"
  | some a, some b =>
    if ¬ (self.is_compressed && other.is_compressed) then
      Except.error "MADNESS_ASSERT(is_compressed() && other.is_compressed())"
    else Except.ok { impl := some { a with coeffs := alpha • a.coeffs + beta • b.coeffs } }

/-- The member `operator+=(other)` (lines 606-612), the tree verification left out: the two
functions after the statement `self += other`. -/
def MraFunction.add_assign {α : Type} [Add α] [SMul ℚ α] (self other : MraFunction α) :
    Except String (MraFunction α × MraFunction α) :=
  let self := if ¬ self.is_compressed then self.compress else self
  let other := if ¬ other.is_compressed then other.compress else other
  match self.gaxpy 1 other 1 with
  | Except.ok r => Except.ok (r, other)
  | Except.error e => Except.error e

/-- The member `operator-=(other)` (lines 619-625), the tree verification left out: the two
functions after the statement `self -= other`. Its second line is
`if (!other.is_compressed()) compress();`, a call of `compress` on `*this`. -/
def MraFunction.sub_assign {α : Type} [Add α] [SMul ℚ α] (self other : MraFunction α) :
    Except String (MraFunction α × MraFunction α) :=
  let self := if ¬ self.is_compressed then self.compress else self
  let self := if ¬ other.is_compressed then self.compress else self
  match self.gaxpy 1 other (-1) with
  | Except.ok r => Except.ok (r, other)
  | Except.error e => Except.error e

/-! ## Saving a response calculation (TDHF::save) -/

/-- Modelled from the spec: one record of the restart archive, "an ordered, length-prefixed
record sequence" (the archive classes are not among the sources): a name, a flag, a count, a
tensor of energies or a function. -/
inductive RestartRecord (F : Type) where
  | str (s : String)
  | flag (b : Bool)
  | num (n : Int)
  | energies (t : List ℚ)
  | func (f : F)

/-- The members of `TDHF` that `save` writes. -/
structure RestartState (F : Type) where
  inFile : String
  tda : Bool
  num_orbitals : Nat
  states : Int
  x_omega : List ℚ
  y_omega : List ℚ
  x_response : List (List F)
  y_response : List (List F)

/-- The statement `ar & t[i][j];` of `save`: the function `t[i][j]` is appended to the
archive; a function the state does not hold is an error. -/
def save_function {F : Type} (t : List (List F)) (i j : Nat) (ar : List (RestartRecord F)) :
    Except String (List (RestartRecord F)) :=
  match t.get? i with
  | none => Except.error "index out of range"
  | some row =>
    match row.get? j with
    | none => Except.error "index out of range"
    | some f => Except.ok (ar ++ [RestartRecord.func f])

/-- The loop nest `for(int i=0; i<Rparams.states; i++) for(unsigned int j=0;
j<Gparams.num_orbitals; j++) ar & t[i][j];` of `save`. -/
def save_functions {F : Type} (states num_orbitals : Nat) (t : List (List F))
    (ar : List (RestartRecord F)) : Except String (List (RestartRecord F)) :=
  for_except (fun i ar => for_except (fun j ar => save_function t i j ar)
    (List.range num_orbitals) ar) (List.range states) ar

/-- The function `TDHF::save(world)` (lines 176-215): the records written, in order. -/
def save {F : Type} (self : RestartState F) : Except String (List (RestartRecord F)) :=
  let ar := [RestartRecord.str self.inFile, RestartRecord.flag self.tda,
    RestartRecord.num self.num_orbitals, RestartRecord.num self.states,
    RestartRecord.energies self.x_omega]
  match save_functions self.states.toNat self.num_orbitals self.x_response ar with
  | Except.error e => Except.error e
  | Except.ok ar =>
    if self.tda then
      let ar := ar ++ [RestartRecord.energies self.y_omega]
      save_functions self.states.toNat self.num_orbitals self.y_response ar
    else Except.ok ar

/-- A Tamm-Dancoff state for evaluation: one state, one orbital, no `y` branch. -/
def sample_restart_tda : RestartState ℚ :=
  { inFile := "ground"
    tda := true
    num_orbitals := 1
    states := 1
    x_omega := [3]
    y_omega := []
    x_response := [[1]]
    y_response := [] }

/-- A state of the full calculation for evaluation: one state, one orbital, `x` and `y`. -/
def sample_restart_full : RestartState ℚ :=
  { inFile := "ground"
    tda := false
    num_orbitals := 1
    states := 1
    x_omega := [3]
    y_omega := [-3]
    x_response := [[1]]
    y_response := [[2]] }

/-! ## Trial functions (TDHF::create_trial_functions) -/

/-- The function `TDHF::response_zero_functions(world, m, n)` (lines 332-344): `m` vectors
of `n` zero functions. -/
def response_zero_functions {F : Type} [Zero F] (m n : Nat) : List (List F) :=
  List.replicate m (List.replicate n 0)

/-- The function `TDHF::symmetry(world)` (lines 354-382) on the four functions `r`, `x`, `y`,
`z` it builds first. -/
def symmetry {F : Type} [Mul F] [Sub F] (r x y z : F) : List F :=
  [r, x, y, z, x * y, x * z, y * z, x * x - y * y, z * z]

/-- The variables the loops of `create_trial_functions` update. -/
structure TrialState (F : Type) where
  trials : List (List F)
  count : Nat

/-- The statements `trials[count][p] = v; count++;`: a position `trials` does not have is an
error. -/
def write_trial {F : Type} (p : Nat) (v : F) (st : TrialState F) :
    Except String (TrialState F) :=
  if st.count < st.trials.length ∧ p < (st.trials.getD st.count []).length then
    Except.ok
      { trials := st.trials.set st.count ((st.trials.getD st.count []).set p v)
        count := st.count + 1 }
  else Except.error "index out of range"

/-- The loop `while(count < size) { ... power++; }` of lines 422-443, entered with the given
`power`; the result is `none` when the passes allowed by the first argument do not suffice. -/
def trial_power_loop {F : Type} [Mul F] [Zero F] (symm orbitals : List F) (n size : Nat) :
    Nat → Nat → TrialState F → Option (Except String (TrialState F))
  | 0, _, _ => none
  | fuel + 1, power, st =>
    if st.count < size then
      match for_except (fun i st =>
          let x := symm.getD i 0
          let x := (List.range power).foldl (fun x _ => x * symm.getD i 0) x
          for_except (fun p st => write_trial p (x * symm.getD i 0 * orbitals.getD p 0) st)
            (List.range n) st) (List.range symm.length) st with
      | Except.error e => some (Except.error e)
      | Except.ok st => trial_power_loop symm orbitals n size fuel (power + 1) st
    else some (Except.ok st)

/-- The number `size` of trial vectors allocated (line 400):
`(int)(n * symm.size()) >= k ? n * symm.size() : (k/n + 1) * n`. -/
def trial_size (n symm_size : Nat) (k : Int) : Int :=
  if ((n * symm_size : Nat) : Int) ≥ k then ((n * symm_size : Nat) : Int)
  else (Int.tdiv k n + 1) * n

/-- The function `TDHF::create_trial_functions(world, k, orbitals, print_level)`
(lines 387-457), with `symm` the list `symmetry(world)` returns; the printing is left out.
The result is `none` when the `while` loop needs more passes than the first argument
allows. -/
def create_trial_functions {F : Type} [Mul F] [Zero F] (ops : FieldOps F) (fuel : Nat)
    (symm : List F) (k : Int) (orbitals : List F) : Option (Except String (List (List F))) :=
  let n := orbitals.length
  let size := (trial_size n symm.length k).toNat
  let trials : List (List F) := response_zero_functions size n
  match for_except (fun i st =>
      for_except (fun p st => write_trial p (symm.getD i 0 * orbitals.getD p 0) st)
        (List.range n) st) (List.range symm.length) { trials := trials, count := 0 } with
  | Except.error e => some (Except.error e)
  | Except.ok st =>
    match trial_power_loop symm orbitals n size fuel 1 st with
    | none => none
    | some (Except.error e) => some (Except.error e)
    | some (Except.ok st) => some (Except.ok (truncate ops st.trials))

/-! ## The exchange derivative (TDHF::create_exchange_derivative) -/

/-- The assignment `t[k][p] = v` on a set of response vectors. -/
def setF {F : Type} (t : List (List F)) (k p : Nat) (v : F) : List (List F) :=
  t.set k ((t.getD k []).set p v)

/-- The function `TDHF::create_exchange_derivative(world, f, orbitals, small, thresh)`
(lines 503-564). `store_potential` is the flag `Rparams.store_potential`, `stored_potential`
the member of that name, and `op` the application `apply(op, rho)` of the Coulomb operator
`CoulombOperator(world, small, thresh)`. -/
def create_exchange_derivative {F : Type} [Zero F] [Add F] [Mul F] (store_potential : Bool)
    (stored_potential : List (List F)) (op : F → F) (f : List (List F)) (orbitals : List F) :
    List (List F) :=
  let m := f.length
  let n := (f.getD 0 []).length
  let deriv_k : List (List F) := response_zero_functions m n
  if store_potential then
    for2 n m (fun p k deriv_k =>
      (List.range n).foldl (fun deriv_k i =>
        setF deriv_k k p (getF deriv_k k p + getF stored_potential i p * getF f k i))
        deriv_k) deriv_k
  else
    for2 n m (fun p k deriv_k =>
      (List.range n).foldl (fun deriv_k i =>
        let rho := orbitals.getD i 0 * orbitals.getD p 0
        let rho := op rho
        setF deriv_k k p (getF deriv_k k p + rho * getF f k i))
        deriv_k) deriv_k

/-- Lines 2908-2926 of `TDHF::create_ground_hamiltonian(world, f, print_level)`: the member
`stored_potential` after the exchange loop, with `Rparams.store_potential` set. `op` is the
application of the Coulomb operator to one function.
Modelled from the spec: `mul_sparse(world, f[i], f, thresh)`, the products `f[i] * f[p]` of
one function with every function of a vector, the spec's "convolution per occupied-pair
product" (the vector operations are not among the sources). -/
def stored_potential {F : Type} [Zero F] [Mul F] (ops : FieldOps F) (op : F → F)
    (f : List F) : List (List F) :=
  (List.range f.length).foldl (fun stored_potential i =>
    let psif := f.map (fun g => f.getD i 0 * g)
    let psif := psif.map ops.trunc
    let psif := psif.map op
    let psif := psif.map ops.trunc
    stored_potential ++ [psif]) []

/-! ## Diagonalisation of the full response matrix (TDHF::diag_full_response) -/

/-- What `get_full_response_transformation` leaves behind after its assertion has passed:
the returned matrix and the final values of the arguments `full_response` and `evals`. -/
structure FullTransformation where
  U : List (List ℚ)
  full_response : List (List ℚ)
  evals : List ℚ

/-- Lines 1981-2045 of `TDHF::get_full_response_transformation`: column swaps, phases,
cluster rotation, `full_response = diag(evals)` and the final `sort_eigenvalues(world, evals,
U)`. `svd` is the singular value decomposition of the linear-algebra library and `fuel`
bounds the passes of every loop; `Except.ok none` means that the passes allowed do not
suffice. -/
def full_response_post (svd : List (List ℚ) → List (List ℚ) × List ℚ × List (List ℚ))
    (fuel : Nat) (overlap full_response : List (List ℚ)) (thresh_degenerate : ℚ)
    (U : List (List ℚ)) (evals : List ℚ) : Except String (Option FullTransformation) :=
  let m := dim overlap 0
  match swap_loop m fuel { U := U, evals := evals, switched := true } with
  | none => Except.ok none
  | some st =>
    let U := fix_phases m st.U
    let evals := st.evals
    match cluster_loop (rotate_cluster svd) thresh_degenerate evals m fuel fuel 0 U with
    | none => Except.ok none
    | some (Except.error e) => Except.error e
    | some (Except.ok U) =>
      let full_response := zeros2 (dim full_response 0) (dim full_response 1)
      let full_response :=
        (List.range m).foldl (fun t i => set2 t i i (evals.getD i 0)) full_response
      match sort_eigenvalues evals U with
      | Except.error e => Except.error e
      | Except.ok sorted =>
        Except.ok
          (some { U := sorted.vecs, full_response := full_response, evals := sorted.vals })

/-- What `diag_full_response` leaves behind: the returned matrix `vecs` and the final values
of its arguments. -/
structure DiagFull (F : Type) where
  vecs : List (List ℚ)
  full_response : List (List ℚ)
  x : List (List F)
  Vx : List (List F)
  x_g : List (List F)
  y : List (List F)
  Vy : List (List F)
  y_g : List (List F)
  x_evals : List ℚ
  y_evals : List ℚ

/-- The function `TDHF::diag_full_response(world, full_response, x, Vx, x_g, y, Vy, y_g,
x_evals, y_evals, thresh, print_level)` (lines 1856-1953); `ggevp` and `svd` are the
eigensolver and the singular value decomposition of the linear-algebra library, `fuel`
bounds the passes of every loop, and the printing is left out. A read of `y[i]`, `y_g[i]` or
`Vy[i]` beyond the list, which lists of `m` vectors never cause, yields the empty vector. -/
def diag_full_response {F : Type} [AddCommGroup F] [Module ℚ F] (ops : FieldOps F)
    (ggevp : List (List ℚ) → List (List ℚ) → List (List ℚ) × List (ℚ × ℚ))
    (svd : List (List ℚ) → List (List ℚ) × List ℚ × List (List ℚ))
    (fuel : Nat) (full_response : List (List ℚ)) (x Vx x_g y Vy y_g : List (List F))
    (thresh : ℚ) : Except String (Option (DiagFull F)) :=
  let m := x.length
  let x := (List.range m).foldl (fun x i => x ++ [y.getD i []]) x
  let x_g := (List.range m).foldl (fun x_g i => x_g ++ [y_g.getD i []]) x_g
  let Vx := (List.range m).foldl (fun Vx i => Vx ++ [Vy.getD i []]) Vx
  let overlap := create_overlap ops x x
  match get_full_response_transformation ggevp
      (full_response_post svd fuel overlap full_response thresh) overlap full_response with
  | Except.error e => Except.error e
  | Except.ok none => Except.ok none
  | Except.ok (some r) =>
    let evals := r.evals
    let vecs := r.U
    let x_evals := slice1 evals m (2 * m - 1)
    let y_evals := slice1 evals 0 (m - 1)
    let Vx := transform ops Vx vecs
    let x_g := transform ops x_g vecs
    let x := transform ops x vecs
    let y := (List.range m).foldl (fun y i => y ++ [x.getD (i + m) []]) []
    let y_g := (List.range m).foldl (fun y_g i => y_g ++ [x_g.getD (i + m) []]) []
    let Vy := (List.range m).foldl (fun Vy i => Vy ++ [Vx.getD (i + m) []]) []
    let x := (List.range m).foldl (fun x _ => x.dropLast) x
    let Vx := (List.range m).foldl (fun Vx _ => Vx.dropLast) Vx
    let x_g := (List.range m).foldl (fun x_g _ => x_g.dropLast) x_g
    let Vx := truncate ops Vx
    let Vy := truncate ops Vy
    let x_g := truncate ops x_g
    let y_g := truncate ops y_g
    let x := truncate ops x
    let y := truncate ops y
    let x := normalize ops.ip ops.sqrt x
    let y := normalize ops.ip ops.sqrt y
    Except.ok (some
      { vecs := vecs
        full_response := r.full_response
        x := x
        Vx := Vx
        x_g := x_g
        y := y
        Vy := Vy
        y_g := y_g
        x_evals := x_evals
        y_evals := y_evals })

/-! ## Termination of the column-swap loop -/

/-- The test `snew > sold` of the column-swap loop for the pair `(i, j)`. -/
def swap_gain (U : List (List ℚ)) (i j : Nat) : Prop :=
  get2 U i j * get2 U i j + get2 U j i * get2 U j i
    > get2 U i i * get2 U i i + get2 U j j * get2 U j j

/-- The sum of the squared diagonal entries of an `n`-by-`n` matrix, the quantity every swap
of the column-swap loop increases. -/
def diag_weight (n : Nat) (U : List (List ℚ)) : ℚ :=
  ∑ c in Finset.range n, get2 U c c * get2 U c c

/-- The matrix `U` is `n`-by-`n` and each of its columns is a column of `U0`. -/
def ColumnsOf (n : Nat) (U0 U : List (List ℚ)) : Prop :=
  HasShape n n U ∧
  ∃ φ : Fin n → Fin n, ∀ (r : Nat) (c : Fin n), r < n → get2 U r c = get2 U0 r (φ c)

/-- The values the sum of squared diagonal entries can take on matrices whose columns are
columns of `U0`. -/
def diag_weights (n : Nat) (U0 : List (List ℚ)) : Finset ℚ :=
  Finset.univ.image (fun φ : Fin n → Fin n => ∑ c : Fin n, get2 U0 c (φ c) * get2 U0 c (φ c))

/-- What holds during one pass of the column-swap loop entered with the matrix `U1` and the
eigenvalues `ev1`, when the pairs `(i, j)` with `i < k`, or `i = k` and `j < k + 1 + e`, have
been handled: the columns are columns of `U0`, the sum of the squared diagonal entries has
not decreased, it has increased if a swap was made, and if none was made the matrix is still
`U1` and none of the pairs handled passes the test. -/
def PassInv (n : Nat) (U0 U1 : List (List ℚ)) (ev1 : List ℚ) (k e : Nat) (st : SwapState) :
    Prop :=
  ColumnsOf n U0 st.U ∧
  diag_weight n U1 ≤ diag_weight n st.U ∧
  (st.switched = true → diag_weight n U1 < diag_weight n st.U) ∧
  (st.switched = false → st.U = U1 ∧ st.evals = ev1 ∧
    ∀ i j, i < j → j < n → (i < k ∨ (i = k ∧ j < k + 1 + e)) → ¬ swap_gain U1 i j)

/-! ## The diagonalisation stage of the Tamm-Dancoff branch (TDHF::iterate) -/

/-- One executed diagonalisation stage: the pass index, the quantities on entry, whether
`augment` and `unaugment` were invoked, and the quantities at the end of the stage. -/
structure StageTrace (F : Type) where
  iteration : Int
  entry : Subspace F
  augmented : Bool
  unaugmented : Bool
  exit : Subspace F

/-- Lines 2255-2289 of `TDHF::iterate`, the Tamm-Dancoff branch of the diagonalisation stage
in pass `iteration`, with `m = Rparams.states` and `larger_subspace = Rparams.larger_subspace`;
`scale_2d`, `sygvp` and `svd` are as in `create_response_matrix` and `diag_fock_matrix`,
`fuel` bounds the passes of every loop of `diag_fock_matrix`, and the printing is left
out. -/
def tda_diagonalization {F : Type} [AddCommGroup F] [Module ℚ F] (ops : FieldOps F)
    (scale_2d : List (List F) → List (List ℚ) → List (List F))
    (sygvp : List (List ℚ) → List (List ℚ) → List (List ℚ) × List ℚ)
    (svd : List (List ℚ) → List (List ℚ) × List ℚ × List (List ℚ))
    (fuel m : Nat) (larger_subspace : Int) (hamiltonian : List (List ℚ)) (thresh : ℚ)
    (iteration : Int) (st : Subspace F) : Option (Except String (StageTrace F)) :=
  let S_x := create_overlap ops st.x_response st.x_response
  let r := create_response_matrix ops scale_2d st.x_gamma st.V_x_response st.x_response
    hamiltonian
  let st1 := { st with S_x := S_x, A_x := r.1, x_fe := r.2 }
  let st2 := if iteration < larger_subspace ∧ iteration > 0 then augment ops st1 else st1
  let st3 := { st2 with x_omega := [] }
  match diag_fock_matrix ops sygvp svd fuel st3.A_x st3.x_response st3.V_x_response
      st3.x_gamma st3.x_fe st3.S_x thresh with
  | none => none
  | some (Except.error e) => some (Except.error e)
  | some (Except.ok d) =>
    let st4 := { st3 with
      A_x := d.fock
      x_response := d.psi
      V_x_response := d.Vpsi
      x_gamma := d.gamma
      x_fe := d.fe
      x_omega := d.evals }
    let st5 := if iteration < larger_subspace then unaugment m iteration d.selected st4 else st4
    some (Except.ok
      { iteration := iteration
        entry := st
        augmented := decide (iteration < larger_subspace ∧ iteration > 0)
        unaugmented := decide (iteration < larger_subspace)
        exit := st5 })

/-- Lines 2218-2231 of `TDHF::iterate` in the Tamm-Dancoff case: the ground state is
projected out of the `m` response vectors, then `x_gamma` and `V_x_response` are rebuilt
from them. `projector`, `create_gamma` and `create_potential` stand for the operations of
those names. -/
def tda_prepare {F : Type} (projector : List F → List F)
    (create_gamma create_potential : List (List F) → List (List F)) (m : Nat)
    (st : Subspace F) : Subspace F :=
  let x_response :=
    (List.range m).foldl (fun x i => x.set i (projector (x.getD i []))) st.x_response
  { st with
    x_response := x_response
    x_gamma := create_gamma x_response
    V_x_response := create_potential x_response }

/-- Lines 2333-2532 of `TDHF::iterate` in the Tamm-Dancoff case: the ground state is
projected out, the vectors are saved as `old_x_response`, and the new `x_response` is built;
`bsh_update` stands for lines 2340-2532 (shifts, right-hand side, application of the BSH
operators, scaling, projection, mask, truncation, normalisation), which assign no other
quantity of the subspace. -/
def tda_update {F : Type} (projector : List F → List F)
    (bsh_update : Subspace F → List (List F)) (m : Nat) (st : Subspace F) : Subspace F :=
  let x_response :=
    (List.range m).foldl (fun x i => x.set i (projector (x.getD i []))) st.x_response
  let st := { st with x_response := x_response, old_x_response := x_response }
  { st with x_response := bsh_update st }

/-- The first `passes` passes of the loop of `TDHF::iterate` in the Tamm-Dancoff case,
started in pass `iteration`: the trace of the diagonalisation stages executed. -/
def tda_passes {F : Type} [AddCommGroup F] [Module ℚ F] (ops : FieldOps F)
    (scale_2d : List (List F) → List (List ℚ) → List (List F))
    (sygvp : List (List ℚ) → List (List ℚ) → List (List ℚ) × List ℚ)
    (svd : List (List ℚ) → List (List ℚ) × List ℚ × List (List ℚ))
    (projector : List F → List F)
    (create_gamma create_potential : List (List F) → List (List F))
    (bsh_update : Subspace F → List (List F))
    (fuel m : Nat) (larger_subspace : Int) (hamiltonian : List (List ℚ)) (thresh : ℚ) :
    Nat → Int → Subspace F → Option (Except String (List (StageTrace F)))
  | 0, _, _ => some (Except.ok [])
  | passes + 1, iteration, st =>
    match tda_diagonalization ops scale_2d sygvp svd fuel m larger_subspace hamiltonian thresh
        iteration (tda_prepare projector create_gamma create_potential m st) with
    | none => none
    | some (Except.error e) => some (Except.error e)
    | some (Except.ok t) =>
      match tda_passes ops scale_2d sygvp svd projector create_gamma create_potential
          bsh_update fuel m larger_subspace hamiltonian thresh passes (iteration + 1)
          (tda_update projector bsh_update m t.exit) with
      | none => none
      | some (Except.error e) => some (Except.error e)
      | some (Except.ok l) => some (Except.ok (t :: l))

/-- The current quantities of the subspace hold `m` states: `x_response`, `x_gamma`,
`V_x_response` and `x_fe` have `m` vectors each and `x_omega` has `m` energies. -/
def HoldsStates {F : Type} (m : Nat) (s : Subspace F) : Prop :=
  s.x_response.length = m ∧ s.x_gamma.length = m ∧ s.V_x_response.length = m ∧
    s.x_fe.length = m ∧ s.x_omega.length = m

/-- The quantities `unaugment` stores for the next pass are those of `m` states: `old_x_gamma`,
`old_V_x_response` and `old_x_fe` have `m` vectors each, `old_S_x` and `old_A_x` are
`m`-by-`m`. -/
def SnapshotStored {F : Type} (m : Nat) (s : Subspace F) : Prop :=
  s.old_x_gamma.length = m ∧ s.old_V_x_response.length = m ∧ s.old_x_fe.length = m ∧
    HasShape m m s.old_S_x ∧ HasShape m m s.old_A_x

/-- A concrete eigensolver for evaluation: the identity as eigenvector matrix and the
diagonal of `A` as eigenvalues. -/
def sample_sygvp (A _S : List (List ℚ)) : List (List ℚ) × List ℚ :=
  (identity2 (dim A 0), (List.range (dim A 0)).map (fun i => get2 A i i))

/-- A concrete start of the Tamm-Dancoff iteration: one guess vector of one function on a
one-point domain, everything else still empty. -/
def sample_tda_start : Subspace ℚ :=
  { x_omega := []
    S_x := []
    A_x := []
    x_gamma := []
    x_response := [[5]]
    V_x_response := []
    x_fe := []
    old_S_x := []
    old_A_x := []
    old_x_gamma := []
    old_x_response := []
    old_V_x_response := []
    old_x_fe := [] }

/-- The diagonalisation stage of pass 0 of the run started from `sample_tda_start` with one
state and `larger_subspace = 2`. -/
def sample_stage_first : StageTrace ℚ :=
  { iteration := 0
    entry :=
     { x_omega := []
       S_x := []
       A_x := []
       x_gamma := [[5]]
       x_response := [[5]]
       V_x_response := [[5]]
       x_fe := []
       old_S_x := []
       old_A_x := []
       old_x_gamma := []
       old_x_response := []
       old_V_x_response := []
       old_x_fe := [] }
    augmented := false
    unaugmented := true
    exit :=
     { x_omega := [-75 / 2]
       S_x := [[25]]
       A_x := [[-75 / 2]]
       x_gamma := [[5]]
       x_response := [[1]]
       V_x_response := [[5]]
       x_fe := [[-25 / 2]]
       old_S_x := [[1]]
       old_A_x := [[-75 / 2]]
       old_x_gamma := [[5]]
       old_x_response := []
       old_V_x_response := [[5]]
       old_x_fe := [[-25 / 2]] } }

/-- The diagonalisation stage of pass 1 of that run, in which `augment` is invoked. -/
def sample_stage_second : StageTrace ℚ :=
  { iteration := 1
    entry :=
     { x_omega := [-75 / 2]
       S_x := [[25]]
       A_x := [[-75 / 2]]
       x_gamma := [[1]]
       x_response := [[1]]
       V_x_response := [[1]]
       x_fe := [[-25 / 2]]
       old_S_x := [[1]]
       old_A_x := [[-75 / 2]]
       old_x_gamma := [[5]]
       old_x_response := [[1]]
       old_V_x_response := [[5]]
       old_x_fe := [[-25 / 2]] }
    augmented := true
    unaugmented := true
    exit :=
     { x_omega := [-75 / 2]
       S_x := [[1, 1], [1, 1]]
       A_x := [[-3 / 2, 0], [0, -75 / 2]]
       x_gamma := [[5]]
       x_response := [[5]]
       V_x_response := [[5]]
       x_fe := [[-25 / 2]]
       old_S_x := [[1]]
       old_A_x := [[-75 / 2]]
       old_x_gamma := [[5]]
       old_x_response := [[1]]
       old_V_x_response := [[5]]
       old_x_fe := [[-25 / 2]] } }

/-- The diagonalisation stage of pass 2 of that run, with neither `augment` nor
`unaugment`. -/
def sample_stage_third : StageTrace ℚ :=
  { iteration := 2
    entry :=
     { x_omega := [-75 / 2]
       S_x := [[1, 1], [1, 1]]
       A_x := [[-3 / 2, 0], [0, -75 / 2]]
       x_gamma := [[5]]
       x_response := [[5]]
       V_x_response := [[5]]
       x_fe := [[-25 / 2]]
       old_S_x := [[1]]
       old_A_x := [[-75 / 2]]
       old_x_gamma := [[5]]
       old_x_response := [[5]]
       old_V_x_response := [[5]]
       old_x_fe := [[-25 / 2]] }
    augmented := false
    unaugmented := false
    exit :=
     { x_omega := [-75 / 2]
       S_x := [[25]]
       A_x := [[-75 / 2]]
       x_gamma := [[5]]
       x_response := [[1]]
       V_x_response := [[5]]
       x_fe := [[-25 / 2]]
       old_S_x := [[1]]
       old_A_x := [[-75 / 2]]
       old_x_gamma := [[5]]
       old_x_response := [[5]]
       old_V_x_response := [[5]]
       old_x_fe := [[-25 / 2]] } }

/-- The three diagonalisation stages of the run started from `sample_tda_start`. -/
def sample_tda_stages : List (StageTrace ℚ) :=
  [sample_stage_first, sample_stage_second, sample_stage_third]

/-! # Theorems -/

/-! ### Loops whose body can fail -/

theorem for_except_range_step {σ : Type} (body : Nat → σ → Except String σ) (S : Nat → σ)
    (k : Nat) (h : ∀ n, n < k → body n (S n) = Except.ok (S (n + 1))) :
    ∀ (l : List Nat) (a : Nat), a + l.length = k → l = List.range' a l.length →
      for_except body l (S a) = Except.ok (S k) := by
  intro l
  induction l with
  | nil =>
    intro a ha _
    simp only [List.length_nil, Nat.add_zero] at ha
    subst ha
    rfl
  | cons i rest ih =>
    intro a ha hl
    simp only [List.length_cons, List.range'_succ, List.cons.injEq] at hl ha
    obtain ⟨hi, hrest⟩ := hl
    subst hi
    unfold for_except
    rw [h i (by omega)]
    exact ih (i + 1) (by omega) hrest

theorem for_except_range {σ : Type} (body : Nat → σ → Except String σ) (S : Nat → σ)
    (k : Nat) (h : ∀ n, n < k → body n (S n) = Except.ok (S (n + 1))) :
    for_except body (List.range k) (S 0) = Except.ok (S k) := by
  apply for_except_range_step body S k h (List.range k) 0
  · simp
  · rw [List.length_range, List.range_eq_range']

theorem for_except_guarded {σ : Type} (c : Nat → Prop) (g : Nat → σ → σ)
    (body : Nat → σ → Except String σ)
    (hok : ∀ i s, c i → body i s = Except.ok (g i s))
    (herr : ∀ i s, ¬ c i → ∃ e, body i s = Except.error e) :
    ∀ (l : List Nat) (s : σ),
      ((∀ i ∈ l, c i) → for_except body l s = Except.ok (l.foldl (fun s i => g i s) s)) ∧
      ((¬ ∀ i ∈ l, c i) → ∃ e, for_except body l s = Except.error e) := by
  intro l
  induction l with
  | nil =>
    intro s
    exact ⟨fun _ => rfl, fun h => absurd (fun i hi => by cases hi) h⟩
  | cons i rest ih =>
    intro s
    constructor
    · intro hall
      unfold for_except
      rw [hok i s (hall i (List.mem_cons_self _ _))]
      exact (ih (g i s)).1 (fun k hk => hall k (List.mem_cons_of_mem _ hk))
    · intro hnot
      unfold for_except
      by_cases hi : c i
      · rw [hok i s hi]
        apply (ih (g i s)).2
        intro hrest
        apply hnot
        intro k hk
        rcases List.mem_cons.1 hk with rfl | hk2
        · exact hi
        · exact hrest k hk2
      · obtain ⟨e, he⟩ := herr i s hi
        rw [he]
        exact ⟨e, rfl⟩


theorem for_except_inv_step {σ : Type} (body : Nat → σ → Except String σ)
    (P : Nat → σ → Prop) (k : Nat)
    (hstep : ∀ i s s2, i < k → P i s → body i s = Except.ok s2 → P (i + 1) s2) :
    ∀ (l : List Nat) (a : Nat), a + l.length = k → l = List.range' a l.length →
      ∀ s s2, P a s → for_except body l s = Except.ok s2 → P k s2 := by
  intro l
  induction l with
  | nil =>
    intro a ha _ s s2 hP h
    simp only [List.length_nil, Nat.add_zero] at ha
    subst ha
    unfold for_except at h
    cases h
    exact hP
  | cons i rest ih =>
    intro a ha hl s s2 hP h
    simp only [List.length_cons, List.range'_succ, List.cons.injEq] at hl ha
    obtain ⟨hi, hrest⟩ := hl
    subst hi
    unfold for_except at h
    cases hb : body i s with
    | error e => rw [hb] at h; cases h
    | ok s1 =>
      rw [hb] at h
      exact ih (i + 1) (by omega) hrest s1 s2 (hstep i s s1 (by omega) hP hb) h

theorem for_except_range_inv {σ : Type} (body : Nat → σ → Except String σ)
    (P : Nat → σ → Prop) (k : Nat)
    (hstep : ∀ i s s2, i < k → P i s → body i s = Except.ok s2 → P (i + 1) s2)
    (s s2 : σ) (hP : P 0 s) (h : for_except body (List.range k) s = Except.ok s2) :
    P k s2 := by
  apply for_except_inv_step body P k hstep (List.range k) 0 _ _ s s2 hP h
  · simp
  · rw [List.length_range, List.range_eq_range']

theorem getD_set_ne {α : Type} (l : List α) (i j : Nat) (a d : α) (h : i ≠ j) :
    (l.set i a).getD j d = l.getD j d := by
  simp only [List.getD_eq_getElem?_getD]
  rw [List.getElem?_set_ne h]

theorem getD_set_eq {α : Type} (l : List α) (i : Nat) (a d : α) (h : i < l.length) :
    (l.set i a).getD i d = a := by
  simp only [List.getD_eq_getElem?_getD]
  rw [List.getElem?_set_self h]
  rfl

/-! ### Helper lemmas on loops that write one entry per pass -/

theorem foldl_set_range {α : Type} (g : Nat → α) (l : List α) (n : Nat) (hn : n ≤ l.length) :
    (List.range n).foldl (fun acc i => acc.set i (g i)) l
      = (List.range n).map g ++ l.drop n := by
  induction n with
  | zero => simp
  | succ n ih =>
    have hlt : n < l.length := hn
    rw [List.range_succ, List.foldl_append, ih (Nat.le_of_lt hlt)]
    simp only [List.foldl_cons, List.foldl_nil, List.map_append, List.map_cons, List.map_nil]
    have hlen : ((List.range n).map g).length = n := by simp
    rw [List.set_append_right _ _ (by simp), hlen, Nat.sub_self]
    rw [List.drop_eq_getElem_cons hlt, List.set_cons_zero, List.append_assoc]
    rfl

theorem std_sort_length (l : List ℚ) : (std_sort l).length = l.length :=
  List.length_insertionSort _ l

theorem std_sort_perm (l : List ℚ) : (std_sort l).Perm l :=
  List.perm_insertionSort _ l

theorem std_sort_sorted (l : List ℚ) : (std_sort l).Sorted (· ≤ ·) :=
  List.sorted_insertionSort _ l

theorem map_getD_range (l : List ℚ) : (List.range l.length).map (fun i => l.getD i 0) = l := by
  apply List.ext_getElem
  · simp
  · intro i h1 h2
    simp [List.getD_eq_getElem?_getD, List.getElem?_eq_getElem h2]

theorem list_eq_of_getD (l1 l2 : List ℚ) (hlen : l1.length = l2.length)
    (h : ∀ t, t < l2.length → l1.getD t 0 = l2.getD t 0) : l1 = l2 := by
  apply List.ext_getElem hlen
  intro t h1 h2
  have := h t h2
  rw [List.getD_eq_getElem _ _ h1, List.getD_eq_getElem _ _ h2] at this
  exact this

theorem sort_eigenvalues_vals (vals : List ℚ) (vecs : List (List ℚ)) (st : EigState)
    (h : sort_eigenvalues vals vecs = Except.ok st) : st.vals = std_sort vals := by
  unfold sort_eigenvalues at h
  have key := for_except_range_inv
    (sort_eigenvalues_step vals.length (std_sort vals) vecs)
    (fun i (s : EigState) => s.vals.length = vals.length ∧
      ∀ t, t < i → s.vals.getD t 0 = (std_sort vals).getD t 0) vals.length
    (by
      intro i s s2 hi hP hb
      unfold sort_eigenvalues_step at hb
      simp only at hb
      split_ifs at hb
      simp only [Except.ok.injEq] at hb
      subst hb
      refine ⟨by simp [hP.1], ?_⟩
      intro t ht
      by_cases hti : t = i
      · subst hti
        exact getD_set_eq _ _ _ _ (by rw [hP.1]; exact hi)
      · rw [getD_set_ne _ _ _ _ _ (Ne.symm hti)]
        exact hP.2 t (by omega))
    _ st ⟨rfl, fun t ht => absurd ht (Nat.not_lt_zero t)⟩ h
  apply list_eq_of_getD _ _ (by rw [key.1, std_sort_length])
  intro t ht
  rw [std_sort_length] at ht
  exact key.2 t ht

theorem sort_vals {α : Type} (vals val_residuals : List ℚ) (f f_diff : List α)
    (st : SortState α) (h : sort vals val_residuals f f_diff = Except.ok st) :
    st.vals = std_sort vals := by
  unfold sort at h
  have key := for_except_range_inv
    (sort_step vals.length (std_sort vals) val_residuals f f_diff)
    (fun i (s : SortState α) => s.vals.length = vals.length ∧
      ∀ t, t < i → s.vals.getD t 0 = (std_sort vals).getD t 0) vals.length
    (by
      intro i s s2 hi hP hb
      unfold sort_step at hb
      simp only at hb
      split at hb
      · split_ifs at hb
        simp only [Except.ok.injEq] at hb
        subst hb
        refine ⟨by simp [hP.1], ?_⟩
        intro t ht
        by_cases hti : t = i
        · subst hti
          exact getD_set_eq _ _ _ _ (by rw [hP.1]; exact hi)
        · rw [getD_set_ne _ _ _ _ _ (Ne.symm hti)]
          exact hP.2 t (by omega)
      · cases hb)
    _ st ⟨rfl, fun t ht => absurd ht (Nat.not_lt_zero t)⟩ h
  apply list_eq_of_getD _ _ (by rw [key.1, std_sort_length])
  intro t ht
  rw [std_sort_length] at ht
  exact key.2 t ht

theorem sorted_vals_when_returned {α : Type} (vals : List ℚ) (vecs : List (List ℚ))
    (val_residuals : List ℚ) (f f_diff : List α) :
    (∀ st, sort_eigenvalues vals vecs = Except.ok st →
      st.vals.Sorted (· ≤ ·) ∧ st.vals.Perm vals) ∧
    (∀ st, sort vals val_residuals f f_diff = Except.ok st →
      st.vals.Sorted (· ≤ ·) ∧ st.vals.Perm vals) := by
  constructor
  · intro st h
    rw [sort_eigenvalues_vals vals vecs st h]
    exact ⟨std_sort_sorted vals, std_sort_perm vals⟩
  · intro st h
    rw [sort_vals vals val_residuals f f_diff st h]
    exact ⟨std_sort_sorted vals, std_sort_perm vals⟩

theorem set_column_length (rows : List (List ℚ)) (i : Nat) (col : List ℚ)
    (hlen : col.length = rows.length) : (set_column rows i col).length = rows.length := by
  simp [set_column, hlen]

theorem set_column_row_length (rows : List (List ℚ)) (i : Nat) (col : List ℚ) (k : Nat)
    (hrows : ∀ row ∈ rows, row.length = k) : ∀ row ∈ set_column rows i col, row.length = k := by
  intro row hrow
  unfold set_column at hrow
  rw [List.mem_iff_getElem] at hrow
  obtain ⟨t, ht, rfl⟩ := hrow
  rw [List.getElem_zipWith, List.length_set]
  exact hrows _ (List.getElem_mem _)

theorem column_length (oob : ℚ) (rows : List (List ℚ)) (j : Nat) :
    (column oob rows j).length = rows.length := by
  simp [column]

theorem find_index_spec (x : ℚ) (c : List ℚ) (k : Nat) :
    ∀ fuel j, j ≤ k → k + 1 ≤ j + fuel →
      j ≤ find_index x c k fuel j ∧ find_index x c k fuel j ≤ k ∧
      (find_index x c k fuel j < k → |x - c.getD (find_index x c k fuel j) 0| ≤ match_tol) ∧
      ∀ t, j ≤ t → t < find_index x c k fuel j → match_tol < |x - c.getD t 0| := by
  intro fuel
  induction fuel with
  | zero => intro j h1 h2; omega
  | succ fuel ih =>
    intro j h1 h2
    unfold find_index
    by_cases hc : |x - c.getD j 0| > match_tol ∧ j < k
    · rw [if_pos hc]
      obtain ⟨a1, a2, a3, a4⟩ := ih (j + 1) hc.2 (by omega)
      refine ⟨by omega, a2, a3, ?_⟩
      intro t ht1 ht2
      by_cases hj : t = j
      · subst hj; exact hc.1
      · exact a4 t (by omega) ht2
    · rw [if_neg hc]
      refine ⟨le_refl _, h1, ?_, ?_⟩
      · intro hlt
        by_contra hgt
        exact hc ⟨lt_of_not_le hgt, hlt⟩
      · intro t ht1 ht2; omega

theorem match_tol_pos : 0 < match_tol := by
  unfold match_tol; norm_num

theorem std_sort_close_values :
    std_sort [1 / 125000000, 1 / 62500000, 0] = [0, 1 / 125000000, 1 / 62500000] := by
  norm_num [std_sort, List.insertionSort, List.orderedInsert]

/-- C1, the code at the failing input: on the eigenvalues `[8e-9, 1.6e-8, 0]` the sorted
value `0` is matched with entry `0` (`8e-9`, within `1e-8`), the sorted value `8e-9` with
entry `1` (`1.6e-8`), and the search for the sorted value `1.6e-8` finds no entry within
`1e-8` and runs beyond the list: `sort_eigenvalues` and `sort` read and write outside their
tensors and leave no sorted list behind. -/
theorem sort_runs_off_the_list :
    sort_eigenvalues [1 / 125000000, 1 / 62500000, 0] (identity2 3)
      = Except.error "index out of range" ∧
    sort [1 / 125000000, 1 / 62500000, 0] [1, 2, 3] [[(1 : ℚ)], [2], [3]] [[4], [5], [6]]
      = Except.error "index out of range" := by
  constructor
  · unfold sort_eigenvalues
    rw [std_sort_close_values]
    norm_num [for_except, sort_eigenvalues_step, find_index, match_tol, taken_mark,
      identity2, tabulate2, column, set_column, List.range, List.range.loop,
      List.replicate, lt_abs, abs_lt]
  · unfold sort
    rw [std_sort_close_values]
    norm_num [for_except, sort_step, find_index, match_tol, taken_mark, List.range,
      List.range.loop, List.replicate, lt_abs, abs_lt]

theorem zeros2_shape (m n : Nat) : HasShape m n (zeros2 m n) := by
  refine ⟨by simp [zeros2], ?_⟩
  intro row hrow
  rw [zeros2, List.mem_replicate] at hrow
  rw [hrow.2]; simp

theorem get2_zeros2 (m n k p : Nat) : get2 (zeros2 m n) k p = 0 := by
  unfold get2 zeros2
  simp only [List.getD_eq_getElem?_getD, List.getElem?_replicate]
  split_ifs
  · simp only [Option.getD_some, List.getElem?_replicate]
    split_ifs <;> rfl
  · rfl

theorem set2_shape (m n : Nat) (t : List (List ℚ)) (k p : Nat) (v : ℚ)
    (h : HasShape m n t) : HasShape m n (set2 t k p v) := by
  refine ⟨by simp [set2, h.1], ?_⟩
  intro row hrow
  unfold set2 at hrow
  by_cases hk : k < t.length
  · rcases List.mem_or_eq_of_mem_set hrow with h1 | h1
    · exact h.2 row h1
    · rw [h1, List.length_set, List.getD_eq_getElem _ _ hk]
      exact h.2 _ (List.getElem_mem hk)
  · rw [List.set_eq_of_length_le (by omega)] at hrow
    exact h.2 row hrow

theorem get2_set2_same (m n : Nat) (t : List (List ℚ)) (k p : Nat) (v : ℚ)
    (h : HasShape m n t) (hk : k < m) (hp : p < n) : get2 (set2 t k p v) k p = v := by
  have hk2 : k < t.length := by rw [h.1]; exact hk
  unfold get2 set2
  rw [getD_set_eq _ _ _ _ hk2]
  apply getD_set_eq
  rw [List.getD_eq_getElem _ _ hk2, h.2 _ (List.getElem_mem hk2)]; exact hp

theorem get2_set2_other (t : List (List ℚ)) (k p k2 p2 : Nat) (v : ℚ)
    (hne : ¬ (k2 = k ∧ p2 = p)) : get2 (set2 t k p v) k2 p2 = get2 t k2 p2 := by
  unfold get2 set2
  by_cases hk : k = k2
  · subst hk
    by_cases hlt : k < t.length
    · rw [getD_set_eq _ _ _ _ hlt]
      exact getD_set_ne _ _ _ _ _ (fun e => hne ⟨rfl, e.symm⟩)
    · rw [List.set_eq_of_length_le (by omega)]
  · rw [getD_set_ne _ _ _ _ _ hk]

/-! ### Loop nests that touch one cell per pass -/

theorem for_inner_spec {σ β : Type} (P : σ → Prop) (get : σ → Nat → Nat → β)
    (w : Nat → Nat → β → β) (m n : Nat) (body : Nat → Nat → σ → σ)
    (hP : ∀ k p t, k < m → p < n → P t → P (body k p t))
    (hother : ∀ k p t k2 p2, ¬ (k2 = k ∧ p2 = p) → get (body k p t) k2 p2 = get t k2 p2)
    (hat : ∀ k p t, P t → k < m → p < n → get (body k p t) k p = w k p (get t k p))
    (k : Nat) (hk : k < m) (t : σ) (h0 : P t) :
    ∀ n2, n2 ≤ n →
      P ((List.range n2).foldl (fun t p => body k p t) t) ∧
      ∀ k2 p2, get ((List.range n2).foldl (fun t p => body k p t) t) k2 p2
        = if k2 = k ∧ p2 < n2 then w k p2 (get t k2 p2) else get t k2 p2 := by
  intro n2
  induction n2 with
  | zero => intro _; exact ⟨h0, fun k2 p2 => by simp⟩
  | succ n2 ih =>
    intro hn
    obtain ⟨i1, i2⟩ := ih (by omega)
    rw [List.range_succ, List.foldl_append]
    simp only [List.foldl_cons, List.foldl_nil]
    refine ⟨hP _ _ _ hk (by omega) i1, ?_⟩
    intro k2 p2
    by_cases hc : k2 = k ∧ p2 = n2
    · obtain ⟨rfl, rfl⟩ := hc
      rw [hat _ _ _ i1 hk (by omega), i2]
      simp
    · rw [hother _ _ _ _ _ hc, i2]
      by_cases hk2 : k2 = k
      · have hp2 : p2 ≠ n2 := fun e => hc ⟨hk2, e⟩
        have : (p2 < n2 + 1) = (p2 < n2) := by
          apply propext; constructor <;> intro h <;> omega
        simp only [this]
      · simp [hk2]

theorem for2_spec {σ β : Type} (P : σ → Prop) (get : σ → Nat → Nat → β)
    (w : Nat → Nat → β → β) (m n : Nat) (body : Nat → Nat → σ → σ)
    (hP : ∀ k p t, k < m → p < n → P t → P (body k p t))
    (hother : ∀ k p t k2 p2, ¬ (k2 = k ∧ p2 = p) → get (body k p t) k2 p2 = get t k2 p2)
    (hat : ∀ k p t, P t → k < m → p < n → get (body k p t) k p = w k p (get t k p))
    (init : σ) (h0 : P init) :
    P (for2 m n body init) ∧
    ∀ k p, get (for2 m n body init) k p
      = if k < m ∧ p < n then w k p (get init k p) else get init k p := by
  unfold for2
  have key : ∀ m2, m2 ≤ m →
      P ((List.range m2).foldl
        (fun t k => (List.range n).foldl (fun t p => body k p t) t) init) ∧
      ∀ k p, get ((List.range m2).foldl
        (fun t k => (List.range n).foldl (fun t p => body k p t) t) init) k p
        = if k < m2 ∧ p < n then w k p (get init k p) else get init k p := by
    intro m2
    induction m2 with
    | zero => intro _; exact ⟨h0, fun k p => by simp⟩
    | succ m2 ih =>
      intro hm
      obtain ⟨i1, i2⟩ := ih (by omega)
      rw [List.range_succ, List.foldl_append]
      simp only [List.foldl_cons, List.foldl_nil]
      obtain ⟨j1, j2⟩ := for_inner_spec P get w m n body hP hother hat m2 (by omega) _ i1 n
        (le_refl _)
      refine ⟨j1, ?_⟩
      intro k p
      rw [j2, i2]
      by_cases hk : k = m2
      · subst hk; simp
      · by_cases hlt : k < m2
        · have : k < m2 + 1 := by omega
          simp [hk, hlt, this]
        · have : ¬ k < m2 + 1 := by omega
          simp [hk, hlt, this]
  exact key m (le_refl _)

/-! ### The energy shift -/

theorem create_shift_entries (ground omega : List ℚ) :
    HasShape omega.length ground.length (create_shift ground omega) ∧
    ∀ k p, k < omega.length → p < ground.length →
      get2 (create_shift ground omega) k p
        = if ground.getD p 0 + omega.getD k 0 > 0
          then -(ground.getD p 0 + omega.getD k 0 + 5 / 100) else 0 := by
  unfold create_shift
  simp only
  obtain ⟨h1, h2⟩ := for2_spec (HasShape omega.length ground.length) get2
    (fun k p old => if ground.getD p 0 + omega.getD k 0 > 0
      then -(ground.getD p 0 + omega.getD k 0 + 5 / 100) else old)
    omega.length ground.length
    (fun k p result =>
      if ground.getD p 0 + omega.getD k 0 > 0 then
        set2 result k p (-(ground.getD p 0 + omega.getD k 0 + 5 / 100))
      else result)
    (by intro k p t _ _ ht; dsimp only; split
        · exact set2_shape _ _ _ _ _ _ ht
        · exact ht)
    (by intro k p t k2 p2 hne; dsimp only; split
        · exact get2_set2_other _ _ _ _ _ _ hne
        · rfl)
    (by intro k p t ht hk hp; dsimp only; split
        · exact get2_set2_same _ _ _ _ _ _ ht hk hp
        · rfl)
    (zeros2 omega.length ground.length) (zeros2_shape _ _)
  refine ⟨h1, ?_⟩
  intro k p hk hp
  rw [h2, if_pos ⟨hk, hp⟩, get2_zeros2]

/-- C3. `create_shift` returns an `m`-by-`n` table (`m` excitation energies, `n` ground
energies) with `shift(k,p) = -(eps_p + omega_k + 0.05)` when `eps_p + omega_k > 0` and
`shift(k,p) = 0` otherwise; hence for every shifted pair
`eps_p + omega_k + shift(k,p) = -0.05`. -/
theorem create_shift_table (ground omega : List ℚ) :
    (create_shift ground omega).length = omega.length ∧
    (∀ row ∈ create_shift ground omega, row.length = ground.length) ∧
    ∀ k p, k < omega.length → p < ground.length →
      (ground.getD p 0 + omega.getD k 0 > 0 →
        get2 (create_shift ground omega) k p = -(ground.getD p 0 + omega.getD k 0 + 5 / 100) ∧
        ground.getD p 0 + omega.getD k 0 + get2 (create_shift ground omega) k p = -(5 / 100)) ∧
      (¬ ground.getD p 0 + omega.getD k 0 > 0 → get2 (create_shift ground omega) k p = 0) := by
  obtain ⟨⟨h1, h2⟩, h3⟩ := create_shift_entries ground omega
  refine ⟨h1, h2, ?_⟩
  intro k p hk hp
  rw [h3 k p hk hp]
  constructor
  · intro hpos
    rw [if_pos hpos]
    exact ⟨rfl, by ring⟩
  · intro hneg
    rw [if_neg hneg]

theorem create_shift_table_witness :
    ((1 : ℚ) + 1 / 4 > 0 ∧ get2 (create_shift [-1 / 2, 1] [1 / 4]) 0 1 = -(1 + 1 / 4 + 5 / 100) ∧
      (1 : ℚ) + 1 / 4 + get2 (create_shift [-1 / 2, 1] [1 / 4]) 0 1 = -(5 / 100)) ∧
    (¬ ((-1 / 2 : ℚ) + 1 / 4 > 0) ∧ get2 (create_shift [-1 / 2, 1] [1 / 4]) 0 0 = 0) :=
  ⟨⟨by norm_num,
      (((create_shift_table [-1 / 2, 1] [1 / 4]).2.2 0 1 (by decide) (by decide)).1
        (by norm_num)).1,
      (((create_shift_table [-1 / 2, 1] [1 / 4]).2.2 0 1 (by decide) (by decide)).1
        (by norm_num)).2⟩,
    ⟨by norm_num,
      ((create_shift_table [-1 / 2, 1] [1 / 4]).2.2 0 0 (by decide) (by decide)).2
        (by norm_num)⟩⟩

/-- C4 (amended). With `shift = create_shift(eps, omega)`, the number
`-2 * (eps_p + omega_k + shift(k,p))` whose square root `create_bsh_operators` takes is
non-negative for every state `k` and every orbital `p`, and it is strictly positive whenever
`eps_p + omega_k` is not `0`. -/
theorem bsh_argument_nonneg (ground omega : List ℚ) (k p : Nat)
    (hk : k < omega.length) (hp : p < ground.length) :
    0 ≤ bsh_argument (create_shift ground omega) ground omega k p ∧
    (ground.getD p 0 + omega.getD k 0 ≠ 0 →
      0 < bsh_argument (create_shift ground omega) ground omega k p) := by
  unfold bsh_argument
  rw [(create_shift_entries ground omega).2 k p hk hp]
  split
  · constructor
    · linarith
    · intro _; linarith
  · rename_i hneg
    have hle : ground.getD p 0 + omega.getD k 0 ≤ 0 := not_lt.1 hneg
    constructor
    · linarith
    · intro hne
      have : ground.getD p 0 + omega.getD k 0 < 0 := lt_of_le_of_ne hle hne
      linarith

theorem bsh_argument_nonneg_witness :
    0 < ([1 / 4] : List ℚ).length ∧ 1 < ([-1 / 2, 1] : List ℚ).length ∧
    0 ≤ bsh_argument (create_shift [-1 / 2, 1] [1 / 4]) [-1 / 2, 1] [1 / 4] 0 1 ∧
    (([-1 / 2, 1] : List ℚ).getD 1 0 + ([1 / 4] : List ℚ).getD 0 0 ≠ 0 →
      0 < bsh_argument (create_shift [-1 / 2, 1] [1 / 4]) [-1 / 2, 1] [1 / 4] 0 1) :=
  ⟨by decide, by decide,
    bsh_argument_nonneg [-1 / 2, 1] [1 / 4] 0 1 (by decide) (by decide)⟩

/-- C4, the claim as stated fails: for the ground energy `-0.5` and the excitation energy
`0.5` the sum is `0`, the test `ground(p) + omega(k) > 0` of `create_shift` leaves the shift
at `0`, and the number `-2 * (eps_p + omega_k + shift(k,p))` whose square root
`create_bsh_operators` takes is `0`, not strictly positive. -/
theorem bsh_argument_zero_at_boundary :
    create_shift [-1 / 2] [1 / 2] = [[0]] ∧
    bsh_argument (create_shift [-1 / 2] [1 / 2]) [-1 / 2] [1 / 2] 0 0 = 0 ∧
    ¬ (0 < bsh_argument (create_shift [-1 / 2] [1 / 2]) [-1 / 2] [1 / 2] 0 0) ∧
    create_bsh_operators (fun x => x) (create_shift [-1 / 2] [1 / 2]) [-1 / 2] [1 / 2]
      = [[0]] := by
  have h : create_shift [-1 / 2] [1 / 2] = [[0]] := by
    norm_num [create_shift, for2, zeros2, List.range, List.range.loop]
  rw [h]
  norm_num [bsh_argument, get2, create_bsh_operators, List.range, List.range.loop]

/-! ### Tables of inner products -/

theorem inner_fill_spec {F : Type} (ip : F → F → ℚ) (a b : List (List F)) (m1 m2 : Nat) :
    HasShape m1 m2 (for2 m1 m2
      (fun p k result => set2 result p k (inner ip (a.getD p []) (b.getD k [])))
      (zeros2 m1 m2)) ∧
    ∀ p k, p < m1 → k < m2 →
      get2 (for2 m1 m2
        (fun p k result => set2 result p k (inner ip (a.getD p []) (b.getD k [])))
        (zeros2 m1 m2)) p k = inner ip (a.getD p []) (b.getD k []) := by
  obtain ⟨h1, h2⟩ := for2_spec (HasShape m1 m2) get2
    (fun p k _ => inner ip (a.getD p []) (b.getD k [])) m1 m2
    (fun p k result => set2 result p k (inner ip (a.getD p []) (b.getD k [])))
    (fun k p t _ _ ht => set2_shape _ _ _ _ _ _ ht)
    (fun k p t k2 p2 hne => get2_set2_other _ _ _ _ _ _ hne)
    (fun k p t ht hk hp => get2_set2_same _ _ _ _ _ _ ht hk hp)
    (zeros2 m1 m2) (zeros2_shape _ _)
  refine ⟨h1, ?_⟩
  intro p k hp hk
  rw [h2, if_pos ⟨hp, hk⟩]

theorem inner_eq_sum {F : Type} [Zero F] (ip : F → F → ℚ) :
    ∀ (n : Nat) (a b : List F), a.length = n → b.length = n →
      inner ip a b = ∑ p in Finset.range n, ip (a.getD p 0) (b.getD p 0) := by
  intro n
  induction n with
  | zero =>
    intro a b ha hb
    rw [List.length_eq_zero] at ha hb
    subst ha; subst hb
    simp [inner]
  | succ n ih =>
    intro a b ha hb
    match a, b, ha, hb with
    | x :: xs, y :: ys, ha, hb =>
      have hxs : xs.length = n := by simpa using ha
      have hys : ys.length = n := by simpa using hb
      have := ih xs ys hxs hys
      unfold inner at this ⊢
      rw [Finset.sum_range_succ', List.zipWith_cons_cons, List.sum_cons, this]
      simp only [List.getD_cons_succ, List.getD_cons_zero]
      ring

theorem inner_comm {F : Type} (ip : F → F → ℚ) (hsym : ∀ a b, ip a b = ip b a)
    (a b : List F) : inner ip a b = inner ip b a := by
  unfold inner
  rw [List.zipWith_comm]
  have : (fun (y x : F) => ip x y) = ip := by
    funext y x
    exact hsym x y
  rw [this]

theorem getF_row {F : Type} [Zero F] (t : List (List F)) (k p : Nat) :
    (t.getD k []).getD p 0 = getF t k p := rfl

theorem shape_row_length {α : Type} (m n : Nat) (t : List (List α)) (h : HasShape m n t)
    (k : Nat) (hk : k < m) : (t.getD k []).length = n := by
  have hk2 : k < t.length := by rw [h.1]; exact hk
  rw [List.getD_eq_getElem _ _ hk2]
  exact h.2 _ (List.getElem_mem hk2)

/-- C7. `create_overlap(f, g)` returns the `m`-by-`m` matrix
`S(i,j) = Σ_p ⟨f_i[p], g_j[p]⟩`, and for an inner product of functions that is symmetric
the matrix `create_overlap(f, f)` is symmetric. -/
theorem create_overlap_entries_symmetric {F : Type} [Zero F] (ops : FieldOps F)
    (f g : List (List F)) (m n : Nat) (hf : HasShape m n f) (hg : HasShape m n g)
    (hsym : ∀ a b, ops.ip a b = ops.ip b a) :
    HasShape m m (create_overlap ops f g) ∧
    (∀ i j, i < m → j < m →
      get2 (create_overlap ops f g) i j
        = ∑ p in Finset.range n, ops.ip (getF f i p) (getF g j p)) ∧
    (∀ i j, i < m → j < m →
      get2 (create_overlap ops f f) i j = get2 (create_overlap ops f f) j i) := by
  unfold create_overlap
  simp only [hf.1]
  obtain ⟨h1, h2⟩ := inner_fill_spec ops.ip f g m m
  obtain ⟨_, h4⟩ := inner_fill_spec ops.ip f f m m
  refine ⟨h1, ?_, ?_⟩
  · intro i j hi hj
    rw [h2 i j hi hj]
    exact inner_eq_sum ops.ip n _ _ (shape_row_length m n f hf i hi)
      (shape_row_length m n g hg j hj)
  · intro i j hi hj
    rw [h4 i j hi hj, h4 j i hj hi]
    exact inner_comm ops.ip hsym _ _

theorem create_overlap_entries_symmetric_witness :
    HasShape 2 2 ([[1, 2], [3, 4]] : List (List ℚ)) ∧
    HasShape 2 2 ([[1, 0], [0, 1]] : List (List ℚ)) ∧
    (∀ a b, sample_ops.ip a b = sample_ops.ip b a) ∧
    (HasShape 2 2 (create_overlap sample_ops [[1, 2], [3, 4]] [[1, 0], [0, 1]]) ∧
    (∀ i j, i < 2 → j < 2 →
      get2 (create_overlap sample_ops [[1, 2], [3, 4]] [[1, 0], [0, 1]]) i j
        = ∑ p in Finset.range 2,
            sample_ops.ip (getF [[1, 2], [3, 4]] i p) (getF [[1, 0], [0, 1]] j p)) ∧
    (∀ i j, i < 2 → j < 2 →
      get2 (create_overlap sample_ops [[1, 2], [3, 4]] [[1, 2], [3, 4]]) i j
        = get2 (create_overlap sample_ops [[1, 2], [3, 4]] [[1, 2], [3, 4]]) j i)) :=
  ⟨by simp [HasShape], by simp [HasShape], fun a b => mul_comm a b,
    create_overlap_entries_symmetric sample_ops [[1, 2], [3, 4]] [[1, 0], [0, 1]] 2 2
      (by simp [HasShape]) (by simp [HasShape]) (fun a b => mul_comm a b)⟩

/-! ### Normalisation -/

theorem foldl_modify_range {α : Type} (h : α → α) (d : α) (l : List α) (n : Nat)
    (hn : n ≤ l.length) :
    (List.range n).foldl (fun acc i => acc.set i (h (acc.getD i d))) l
      = (l.take n).map h ++ l.drop n := by
  induction n with
  | zero => simp
  | succ n ih =>
    have hlt : n < l.length := hn
    rw [List.range_succ, List.foldl_append, ih (Nat.le_of_lt hlt)]
    simp only [List.foldl_cons, List.foldl_nil]
    have hlen : ((l.take n).map h).length = n := by simp; omega
    have hget : ((l.take n).map h ++ l.drop n).getD n d = l[n] := by
      rw [List.getD_eq_getElem?_getD, List.getElem?_append_right (by omega), hlen,
        Nat.sub_self, List.drop_eq_getElem_cons hlt]
      simp only [List.getElem?_cons_zero, Option.getD_some]
    rw [hget, List.set_append_right _ _ (by omega), hlen, Nat.sub_self,
      List.drop_eq_getElem_cons hlt, List.set_cons_zero, List.take_succ,
      List.getElem?_eq_getElem hlt]
    simp only [Option.toList_some, List.map_append, List.map_cons, List.map_nil,
      List.append_assoc, List.singleton_append]

theorem normalize_eq_map {K F : Type} [Add K] [Zero K] [One K] [Div K] [SMul K F]
    (ip : F → F → K) (sqrt : K → K) (f : List (List F)) :
    normalize ip sqrt f
      = f.map (fun v => v.map (fun g => (1 / sqrt (inner ip v v)) • g)) := by
  unfold normalize
  have := foldl_modify_range
    (fun v : List F => v.map (fun g => (1 / sqrt (inner ip v v)) • g)) [] f f.length
    (le_refl _)
  simp only [List.take_length, List.drop_length, List.append_nil] at this
  exact this

theorem inner_self {K F : Type} [Add K] [Zero K] (ip : F → F → K) (v : List F) :
    inner ip v v = (v.map (fun g => ip g g)).sum := by
  unfold inner
  induction v with
  | nil => rfl
  | cons x xs ih => simp [ih]

theorem sum_scaled {K F : Type} [Field K] [SMul K F] (ip : F → F → K) (c : K)
    (hbil : ∀ (c : K) (a b : F), ip (c • a) (c • b) = c * c * ip a b) (v : List F) :
    ((v.map (fun g => c • g)).map (fun g => ip g g)).sum
      = c * c * (v.map (fun g => ip g g)).sum := by
  induction v with
  | nil => simp
  | cons x xs ih =>
    simp only [List.map_cons, List.sum_cons, ih, hbil]
    ring

theorem normalize_unit_norm_of_root {K F : Type} [Field K] [SMul K F] (ip : F → F → K)
    (sqrt : K → K) (f : List (List F))
    (hbil : ∀ (c : K) (a b : F), ip (c • a) (c • b) = c * c * ip a b)
    (hsq : ∀ v ∈ f, sqrt (inner ip v v) * sqrt (inner ip v v) = inner ip v v)
    (hnz : ∀ v ∈ f, inner ip v v ≠ 0) :
    (normalize ip sqrt f).length = f.length ∧
    ∀ v ∈ normalize ip sqrt f, (v.map (fun g => ip g g)).sum = 1 := by
  rw [normalize_eq_map]
  refine ⟨by simp, ?_⟩
  intro v hv
  rw [List.mem_map] at hv
  obtain ⟨u, hu, rfl⟩ := hv
  rw [sum_scaled ip _ hbil, ← inner_self]
  have h1 := hsq u hu
  have h2 := hnz u hu
  have h3 : sqrt (inner ip u u) ≠ 0 := by
    intro h0
    rw [h0, mul_zero] at h1
    exact h2 h1.symm
  generalize sqrt (inner ip u u) = s at h1 h3
  rw [← h1]
  field_simp

theorem inner_self_nonneg {F : Type} (ip : F → F → ℝ) (hpos : ∀ g, 0 ≤ ip g g)
    (v : List F) : 0 ≤ inner ip v v := by
  rw [inner_self]
  apply List.sum_nonneg
  intro x hx
  rw [List.mem_map] at hx
  obtain ⟨g, _, rfl⟩ := hx
  exact hpos g

/-- C8. Over exact real arithmetic, with an inner product of functions that is bilinear
under scaling and non-negative on equal arguments: for every list of response vectors in
which each vector has non-zero norm, after `normalize` every vector `f` satisfies
`Σ_p ⟨f[p], f[p]⟩ = 1`. -/
theorem normalize_unit_norm {F : Type} [SMul ℝ F] (ip : F → F → ℝ) (f : List (List F))
    (hbil : ∀ (c : ℝ) (a b : F), ip (c • a) (c • b) = c * c * ip a b)
    (hpos : ∀ g, 0 ≤ ip g g)
    (hnz : ∀ v ∈ f, inner ip v v ≠ 0) :
    (normalize ip Real.sqrt f).length = f.length ∧
    ∀ v ∈ normalize ip Real.sqrt f, (v.map (fun g => ip g g)).sum = 1 :=
  normalize_unit_norm_of_root ip Real.sqrt f hbil
    (fun v _ => Real.mul_self_sqrt (inner_self_nonneg ip hpos v)) hnz

theorem normalize_unit_norm_witness :
    (∀ (c a b : ℝ), (c • a) * (c • b) = c * c * (a * b)) ∧
    (∀ g : ℝ, 0 ≤ g * g) ∧
    (∀ v ∈ ([[1, 1]] : List (List ℝ)), inner (fun a b : ℝ => a * b) v v ≠ 0) ∧
    ((normalize (fun a b : ℝ => a * b) Real.sqrt [[1, 1]]).length = 1 ∧
      ∀ v ∈ normalize (fun a b : ℝ => a * b) Real.sqrt [[1, 1]],
        (v.map (fun g => g * g)).sum = 1) :=
  ⟨by intro c a b; simp only [smul_eq_mul]; ring,
    fun g => mul_self_nonneg g,
    by norm_num [inner],
    normalize_unit_norm (fun a b : ℝ => a * b) [[1, 1]]
      (by intro c a b; simp only [smul_eq_mul]; ring) (fun g => mul_self_nonneg g)
      (by norm_num [inner])⟩

/-! ### Entry-wise operations on sets of response vectors -/

theorem getD_zipWith_lt {α β γ : Type} (g : α → β → γ) (a : List α) (b : List β) (i : Nat)
    (da : α) (db : β) (dc : γ) (ha : i < a.length) (hb : i < b.length) :
    (List.zipWith g a b).getD i dc = g (a.getD i da) (b.getD i db) := by
  rw [List.getD_eq_getElem _ _ ha, List.getD_eq_getElem _ _ hb,
    List.getD_eq_getElem _ _ (by simp; omega), List.getElem_zipWith]

theorem getD_map_lt {α β : Type} (g : α → β) (a : List α) (i : Nat) (da : α) (db : β)
    (ha : i < a.length) : (a.map g).getD i db = g (a.getD i da) := by
  rw [List.getD_eq_getElem _ _ ha, List.getD_eq_getElem _ _ (by simp; omega),
    List.getElem_map]

theorem shape_zip {α β γ : Type} (g : α → β → γ) (a : List (List α)) (b : List (List β))
    (m n : Nat) (ha : HasShape m n a) (hb : HasShape m n b) :
    HasShape m n (List.zipWith (List.zipWith g) a b) := by
  refine ⟨by simp [ha.1, hb.1], ?_⟩
  intro row hrow
  rw [List.mem_iff_getElem] at hrow
  obtain ⟨t, ht, rfl⟩ := hrow
  rw [List.getElem_zipWith, List.length_zipWith, ha.2 _ (List.getElem_mem _),
    hb.2 _ (List.getElem_mem _), Nat.min_self]

theorem shape_map {α β : Type} (g : α → β) (a : List (List α)) (m n : Nat)
    (ha : HasShape m n a) : HasShape m n (a.map (fun row => row.map g)) := by
  refine ⟨by simp [ha.1], ?_⟩
  intro row hrow
  rw [List.mem_map] at hrow
  obtain ⟨r, hr, rfl⟩ := hrow
  rw [List.length_map]
  exact ha.2 r hr

theorem getF_zip {F : Type} [Zero F] (g : F → F → F) (a b : List (List F)) (m n : Nat)
    (ha : HasShape m n a) (hb : HasShape m n b) (k p : Nat) (hk : k < m) (hp : p < n) :
    getF (List.zipWith (List.zipWith g) a b) k p = g (getF a k p) (getF b k p) := by
  unfold getF
  rw [getD_zipWith_lt _ a b k [] [] [] (by rw [ha.1]; exact hk) (by rw [hb.1]; exact hk)]
  exact getD_zipWith_lt g _ _ p 0 0 0 (by rw [shape_row_length m n a ha k hk]; exact hp)
    (by rw [shape_row_length m n b hb k hk]; exact hp)

theorem getF_map {F : Type} [Zero F] (g : F → F) (a : List (List F)) (m n : Nat)
    (ha : HasShape m n a) (k p : Nat) (hk : k < m) (hp : p < n) :
    getF (a.map (fun row => row.map g)) k p = g (getF a k p) := by
  unfold getF
  rw [getD_map_lt _ a k [] [] (by rw [ha.1]; exact hk)]
  exact getD_map_lt g _ p 0 0 (by rw [shape_row_length m n a ha k hk]; exact hp)

/-! ### The response matrix -/

theorem create_fock_entries {F : Type} [AddCommGroup F] [Module ℚ F] (ops : FieldOps F)
    (V f : List (List F)) (m n : Nat) (hV : HasShape m n V) (hf : HasShape m n f) :
    HasShape m n (create_fock ops V f) ∧
    ∀ j p, j < m → p < n →
      getF (create_fock ops V f) j p
        = ops.trunc ((-(1 / 2 : ℚ)) • (ops.Dx (ops.Dx (getF f j p))
            + ops.Dy (ops.Dy (getF f j p)) + ops.Dz (ops.Dz (getF f j p))) + getF V j p) := by
  have sx := shape_map ops.Dx _ m n (shape_map ops.Dx f m n hf)
  have sy := shape_map ops.Dy _ m n (shape_map ops.Dy f m n hf)
  have sz := shape_map ops.Dz _ m n (shape_map ops.Dz f m n hf)
  have s1 := shape_zip (fun a b : F => a + b) _ _ m n sx sy
  have s2 := shape_zip (fun a b : F => a + b) _ _ m n s1 sz
  have s3 := shape_map (fun g : F => (-(1 / 2 : ℚ)) • g) _ m n s2
  have s4 := shape_zip (fun a b : F => a + b) _ _ m n s3 hV
  have s5 := shape_map ops.trunc _ m n s4
  refine ⟨s5, ?_⟩
  intro j p hj hp
  unfold create_fock truncate operator_add scale apply
  simp only
  rw [getF_map _ _ m n s4 j p hj hp, getF_zip _ _ _ m n s3 hV j p hj hp,
    getF_map _ _ m n s2 j p hj hp, getF_zip _ _ _ m n s1 sz j p hj hp,
    getF_zip _ _ _ m n sx sy j p hj hp,
    getF_map _ _ m n (shape_map ops.Dx f m n hf) j p hj hp, getF_map _ _ m n hf j p hj hp,
    getF_map _ _ m n (shape_map ops.Dy f m n hf) j p hj hp, getF_map _ _ m n hf j p hj hp,
    getF_map _ _ m n (shape_map ops.Dz f m n hf) j p hj hp, getF_map _ _ m n hf j p hj hp]

/-- C6 (amended). For every set of `m` response vectors `f` (of `n` functions each) with
potential term `V` and `gamma`, `create_response_matrix` returns the `m`-by-`m` matrix
`A(k,j) = Σ_p ⟨f_k[p], gamma_j[p] + fock_j[p] - (H f)_j[p]⟩` where
`fock = truncate(-1/2 (d2/dx2 + d2/dy2 + d2/dz2) f + V)` is truncated to the current
threshold, and sets `fe` to `fock - H f`. -/
theorem create_response_matrix_entries {F : Type} [AddCommGroup F] [Module ℚ F]
    (ops : FieldOps F) (scale_2d : List (List F) → List (List ℚ) → List (List F))
    (gamma V f : List (List F)) (hamiltonian : List (List ℚ)) (m n : Nat)
    (hg : HasShape m n gamma) (hV : HasShape m n V) (hf : HasShape m n f)
    (hH : HasShape m n (scale_2d f hamiltonian)) :
    HasShape m m (create_response_matrix ops scale_2d gamma V f hamiltonian).1 ∧
    (∀ k j, k < m → j < m →
      get2 (create_response_matrix ops scale_2d gamma V f hamiltonian).1 k j
        = ∑ p in Finset.range n, ops.ip (getF f k p)
            (getF gamma j p
              + ops.trunc ((-(1 / 2 : ℚ)) • (ops.Dx (ops.Dx (getF f j p))
                  + ops.Dy (ops.Dy (getF f j p)) + ops.Dz (ops.Dz (getF f j p)))
                  + getF V j p)
              - getF (scale_2d f hamiltonian) j p)) ∧
    HasShape m n (create_response_matrix ops scale_2d gamma V f hamiltonian).2 ∧
    (∀ j p, j < m → p < n →
      getF (create_response_matrix ops scale_2d gamma V f hamiltonian).2 j p
        = ops.trunc ((-(1 / 2 : ℚ)) • (ops.Dx (ops.Dx (getF f j p))
              + ops.Dy (ops.Dy (getF f j p)) + ops.Dz (ops.Dz (getF f j p))) + getF V j p)
          - getF (scale_2d f hamiltonian) j p) := by
  obtain ⟨c1, c2⟩ := create_fock_entries ops V f m n hV hf
  have sfe : HasShape m n (operator_sub (create_fock ops V f) (scale_2d f hamiltonian)) :=
    shape_zip (fun a b : F => a - b) _ _ m n c1 hH
  have stemp : HasShape m n (operator_add gamma
      (operator_sub (create_fock ops V f) (scale_2d f hamiltonian))) :=
    shape_zip (fun a b : F => a + b) _ _ m n hg sfe
  have hfe : ∀ j p, j < m → p < n →
      getF (operator_sub (create_fock ops V f) (scale_2d f hamiltonian)) j p
        = ops.trunc ((-(1 / 2 : ℚ)) • (ops.Dx (ops.Dx (getF f j p))
              + ops.Dy (ops.Dy (getF f j p)) + ops.Dz (ops.Dz (getF f j p))) + getF V j p)
          - getF (scale_2d f hamiltonian) j p := by
    intro j p hj hp
    unfold operator_sub
    rw [getF_zip _ _ _ m n c1 hH j p hj hp, c2 j p hj hp]
  unfold create_response_matrix
  simp only [hV.1]
  obtain ⟨i1, i2⟩ := inner_fill_spec ops.ip f
    (operator_add gamma (operator_sub (create_fock ops V f) (scale_2d f hamiltonian))) m m
  refine ⟨i1, ?_, sfe, hfe⟩
  intro k j hk hj
  rw [i2 k j hk hj, inner_eq_sum ops.ip n _ _ (shape_row_length m n f hf k hk)
    (shape_row_length m n _ stemp j hj)]
  apply Finset.sum_congr rfl
  intro p hp
  have hp2 : p < n := Finset.mem_range.1 hp
  rw [getF_row, getF_row]
  unfold operator_add
  rw [getF_zip _ _ _ m n hg sfe j p hj hp2, hfe j p hj hp2]
  congr 1
  abel

theorem create_response_matrix_entries_witness :
    HasShape 1 1 ([[0]] : List (List ℚ)) ∧ HasShape 1 1 ([[3]] : List (List ℚ)) ∧
    HasShape 1 1 ([[1]] : List (List ℚ)) ∧
    get2 (create_response_matrix threshold_ops (fun f _ => f) [[0]] [[3]] [[1]] [[1]]).1 0 0
      = ∑ p in Finset.range 1, threshold_ops.ip (getF [[1]] 0 p)
          (getF [[0]] 0 p
            + threshold_ops.trunc
                ((-(1 / 2 : ℚ)) • (threshold_ops.Dx (threshold_ops.Dx (getF [[1]] 0 p))
                  + threshold_ops.Dy (threshold_ops.Dy (getF [[1]] 0 p))
                  + threshold_ops.Dz (threshold_ops.Dz (getF [[1]] 0 p))) + getF [[3]] 0 p)
            - getF [[1]] 0 p) :=
  ⟨by simp [HasShape], by simp [HasShape], by simp [HasShape],
    (create_response_matrix_entries threshold_ops (fun f _ => f) [[0]] [[3]] [[1]] [[1]] 1 1
      (by simp [HasShape]) (by simp [HasShape]) (by simp [HasShape])
      (by simp [HasShape])).2.1 0 0 (by decide) (by decide)⟩

/-- C6, the claim as stated fails: with a truncation that drops a function whose value is
below `1`, for one state of one function `f = 1` with `V = 3`, `gamma = 0` and `H f = f`,
the untruncated `-1/2 (d2/dx2 + d2/dy2 + d2/dz2) f + V` is `1/2` and the claim's formula
gives `A(0,0) = -1/2` and `fe = -1/2`, while `create_fock` truncates `1/2` to `0` and
`create_response_matrix` returns `A(0,0) = -1` and sets `fe = -1`. -/
theorem create_response_matrix_truncates :
    (-(1 / 2 : ℚ)) • (threshold_ops.Dx (threshold_ops.Dx 1)
      + threshold_ops.Dy (threshold_ops.Dy 1) + threshold_ops.Dz (threshold_ops.Dz 1)) + 3
      = 1 / 2 ∧
    create_response_matrix threshold_ops (fun f _ => f) [[0]] [[3]] [[1]] [[1]]
      = ([[-1]], [[-1]]) ∧
    get2 (create_response_matrix threshold_ops (fun f _ => f) [[0]] [[3]] [[1]] [[1]]).1 0 0
      ≠ ∑ p in Finset.range 1, threshold_ops.ip (getF [[1]] 0 p)
          (getF [[0]] 0 p
            + ((-(1 / 2 : ℚ)) • (threshold_ops.Dx (threshold_ops.Dx (getF [[1]] 0 p))
                + threshold_ops.Dy (threshold_ops.Dy (getF [[1]] 0 p))
                + threshold_ops.Dz (threshold_ops.Dz (getF [[1]] 0 p))) + getF [[3]] 0 p)
            - getF [[1]] 0 p) ∧
    getF (create_response_matrix threshold_ops (fun f _ => f) [[0]] [[3]] [[1]] [[1]]).2 0 0
      ≠ ((-(1 / 2 : ℚ)) • (threshold_ops.Dx (threshold_ops.Dx (getF [[1]] 0 0))
            + threshold_ops.Dy (threshold_ops.Dy (getF [[1]] 0 0))
            + threshold_ops.Dz (threshold_ops.Dz (getF [[1]] 0 0))) + getF [[3]] 0 0)
          - getF [[1]] 0 0 := by
  have h : create_response_matrix threshold_ops (fun f _ => f) [[0]] [[3]] [[1]] [[1]]
      = ([[-1]], [[-1]]) := by
    norm_num [create_response_matrix, create_fock, operator_add, operator_sub, scale, apply,
      truncate, for2, set2, zeros2, inner, threshold_ops, List.range, List.range.loop,
      List.replicate, abs_lt]
  rw [h]
  refine ⟨?_, rfl, ?_, ?_⟩
  · norm_num [threshold_ops]
  · norm_num [threshold_ops, getF, get2, Finset.sum_range_succ]
  · norm_num [threshold_ops, getF]

/-! ### The coupled response matrix -/

theorem get2_neg2 (t : List (List ℚ)) (i j : Nat) : get2 (neg2 t) i j = -get2 t i j := by
  unfold get2 neg2
  simp only [List.getD_eq_getElem?_getD, List.getElem?_map]
  cases t[i]? with
  | none => simp
  | some row =>
    simp only [Option.map_some', Option.getD_some, List.getElem?_map]
    cases row[j]? with
    | none => simp
    | some v => simp

theorem set_slice_spec (M N : Nat) (t : List (List ℚ)) (ht : HasShape M N t)
    (rlo rhi clo chi : Nat) (hr : rhi < M) (hc : chi < N) (src : List (List ℚ)) :
    HasShape M N (set_slice t rlo rhi clo chi src) ∧
    (∀ i j, rlo + i ≤ rhi → clo + j ≤ chi →
      get2 (set_slice t rlo rhi clo chi src) (rlo + i) (clo + j) = get2 src i j) ∧
    (∀ a b, ¬ (rlo ≤ a ∧ a ≤ rhi ∧ clo ≤ b ∧ b ≤ chi) →
      get2 (set_slice t rlo rhi clo chi src) a b = get2 t a b) := by
  unfold set_slice
  have main : ∀ a b, ¬ (rlo ≤ a ∧ a ≤ rhi ∧ clo ≤ b ∧ b ≤ chi) →
      (HasShape M N (for2 (rhi + 1 - rlo) (chi + 1 - clo)
          (fun i j t => set2 t (rlo + i) (clo + j) (get2 src i j)) t) ∧
        get2 (for2 (rhi + 1 - rlo) (chi + 1 - clo)
          (fun i j t => set2 t (rlo + i) (clo + j) (get2 src i j)) t) a b = get2 t a b) ∧
      ∀ i j, get2 (for2 (rhi + 1 - rlo) (chi + 1 - clo)
          (fun i j t => set2 t (rlo + i) (clo + j) (get2 src i j)) t) (rlo + i) (clo + j)
        = if i < rhi + 1 - rlo ∧ j < chi + 1 - clo then get2 src i j
          else get2 t (rlo + i) (clo + j) := by
    intro a b hab
    exact for2_spec (fun s => HasShape M N s ∧ get2 s a b = get2 t a b)
      (fun s i j => get2 s (rlo + i) (clo + j)) (fun i j _ => get2 src i j)
      (rhi + 1 - rlo) (chi + 1 - clo)
      (fun i j t => set2 t (rlo + i) (clo + j) (get2 src i j))
      (by
        intro k p s hk hp hs
        refine ⟨set2_shape _ _ _ _ _ _ hs.1, ?_⟩
        rw [get2_set2_other _ _ _ _ _ _ (by intro h; apply hab; omega)]
        exact hs.2)
      (by
        intro k p s k2 p2 hne
        exact get2_set2_other _ _ _ _ _ _ (by intro h; apply hne; omega))
      (by
        intro k p s hs hk hp
        exact get2_set2_same M N _ _ _ _ hs.1 (by omega) (by omega))
      t ⟨ht, rfl⟩
  have hout : ¬ (rlo ≤ M ∧ M ≤ rhi ∧ clo ≤ N ∧ N ≤ chi) := by omega
  refine ⟨(main M N hout).1.1, ?_, ?_⟩
  · intro i j hi hj
    rw [(main M N hout).2 i j, if_pos ⟨by omega, by omega⟩]
  · intro a b hab
    exact (main a b hab).1.2

theorem expectation_loops {F : Type} (ip : F → F → ℚ) (a b : List (List F)) (m n : Nat)
    (init : List (List ℚ)) :
    ((∀ p k, p < m → k < n → (a.getD p []).length = (b.getD k []).length) →
      for_except (fun p result =>
        for_except (fun k result =>
          match inner_world ip (a.getD p []) (b.getD k []) with
          | Except.ok t => Except.ok (set2 result p k t.sum)
          | Except.error e => Except.error e) (List.range n) result)
        (List.range m) init
      = Except.ok (for2 m n
          (fun p k result => set2 result p k (inner ip (a.getD p []) (b.getD k []))) init)) ∧
    ((¬ ∀ p k, p < m → k < n → (a.getD p []).length = (b.getD k []).length) →
      ∃ e, for_except (fun p result =>
        for_except (fun k result =>
          match inner_world ip (a.getD p []) (b.getD k []) with
          | Except.ok t => Except.ok (set2 result p k t.sum)
          | Except.error e => Except.error e) (List.range n) result)
        (List.range m) init = Except.error e) := by
  have hin : ∀ p, ∀ (l : List Nat) (s : List (List ℚ)),
      ((∀ k ∈ l, (a.getD p []).length = (b.getD k []).length) →
        for_except (fun k result =>
          match inner_world ip (a.getD p []) (b.getD k []) with
          | Except.ok t => Except.ok (set2 result p k t.sum)
          | Except.error e => Except.error e) l s
        = Except.ok (l.foldl
            (fun s k => set2 s p k (inner ip (a.getD p []) (b.getD k []))) s)) ∧
      ((¬ ∀ k ∈ l, (a.getD p []).length = (b.getD k []).length) →
        ∃ e, for_except (fun k result =>
          match inner_world ip (a.getD p []) (b.getD k []) with
          | Except.ok t => Except.ok (set2 result p k t.sum)
          | Except.error e => Except.error e) l s = Except.error e) := by
    intro p
    apply for_except_guarded (fun k => (a.getD p []).length = (b.getD k []).length)
      (fun k s => set2 s p k (inner ip (a.getD p []) (b.getD k [])))
    · intro k s hc
      simp only [inner_world, if_pos hc]
      rfl
    · intro k s hc
      simp only [inner_world, if_neg hc]
      exact ⟨_, rfl⟩
  have hout := for_except_guarded
    (fun p => ∀ k ∈ List.range n, (a.getD p []).length = (b.getD k []).length)
    (fun p s => (List.range n).foldl
      (fun s k => set2 s p k (inner ip (a.getD p []) (b.getD k []))) s)
    (fun p result =>
      for_except (fun k result =>
        match inner_world ip (a.getD p []) (b.getD k []) with
        | Except.ok t => Except.ok (set2 result p k t.sum)
        | Except.error e => Except.error e) (List.range n) result)
    (fun p s hc => (hin p (List.range n) s).1 hc)
    (fun p s hc => (hin p (List.range n) s).2 hc)
    (List.range m) init
  constructor
  · intro hall
    rw [hout.1 (fun p hp k hk => hall p k (List.mem_range.1 hp) (List.mem_range.1 hk))]
    rfl
  · intro hnot
    apply hout.2
    intro hall
    apply hnot
    intro p k hp hk
    exact hall p (List.mem_range.2 hp) k (List.mem_range.2 hk)

theorem expectation_ok {F : Type} (ops : FieldOps F) (a b : List (List F)) (m n : Nat)
    (hm : 0 < m) (hn : 0 < n) (ha : HasShape m n a) (hb : HasShape m n b) :
    expectation ops a b = Except.ok (for2 m m
      (fun p k result => set2 result p k (inner ops.ip (a.getD p []) (b.getD k [])))
      (zeros2 m m)) := by
  unfold expectation
  have h3 : (b.getD 0 []).length = n := shape_row_length m n b hb 0 hm
  simp only [ha.1, hb.1, h3]
  rw [if_neg (by simp; omega), if_neg (by simp), if_neg (by simp; omega)]
  apply (expectation_loops ops.ip a b m m _).1
  intro p k hp hk
  rw [shape_row_length m n a ha p hp, shape_row_length m n b hb k hk]

/-- C5, the claim as stated fails for states without orbital functions: with one state of no
functions (`m = 1`, `n = 0`) the third assertion of `expectation` fails and no matrix is
returned. -/
theorem create_full_response_matrix_no_orbitals :
    create_full_response_matrix sample_ops (fun f _ => f) (fun f _ => f)
      [[]] [[]] [[]] [[]] [[]] [[]] [] []
      = Except.error "MADNESS_ASSERT(b[0].size() > 0)" := by
  rfl

/-- C5 (amended). For every `m >= 1` and every `n >= 1` such that `x`, `y`, `B(x)` and `B(y)`
each hold `m` states of `n` orbital functions (every state holds at least one orbital
function), `create_full_response_matrix` returns a `2m`-by-`2m` matrix whose top-left
`m`-by-`m` block is `A_x`, top-right block is `B_y`, bottom-left block is `-B_x` and
bottom-right block is `-A_y`, where `A_x` and `A_y` are the matrices built by
`create_response_matrix` for the x and y sets and `B_x(i,j) = ⟨x_i, B(x)_j⟩`,
`B_y(i,j) = ⟨y_i, B(y)_j⟩`. -/
theorem create_full_response_matrix_blocks {F : Type} [AddCommGroup F] [Module ℚ F]
    (ops : FieldOps F) (scale_2d : List (List F) → List (List ℚ) → List (List F))
    (create_B : List (List F) → List F → List (List F))
    (x_b Vx x y_b Vy y : List (List F)) (ground_orbitals : List F)
    (ground_ham : List (List ℚ)) (m n : Nat) (hm : 0 < m) (hn : 0 < n)
    (hxs : HasShape m n x) (hys : HasShape m n y)
    (hBx : HasShape m n (create_B x ground_orbitals))
    (hBy : HasShape m n (create_B y ground_orbitals)) :
    ∃ M, create_full_response_matrix ops scale_2d create_B x_b Vx x y_b Vy y
        ground_orbitals ground_ham = Except.ok M ∧
      HasShape (2 * m) (2 * m) M ∧
      ∀ i j, i < m → j < m →
        get2 M i j = get2 (create_response_matrix ops scale_2d x_b Vx x ground_ham).1 i j ∧
        get2 M i (m + j)
          = inner ops.ip (y.getD i []) ((create_B y ground_orbitals).getD j []) ∧
        get2 M (m + i) j
          = -inner ops.ip (x.getD i []) ((create_B x ground_orbitals).getD j []) ∧
        get2 M (m + i) (m + j)
          = -get2 (create_response_matrix ops scale_2d y_b Vy y ground_ham).1 i j := by
  have hx : x.length = m := hxs.1
  have ex := expectation_ok ops x (create_B x ground_orbitals) m n hm hn hxs hBx
  have ey := expectation_ok ops y (create_B y ground_orbitals) m n hm hn hys hBy
  obtain ⟨_, bx⟩ := inner_fill_spec ops.ip x (create_B x ground_orbitals) m m
  obtain ⟨_, by2⟩ := inner_fill_spec ops.ip y (create_B y ground_orbitals) m m
  generalize for2 m m (fun p k result => set2 result p k
    (inner ops.ip (x.getD p []) ((create_B x ground_orbitals).getD k []))) (zeros2 m m)
    = B_x at ex bx
  generalize for2 m m (fun p k result => set2 result p k
    (inner ops.ip (y.getD p []) ((create_B y ground_orbitals).getD k []))) (zeros2 m m)
    = B_y at ey by2
  unfold create_full_response_matrix
  simp only [hx, ex, ey, bind, Except.bind, pure, Except.pure]
  generalize (create_response_matrix ops scale_2d x_b Vx x ground_ham).1 = A_x
  generalize (create_response_matrix ops scale_2d y_b Vy y ground_ham).1 = A_y
  obtain ⟨s1, a1, o1⟩ := set_slice_spec (2 * m) (2 * m) _ (zeros2_shape (2 * m) (2 * m))
    0 (m - 1) 0 (m - 1) (by omega) (by omega) A_x
  obtain ⟨s2, a2, o2⟩ := set_slice_spec (2 * m) (2 * m) _ s1
    0 (m - 1) m (2 * m - 1) (by omega) (by omega) B_y
  obtain ⟨s3, a3, o3⟩ := set_slice_spec (2 * m) (2 * m) _ s2
    m (2 * m - 1) 0 (m - 1) (by omega) (by omega) (neg2 B_x)
  obtain ⟨s4, a4, o4⟩ := set_slice_spec (2 * m) (2 * m) _ s3
    m (2 * m - 1) m (2 * m - 1) (by omega) (by omega) (neg2 A_y)
  refine ⟨_, rfl, s4, ?_⟩
  intro i j hi hj
  refine ⟨?_, ?_, ?_, ?_⟩
  · rw [o4 i j (by omega), o3 i j (by omega), o2 i j (by omega)]
    have := a1 i j (by omega) (by omega)
    simp only [Nat.zero_add] at this
    exact this
  · rw [o4 i (m + j) (by omega), o3 i (m + j) (by omega)]
    have := a2 i j (by omega) (by omega)
    simp only [Nat.zero_add] at this
    rw [this, by2 i j hi hj]
  · rw [o4 (m + i) j (by omega)]
    have := a3 i j (by omega) (by omega)
    simp only [Nat.zero_add] at this
    rw [this, get2_neg2, bx i j hi hj]
  · rw [a4 i j (by omega) (by omega), get2_neg2]

/-! ### The assertion on the imaginary parts -/

theorem foldl_max_eq_zero_iff (l : List ℚ) :
    ∀ a, 0 ≤ a → (∀ v ∈ l, 0 ≤ v) → (l.foldl max a = 0 ↔ a = 0 ∧ ∀ v ∈ l, v = 0) := by
  induction l with
  | nil => intro a _ _; simp
  | cons x xs ih =>
    intro a ha hl
    have hx : 0 ≤ x := hl x (List.mem_cons_self _ _)
    have hxs : ∀ v ∈ xs, 0 ≤ v := fun v hv => hl v (List.mem_cons_of_mem _ hv)
    rw [List.foldl_cons, ih (max a x) (le_max_of_le_left ha) hxs]
    constructor
    · rintro ⟨h1, h2⟩
      have h3 : a ≤ 0 := h1 ▸ le_max_left a x
      have h4 : x ≤ 0 := h1 ▸ le_max_right a x
      refine ⟨le_antisymm h3 ha, ?_⟩
      intro v hv
      rcases List.mem_cons.1 hv with e | e
      · rw [e]; exact le_antisymm h4 hx
      · exact h2 v e
    · rintro ⟨h1, h2⟩
      refine ⟨?_, fun v hv => h2 v (List.mem_cons_of_mem _ hv)⟩
      rw [h1, h2 x (List.mem_cons_self _ _), max_self]

theorem tensor_max_abs_eq_zero_iff (omega : List (ℚ × ℚ)) :
    tensor_max (omega.map (fun z => |z.2|)) = 0 ↔ ∀ z ∈ omega, z.2 = 0 := by
  cases omega with
  | nil => simp [tensor_max]
  | cons z zs =>
    simp only [List.map_cons, tensor_max]
    rw [foldl_max_eq_zero_iff _ _ (abs_nonneg _)
      (by intro v hv; rw [List.mem_map] at hv; obtain ⟨w, _, rfl⟩ := hv; exact abs_nonneg _)]
    simp only [List.mem_map, forall_exists_index, and_imp, forall_apply_eq_imp_iff₂,
      abs_eq_zero, List.mem_cons, forall_eq_or_imp]

/-- C10. `get_full_response_transformation` never returns normally when an eigenvalue
delivered by the non-symmetric eigensolver has a non-zero imaginary part: its assertion fails
exactly when the largest absolute imaginary part is not zero, and otherwise `evals` are the
real parts, with which the function goes on. -/
theorem get_full_response_transformation_real_only {β : Type}
    (ggevp : List (List ℚ) → List (List ℚ) → List (List ℚ) × List (ℚ × ℚ))
    (post : List (List ℚ) → List ℚ → Except String β)
    (overlap full_response : List (List ℚ)) :
    ((∃ z ∈ (ggevp full_response overlap).2, z.2 ≠ 0) ↔
      tensor_max ((ggevp full_response overlap).2.map (fun z => |z.2|)) ≠ 0) ∧
    (tensor_max ((ggevp full_response overlap).2.map (fun z => |z.2|)) ≠ 0 ↔
      real_eigenvalues (ggevp full_response overlap).2
        = Except.error "MADNESS_ASSERT(max_imag == 0)") ∧
    (tensor_max ((ggevp full_response overlap).2.map (fun z => |z.2|)) ≠ 0 →
      get_full_response_transformation ggevp post overlap full_response
        = Except.error "MADNESS_ASSERT(max_imag == 0)") ∧
    (tensor_max ((ggevp full_response overlap).2.map (fun z => |z.2|)) = 0 →
      real_eigenvalues (ggevp full_response overlap).2
        = Except.ok ((ggevp full_response overlap).2.map (fun z => z.1)) ∧
      get_full_response_transformation ggevp post overlap full_response
        = post (ggevp full_response overlap).1
            ((ggevp full_response overlap).2.map (fun z => z.1))) := by
  refine ⟨?_, ?_, ?_, ?_⟩
  · rw [Ne, tensor_max_abs_eq_zero_iff]
    push_neg
    rfl
  · unfold real_eigenvalues
    constructor
    · intro h
      simp only [h, not_false_eq_true, if_true]
    · intro h hz
      simp only [hz, not_true_eq_false, if_false] at h
      cases h
  · intro h
    unfold get_full_response_transformation real_eigenvalues
    simp only [h, not_false_eq_true, if_true]
    rfl
  · intro h
    unfold get_full_response_transformation real_eigenvalues
    simp only [h, not_true_eq_false, if_false]
    exact ⟨trivial, rfl⟩

theorem get_full_response_transformation_real_only_witness :
    tensor_max (([((2 : ℚ), (1 : ℚ))] : List (ℚ × ℚ)).map (fun z => |z.2|)) ≠ 0 ∧
    get_full_response_transformation (fun _ _ => ([[1]], [((2 : ℚ), (1 : ℚ))]))
      (fun U _ => Except.ok U) [[1]] [[3]]
      = Except.error "MADNESS_ASSERT(max_imag == 0)" :=
  ⟨by norm_num [tensor_max],
    (get_full_response_transformation_real_only (fun _ _ => ([[1]], [((2 : ℚ), (1 : ℚ))]))
      (fun U _ => Except.ok U) [[1]] [[3]]).2.2.1 (by norm_num [tensor_max])⟩

/-! ### The rotation of a cluster -/

theorem tabulate2_shape (m n : Nat) (e : Nat → Nat → ℚ) : HasShape m n (tabulate2 m n e) := by
  refine ⟨by simp [tabulate2], ?_⟩
  intro row hrow
  unfold tabulate2 at hrow
  rw [List.mem_map] at hrow
  obtain ⟨i, _, rfl⟩ := hrow
  simp

theorem get2_tabulate2 (m n : Nat) (e : Nat → Nat → ℚ) (i j : Nat) (hi : i < m) (hj : j < n) :
    get2 (tabulate2 m n e) i j = e i j := by
  unfold get2 tabulate2
  rw [getD_map_lt _ _ i 0 [] (by simpa using hi), getD_map_lt _ _ j 0 0 (by simpa using hj)]
  simp only [List.getD_eq_getElem?_getD]
  rw [List.getElem?_range hi, List.getElem?_range hj]
  rfl

theorem get2_inner2 (A B : List (List ℚ)) (m k n : Nat) (hA : A.length = m)
    (hB : HasShape k n B) (hk : 0 < k) (i j : Nat) (hi : i < m) (hj : j < n) :
    get2 (inner2 A B) i j = ∑ t in Finset.range k, get2 A i t * get2 B t j := by
  unfold inner2
  rw [hA, shape_row_length k n B hB 0 hk, hB.1, get2_tabulate2 _ _ _ _ _ hi hj]

theorem get2_transpose2 (t : List (List ℚ)) (m n : Nat) (ht : HasShape m n t) (hm : 0 < m)
    (i j : Nat) (hi : i < n) (hj : j < m) : get2 (transpose2 t) i j = get2 t j i := by
  unfold transpose2
  rw [shape_row_length m n t ht 0 hm, ht.1, get2_tabulate2 _ _ _ _ _ hi hj]

theorem ext2 (m n : Nat) (A B : List (List ℚ)) (hA : HasShape m n A) (hB : HasShape m n B)
    (h : ∀ i j, i < m → j < n → get2 A i j = get2 B i j) : A = B := by
  apply List.ext_getElem
  · rw [hA.1, hB.1]
  · intro i h1 h2
    have hi : i < m := by rw [← hA.1]; exact h1
    have hla : A[i].length = n := hA.2 _ (List.getElem_mem h1)
    have hlb : B[i].length = n := hB.2 _ (List.getElem_mem h2)
    apply List.ext_getElem
    · rw [hla, hlb]
    · intro j h3 h4
      have := h i j hi (by rw [← hla]; exact h3)
      unfold get2 at this
      rw [List.getD_eq_getElem _ _ h1, List.getD_eq_getElem _ _ h2,
        List.getD_eq_getElem _ _ h3, List.getD_eq_getElem _ _ h4] at this
      exact this

theorem polar_algebra (c : Nat) (X W VH : Nat → Nat → ℚ)
    (horth : ∀ u v, u < c → v < c →
      ∑ t in Finset.range c, VH u t * VH v t = if u = v then 1 else 0) (a b : Nat) :
    ∑ t in Finset.range c,
        (∑ u in Finset.range c, X a u * VH u t) * (∑ v in Finset.range c, W b v * VH v t)
      = ∑ u in Finset.range c, X a u * W b u := by
  have h1 : ∀ t, t ∈ Finset.range c →
      (∑ u in Finset.range c, X a u * VH u t) * (∑ v in Finset.range c, W b v * VH v t)
        = ∑ u in Finset.range c, ∑ v in Finset.range c,
            X a u * W b v * (VH u t * VH v t) := by
    intro t _
    rw [Finset.sum_mul_sum]
    apply Finset.sum_congr rfl
    intro u _
    apply Finset.sum_congr rfl
    intro v _
    ring
  rw [Finset.sum_congr rfl h1, Finset.sum_comm]
  apply Finset.sum_congr rfl
  intro u hu
  rw [Finset.sum_comm]
  have h2 : ∀ v, v ∈ Finset.range c →
      ∑ t in Finset.range c, X a u * W b v * (VH u t * VH v t)
        = if u = v then X a u * W b v else 0 := by
    intro v hv
    rw [← Finset.mul_sum, horth u v (Finset.mem_range.1 hu) (Finset.mem_range.1 hv)]
    split <;> simp
  rw [Finset.sum_congr rfl h2, Finset.sum_ite_eq, if_pos hu]

theorem inner2_shape (A B : List (List ℚ)) (m k n : Nat) (hA : A.length = m)
    (hB : HasShape k n B) (hk : 0 < k) : HasShape m n (inner2 A B) := by
  unfold inner2
  rw [hA, shape_row_length k n B hB 0 hk]
  exact tabulate2_shape _ _ _

theorem transpose2_shape (t : List (List ℚ)) (m n : Nat) (ht : HasShape m n t) (hm : 0 < m) :
    HasShape n m (transpose2 t) := by
  unfold transpose2
  rw [shape_row_length m n t ht 0 hm, ht.1]
  exact tabulate2_shape _ _ _

theorem rotate_cluster_entries
    (svd : List (List ℚ) → List (List ℚ) × List ℚ × List (List ℚ))
    (U : List (List ℚ)) (nmo ilo ihi : Nat) (hU : HasShape nmo nmo U)
    (hlo : ilo ≤ ihi) (hhi : ihi < nmo)
    (hW : HasShape (ihi + 1 - ilo) (ihi + 1 - ilo) (svd (slice2 U ilo ihi ilo ihi)).1)
    (hVH : HasShape (ihi + 1 - ilo) (ihi + 1 - ilo) (svd (slice2 U ilo ihi ilo ihi)).2.2) :
    HasShape nmo nmo (rotate_cluster svd U ilo ihi) ∧
    (∀ r b, r < nmo → b < ihi + 1 - ilo →
      get2 (rotate_cluster svd U ilo ihi) r (ilo + b)
        = ∑ t in Finset.range (ihi + 1 - ilo), get2 U r (ilo + t)
            * get2 (inner2 (svd (slice2 U ilo ihi ilo ihi)).1
                (svd (slice2 U ilo ihi ilo ihi)).2.2) b t) ∧
    (∀ r c, ¬ (ilo ≤ c ∧ c ≤ ihi) → get2 (rotate_cluster svd U ilo ihi) r c = get2 U r c) := by
  have hc : 0 < ihi + 1 - ilo := by omega
  have sP := inner2_shape _ _ _ _ _ hW.1 hVH hc
  have sq := transpose2_shape _ _ _ sP hc
  have scols : HasShape (nmo - 1 + 1 - 0) (ihi + 1 - ilo) (slice2 U 0 (nmo - 1) ilo ihi) :=
    tabulate2_shape _ _ _
  obtain ⟨s1, a1, o1⟩ := set_slice_spec nmo nmo U hU 0 (nmo - 1) ilo ihi (by omega) hhi
    (inner2 (slice2 U 0 (nmo - 1) ilo ihi)
      (transpose2 (inner2 (svd (slice2 U ilo ihi ilo ihi)).1
        (svd (slice2 U ilo ihi ilo ihi)).2.2)))
  unfold rotate_cluster
  simp only [hU.1]
  refine ⟨s1, ?_, ?_⟩
  · intro r b hr hb
    have := a1 r b (by omega) (by omega)
    rw [Nat.zero_add] at this
    rw [this, get2_inner2 _ _ (nmo - 1 + 1 - 0) _ _ scols.1 sq hc r b (by omega) hb]
    apply Finset.sum_congr rfl
    intro t ht
    have ht2 : t < ihi + 1 - ilo := Finset.mem_range.1 ht
    rw [get2_transpose2 _ _ _ sP hc t b ht2 hb]
    unfold slice2
    rw [get2_tabulate2 _ _ _ _ _ (by omega) ht2, Nat.zero_add]
  · intro r c hrc
    exact o1 r c (by omega)

/-- C9 (amended). For every cluster `[ilo, ihi]`, after the rotation step the sub-block
`U[ilo..ihi, ilo..ihi]` equals `q * transpose(W*VH)`, the sub-block `q` it held before the
step multiplied by the transpose of the orthogonal factor `W*VH`; when
`q = W*diag(sigma)*VH` with `VH` orthogonal this is `W*diag(sigma)*transpose(W)`, the
symmetric factor of the polar decomposition of `q`. -/
theorem rotate_cluster_subblock
    (svd : List (List ℚ) → List (List ℚ) × List ℚ × List (List ℚ))
    (U : List (List ℚ)) (nmo ilo ihi : Nat) (hU : HasShape nmo nmo U)
    (hlo : ilo ≤ ihi) (hhi : ihi < nmo)
    (hW : HasShape (ihi + 1 - ilo) (ihi + 1 - ilo) (svd (slice2 U ilo ihi ilo ihi)).1)
    (hVH : HasShape (ihi + 1 - ilo) (ihi + 1 - ilo) (svd (slice2 U ilo ihi ilo ihi)).2.2) :
    slice2 (rotate_cluster svd U ilo ihi) ilo ihi ilo ihi
      = inner2 (slice2 U ilo ihi ilo ihi)
          (transpose2 (inner2 (svd (slice2 U ilo ihi ilo ihi)).1
            (svd (slice2 U ilo ihi ilo ihi)).2.2)) ∧
    ((svd (slice2 U ilo ihi ilo ihi)).2.1.length = ihi + 1 - ilo →
      slice2 U ilo ihi ilo ihi
        = inner2 (inner2 (svd (slice2 U ilo ihi ilo ihi)).1
            (diag2 (svd (slice2 U ilo ihi ilo ihi)).2.1))
            (svd (slice2 U ilo ihi ilo ihi)).2.2 →
      inner2 (svd (slice2 U ilo ihi ilo ihi)).2.2
          (transpose2 (svd (slice2 U ilo ihi ilo ihi)).2.2) = identity2 (ihi + 1 - ilo) →
      slice2 (rotate_cluster svd U ilo ihi) ilo ihi ilo ihi
        = inner2 (inner2 (svd (slice2 U ilo ihi ilo ihi)).1
            (diag2 (svd (slice2 U ilo ihi ilo ihi)).2.1))
            (transpose2 (svd (slice2 U ilo ihi ilo ihi)).1)) := by
  have hc : 0 < ihi + 1 - ilo := by omega
  obtain ⟨_, e1, _⟩ := rotate_cluster_entries svd U nmo ilo ihi hU hlo hhi hW hVH
  generalize (svd (slice2 U ilo ihi ilo ihi)).1 = W at hW e1 ⊢
  generalize (svd (slice2 U ilo ihi ilo ihi)).2.2 = VH at hVH e1 ⊢
  generalize (svd (slice2 U ilo ihi ilo ihi)).2.1 = sigma
  have sq0 : HasShape (ihi + 1 - ilo) (ihi + 1 - ilo) (slice2 U ilo ihi ilo ihi) :=
    tabulate2_shape _ _ _
  have sP := inner2_shape _ _ _ _ _ hW.1 hVH hc
  have sq := transpose2_shape _ _ _ sP hc
  have sL : HasShape (ihi + 1 - ilo) (ihi + 1 - ilo)
      (slice2 (rotate_cluster svd U ilo ihi) ilo ihi ilo ihi) := tabulate2_shape _ _ _
  have hq0 : ∀ a t, a < ihi + 1 - ilo → t < ihi + 1 - ilo →
      get2 (slice2 U ilo ihi ilo ihi) a t = get2 U (ilo + a) (ilo + t) := by
    intro a t ha ht
    unfold slice2
    rw [get2_tabulate2 _ _ _ _ _ ha ht]
  have hL : ∀ a b, a < ihi + 1 - ilo → b < ihi + 1 - ilo →
      get2 (slice2 (rotate_cluster svd U ilo ihi) ilo ihi ilo ihi) a b
        = ∑ t in Finset.range (ihi + 1 - ilo), get2 (slice2 U ilo ihi ilo ihi) a t
            * get2 (inner2 W VH) b t := by
    intro a b ha hb
    have : get2 (slice2 (rotate_cluster svd U ilo ihi) ilo ihi ilo ihi) a b
        = get2 (rotate_cluster svd U ilo ihi) (ilo + a) (ilo + b) := by
      unfold slice2
      rw [get2_tabulate2 _ _ _ _ _ ha hb]
    rw [this, e1 (ilo + a) b (by omega) hb]
    apply Finset.sum_congr rfl
    intro t ht
    rw [hq0 a t ha (Finset.mem_range.1 ht)]
  generalize slice2 (rotate_cluster svd U ilo ihi) ilo ihi ilo ihi = L at sL hL ⊢
  generalize slice2 U ilo ihi ilo ihi = q0 at sq0 hL ⊢
  constructor
  · apply ext2 _ _ _ _ sL (inner2_shape _ _ _ _ _ sq0.1 sq hc)
    intro a b ha hb
    rw [hL a b ha hb, get2_inner2 _ _ _ _ _ sq0.1 sq hc a b ha hb]
    apply Finset.sum_congr rfl
    intro t ht
    rw [get2_transpose2 _ _ _ sP hc t b (Finset.mem_range.1 ht) hb]
  · intro hsig hsvd horth
    have sD : HasShape (ihi + 1 - ilo) (ihi + 1 - ilo) (diag2 sigma) := by
      unfold diag2; rw [hsig]; exact tabulate2_shape _ _ _
    have sX := inner2_shape _ _ _ _ _ hW.1 sD hc
    have sWt := transpose2_shape _ _ _ hW hc
    have sVt := transpose2_shape _ _ _ hVH hc
    apply ext2 _ _ _ _ sL (inner2_shape _ _ _ _ _ sX.1 sWt hc)
    intro a b ha hb
    rw [hL a b ha hb, get2_inner2 _ _ _ _ _ sX.1 sWt hc a b ha hb]
    have key := polar_algebra (ihi + 1 - ilo) (get2 (inner2 W (diag2 sigma))) (get2 W)
      (get2 VH)
      (by
        intro u v hu hv
        have h1 := get2_inner2 _ _ _ _ _ hVH.1 sVt hc u v hu hv
        rw [horth] at h1
        unfold identity2 at h1
        rw [get2_tabulate2 _ _ _ _ _ hu hv] at h1
        rw [h1]
        apply Finset.sum_congr rfl
        intro t ht
        rw [get2_transpose2 _ _ _ hVH hc t v (Finset.mem_range.1 ht) hv])
      a b
    have lhs_eq : ∀ t, t ∈ Finset.range (ihi + 1 - ilo) →
        get2 q0 a t * get2 (inner2 W VH) b t
        = (∑ u in Finset.range (ihi + 1 - ilo),
            get2 (inner2 W (diag2 sigma)) a u * get2 VH u t)
          * (∑ v in Finset.range (ihi + 1 - ilo), get2 W b v * get2 VH v t) := by
      intro t ht
      have ht2 := Finset.mem_range.1 ht
      rw [get2_inner2 _ _ _ _ _ hW.1 hVH hc b t hb ht2, hsvd,
        get2_inner2 _ _ _ _ _ sX.1 hVH hc a t ha ht2]
    rw [Finset.sum_congr rfl lhs_eq, key]
    apply Finset.sum_congr rfl
    intro u hu
    rw [get2_transpose2 _ _ _ hW hc u b (Finset.mem_range.1 hu) hb]

/-- C9, the claim as stated fails: for the cluster `[0, 1]` of the rotation matrix
`U = [[4/5, -3/5], [3/5, 4/5]]`, whose singular value decomposition is `W = U`,
`sigma = [1, 1]`, `VH = 1`, the step leaves the identity in the sub-block, not the orthogonal
factor `W*VH = U`. -/
theorem rotate_cluster_not_orthogonal_factor :
    inner2 (inner2 [[4 / 5, -3 / 5], [3 / 5, 4 / 5]] (diag2 [1, 1])) [[1, 0], [0, 1]]
      = slice2 [[4 / 5, -3 / 5], [3 / 5, 4 / 5]] 0 1 0 1 ∧
    inner2 [[4 / 5, -3 / 5], [3 / 5, 4 / 5]] (transpose2 [[4 / 5, -3 / 5], [3 / 5, 4 / 5]])
      = identity2 2 ∧
    inner2 [[4 / 5, -3 / 5], [3 / 5, 4 / 5]] [[1, 0], [0, 1]]
      = [[4 / 5, -3 / 5], [3 / 5, 4 / 5]] ∧
    slice2 (rotate_cluster (fun q => (q, [1, 1], [[1, 0], [0, 1]]))
      [[4 / 5, -3 / 5], [3 / 5, 4 / 5]] 0 1) 0 1 0 1 = [[1, 0], [0, 1]] ∧
    slice2 (rotate_cluster (fun q => (q, [1, 1], [[1, 0], [0, 1]]))
      [[4 / 5, -3 / 5], [3 / 5, 4 / 5]] 0 1) 0 1 0 1
      ≠ inner2 [[4 / 5, -3 / 5], [3 / 5, 4 / 5]] [[1, 0], [0, 1]] := by
  have hq : slice2 [[4 / 5, -3 / 5], [3 / 5, 4 / 5]] 0 1 0 1
      = [[4 / 5, -3 / 5], [3 / 5, 4 / 5]] := by
    norm_num [slice2, tabulate2, get2, List.range, List.range.loop]
  have hWV : inner2 [[4 / 5, -3 / 5], [3 / 5, 4 / 5]] [[1, 0], [0, 1]]
      = [[4 / 5, -3 / 5], [3 / 5, 4 / 5]] := by
    norm_num [inner2, tabulate2, get2, List.range, List.range.loop, Finset.sum_range_succ]
  have hT : transpose2 [[4 / 5, -3 / 5], [3 / 5, 4 / 5]]
      = [[4 / 5, 3 / 5], [-3 / 5, 4 / 5]] := by
    norm_num [transpose2, tabulate2, get2, List.range, List.range.loop]
  have hI : inner2 [[4 / 5, -3 / 5], [3 / 5, 4 / 5]] [[4 / 5, 3 / 5], [-3 / 5, 4 / 5]]
      = [[1, 0], [0, 1]] := by
    norm_num [inner2, tabulate2, get2, List.range, List.range.loop, Finset.sum_range_succ]
  have hD : inner2 [[4 / 5, -3 / 5], [3 / 5, 4 / 5]] (diag2 [1, 1])
      = [[4 / 5, -3 / 5], [3 / 5, 4 / 5]] := by
    norm_num [inner2, diag2, tabulate2, get2, List.range, List.range.loop,
      Finset.sum_range_succ]
  have hid : identity2 2 = [[1, 0], [0, 1]] := by
    norm_num [identity2, tabulate2, List.range, List.range.loop]
  have hS : set_slice [[4 / 5, -3 / 5], [3 / 5, 4 / 5]] 0 1 0 1 [[1, 0], [0, 1]]
      = [[1, 0], [0, 1]] := by
    norm_num [set_slice, for2, set2, get2, List.range, List.range.loop]
  have hR : rotate_cluster (fun q => (q, [1, 1], [[1, 0], [0, 1]]))
      [[4 / 5, -3 / 5], [3 / 5, 4 / 5]] 0 1 = [[1, 0], [0, 1]] := by
    unfold rotate_cluster
    simp only [hq, hWV, hT, List.length_cons, List.length_nil, Nat.zero_add,
      Nat.add_sub_cancel, hI, hS]
  have hs1 : slice2 [[1, 0], [0, 1]] 0 1 0 1 = [[1, 0], [0, 1]] := by
    norm_num [slice2, tabulate2, get2, List.range, List.range.loop]
  refine ⟨by rw [hD, hWV, hq], by rw [hT, hI, hid], hWV, by rw [hR, hs1], ?_⟩
  rw [hR, hs1, hWV]
  intro h
  have h2 := congrArg (fun t => get2 t 0 0) h
  norm_num [get2] at h2

theorem rotate_cluster_subblock_witness :
    HasShape 2 2 ([[2, 0], [0, 3]] : List (List ℚ)) ∧
    slice2 [[2, 0], [0, 3]] 0 1 0 1
      = inner2 (inner2 [[1, 0], [0, 1]] (diag2 [2, 3])) [[1, 0], [0, 1]] ∧
    inner2 [[1, 0], [0, 1]] (transpose2 [[1, 0], [0, 1]]) = identity2 2 ∧
    slice2 (rotate_cluster (fun _ => ([[1, 0], [0, 1]], [2, 3], [[1, 0], [0, 1]]))
        [[2, 0], [0, 3]] 0 1) 0 1 0 1
      = inner2 (slice2 [[2, 0], [0, 3]] 0 1 0 1)
          (transpose2 (inner2 [[1, 0], [0, 1]] [[1, 0], [0, 1]])) ∧
    slice2 (rotate_cluster (fun _ => ([[1, 0], [0, 1]], [2, 3], [[1, 0], [0, 1]]))
        [[2, 0], [0, 3]] 0 1) 0 1 0 1
      = inner2 (inner2 [[1, 0], [0, 1]] (diag2 [2, 3])) (transpose2 [[1, 0], [0, 1]]) := by
  have hT : transpose2 [[1, 0], [0, 1]] = [[1, 0], [0, 1]] := by
    norm_num [transpose2, tabulate2, get2, List.range, List.range.loop]
  have hsvd : slice2 [[2, 0], [0, 3]] 0 1 0 1
      = inner2 (inner2 [[1, 0], [0, 1]] (diag2 [2, 3])) [[1, 0], [0, 1]] := by
    norm_num [slice2, inner2, diag2, tabulate2, get2, List.range, List.range.loop,
      Finset.sum_range_succ]
  have horth : inner2 [[1, 0], [0, 1]] (transpose2 [[1, 0], [0, 1]]) = identity2 2 := by
    rw [hT]
    norm_num [inner2, identity2, tabulate2, get2, List.range, List.range.loop,
      Finset.sum_range_succ]
  have hU : HasShape 2 2 ([[2, 0], [0, 3]] : List (List ℚ)) := by simp [HasShape]
  have hI : HasShape (1 + 1 - 0) (1 + 1 - 0) ([[1, 0], [0, 1]] : List (List ℚ)) := by
    simp [HasShape]
  have main := rotate_cluster_subblock
    (fun _ => ([[1, 0], [0, 1]], [2, 3], [[1, 0], [0, 1]])) [[2, 0], [0, 3]] 2 0 1 hU
    (by decide) (by decide) hI hI
  exact ⟨hU, hsvd, horth, main.1, main.2 rfl hsvd horth⟩

theorem create_full_response_matrix_blocks_witness :
    HasShape 1 1 ([[3]] : List (List ℚ)) ∧ HasShape 1 1 ([[6]] : List (List ℚ)) ∧
    ∃ M, create_full_response_matrix sample_ops (fun f _ => f) (fun f _ => f)
        [[1]] [[2]] [[3]] [[4]] [[5]] [[6]] [7] [[1]] = Except.ok M ∧
      HasShape (2 * 1) (2 * 1) M ∧
      ∀ i j, i < 1 → j < 1 →
        get2 M i j = get2 (create_response_matrix sample_ops (fun f _ => f)
          [[1]] [[2]] [[3]] [[1]]).1 i j ∧
        get2 M i (1 + j)
          = inner sample_ops.ip (([[6]] : List (List ℚ)).getD i [])
              (([[6]] : List (List ℚ)).getD j []) ∧
        get2 M (1 + i) j
          = -inner sample_ops.ip (([[3]] : List (List ℚ)).getD i [])
              (([[3]] : List (List ℚ)).getD j []) ∧
        get2 M (1 + i) (1 + j)
          = -get2 (create_response_matrix sample_ops (fun f _ => f)
              [[4]] [[5]] [[6]] [[1]]).1 i j :=
  ⟨by simp [HasShape], by simp [HasShape],
    create_full_response_matrix_blocks sample_ops (fun f _ => f) (fun f _ => f)
      [[1]] [[2]] [[3]] [[4]] [[5]] [[6]] [7] [[1]] 1 1 (by decide) (by decide)
      (by simp [HasShape]) (by simp [HasShape]) (by simp [HasShape]) (by simp [HasShape])⟩

/-! ### The assertions of expectation -/

/-- C18, the claim as stated fails: for `a = [[1, 2]]` and `b = [[3]]`, one state each, `a` is
not empty, the numbers of states agree and the first state of `b` has an orbital function,
but the state of `a` holds two functions and that of `b` one, so the call
`inner(world, a[0], b[0])` fails and `expectation` returns no matrix. -/
theorem expectation_mismatched_orbitals :
    ¬ (([[1, 2]] : List (List ℚ)).length = 0 ∨
        ([[1, 2]] : List (List ℚ)).length ≠ ([[3]] : List (List ℚ)).length ∨
        ((([[3]] : List (List ℚ)).getD 0 []).length = 0)) ∧
    expectation sample_ops [[1, 2]] [[3]]
      = Except.error "inner: mismatched vector sizes" :=
  ⟨by decide, rfl⟩

/-- C18 (amended). `expectation(a, b)` aborts if and only if `a` is empty, or `a` and `b` have
different numbers of states, or the first state of `b` has no orbital functions, or some
state of `a` and some state of `b` have different numbers of orbital functions; in every
other case it returns the matrix `result(p,k) = Σ ⟨a_p, b_k⟩` (the inner products of the
orbital functions summed). -/
theorem expectation_aborts_iff {F : Type} (ops : FieldOps F) (a b : List (List F)) :
    ((∃ msg, expectation ops a b = Except.error msg) ↔
      (a.length = 0 ∨ a.length ≠ b.length ∨ (b.getD 0 []).length = 0 ∨
        ∃ p k, p < a.length ∧ k < b.length ∧
          (a.getD p []).length ≠ (b.getD k []).length)) ∧
    (¬ (a.length = 0 ∨ a.length ≠ b.length ∨ (b.getD 0 []).length = 0 ∨
        ∃ p k, p < a.length ∧ k < b.length ∧
          (a.getD p []).length ≠ (b.getD k []).length) →
      ∃ result, expectation ops a b = Except.ok result ∧
        HasShape a.length b.length result ∧
        ∀ p k, p < a.length → k < b.length →
          get2 result p k = inner ops.ip (a.getD p []) (b.getD k [])) := by
  obtain ⟨l1, l2⟩ := expectation_loops ops.ip a b a.length b.length
    (zeros2 a.length b.length)
  have hiff : (¬ ∀ p k, p < a.length → k < b.length →
      (a.getD p []).length = (b.getD k []).length) ↔
      ∃ p k, p < a.length ∧ k < b.length ∧ (a.getD p []).length ≠ (b.getD k []).length := by
    constructor
    · intro h
      by_contra hc
      apply h
      intro p k hp hk
      by_contra hne
      exact hc ⟨p, k, hp, hk, hne⟩
    · rintro ⟨p, k, hp, hk, hne⟩ h
      exact hne (h p k hp hk)
  unfold expectation
  by_cases h1 : a.length > 0
  · rw [if_neg (not_not_intro h1)]
    by_cases h2 : a.length = b.length
    · rw [if_neg (not_not_intro h2)]
      by_cases h3 : (b.getD 0 []).length > 0
      · rw [if_neg (not_not_intro h3)]
        simp only
        by_cases h4 : ∀ p k, p < a.length → k < b.length →
            (a.getD p []).length = (b.getD k []).length
        · rw [l1 h4]
          constructor
          · constructor
            · rintro ⟨msg, hm⟩; cases hm
            · rintro (h | h | h | h)
              · omega
              · exact absurd h2 h
              · omega
              · exact absurd h4 (hiff.2 h)
          · intro _
            refine ⟨_, rfl, ?_⟩
            exact inner_fill_spec ops.ip a b a.length b.length
        · obtain ⟨e, he⟩ := l2 h4
          rw [he]
          constructor
          · constructor
            · intro _; right; right; right; exact hiff.1 h4
            · intro _; exact ⟨_, rfl⟩
          · intro h; exfalso; apply h; right; right; right; exact hiff.1 h4
      · rw [if_pos h3]
        constructor
        · constructor
          · intro _; right; right; left; omega
          · intro _; exact ⟨_, rfl⟩
        · intro h; exfalso; apply h; right; right; left; omega
    · rw [if_pos h2]
      constructor
      · constructor
        · intro _; right; left; exact h2
        · intro _; exact ⟨_, rfl⟩
      · intro h; exfalso; apply h; right; left; exact h2
  · rw [if_pos h1]
    constructor
    · constructor
      · intro _; left; omega
      · intro _; exact ⟨_, rfl⟩
    · intro h; exfalso; apply h; left; omega

theorem expectation_aborts_iff_witness :
    ¬ (([[1, 2]] : List (List ℚ)).length = 0 ∨
        ([[1, 2]] : List (List ℚ)).length ≠ ([[3, 4]] : List (List ℚ)).length ∨
        ((([[3, 4]] : List (List ℚ)).getD 0 []).length = 0) ∨
        ∃ p k, p < ([[1, 2]] : List (List ℚ)).length ∧
          k < ([[3, 4]] : List (List ℚ)).length ∧
          (([[1, 2]] : List (List ℚ)).getD p []).length
            ≠ (([[3, 4]] : List (List ℚ)).getD k []).length) ∧
    ∃ result, expectation sample_ops [[1, 2]] [[3, 4]] = Except.ok result ∧
      HasShape 1 1 result ∧
      ∀ p k, p < 1 → k < 1 →
        get2 result p k = inner sample_ops.ip (([[1, 2]] : List (List ℚ)).getD p [])
          (([[3, 4]] : List (List ℚ)).getD k []) :=
  ⟨by
      rintro (h | h | h | ⟨p, k, hp, hk, hne⟩)
      · exact absurd h (by decide)
      · exact absurd rfl h
      · exact absurd h (by decide)
      · simp only [List.length_singleton, Nat.lt_one_iff] at hp hk
        subst hp hk
        exact hne rfl,
    (expectation_aborts_iff sample_ops [[1, 2]] [[3, 4]]).2 (by
      rintro (h | h | h | ⟨p, k, hp, hk, hne⟩)
      · exact absurd h (by decide)
      · exact absurd rfl h
      · exact absurd h (by decide)
      · simp only [List.length_singleton, Nat.lt_one_iff] at hp hk
        subst hp hk
        exact hne rfl)⟩

/-! ### The iteration loops -/

theorem foldl_max_lt_iff (l : List ℚ) (e : ℚ) :
    ∀ a, (l.foldl max a < e ↔ a < e ∧ ∀ v ∈ l, v < e) := by
  induction l with
  | nil => intro a; simp
  | cons x xs ih =>
    intro a
    rw [List.foldl_cons, ih (max a x), max_lt_iff]
    simp only [List.mem_cons, forall_eq_or_imp]
    tauto

theorem absmax_lt_iff (l : List ℚ) (hl : l ≠ []) (e : ℚ) :
    absmax l < e ↔ ∀ v ∈ l, |v| < e := by
  cases l with
  | nil => exact absurd rfl hl
  | cons a rest =>
    unfold absmax
    simp only [List.map_cons, tensor_max]
    rw [foldl_max_lt_iff]
    simp only [List.mem_map, forall_exists_index, and_imp, forall_apply_eq_imp_iff₂,
      List.mem_cons, forall_eq_or_imp]

theorem iterate_pass_iteration {σ : Type} (tda : Bool) (econv : ℚ)
    (update : Int → σ → List ℚ → List ℚ → σ × List ℚ × List ℚ) (finish : σ → σ)
    (st : IterateState σ) :
    (iterate_pass tda econv update finish st).iteration = st.iteration + 1 := rfl

theorem iterate_pass_converged {σ : Type} (tda : Bool) (econv : ℚ)
    (update : Int → σ → List ℚ → List ℚ → σ × List ℚ × List ℚ) (finish : σ → σ)
    (st : IterateState σ) (h : st.converged = false) :
    (iterate_pass tda econv update finish st).converged = true ↔
      1 ≤ st.iteration ∧
      absmax (abs_diff (update st.iteration st.rest st.x_omega st.y_omega).2.1
        st.old_x_energy) < econv ∧
      (tda = false →
        absmax (abs_diff (update st.iteration st.rest st.x_omega st.y_omega).2.2
          st.old_y_energy) < econv) := by
  unfold iterate_pass
  cases tda with
  | true =>
    simp only [Bool.not_eq_true, not_true_eq_false, if_false, ge_iff_le, h,
      Bool.true_eq_false, false_implies, and_true]
    split
    · rename_i hc; simp [hc]
    · rename_i hc; simp only [Bool.false_eq_true, false_iff]; exact hc
  | false =>
    simp only [Bool.not_eq_true, not_false_eq_true, if_true, ge_iff_le, h, true_implies]
    split
    · rename_i hc; simp [hc]
    · rename_i hc; simp only [Bool.false_eq_true, false_iff]; exact hc

theorem final_state_cons {α : Type} (init a : α) (l : List α) :
    final_state init (a :: l) = final_state a l := by
  unfold final_state
  cases l <;> rfl

theorem iterate_loop_spec {σ : Type} (tda : Bool) (econv : ℚ) (max_iter : Int)
    (update : Int → σ → List ℚ → List ℚ → σ × List ℚ × List ℚ) (finish : σ → σ) :
    ∀ fuel (st : IterateState σ), (max_iter - st.iteration).toNat ≤ fuel →
      ((iterate_loop tda econv max_iter update finish fuel st).length : Int)
          ≤ max (max_iter - st.iteration) 0 ∧
      (final_state st (iterate_loop tda econv max_iter update finish fuel st)).iteration
          = st.iteration + (iterate_loop tda econv max_iter update finish fuel st).length ∧
      ¬ ((final_state st (iterate_loop tda econv max_iter update finish fuel st)).iteration
            < max_iter ∧
          (final_state st (iterate_loop tda econv max_iter update finish fuel st)).converged
            = false) ∧
      ∀ s ∈ (iterate_loop tda econv max_iter update finish fuel st).dropLast,
        s.converged = false := by
  intro fuel
  induction fuel with
  | zero =>
    intro st hf
    have hle : max_iter - st.iteration ≤ 0 := by omega
    unfold iterate_loop
    refine ⟨by simp, by simp [final_state], ?_, by simp⟩
    simp only [final_state, List.getLastD_nil]
    intro h; omega
  | succ fuel ih =>
    intro st hf
    unfold iterate_loop
    by_cases hc : st.iteration < max_iter ∧ ¬ st.converged
    · rw [if_pos hc]
      have hit := iterate_pass_iteration tda econv update finish st
      obtain ⟨i1, i2, i3, i4⟩ := ih (iterate_pass tda econv update finish st)
        (by rw [hit]; omega)
      rw [final_state_cons]
      refine ⟨?_, ?_, i3, ?_⟩
      · rw [hit] at i1
        simp only [List.length_cons, Nat.cast_add, Nat.cast_one]
        omega
      · rw [i2, hit]
        simp only [List.length_cons, Nat.cast_add, Nat.cast_one]
        omega
      · intro s hs
        cases htr : iterate_loop tda econv max_iter update finish fuel
            (iterate_pass tda econv update finish st) with
        | nil => rw [htr] at hs; simp at hs
        | cons b rest =>
          rw [htr, List.dropLast_cons₂] at hs
          rcases List.mem_cons.1 hs with e | e
          · subst e
            cases fuel with
            | zero => simp [iterate_loop] at htr
            | succ fuel2 =>
              unfold iterate_loop at htr
              by_cases hc2 : (iterate_pass tda econv update finish st).iteration < max_iter
                  ∧ ¬ (iterate_pass tda econv update finish st).converged
              · simpa using hc2.2
              · rw [if_neg hc2] at htr; cases htr
          · rw [htr] at i4; exact i4 s e
    · rw [if_neg hc]
      refine ⟨by simp, by simp [final_state], ?_, by simp⟩
      simp only [final_state, List.getLastD_nil]
      intro h
      apply hc
      exact ⟨h.1, by simp [h.2]⟩

theorem frequency_pass_break {σ : Type} (dconv : ℚ)
    (first_half : Int → σ → σ × List ℚ × List ℚ) (second_half : Int → σ → σ)
    (st : FrequencyState σ) :
    ((frequency_pass dconv first_half second_half st).2 = true →
      (frequency_pass dconv first_half second_half st).1.converged = true) ∧
    ((frequency_pass dconv first_half second_half st).2 = false →
      (frequency_pass dconv first_half second_half st).1.converged = st.converged ∧
      (frequency_pass dconv first_half second_half st).1.iteration = st.iteration + 1) := by
  by_cases hc : max (absmax (first_half st.iteration st.rest).2.1)
      (absmax (first_half st.iteration st.rest).2.2) < dconv ∧ st.iteration > 0
  · simp only [frequency_pass, hc, and_self, if_true, true_implies, Bool.true_eq_false,
      false_implies, and_true]
  · simp only [frequency_pass, hc, if_false, Bool.false_eq_true, false_implies,
      true_implies, and_self]

theorem frequency_loop_spec {σ : Type} (dconv : ℚ) (max_iter : Int)
    (first_half : Int → σ → σ × List ℚ × List ℚ) (second_half : Int → σ → σ) :
    ∀ fuel (st : FrequencyState σ), (max_iter - st.iteration).toNat ≤ fuel →
      ((frequency_loop dconv max_iter first_half second_half fuel st).length : Int)
          ≤ max (max_iter - st.iteration) 0 ∧
      ((final_state st (frequency_loop dconv max_iter first_half second_half fuel
            st)).converged = true ∨
        (final_state st (frequency_loop dconv max_iter first_half second_half fuel
            st)).iteration
          = st.iteration
            + (frequency_loop dconv max_iter first_half second_half fuel st).length) ∧
      ¬ ((final_state st (frequency_loop dconv max_iter first_half second_half fuel
              st)).iteration < max_iter ∧
          (final_state st (frequency_loop dconv max_iter first_half second_half fuel
              st)).converged = false) ∧
      ∀ s ∈ (frequency_loop dconv max_iter first_half second_half fuel st).dropLast,
        s.converged = false := by
  intro fuel
  induction fuel with
  | zero =>
    intro st hf
    have hle : max_iter - st.iteration ≤ 0 := by omega
    unfold frequency_loop
    refine ⟨by simp, Or.inr (by simp [final_state]), ?_, by simp⟩
    simp only [final_state, List.getLastD_nil]
    intro h; omega
  | succ fuel ih =>
    intro st hf
    unfold frequency_loop
    obtain ⟨pb, pn⟩ := frequency_pass_break dconv first_half second_half st
    by_cases hc : st.iteration < max_iter ∧ ¬ st.converged
    · rw [if_pos hc]
      by_cases hb : (frequency_pass dconv first_half second_half st).2 = true
      · rw [if_pos hb]
        have hconv := pb hb
        refine ⟨?_, Or.inl ?_, ?_, by simp⟩
        · simp only [List.length_singleton, Nat.cast_one]; omega
        · simpa [final_state] using hconv
        · simp only [final_state, List.getLastD_cons, List.getLastD_nil]
          intro h
          rw [hconv] at h
          exact absurd h.2 (by simp)
      · rw [if_neg hb]
        have hb2 : (frequency_pass dconv first_half second_half st).2 = false := by
          simpa using hb
        obtain ⟨n1, n2⟩ := pn hb2
        obtain ⟨i1, i2, i3, i4⟩ := ih (frequency_pass dconv first_half second_half st).1
          (by rw [n2]; omega)
        rw [final_state_cons]
        refine ⟨?_, ?_, i3, ?_⟩
        · rw [n2] at i1
          simp only [List.length_cons, Nat.cast_add, Nat.cast_one]
          omega
        · rcases i2 with e | e
          · exact Or.inl e
          · right
            rw [e, n2]
            simp only [List.length_cons, Nat.cast_add, Nat.cast_one]
            omega
        · intro s hs
          cases htr : frequency_loop dconv max_iter first_half second_half fuel
              (frequency_pass dconv first_half second_half st).1 with
          | nil => rw [htr] at hs; simp at hs
          | cons b rest =>
            rw [htr, List.dropLast_cons₂] at hs
            rcases List.mem_cons.1 hs with e | e
            · subst e
              rw [n1]
              simpa using hc.2
            · rw [htr] at i4; exact i4 s e
    · rw [if_neg hc]
      refine ⟨by simp, Or.inr (by simp [final_state]), ?_, by simp⟩
      simp only [final_state, List.getLastD_nil]
      intro h
      apply hc
      exact ⟨h.1, by simp [h.2]⟩

/-- C11. In `TDHF::iterate` a pass sets the converged flag if and only if its pass index is
at least 1 and the largest absolute x-energy change is strictly below `econv` (and, when not
Tamm-Dancoff, the largest absolute y-energy change also is); the largest absolute entry of a
non-empty tensor is below a bound exactly when every entry is; no run converges on pass 0 and
no run with `max_iter <= 1` ends converged. -/
theorem iterate_sets_converged_iff {σ : Type} (tda : Bool) (econv : ℚ)
    (update : Int → σ → List ℚ → List ℚ → σ × List ℚ × List ℚ) (finish : σ → σ) :
    (∀ st : IterateState σ, st.converged = false →
      ((iterate_pass tda econv update finish st).converged = true ↔
        1 ≤ st.iteration ∧
        absmax (abs_diff (update st.iteration st.rest st.x_omega st.y_omega).2.1
          st.old_x_energy) < econv ∧
        (tda = false →
          absmax (abs_diff (update st.iteration st.rest st.x_omega st.y_omega).2.2
            st.old_y_energy) < econv))) ∧
    (∀ (l : List ℚ), l ≠ [] → (absmax l < econv ↔ ∀ v ∈ l, |v| < econv)) ∧
    (∀ st : IterateState σ, st.converged = false → st.iteration = 0 →
      (iterate_pass tda econv update finish st).converged = false) ∧
    (∀ (max_iter : Int) (m : Nat) (x_omega y_omega : List ℚ) (rest : σ), max_iter ≤ 1 →
      (final_state (iterate_init m x_omega y_omega rest)
        (iterate tda econv max_iter m update finish x_omega y_omega rest)).converged
        = false) := by
  refine ⟨fun st h => iterate_pass_converged tda econv update finish st h,
    fun l hl => absmax_lt_iff l hl econv, ?_, ?_⟩
  · intro st h h0
    have := iterate_pass_converged tda econv update finish st h
    cases hb : (iterate_pass tda econv update finish st).converged with
    | false => rfl
    | true =>
      have h1 := (this.1 hb).1
      omega
  · intro max_iter m x_omega y_omega rest hmax
    obtain ⟨i1, i2, i3, i4⟩ := iterate_loop_spec tda econv max_iter update finish
      max_iter.toNat (iterate_init m x_omega y_omega rest)
      (by simp [iterate_init])
    unfold iterate
    cases htr : iterate_loop tda econv max_iter update finish max_iter.toNat
        (iterate_init m x_omega y_omega rest) with
    | nil => rfl
    | cons a rest2 =>
      rw [htr] at i1
      have hlen : rest2.length = 0 := by
        simp only [List.length_cons, Nat.cast_add, Nat.cast_one, iterate_init,
          sub_zero] at i1
        omega
      have hnil : rest2 = [] := List.length_eq_zero.1 hlen
      subst hnil
      have hfuel : max_iter.toNat = 1 := by
        cases hf : max_iter.toNat with
        | zero => rw [hf] at htr; simp [iterate_loop] at htr
        | succ k => omega
      rw [hfuel] at htr
      unfold iterate_loop at htr
      by_cases hc : (iterate_init m x_omega y_omega rest).iteration < max_iter
          ∧ ¬ (iterate_init m x_omega y_omega rest).converged
      · rw [if_pos hc] at htr
        have ha := (List.cons.inj htr).1
        rw [final_state_cons, ← ha]
        simp only [final_state, List.getLastD_nil]
        have := iterate_pass_converged tda econv update finish
          (iterate_init m x_omega y_omega rest) rfl
        cases hb : (iterate_pass tda econv update finish
            (iterate_init m x_omega y_omega rest)).converged with
        | false => rfl
        | true =>
          have h1 := (this.1 hb).1
          simp [iterate_init] at h1
      · rw [if_neg hc] at htr; cases htr

theorem iterate_sets_converged_iff_witness :
    (iterate_pass true (1 / 10) (fun _ (_ : Unit) _ _ => ((), [1], [])) (fun u => u)
      { iteration := 1, converged := false, x_omega := [1], y_omega := [],
        old_x_energy := [1], old_y_energy := [], energy_x_residuals := [],
        energy_y_residuals := [], rest := () }).converged = true ∧
    (final_state (iterate_init 1 [] [] ())
      (iterate true (1 / 10) 1 1 (fun _ (_ : Unit) _ _ => ((), [1], [])) (fun u => u)
        [] [] ())).converged = false :=
  ⟨((iterate_sets_converged_iff true (1 / 10) (fun _ (_ : Unit) _ _ => ((), [1], []))
      (fun u => u)).1 _ rfl).2
      ⟨by decide, by norm_num [absmax, abs_diff, tensor_max], fun h => by cases h⟩,
    (iterate_sets_converged_iff true (1 / 10) (fun _ (_ : Unit) _ _ => ((), [1], []))
      (fun u => u)).2.2.2 1 1 [] [] () (by decide)⟩

/-- C12. The loops of `TDHF::iterate` and `TDHF::IterateFrequencyResponse` execute their body
at most `max_iter` times (zero times when `max_iter <= 0`), they end by their own test, and
each stops before `max_iter` passes only in the pass that sets `converged` (every earlier
pass ended with the flag unset). -/
theorem iteration_loops_bounded {σ : Type} (tda : Bool) (econv : ℚ) (max_iter : Int)
    (m : Nat) (update : Int → σ → List ℚ → List ℚ → σ × List ℚ × List ℚ) (finish : σ → σ)
    (x_omega y_omega : List ℚ) (rest : σ) (dconv : ℚ)
    (first_half : Int → σ → σ × List ℚ × List ℚ) (second_half : Int → σ → σ) :
    (((iterate tda econv max_iter m update finish x_omega y_omega rest).length : Int)
        ≤ max max_iter 0 ∧
      (max_iter ≤ 0 → iterate tda econv max_iter m update finish x_omega y_omega rest = []) ∧
      ¬ ((final_state (iterate_init m x_omega y_omega rest)
            (iterate tda econv max_iter m update finish x_omega y_omega rest)).iteration
            < max_iter ∧
          (final_state (iterate_init m x_omega y_omega rest)
            (iterate tda econv max_iter m update finish x_omega y_omega rest)).converged
            = false) ∧
      (((iterate tda econv max_iter m update finish x_omega y_omega rest).length : Int)
          < max_iter →
        (final_state (iterate_init m x_omega y_omega rest)
          (iterate tda econv max_iter m update finish x_omega y_omega rest)).converged
          = true ∧
        ∀ s ∈ (iterate tda econv max_iter m update finish x_omega y_omega rest).dropLast,
          s.converged = false)) ∧
    (((IterateFrequencyResponse dconv max_iter first_half second_half rest).length : Int)
        ≤ max max_iter 0 ∧
      (max_iter ≤ 0 →
        IterateFrequencyResponse dconv max_iter first_half second_half rest = []) ∧
      ¬ ((final_state ({ iteration := 0, converged := false, rest := rest } :
              FrequencyState σ)
            (IterateFrequencyResponse dconv max_iter first_half second_half rest)).iteration
            < max_iter ∧
          (final_state ({ iteration := 0, converged := false, rest := rest } :
              FrequencyState σ)
            (IterateFrequencyResponse dconv max_iter first_half second_half rest)).converged
            = false) ∧
      (((IterateFrequencyResponse dconv max_iter first_half second_half rest).length : Int)
          < max_iter →
        (final_state ({ iteration := 0, converged := false, rest := rest } :
            FrequencyState σ)
          (IterateFrequencyResponse dconv max_iter first_half second_half rest)).converged
          = true ∧
        ∀ s ∈ (IterateFrequencyResponse dconv max_iter first_half second_half rest).dropLast,
          s.converged = false)) := by
  constructor
  · obtain ⟨i1, i2, i3, i4⟩ := iterate_loop_spec tda econv max_iter update finish
      max_iter.toNat (iterate_init m x_omega y_omega rest) (by simp [iterate_init])
    have h0 : (iterate_init m x_omega y_omega rest).iteration = 0 := rfl
    rw [h0] at i1 i2
    simp only [sub_zero, zero_add] at i1 i2
    unfold iterate
    refine ⟨i1, ?_, i3, ?_⟩
    · intro hle
      have : max_iter.toNat = 0 := by omega
      rw [this]; rfl
    · intro hlt
      refine ⟨?_, i4⟩
      cases hb : (final_state (iterate_init m x_omega y_omega rest)
          (iterate_loop tda econv max_iter update finish max_iter.toNat
            (iterate_init m x_omega y_omega rest))).converged with
      | true => rfl
      | false => exact absurd ⟨by rw [i2]; exact hlt, hb⟩ i3
  · obtain ⟨i1, i2, i3, i4⟩ := frequency_loop_spec dconv max_iter first_half second_half
      max_iter.toNat ({ iteration := 0, converged := false, rest := rest } :
        FrequencyState σ) (by simp)
    simp only [sub_zero, zero_add] at i1 i2
    unfold IterateFrequencyResponse
    refine ⟨i1, ?_, i3, ?_⟩
    · intro hle
      have : max_iter.toNat = 0 := by omega
      rw [this]; rfl
    · intro hlt
      refine ⟨?_, i4⟩
      rcases i2 with e | e
      · exact e
      · cases hb : (final_state ({ iteration := 0, converged := false, rest := rest } :
            FrequencyState σ)
            (frequency_loop dconv max_iter first_half second_half max_iter.toNat
              { iteration := 0, converged := false, rest := rest })).converged with
        | true => rfl
        | false => exact absurd ⟨by rw [e]; exact hlt, hb⟩ i3

theorem iteration_loops_bounded_witness :
    (((iterate true (1 / 10) 5 1 (fun _ (_ : Unit) _ _ => ((), [1], [])) (fun u => u)
        [] [] ()).length : Int) < 5 ∧
      (final_state (iterate_init 1 [] [] ())
        (iterate true (1 / 10) 5 1 (fun _ (_ : Unit) _ _ => ((), [1], [])) (fun u => u)
          [] [] ())).converged = true) ∧
    ((IterateFrequencyResponse (1 / 10) 5 (fun _ (_ : Unit) => ((), [0], [0]))
        (fun _ u => u) ()).length : Int) ≤ max 5 0 := by
  have hlen : (iterate true (1 / 10) 5 1 (fun _ (_ : Unit) _ _ => ((), [1], []))
      (fun u => u) [] [] ()).length = 2 := by
    have h5 : (5 : Int).toNat = 5 := rfl
    unfold iterate
    rw [h5]
    norm_num [iterate_loop, iterate_pass, iterate_init, absmax, abs_diff, tensor_max]
  have hlt : ((iterate true (1 / 10) 5 1 (fun _ (_ : Unit) _ _ => ((), [1], []))
      (fun u => u) [] [] ()).length : Int) < 5 := by rw [hlen]; decide
  have main := iteration_loops_bounded true (1 / 10) 5 1
    (fun _ (_ : Unit) _ _ => ((), [1], [])) (fun u => u) [] [] () (1 / 10)
    (fun _ (_ : Unit) => ((), [0], [0])) (fun _ u => u)
  exact ⟨⟨hlt, (main.1.2.2.2 hlt).1⟩, main.2.1⟩

/-! ### Subspace augmentation -/

theorem inner_fill_init {F : Type} (ip : F → F → ℚ) (a b : List (List F)) (m1 m2 : Nat)
    (init : List (List ℚ)) (hinit : HasShape m1 m2 init) :
    HasShape m1 m2 (for2 m1 m2
      (fun p k result => set2 result p k (inner ip (a.getD p []) (b.getD k []))) init) ∧
    ∀ p k, p < m1 → k < m2 →
      get2 (for2 m1 m2
        (fun p k result => set2 result p k (inner ip (a.getD p []) (b.getD k []))) init) p k
        = inner ip (a.getD p []) (b.getD k []) := by
  obtain ⟨h1, h2⟩ := for2_spec (HasShape m1 m2) get2
    (fun p k _ => inner ip (a.getD p []) (b.getD k [])) m1 m2
    (fun p k result => set2 result p k (inner ip (a.getD p []) (b.getD k [])))
    (fun k p t _ _ ht => set2_shape _ _ _ _ _ _ ht)
    (fun k p t k2 p2 hne => get2_set2_other _ _ _ _ _ _ hne)
    (fun k p t ht hk hp => get2_set2_same _ _ _ _ _ _ ht hk hp)
    init hinit
  refine ⟨h1, ?_⟩
  intro p k hp hk
  rw [h2, if_pos ⟨hp, hk⟩]

theorem get2_add2 (a b : List (List ℚ)) (m n : Nat) (ha : HasShape m n a)
    (hb : HasShape m n b) (i j : Nat) (hi : i < m) (hj : j < n) :
    get2 (add2 a b) i j = get2 a i j + get2 b i j := by
  unfold get2 add2
  rw [getD_zipWith_lt _ a b i [] [] [] (by rw [ha.1]; exact hi) (by rw [hb.1]; exact hi)]
  exact getD_zipWith_lt _ _ _ j 0 0 0 (by rw [shape_row_length m n a ha i hi]; exact hj)
    (by rw [shape_row_length m n b hb i hi]; exact hj)

theorem get2_scale2 (c : ℚ) (t : List (List ℚ)) (m n : Nat) (ht : HasShape m n t)
    (i j : Nat) (hi : i < m) (hj : j < n) : get2 (scale2 c t) i j = c * get2 t i j := by
  unfold get2 scale2
  rw [getD_map_lt _ t i [] [] (by rw [ht.1]; exact hi)]
  exact getD_map_lt _ _ j 0 0 (by rw [shape_row_length m n t ht i hi]; exact hj)

theorem map_getD_range_gen {α : Type} (d : α) (l : List α) :
    (List.range l.length).map (fun i => l.getD i d) = l := by
  apply List.ext_getElem
  · simp
  · intro i h1 h2
    simp [List.getD_eq_getElem?_getD, List.getElem?_eq_getElem h2]

theorem augment_push {F : Type} (st : Subspace F) (k : Nat) :
    (List.range k).foldl (fun st i =>
      { st with
        x_response := st.x_response ++ [st.old_x_response.getD i []]
        x_gamma := st.x_gamma ++ [st.old_x_gamma.getD i []]
        V_x_response := st.V_x_response ++ [st.old_V_x_response.getD i []]
        x_fe := st.x_fe ++ [st.old_x_fe.getD i []] }) st
    = { st with
        x_response := st.x_response
          ++ (List.range k).map (fun i => st.old_x_response.getD i [])
        x_gamma := st.x_gamma ++ (List.range k).map (fun i => st.old_x_gamma.getD i [])
        V_x_response := st.V_x_response
          ++ (List.range k).map (fun i => st.old_V_x_response.getD i [])
        x_fe := st.x_fe ++ (List.range k).map (fun i => st.old_x_fe.getD i []) } := by
  induction k with
  | zero => simp
  | succ k ih =>
    rw [List.range_succ, List.foldl_append, ih]
    simp [List.map_append]

theorem assemble_blocks (m : Nat) (hm : 0 < m) (TR BL TL BR : List (List ℚ)) :
    HasShape (2 * m) (2 * m)
      (set_slice (set_slice (set_slice (set_slice (zeros2 (2 * m) (2 * m))
        0 (m - 1) m (2 * m - 1) TR) m (2 * m - 1) 0 (m - 1) BL)
        0 (m - 1) 0 (m - 1) TL) m (2 * m - 1) m (2 * m - 1) BR) ∧
    ∀ i j, i < m → j < m →
      get2 (set_slice (set_slice (set_slice (set_slice (zeros2 (2 * m) (2 * m))
        0 (m - 1) m (2 * m - 1) TR) m (2 * m - 1) 0 (m - 1) BL)
        0 (m - 1) 0 (m - 1) TL) m (2 * m - 1) m (2 * m - 1) BR) i j = get2 TL i j ∧
      get2 (set_slice (set_slice (set_slice (set_slice (zeros2 (2 * m) (2 * m))
        0 (m - 1) m (2 * m - 1) TR) m (2 * m - 1) 0 (m - 1) BL)
        0 (m - 1) 0 (m - 1) TL) m (2 * m - 1) m (2 * m - 1) BR) i (m + j) = get2 TR i j ∧
      get2 (set_slice (set_slice (set_slice (set_slice (zeros2 (2 * m) (2 * m))
        0 (m - 1) m (2 * m - 1) TR) m (2 * m - 1) 0 (m - 1) BL)
        0 (m - 1) 0 (m - 1) TL) m (2 * m - 1) m (2 * m - 1) BR) (m + i) j = get2 BL i j ∧
      get2 (set_slice (set_slice (set_slice (set_slice (zeros2 (2 * m) (2 * m))
        0 (m - 1) m (2 * m - 1) TR) m (2 * m - 1) 0 (m - 1) BL)
        0 (m - 1) 0 (m - 1) TL) m (2 * m - 1) m (2 * m - 1) BR) (m + i) (m + j)
        = get2 BR i j := by
  obtain ⟨s1, a1, o1⟩ := set_slice_spec (2 * m) (2 * m) _ (zeros2_shape (2 * m) (2 * m))
    0 (m - 1) m (2 * m - 1) (by omega) (by omega) TR
  obtain ⟨s2, a2, o2⟩ := set_slice_spec (2 * m) (2 * m) _ s1
    m (2 * m - 1) 0 (m - 1) (by omega) (by omega) BL
  obtain ⟨s3, a3, o3⟩ := set_slice_spec (2 * m) (2 * m) _ s2
    0 (m - 1) 0 (m - 1) (by omega) (by omega) TL
  obtain ⟨s4, a4, o4⟩ := set_slice_spec (2 * m) (2 * m) _ s3
    m (2 * m - 1) m (2 * m - 1) (by omega) (by omega) BR
  refine ⟨s4, ?_⟩
  intro i j hi hj
  refine ⟨?_, ?_, ?_, ?_⟩
  · rw [o4 i j (by omega)]
    have := a3 i j (by omega) (by omega)
    simp only [Nat.zero_add] at this
    exact this
  · rw [o4 i (m + j) (by omega), o3 i (m + j) (by omega), o2 i (m + j) (by omega)]
    have := a1 i j (by omega) (by omega)
    simp only [Nat.zero_add] at this
    exact this
  · rw [o4 (m + i) j (by omega), o3 (m + i) j (by omega)]
    have := a2 i j (by omega) (by omega)
    simp only [Nat.zero_add] at this
    exact this
  · exact a4 i j (by omega) (by omega)

/-- C13. For every `m >= 1` and `m`-sized current and previous quantities, `augment` replaces
`A_x` by the `2m`-by-`2m` matrix `0.5*(T + transpose(T))` with `T = [[A_x, C],[D, old_A_x]]`,
`C(k,j) = ⟨x_k, old_gamma_j + old_fe_j⟩`, `D(k,j) = ⟨old_x_k, gamma_j + fe_j⟩`, so the new
`A_x` is symmetric; it replaces `S_x` by `[[S_x, O],[transpose(O), old_S_x]]` with
`O(i,j) = ⟨x_i, old_x_j⟩`; and it extends `x_response`, `x_gamma`, `V_x_response` and `x_fe`
to length `2m` by appending the `m` previous entries in order. -/
theorem augment_doubles_subspace {F : Type} [Add F] (ops : FieldOps F) (st : Subspace F)
    (m : Nat) (hm : 0 < m) (hg : st.x_gamma.length = m) (hx : st.x_response.length = m)
    (hV : st.V_x_response.length = m) (hfe : st.x_fe.length = m)
    (hog : st.old_x_gamma.length = m) (hox : st.old_x_response.length = m)
    (hoV : st.old_V_x_response.length = m) (hofe : st.old_x_fe.length = m) :
    (∃ T, HasShape (2 * m) (2 * m) T ∧
      (∀ i j, i < m → j < m →
        get2 T i j = get2 st.A_x i j ∧
        get2 T i (m + j) = inner ops.ip (st.x_response.getD i [])
          ((operator_add st.old_x_gamma st.old_x_fe).getD j []) ∧
        get2 T (m + i) j = inner ops.ip (st.old_x_response.getD i [])
          ((operator_add st.x_gamma st.x_fe).getD j []) ∧
        get2 T (m + i) (m + j) = get2 st.old_A_x i j) ∧
      HasShape (2 * m) (2 * m) (augment ops st).A_x ∧
      ∀ a b, a < 2 * m → b < 2 * m →
        get2 (augment ops st).A_x a b = 1 / 2 * (get2 T a b + get2 T b a)) ∧
    (∀ a b, a < 2 * m → b < 2 * m →
      get2 (augment ops st).A_x a b = get2 (augment ops st).A_x b a) ∧
    HasShape (2 * m) (2 * m) (augment ops st).S_x ∧
    (∀ i j, i < m → j < m →
      get2 (augment ops st).S_x i j = get2 st.S_x i j ∧
      get2 (augment ops st).S_x i (m + j)
        = inner ops.ip (st.x_response.getD i []) (st.old_x_response.getD j []) ∧
      get2 (augment ops st).S_x (m + i) j
        = inner ops.ip (st.x_response.getD j []) (st.old_x_response.getD i []) ∧
      get2 (augment ops st).S_x (m + i) (m + j) = get2 st.old_S_x i j) ∧
    (augment ops st).x_response = st.x_response ++ st.old_x_response ∧
    (augment ops st).x_gamma = st.x_gamma ++ st.old_x_gamma ∧
    (augment ops st).V_x_response = st.V_x_response ++ st.old_V_x_response ∧
    (augment ops st).x_fe = st.x_fe ++ st.old_x_fe := by
  have h2m : 0 < 2 * m := by omega
  obtain ⟨f1s, f1⟩ := inner_fill_init ops.ip st.x_response
    (operator_add st.old_x_gamma st.old_x_fe) m m (zeros2 m m) (zeros2_shape m m)
  obtain ⟨f2s, f2⟩ := inner_fill_init ops.ip st.old_x_response
    (operator_add st.x_gamma st.x_fe) m m _ f1s
  obtain ⟨Ts, Tb⟩ := assemble_blocks m hm
    (for2 m m (fun k j off => set2 off k j (inner ops.ip (st.x_response.getD k [])
      ((operator_add st.old_x_gamma st.old_x_fe).getD j []))) (zeros2 m m))
    (for2 m m (fun k j off => set2 off k j (inner ops.ip (st.old_x_response.getD k [])
      ((operator_add st.x_gamma st.x_fe).getD j [])))
      (for2 m m (fun k j off => set2 off k j (inner ops.ip (st.x_response.getD k [])
        ((operator_add st.old_x_gamma st.old_x_fe).getD j []))) (zeros2 m m)))
    st.A_x st.old_A_x
  obtain ⟨os, oe⟩ := inner_fill_spec ops.ip st.x_response st.old_x_response m m
  have hov : create_overlap ops st.x_response st.old_x_response
      = for2 m m (fun i j S => set2 S i j (inner ops.ip (st.x_response.getD i [])
          (st.old_x_response.getD j []))) (zeros2 m m) := by
    unfold create_overlap; rw [hx]
  obtain ⟨Ss, Sb⟩ := assemble_blocks m hm
    (create_overlap ops st.x_response st.old_x_response)
    (transpose2 (create_overlap ops st.x_response st.old_x_response)) st.S_x st.old_S_x
  have hA : (augment ops st).A_x = scale2 (1 / 2) (add2
      (set_slice (set_slice (set_slice (set_slice (zeros2 (2 * m) (2 * m))
        0 (m - 1) m (2 * m - 1)
        (for2 m m (fun k j off => set2 off k j (inner ops.ip (st.x_response.getD k [])
          ((operator_add st.old_x_gamma st.old_x_fe).getD j []))) (zeros2 m m)))
        m (2 * m - 1) 0 (m - 1)
        (for2 m m (fun k j off => set2 off k j (inner ops.ip (st.old_x_response.getD k [])
          ((operator_add st.x_gamma st.x_fe).getD j [])))
          (for2 m m (fun k j off => set2 off k j (inner ops.ip (st.x_response.getD k [])
            ((operator_add st.old_x_gamma st.old_x_fe).getD j []))) (zeros2 m m))))
        0 (m - 1) 0 (m - 1) st.A_x) m (2 * m - 1) m (2 * m - 1) st.old_A_x)
      (transpose2
      (set_slice (set_slice (set_slice (set_slice (zeros2 (2 * m) (2 * m))
        0 (m - 1) m (2 * m - 1)
        (for2 m m (fun k j off => set2 off k j (inner ops.ip (st.x_response.getD k [])
          ((operator_add st.old_x_gamma st.old_x_fe).getD j []))) (zeros2 m m)))
        m (2 * m - 1) 0 (m - 1)
        (for2 m m (fun k j off => set2 off k j (inner ops.ip (st.old_x_response.getD k [])
          ((operator_add st.x_gamma st.x_fe).getD j [])))
          (for2 m m (fun k j off => set2 off k j (inner ops.ip (st.x_response.getD k [])
            ((operator_add st.old_x_gamma st.old_x_fe).getD j []))) (zeros2 m m))))
        0 (m - 1) 0 (m - 1) st.A_x) m (2 * m - 1) m (2 * m - 1) st.old_A_x))) := by
    unfold augment
    simp only [augment_push, hg]
  have hS : (augment ops st).S_x =
      set_slice (set_slice (set_slice (set_slice (zeros2 (2 * m) (2 * m))
        0 (m - 1) m (2 * m - 1) (create_overlap ops st.x_response st.old_x_response))
        m (2 * m - 1) 0 (m - 1)
        (transpose2 (create_overlap ops st.x_response st.old_x_response)))
        0 (m - 1) 0 (m - 1) st.S_x) m (2 * m - 1) m (2 * m - 1) st.old_S_x := by
    unfold augment
    simp only [augment_push, hg]
  have hvec : (augment ops st).x_response = st.x_response ++ st.old_x_response ∧
      (augment ops st).x_gamma = st.x_gamma ++ st.old_x_gamma ∧
      (augment ops st).V_x_response = st.V_x_response ++ st.old_V_x_response ∧
      (augment ops st).x_fe = st.x_fe ++ st.old_x_fe := by
    unfold augment
    simp only [augment_push, hg]
    refine ⟨?_, ?_, ?_, ?_⟩
    · conv_lhs => rw [← hox, map_getD_range_gen]
    · conv_lhs => rw [← hog, map_getD_range_gen]
    · conv_lhs => rw [← hoV, map_getD_range_gen]
    · conv_lhs => rw [← hofe, map_getD_range_gen]
  generalize set_slice (set_slice (set_slice (set_slice (zeros2 (2 * m) (2 * m))
        0 (m - 1) m (2 * m - 1)
        (for2 m m (fun k j off => set2 off k j (inner ops.ip (st.x_response.getD k [])
          ((operator_add st.old_x_gamma st.old_x_fe).getD j []))) (zeros2 m m)))
        m (2 * m - 1) 0 (m - 1)
        (for2 m m (fun k j off => set2 off k j (inner ops.ip (st.old_x_response.getD k [])
          ((operator_add st.x_gamma st.x_fe).getD j [])))
          (for2 m m (fun k j off => set2 off k j (inner ops.ip (st.x_response.getD k [])
            ((operator_add st.old_x_gamma st.old_x_fe).getD j []))) (zeros2 m m))))
        0 (m - 1) 0 (m - 1) st.A_x) m (2 * m - 1) m (2 * m - 1) st.old_A_x = T
    at Ts Tb hA
  have sTt := transpose2_shape T _ _ Ts h2m
  have sadd : HasShape (2 * m) (2 * m) (add2 T (transpose2 T)) :=
    shape_zip (fun a b : ℚ => a + b) T (transpose2 T) _ _ Ts sTt
  have hAe : ∀ a b, a < 2 * m → b < 2 * m →
      get2 (augment ops st).A_x a b = 1 / 2 * (get2 T a b + get2 T b a) := by
    intro a b ha hb
    rw [hA, get2_scale2 _ _ _ _ sadd a b ha hb, get2_add2 _ _ _ _ Ts sTt a b ha hb,
      get2_transpose2 _ _ _ Ts h2m a b ha hb]
  refine ⟨⟨T, Ts, ?_, ?_, hAe⟩, ?_, ?_, ?_, hvec⟩
  · intro i j hi hj
    obtain ⟨b1, b2, b3, b4⟩ := Tb i j hi hj
    exact ⟨b1, by rw [b2, f1 i j hi hj], by rw [b3, f2 i j hi hj], b4⟩
  · rw [hA]; exact shape_map _ _ _ _ sadd
  · intro a b ha hb
    rw [hAe a b ha hb, hAe b a hb ha, add_comm]
  · rw [hS]; exact Ss
  · intro i j hi hj
    obtain ⟨b1, b2, b3, b4⟩ := Sb i j hi hj
    rw [hS]
    refine ⟨b1, ?_, ?_, b4⟩
    · rw [b2, hov, oe i j hi hj]
    · rw [b3, hov, get2_transpose2 _ _ _ os hm i j hi hj, oe j i hj hi]

theorem augment_doubles_subspace_witness :
    sample_subspace.x_gamma.length = 1 ∧ sample_subspace.old_x_fe.length = 1 ∧
    (∀ a b, a < 2 * 1 → b < 2 * 1 →
      get2 (augment sample_ops sample_subspace).A_x a b
        = get2 (augment sample_ops sample_subspace).A_x b a) ∧
    (augment sample_ops sample_subspace).x_response = [[1, 0]] ++ [[0, 1]] ∧
    (augment sample_ops sample_subspace).x_fe = [[0, 1]] ++ [[1, 0]] :=
  ⟨rfl, rfl,
    (augment_doubles_subspace sample_ops sample_subspace 1 (by decide) rfl rfl rfl rfl rfl
      rfl rfl rfl).2.1,
    (augment_doubles_subspace sample_ops sample_subspace 1 (by decide) rfl rfl rfl rfl rfl
      rfl rfl rfl).2.2.2.2.1,
    (augment_doubles_subspace sample_ops sample_subspace 1 (by decide) rfl rfl rfl rfl rfl
      rfl rfl rfl).2.2.2.2.2.2.2⟩

theorem take_dropLast {α : Type} (l : List α) (a : Nat) (ha : a ≤ l.length) :
    (l.take a).dropLast = l.take (a - 1) := by
  rw [List.dropLast_eq_take, List.length_take, List.take_take]
  congr 1
  omega

theorem unaugment_pop {F : Type} (st : Subspace F) (k : Nat) :
    (List.range k).foldl (fun st (_ : Nat) =>
      { st with
        x_fe := st.x_fe.dropLast
        V_x_response := st.V_x_response.dropLast
        x_gamma := st.x_gamma.dropLast
        x_response := st.x_response.dropLast }) st
    = { st with
        x_fe := st.x_fe.take (st.x_fe.length - k)
        V_x_response := st.V_x_response.take (st.V_x_response.length - k)
        x_gamma := st.x_gamma.take (st.x_gamma.length - k)
        x_response := st.x_response.take (st.x_response.length - k) } := by
  induction k with
  | zero => simp
  | succ k ih =>
    rw [List.range_succ, List.foldl_append, ih]
    simp only [List.foldl_cons, List.foldl_nil]
    rw [take_dropLast _ _ (by omega), take_dropLast _ _ (by omega),
      take_dropLast _ _ (by omega), take_dropLast _ _ (by omega)]
    rfl

theorem identity_fill (m : Nat) :
    ∀ k, k ≤ m →
      HasShape m m ((List.range k).foldl (fun temp i => set2 temp i i 1) (zeros2 m m)) ∧
      ∀ i j, get2 ((List.range k).foldl (fun temp i => set2 temp i i 1) (zeros2 m m)) i j
        = if i = j ∧ i < k then 1 else 0 := by
  intro k
  induction k with
  | zero =>
    intro _
    exact ⟨zeros2_shape m m, fun i j => by simp [get2_zeros2]⟩
  | succ k ih =>
    intro hk
    obtain ⟨s, e⟩ := ih (by omega)
    rw [List.range_succ, List.foldl_append]
    simp only [List.foldl_cons, List.foldl_nil]
    refine ⟨set2_shape _ _ _ _ _ _ s, ?_⟩
    intro i j
    by_cases hc : i = k ∧ j = k
    · obtain ⟨rfl, rfl⟩ := hc
      rw [get2_set2_same m m _ _ _ _ s (by omega) (by omega)]
      simp
    · rw [get2_set2_other _ _ _ _ _ _ hc, e]
      by_cases hij : i = j
      · subst hij
        have hik : i ≠ k := fun h => hc ⟨h, h⟩
        by_cases hlt : i < k
        · simp [hlt, Nat.lt_succ_of_lt hlt]
        · have : ¬ i < k + 1 := by omega
          simp [hlt, this]
      · simp [hij]

theorem identity_fill_eq (m : Nat) :
    (List.range m).foldl (fun temp i => set2 temp i i 1) (zeros2 m m) = identity2 m := by
  obtain ⟨s, e⟩ := identity_fill m m (le_refl _)
  apply ext2 m m _ _ s (tabulate2_shape _ _ _)
  intro i j hi hj
  rw [e, get2_tabulate2 _ _ _ _ _ hi hj]
  by_cases hij : i = j
  · subst hij; simp [hi]
  · simp [hij]

theorem slice1_first (t : List ℚ) (m : Nat) (h : m = 0 → t = []) :
    slice1 t 0 (m - 1) = t.take m := by
  unfold slice1
  cases m with
  | zero => rw [h rfl]; rfl
  | succ k => simp

theorem unaugment_old_A (m : Nat) (selected : List Nat) (A : List (List ℚ)) :
    HasShape m m (for2 m m (fun i j temp =>
      set2 temp i j (get2 A (selected.getD i 0) (selected.getD j 0))) (identity2 m)) ∧
    ∀ i j, i < m → j < m →
      get2 (for2 m m (fun i j temp =>
        set2 temp i j (get2 A (selected.getD i 0) (selected.getD j 0))) (identity2 m)) i j
        = get2 A (selected.getD i 0) (selected.getD j 0) := by
  obtain ⟨h1, h2⟩ := for2_spec (HasShape m m) get2
    (fun i j _ => get2 A (selected.getD i 0) (selected.getD j 0)) m m
    (fun i j temp => set2 temp i j (get2 A (selected.getD i 0) (selected.getD j 0)))
    (fun k p t _ _ ht => set2_shape _ _ _ _ _ _ ht)
    (fun k p t k2 p2 hne => get2_set2_other _ _ _ _ _ _ hne)
    (fun k p t ht hk hp => get2_set2_same _ _ _ _ _ _ ht hk hp)
    (identity2 m) (tabulate2_shape _ _ _)
  refine ⟨h1, ?_⟩
  intro i j hi hj
  rw [h2, if_pos ⟨hi, hj⟩]

/-- C14. For a pass index `iter > 0` on a `2m`-sized augmented problem, `unaugment` leaves
`x_omega` holding the first `m` eigenvalues, removes the last `m` entries of `x_fe`,
`V_x_response`, `x_gamma` and `x_response` so that each has length `m`, stores the shortened
`x_fe`, `x_gamma` and `V_x_response` as the previous snapshot, sets `old_S_x` to the
`m`-by-`m` identity and `old_A_x(i,j) = A_x(selected(i), selected(j))` for `i, j < m`; for
`iter = 0` (an `m`-sized problem) it does the same without removing any entries. -/
theorem unaugment_keeps_lowest {F : Type} (m : Nat) (iter : Int) (selected : List Nat)
    (st : Subspace F) :
    (iter > 0 → st.x_omega.length = 2 * m → st.x_fe.length = 2 * m →
      st.V_x_response.length = 2 * m → st.x_gamma.length = 2 * m →
      st.x_response.length = 2 * m →
      (unaugment m iter selected st).x_omega = st.x_omega.take m ∧
      (unaugment m iter selected st).x_fe = st.x_fe.take m ∧
      (unaugment m iter selected st).V_x_response = st.V_x_response.take m ∧
      (unaugment m iter selected st).x_gamma = st.x_gamma.take m ∧
      (unaugment m iter selected st).x_response = st.x_response.take m ∧
      (unaugment m iter selected st).x_omega.length = m ∧
      (unaugment m iter selected st).x_fe.length = m ∧
      (unaugment m iter selected st).V_x_response.length = m ∧
      (unaugment m iter selected st).x_gamma.length = m ∧
      (unaugment m iter selected st).x_response.length = m ∧
      (unaugment m iter selected st).old_x_fe = st.x_fe.take m ∧
      (unaugment m iter selected st).old_x_gamma = st.x_gamma.take m ∧
      (unaugment m iter selected st).old_V_x_response = st.V_x_response.take m) ∧
    (iter = 0 → st.x_omega.length = m →
      (unaugment m iter selected st).x_omega = st.x_omega ∧
      (unaugment m iter selected st).x_fe = st.x_fe ∧
      (unaugment m iter selected st).V_x_response = st.V_x_response ∧
      (unaugment m iter selected st).x_gamma = st.x_gamma ∧
      (unaugment m iter selected st).x_response = st.x_response ∧
      (unaugment m iter selected st).old_x_fe = st.x_fe ∧
      (unaugment m iter selected st).old_x_gamma = st.x_gamma ∧
      (unaugment m iter selected st).old_V_x_response = st.V_x_response) ∧
    (unaugment m iter selected st).A_x = st.A_x ∧
    (unaugment m iter selected st).old_S_x = identity2 m ∧
    HasShape m m (unaugment m iter selected st).old_A_x ∧
    (∀ i j, i < m → j < m →
      get2 (unaugment m iter selected st).old_A_x i j
        = get2 st.A_x (selected.getD i 0) (selected.getD j 0)) := by
  have hA : (unaugment m iter selected st).A_x = st.A_x := by
    unfold unaugment
    by_cases hi : iter > 0
    · simp only [hi, if_true, unaugment_pop]
    · simp only [hi, if_false]
  have hold : (unaugment m iter selected st).old_A_x
      = for2 m m (fun i j temp =>
          set2 temp i j (get2 st.A_x (selected.getD i 0) (selected.getD j 0)))
          (identity2 m) := by
    unfold unaugment
    by_cases hi : iter > 0
    · simp only [hi, if_true, unaugment_pop, identity_fill_eq]
    · simp only [hi, if_false, identity_fill_eq]
  have hS : (unaugment m iter selected st).old_S_x = identity2 m := by
    unfold unaugment
    by_cases hi : iter > 0
    · simp only [hi, if_true, unaugment_pop, identity_fill_eq]
    · simp only [hi, if_false, identity_fill_eq]
  obtain ⟨oa1, oa2⟩ := unaugment_old_A m selected st.A_x
  refine ⟨?_, ?_, hA, hS, by rw [hold]; exact oa1, ?_⟩
  · intro hi h1 h2 h3 h4 h5
    have hom : slice1 st.x_omega 0 (m - 1) = st.x_omega.take m :=
      slice1_first _ _ (fun h0 => List.length_eq_zero.1 (by rw [h1, h0]))
    unfold unaugment
    simp only [hi, if_true, unaugment_pop, h2, h3, h4, h5, hom,
      (by omega : 2 * m - m = m), List.length_take, h1, true_and,
      (by omega : min m (2 * m) = m)]
  · intro hi h1
    have hom : slice1 st.x_omega 0 (m - 1) = st.x_omega := by
      rw [slice1_first _ _ (fun h0 => List.length_eq_zero.1 (by rw [h1, h0])), ← h1,
        List.take_length]
    have hn : ¬ iter > 0 := by omega
    unfold unaugment
    simp only [hn, if_false, hom, and_self]
  · intro i j hi hj
    rw [hold]
    exact oa2 i j hi hj

theorem unaugment_keeps_lowest_witness :
    ((1 : Int) > 0 ∧ sample_augmented.x_omega.length = 2 * 1 ∧
      (unaugment 1 1 [1, 0] sample_augmented).x_omega = [3] ∧
      (unaugment 1 1 [1, 0] sample_augmented).x_response = [[1, 0]] ∧
      (unaugment 1 1 [1, 0] sample_augmented).old_x_fe = [[0, 1]]) ∧
    ((0 : Int) = 0 ∧ sample_subspace.x_omega.length = 1 ∧
      (unaugment 1 0 [0] sample_subspace).x_response = sample_subspace.x_response) ∧
    get2 (unaugment 1 1 [1, 0] sample_augmented).old_A_x 0 0 = get2 sample_augmented.A_x 1 1 :=
  ⟨⟨by decide, rfl,
      ((unaugment_keeps_lowest 1 1 [1, 0] sample_augmented).1 (by decide) rfl rfl rfl rfl rfl).1,
      ((unaugment_keeps_lowest 1 1 [1, 0] sample_augmented).1 (by decide) rfl rfl rfl rfl
        rfl).2.2.2.2.1,
      ((unaugment_keeps_lowest 1 1 [1, 0] sample_augmented).1 (by decide) rfl rfl rfl rfl
        rfl).2.2.2.2.2.2.2.2.2.2.1⟩,
    ⟨rfl, rfl, ((unaugment_keeps_lowest 1 0 [0] sample_subspace).2.1 rfl rfl).2.2.2.2.1⟩,
    (unaugment_keeps_lowest 1 1 [1, 0] sample_augmented).2.2.2.2.2 0 0 (by decide) (by decide)⟩

/-! ### The assertion of matrix_exponential -/

theorem matrix_exponential_assert_fails_iff (A : List (List ℚ)) :
    matrix_exponential_assert_arg A = 0 ↔ dim A 0 = 0 ∨ dim A 1 = 0 := by
  unfold matrix_exponential_assert_arg
  by_cases h : 0 = dim A 1
  · rw [if_pos h]
    constructor
    · intro h1
      exact Or.inr h.symm
    · intro _
      exact h.symm
  · rw [if_neg h]
    constructor
    · intro h1
      exact Or.inl h1
    · intro h1
      rcases h1 with h1 | h1
      · exact h1
      · exact absurd h1.symm h

theorem matrix_exponential_assert_passes
    (inner : List (List ℚ) → List (List ℚ) → List (List ℚ)) (fuel : Nat) (A : List (List ℚ))
    (h0 : dim A 0 ≠ 0) (h1 : dim A 1 ≠ 0) (msg : String) :
    matrix_exponential inner fuel A ≠ some (Except.error msg) := by
  have hne : ¬ matrix_exponential_assert_arg A = 0 := by
    rw [matrix_exponential_assert_fails_iff]
    push_neg
    exact ⟨h0, h1⟩
  unfold matrix_exponential
  simp only [hne, if_false]
  cases scale_loop A fuel 0 1 with
  | none => simp
  | some p =>
    obtain ⟨n, scale⟩ := p
    simp only
    cases taylor_loop inner (1 / 10000000000000) (scale2 scale A) fuel _ (scale2 scale A) 1 with
    | none => simp
    | some e => simp

/-- C19. The 2-by-3 zero matrix has two rows and three columns, yet the assertion of
`matrix_exponential` holds for it (its argument is `A.dim(0) = 2`, not the truth value of a
comparison of the two extents), no loop runs a pass and the function returns the 2-by-3
tensor with ones at (0,0) and (1,1), whatever the tensor product is. -/
theorem matrix_exponential_accepts_non_square :
    dim (zeros2 2 3) 0 = 2 ∧ dim (zeros2 2 3) 1 = 3 ∧
    matrix_exponential_assert_arg (zeros2 2 3) = 2 ∧
    ∀ inner, matrix_exponential inner 1 (zeros2 2 3)
      = some (Except.ok [[1, 0, 0], [0, 1, 0]]) := by
  refine ⟨rfl, rfl, rfl, ?_⟩
  intro inner
  norm_num [matrix_exponential, matrix_exponential_assert_arg, dim, zeros2, scale_loop,
    taylor_loop, normf_times_gt, normf_sq, scale2, set2, List.range, List.range.loop,
    List.replicate]

/-! ### The cluster scan -/

theorem get?_of_lt (l : List ℚ) (i : Nat) (h : i < l.length) :
    l.get? i = some (l.getD i 0) := by
  rw [List.get?_eq_getElem?, List.getD_eq_getElem?_getD, List.getElem?_eq_getElem h]
  rfl

theorem scan_ihi_spec (thr : ℚ) (evals : List ℚ) (ilo : Nat) :
    ∀ fuel ihi, ilo ≤ ihi → ihi + 1 < evals.length → evals.length ≤ fuel + ihi + 1 →
      (∀ p, ilo < p → p ≤ ihi →
        |evals.getD ilo 0 - evals.getD p 0| < thr * 10 * max |evals.getD ilo 0| 1) →
      ∃ h, scan_ihi thr evals evals.length ilo fuel ihi = some (Except.ok h) ∧ ihi ≤ h ∧
        h < evals.length ∧
        (∀ p, ilo < p → p ≤ h →
          |evals.getD ilo 0 - evals.getD p 0| < thr * 10 * max |evals.getD ilo 0| 1) ∧
        (h + 1 < evals.length →
          ¬ |evals.getD ilo 0 - evals.getD (h + 1) 0| < thr * 10 * max |evals.getD ilo 0| 1) := by
  intro fuel
  induction fuel with
  | zero => intro ihi h1 h2 h3; omega
  | succ fuel ih =>
    intro ihi h1 h2 h3 h4
    unfold scan_ihi
    rw [get?_of_lt evals ilo (by omega), get?_of_lt evals (ihi + 1) h2]
    simp only
    by_cases hc : |evals.getD ilo 0 - evals.getD (ihi + 1) 0|
        < thr * 10 * max |evals.getD ilo 0| 1
    · rw [if_pos hc]
      have h4n : ∀ p, ilo < p → p ≤ ihi + 1 →
          |evals.getD ilo 0 - evals.getD p 0| < thr * 10 * max |evals.getD ilo 0| 1 := by
        intro p hp1 hp2
        by_cases hp : p = ihi + 1
        · rw [hp]; exact hc
        · exact h4 p hp1 (by omega)
      by_cases he : ((ihi + 1 : Nat) : Int) = (evals.length : Int) - 1
      · rw [if_pos he]
        refine ⟨ihi + 1, rfl, by omega, h2, h4n, ?_⟩
        intro hlt
        omega
      · rw [if_neg he]
        obtain ⟨h, a1, a2, a3, a4, a5⟩ := ih (ihi + 1) (by omega) (by omega) (by omega) h4n
        exact ⟨h, a1, by omega, a3, a4, a5⟩
    · rw [if_neg hc]
      exact ⟨ihi, rfl, le_refl _, by omega, h4, fun _ => hc⟩

theorem cluster_loop_note_spec (thr : ℚ) (evals : List ℚ) (fuel : Nat)
    (hfuel : evals.length ≤ fuel + 1) :
    ∀ passes ilo (l : List (Nat × Nat)), evals.length ≤ passes + ilo → 1 ≤ passes →
      ∃ suffix, cluster_loop note_cluster thr evals evals.length fuel passes ilo l
          = some (Except.ok (l ++ suffix)) ∧
        (∀ c ∈ suffix, c.1 < c.2 ∧ c.2 < evals.length) ∧
        (∀ i, ilo ≤ i → i + 1 < evals.length → 0 < thr →
          evals.getD i 0 = evals.getD (i + 1) 0 →
          ∃ c ∈ suffix, c.1 ≤ i ∧ i + 1 ≤ c.2) := by
  intro passes
  induction passes with
  | zero => intro ilo l h1 h2; omega
  | succ passes ih =>
    intro ilo l h1 _
    unfold cluster_loop
    by_cases hlo : (ilo : Int) < (evals.length : Int) - 1
    · rw [if_pos hlo]
      obtain ⟨h, a1, a2, a3, a4, a5⟩ := scan_ihi_spec thr evals ilo fuel ilo (le_refl _)
        (by omega) (by omega) (fun p hp1 hp2 => by omega)
      rw [a1]
      simp only
      obtain ⟨suffix, b1, b2, b3⟩ := ih (h + 1)
        (if h - ilo + 1 > 1 then note_cluster l ilo h else l) (by omega) (by omega)
      by_cases hn : h - ilo + 1 > 1
      · rw [if_pos hn] at b1
        refine ⟨(ilo, h) :: suffix, ?_, ?_, ?_⟩
        · rw [if_pos hn, b1]
          simp [note_cluster]
        · intro c hc
          rcases List.mem_cons.1 hc with hc | hc
          · subst hc
            exact ⟨by simp only; omega, a3⟩
          · exact b2 c hc
        · intro i hi1 hi2 hthr heq
          by_cases hih : i + 1 ≤ h
          · exact ⟨(ilo, h), List.mem_cons_self _ _, hi1, hih⟩
          · have hne : i ≠ h := by
              intro hieq
              subst hieq
              apply a5 hi2
              by_cases hil : ilo = i
              · subst hil
                rw [← heq, sub_self, abs_zero]
                have : (0 : ℚ) < max |evals.getD ilo 0| 1 :=
                  lt_of_lt_of_le one_pos (le_max_right _ _)
                positivity
              · rw [← heq]
                exact a4 i (by omega) (le_refl _)
            obtain ⟨c, c1, c2⟩ := b3 i (by omega) hi2 hthr heq
            exact ⟨c, List.mem_cons_of_mem _ c1, c2⟩
      · rw [if_neg hn] at b1
        have hh : h = ilo := by omega
        refine ⟨suffix, ?_, b2, ?_⟩
        · rw [if_neg hn, b1]
        · intro i hi1 hi2 hthr heq
          have hne : i ≠ h := by
            intro hieq
            subst hieq
            apply a5 hi2
            rw [hh, ← hh, ← heq, sub_self, abs_zero]
            have : (0 : ℚ) < max |evals.getD i 0| 1 :=
              lt_of_lt_of_le one_pos (le_max_right _ _)
            positivity
          exact b3 i (by omega) hi2 hthr heq
    · rw [if_neg hlo]
      refine ⟨[], by simp, by simp, ?_⟩
      intro i hi1 hi2
      omega

theorem cluster_loop_natural {σ : Type} (rotate : σ → Nat → Nat → σ) (thr : ℚ)
    (evals : List ℚ) (nmo fuel : Nat) :
    ∀ passes ilo (l l2 : List (Nat × Nat)),
      cluster_loop note_cluster thr evals nmo fuel passes ilo l = some (Except.ok l2) →
      ∃ suffix, l2 = l ++ suffix ∧ ∀ U : σ,
        cluster_loop rotate thr evals nmo fuel passes ilo U
          = some (Except.ok (suffix.foldl (fun U c => rotate U c.1 c.2) U)) := by
  intro passes
  induction passes with
  | zero =>
    intro ilo l l2 h
    simp [cluster_loop] at h
  | succ passes ih =>
    intro ilo l l2 h
    unfold cluster_loop at h
    by_cases hlo : (ilo : Int) < (nmo : Int) - 1
    · rw [if_pos hlo] at h
      cases hs : scan_ihi thr evals nmo ilo fuel ilo with
      | none => rw [hs] at h; simp at h
      | some r =>
        cases r with
        | error e => rw [hs] at h; simp at h
        | ok ihi =>
          rw [hs] at h
          simp only at h
          by_cases hn : ihi - ilo + 1 > 1
          · rw [if_pos hn] at h
            obtain ⟨suffix, e1, e2⟩ := ih (ihi + 1) _ l2 h
            refine ⟨(ilo, ihi) :: suffix, ?_, ?_⟩
            · rw [e1]
              simp [note_cluster]
            · intro U
              unfold cluster_loop
              rw [if_pos hlo, hs]
              simp only
              rw [if_pos hn, e2]
              rfl
          · rw [if_neg hn] at h
            obtain ⟨suffix, e1, e2⟩ := ih (ihi + 1) _ l2 h
            refine ⟨suffix, e1, ?_⟩
            intro U
            unfold cluster_loop
            rw [if_pos hlo, hs]
            simp only
            rw [if_neg hn, e2]
    · rw [if_neg hlo] at h
      simp only [Option.some.injEq, Except.ok.injEq] at h
      refine ⟨[], by simp [h], ?_⟩
      intro U
      unfold cluster_loop
      rw [if_neg hlo]
      rfl

theorem cluster_loop_sample :
    cluster_loop note_cluster (1 / 10000) [1, 2, 2, 5] 4 4 4 0 [] = some (Except.ok [(1, 2)]) := by
  norm_num [cluster_loop, scan_ihi, note_cluster, abs_lt]

/-- C17. For every positive degeneracy threshold and every eigenvalue list of length `m` in
which positions `i` and `i+1` hold equal values, the cluster loop (run with `m` passes
allowed for every loop) ends without reading `evals` outside positions `0..m-1`, the
branch for clusters of more than one state is entered for a cluster `[ilo, ihi]` with
`ilo ≤ i`, `i + 1 ≤ ihi`, `ihi < m`, hence of size at least 2, and with the polar rotation as
that branch the loop returns `U` rotated cluster by cluster. -/
theorem cluster_scan_joins_equal_neighbours (thresh_degenerate : ℚ)
    (hpos : 0 < thresh_degenerate) (evals : List ℚ) (i : Nat) (hi : i + 1 < evals.length)
    (heq : evals.getD i 0 = evals.getD (i + 1) 0) :
    ∃ clusters,
      cluster_loop note_cluster thresh_degenerate evals evals.length evals.length
        evals.length 0 [] = some (Except.ok clusters) ∧
      (∃ c ∈ clusters, c.1 ≤ i ∧ i + 1 ≤ c.2 ∧ c.2 < evals.length ∧ c.2 - c.1 + 1 ≥ 2) ∧
      ∀ (svd : List (List ℚ) → List (List ℚ) × List ℚ × List (List ℚ)) (U : List (List ℚ)),
        cluster_loop (rotate_cluster svd) thresh_degenerate evals evals.length evals.length
          evals.length 0 U
          = some (Except.ok (clusters.foldl (fun U c => rotate_cluster svd U c.1 c.2) U)) := by
  obtain ⟨suffix, b1, b2, b3⟩ := cluster_loop_note_spec thresh_degenerate evals evals.length
    (by omega) evals.length 0 [] (by omega) (by omega)
  rw [List.nil_append] at b1
  obtain ⟨c, c1, c2, c3⟩ := b3 i (Nat.zero_le _) hi hpos heq
  refine ⟨suffix, b1, ⟨c, c1, c2, c3, (b2 c c1).2, by omega⟩, ?_⟩
  intro svd U
  obtain ⟨s3, e3, e4⟩ := cluster_loop_natural (rotate_cluster svd)
    thresh_degenerate evals evals.length evals.length evals.length 0 [] suffix b1
  rw [List.nil_append] at e3
  rw [e4 U, ← e3]

theorem cluster_scan_joins_equal_neighbours_witness :
    (0 : ℚ) < 1 / 10000 ∧
    ∃ clusters,
      cluster_loop note_cluster (1 / 10000) [1, 2, 2, 5] 4 4 4 0 []
        = some (Except.ok clusters) ∧
      (∃ c ∈ clusters, c.1 ≤ 1 ∧ 1 + 1 ≤ c.2 ∧ c.2 < 4 ∧ c.2 - c.1 + 1 ≥ 2) ∧
      ∀ (svd : List (List ℚ) → List (List ℚ) × List ℚ × List (List ℚ)) (U : List (List ℚ)),
        cluster_loop (rotate_cluster svd) (1 / 10000) [1, 2, 2, 5] 4 4 4 0 U
          = some (Except.ok (clusters.foldl (fun U c => rotate_cluster svd U c.1 c.2) U)) :=
  ⟨by norm_num,
    cluster_scan_joins_equal_neighbours (1 / 10000) (by norm_num) [1, 2, 2, 5] 1 (by decide)
      rfl⟩

/-! ### The one-state problem -/

theorem swap_loop_one (fuel : Nat) (st : SwapState) :
    swap_loop 1 (fuel + 1) st = some { st with switched := false } := by
  simp [swap_loop, swap_pass, List.range, List.range.loop]

theorem fix_phases_one (u : ℚ) (hu : u = 1 ∨ u = -1) : fix_phases 1 [[u]] = [[1]] := by
  rcases hu with rfl | rfl <;>
    norm_num [fix_phases, List.range, List.range.loop, get2, set_column, column]

theorem cluster_loop_one {σ : Type} (rotate : σ → Nat → Nat → σ) (thr : ℚ) (evals : List ℚ)
    (fuel passes : Nat) (U : σ) :
    cluster_loop rotate thr evals 1 fuel (passes + 1) 0 U = some (Except.ok U) := by
  simp [cluster_loop]

theorem diag_fock_matrix_of_parts {F : Type} [AddCommGroup F] [Module ℚ F]
    (ops : FieldOps F) (sygvp : List (List ℚ) → List (List ℚ) → List (List ℚ) × List ℚ)
    (svd : List (List ℚ) → List (List ℚ) × List ℚ × List (List ℚ))
    (fuel : Nat) (fock : List (List ℚ)) (psi Vpsi gamma fe : List (List F))
    (overlap : List (List ℚ)) (thresh : ℚ) (r : FockTransformation) (sorted : EigState)
    (hg : get_fock_transformation sygvp svd fuel overlap fock thresh = some (Except.ok r))
    (hs : sort_eigenvalues r.evals r.U = Except.ok sorted) :
    diag_fock_matrix ops sygvp svd fuel fock psi Vpsi gamma fe overlap thresh
      = some (Except.ok
          { selected := sorted.selected
            U := sorted.vecs
            fock := r.fock
            evals := sorted.vals
            psi := normalize ops.ip ops.sqrt (truncate ops (transform ops psi sorted.vecs))
            Vpsi := truncate ops (transform ops Vpsi sorted.vecs)
            gamma := truncate ops (transform ops gamma sorted.vecs)
            fe := truncate ops (transform ops fe sorted.vecs) }) := by
  unfold diag_fock_matrix
  rw [hg]
  simp only
  rw [hs]

theorem sort_eigenvalues_one (a : ℚ) :
    sort_eigenvalues [a] [[1]] =
      Except.ok
        { vals := [a], vecs := [[1]], selected := [0], vals_copy2 := [taken_mark] } := by
  norm_num [sort_eigenvalues, for_except, sort_eigenvalues_step, std_sort, find_index,
    match_tol, set_column, column, List.range, List.range.loop]

/-- C16. For the 1-by-1 problem `A = [a]`, `S = [1]`, for which the symmetric eigensolver
yields the eigenvalue `a` and the eigenvector `[1]` or `[-1]`, `diag_fock_matrix` (with at
least one pass allowed for each loop) returns: it ends with the eigenvalue list `[a]`, the
eigenvector matrix `[1]`, the matrix `[a]` and the selection `[0]`. -/
theorem diag_fock_matrix_one_state {F : Type} [AddCommGroup F] [Module ℚ F] (ops : FieldOps F)
    (sygvp : List (List ℚ) → List (List ℚ) → List (List ℚ) × List ℚ)
    (svd : List (List ℚ) → List (List ℚ) × List ℚ × List (List ℚ))
    (fuel : Nat) (hfuel : 1 ≤ fuel) (a u thresh : ℚ) (psi Vpsi gamma fe : List (List F))
    (hu : u = 1 ∨ u = -1) (hs : sygvp [[a]] [[1]] = ([[u]], [a])) :
    ∃ r, diag_fock_matrix ops sygvp svd fuel [[a]] psi Vpsi gamma fe [[1]] thresh
        = some (Except.ok r) ∧
      r.evals = [a] ∧ r.U = [[1]] ∧ r.selected = [0] ∧ r.fock = [[a]] := by
  obtain ⟨f, rfl⟩ : ∃ f, fuel = f + 1 := ⟨fuel - 1, by omega⟩
  have hd : dim [[a]] 0 = 1 := rfl
  have hg : get_fock_transformation sygvp svd (f + 1) [[1]] [[a]] thresh
      = some (Except.ok { U := [[1]], fock := [[a]], evals := [a] }) := by
    unfold get_fock_transformation
    simp only [hs, hd, swap_loop_one, fix_phases_one u hu, cluster_loop_one]
    simp [dim, zeros2, set2, List.range, List.range.loop]
  exact ⟨_, diag_fock_matrix_of_parts ops sygvp svd (f + 1) [[a]] psi Vpsi gamma fe [[1]]
    thresh _ _ hg (sort_eigenvalues_one a), rfl, rfl, rfl, rfl⟩

theorem diag_fock_matrix_one_state_witness :
    ((-1 : ℚ) = 1 ∨ (-1 : ℚ) = -1) ∧
    ∃ r, diag_fock_matrix sample_ops (fun _ _ => ([[-1]], [3])) (fun q => (q, [], q)) 1 [[3]]
          [[5]] [[1]] [[2]] [[4]] [[1]] (1 / 10000) = some (Except.ok r) ∧
      r.evals = [3] ∧ r.U = [[1]] ∧ r.selected = [0] ∧ r.fock = [[3]] :=
  ⟨Or.inr rfl,
    diag_fock_matrix_one_state sample_ops (fun _ _ => ([[-1]], [3])) (fun q => (q, [], q)) 1
      (le_refl 1) 3 (-1) (1 / 10000) [[5]] [[1]] [[2]] [[4]] (Or.inr rfl) rfl⟩

/-! ### An already diagonal problem -/

theorem sort_eigenvalues_marker_sample :
    sort_eigenvalues [5, 10000] [[1, 0], [0, 1]]
      = Except.ok { vals := [5, 10000], vecs := [[1, 1], [0, 0]], selected := [0, 0],
                    vals_copy2 := [taken_mark, 10000] } := by
  norm_num [sort_eigenvalues, for_except, sort_eigenvalues_step, std_sort, find_index,
    match_tol, taken_mark, set_column, column, List.range, List.range.loop,
    List.replicate, abs_lt, lt_abs]

/-- C15. For the already diagonal problem `A = diag(5, 10000)`, `S = 1`, for which the
eigensolver returns the identity matrix as `U` and the ascending eigenvalues `5, 10000`,
`diag_fock_matrix` does not leave `U` equal to the identity: the second pass of
`sort_eigenvalues` matches the eigenvalue `10000` against the mark `10000.0` it has just
written over entry `0`, selects index `0` again and copies column `0` into column `1`, so
`U` ends as `[[1, 1], [0, 0]]`, the selection as `[0, 0]`, and `transform` replaces the
second vector of a list by the first. -/
theorem diag_fock_matrix_identity_marker_collision
    (svd : List (List ℚ) → List (List ℚ) × List ℚ × List (List ℚ)) :
    ∃ r, diag_fock_matrix sample_ops (fun _ _ => (identity2 2, [5, 10000])) svd 2
          [[5, 0], [0, 10000]] [[3], [4]] [[1], [2]] [[1], [2]] [[1], [2]] (identity2 2)
          (1 / 10000) = some (Except.ok r) ∧
      r.U = [[1, 1], [0, 0]] ∧ r.U ≠ identity2 2 ∧ r.selected = [0, 0] ∧
      r.evals = [5, 10000] ∧ r.fock = [[5, 0], [0, 10000]] ∧
      r.Vpsi = [[1], [1]] ∧ transform sample_ops [[1], [2]] r.U = [[1], [1]] := by
  have hg : get_fock_transformation (fun _ _ => (identity2 2, [5, 10000])) svd 2 (identity2 2)
      [[5, 0], [0, 10000]] (1 / 10000)
      = some (Except.ok
          { U := [[1, 0], [0, 1]], evals := [5, 10000], fock := [[5, 0], [0, 10000]] }) := by
    norm_num [get_fock_transformation, dim, swap_loop, swap_pass, swap_body, fix_phases,
      cluster_loop, scan_ihi, identity2, tabulate2, get2, set2, zeros2, List.range,
      List.range.loop, List.replicate, abs_lt]
  have hsort := sort_eigenvalues_marker_sample
  have ht : transform sample_ops [[1], [2]] [[1, 1], [0, 0]] = [[1], [1]] := by
    norm_num [transform, gaxpy, truncate, sample_ops, get2, List.range, List.range.loop]
  refine ⟨_, diag_fock_matrix_of_parts sample_ops _ svd 2 _ [[3], [4]] [[1], [2]] [[1], [2]]
    [[1], [2]] _ _ _ _ hg hsort, rfl, ?_, rfl, rfl, rfl, ?_, ht⟩
  · decide
  · simp only [ht]
    norm_num [truncate, sample_ops]

theorem foldl_fixed_mem {α β : Type} (g : α → β → α) (a : α) (l : List β)
    (h : ∀ b ∈ l, g a b = a) : l.foldl g a = a := by
  induction l with
  | nil => rfl
  | cons b rest ih =>
    rw [List.foldl_cons, h b (List.mem_cons_self _ _)]
    exact ih (fun c hc => h c (List.mem_cons_of_mem _ hc))

theorem get2_identity2 (m i j : Nat) (hi : i < m) (hj : j < m) :
    get2 (identity2 m) i j = if i = j then 1 else 0 := by
  unfold identity2
  rw [get2_tabulate2 _ _ _ _ _ hi hj]

theorem swap_body_identity (m i j : Nat) (hi : i < m) (hj : j < m) (hij : i ≠ j)
    (evals : List ℚ) (sw : Bool) :
    swap_body i j { U := identity2 m, evals := evals, switched := sw }
      = { U := identity2 m, evals := evals, switched := sw } := by
  unfold swap_body
  simp only [get2_identity2 m i i hi hi, get2_identity2 m j j hj hj,
    get2_identity2 m i j hi hj, get2_identity2 m j i hj hi, if_neg hij, if_neg (Ne.symm hij),
    if_true]
  norm_num

theorem swap_pass_identity (m : Nat) (evals : List ℚ) (sw : Bool) :
    swap_pass m { U := identity2 m, evals := evals, switched := sw }
      = { U := identity2 m, evals := evals, switched := false } := by
  unfold swap_pass
  apply foldl_fixed_mem
  intro i hi
  have hi2 : i < m := List.mem_range.1 hi
  apply foldl_fixed_mem
  intro d hd
  have hd2 : d < m - (i + 1) := List.mem_range.1 hd
  exact swap_body_identity m i (i + 1 + d) hi2 (by omega) (by omega) evals false

theorem swap_loop_identity (m fuel : Nat) (evals : List ℚ) (sw : Bool) :
    swap_loop m (fuel + 1) { U := identity2 m, evals := evals, switched := sw }
      = some { U := identity2 m, evals := evals, switched := false } := by
  unfold swap_loop
  rw [swap_pass_identity]
  simp

theorem fix_phases_identity (m : Nat) : fix_phases m (identity2 m) = identity2 m := by
  unfold fix_phases
  apply foldl_fixed_mem
  intro i hi
  have hi2 : i < m := List.mem_range.1 hi
  rw [get2_identity2 m i i hi2 hi2]
  norm_num

theorem rotate_cluster_identity
    (svd : List (List ℚ) → List (List ℚ) × List ℚ × List (List ℚ))
    (hsvd : ∀ c, inner2 (svd (identity2 c)).1 (svd (identity2 c)).2.2 = identity2 c)
    (m ilo ihi : Nat) (hlo : ilo ≤ ihi) (hhi : ihi < m) :
    rotate_cluster svd (identity2 m) ilo ihi = identity2 m := by
  have hc : 0 < ihi + 1 - ilo := by omega
  have sI : HasShape m m (identity2 m) := tabulate2_shape _ _ _
  have sc : HasShape (ihi + 1 - ilo) (ihi + 1 - ilo) (identity2 (ihi + 1 - ilo)) :=
    tabulate2_shape _ _ _
  have hq : slice2 (identity2 m) ilo ihi ilo ihi = identity2 (ihi + 1 - ilo) := by
    apply ext2 (ihi + 1 - ilo) (ihi + 1 - ilo) _ _ (tabulate2_shape _ _ _) sc
    intro i j hi hj
    rw [get2_tabulate2 _ _ _ _ _ hi hj, get2_identity2 m _ _ (by omega) (by omega),
      get2_identity2 _ _ _ hi hj]
    by_cases hij : i = j
    · subst hij; simp
    · have : ilo + i ≠ ilo + j := by omega
      simp [hij, this]
  have ht : transpose2 (identity2 (ihi + 1 - ilo)) = identity2 (ihi + 1 - ilo) := by
    apply ext2 (ihi + 1 - ilo) (ihi + 1 - ilo) _ _ (transpose2_shape _ _ _ sc hc) sc
    intro i j hi hj
    rw [get2_transpose2 _ _ _ sc hc i j hi hj, get2_identity2 _ _ _ hj hi,
      get2_identity2 _ _ _ hi hj]
    by_cases hij : i = j
    · subst hij; simp
    · simp [hij, Ne.symm hij]
  have ss : HasShape (m - 1 + 1 - 0) (ihi + 1 - ilo) (slice2 (identity2 m) 0 (m - 1) ilo ihi) :=
    tabulate2_shape _ _ _
  have hm : m - 1 + 1 - 0 = m := by omega
  rw [hm] at ss
  have hin : inner2 (slice2 (identity2 m) 0 (m - 1) ilo ihi) (identity2 (ihi + 1 - ilo))
      = slice2 (identity2 m) 0 (m - 1) ilo ihi := by
    apply ext2 m (ihi + 1 - ilo) _ _ (inner2_shape _ _ _ _ _ ss.1 sc hc) ss
    intro i j hi hj
    rw [get2_inner2 _ _ m (ihi + 1 - ilo) (ihi + 1 - ilo) ss.1 sc hc i j hi hj]
    rw [Finset.sum_eq_single j]
    · rw [get2_identity2 _ _ _ hj hj]
      simp
    · intro b hb hbj
      rw [get2_identity2 _ _ _ (Finset.mem_range.1 hb) hj]
      simp [hbj]
    · intro hj2
      exact absurd (Finset.mem_range.2 hj) hj2
  obtain ⟨s1, a1, o1⟩ := set_slice_spec m m (identity2 m) sI 0 (m - 1) ilo ihi (by omega) hhi
    (slice2 (identity2 m) 0 (m - 1) ilo ihi)
  unfold rotate_cluster
  simp only [hq, hsvd, ht, sI.1, hin]
  apply ext2 m m _ _ s1 sI
  intro i j hi hj
  by_cases hin2 : ilo ≤ j ∧ j ≤ ihi
  · have e := a1 i (j - ilo) (by omega) (by omega)
    rw [Nat.zero_add, (by omega : ilo + (j - ilo) = j)] at e
    rw [e]
    unfold slice2
    rw [get2_tabulate2 _ _ _ _ _ (by omega) (by omega), Nat.zero_add,
      (by omega : ilo + (j - ilo) = j)]
  · exact o1 i j (by omega)

theorem cluster_loop_identity
    (svd : List (List ℚ) → List (List ℚ) × List ℚ × List (List ℚ))
    (hsvd : ∀ c, inner2 (svd (identity2 c)).1 (svd (identity2 c)).2.2 = identity2 c)
    (thr : ℚ) (evals : List ℚ) (fuel : Nat) (h1 : evals.length ≤ fuel) (h2 : 1 ≤ fuel) :
    cluster_loop (rotate_cluster svd) thr evals evals.length fuel fuel 0
        (identity2 evals.length) = some (Except.ok (identity2 evals.length)) := by
  obtain ⟨suffix, b1, b2, _⟩ := cluster_loop_note_spec thr evals fuel (by omega) fuel 0 []
    (by omega) h2
  obtain ⟨s3, e3, e4⟩ := cluster_loop_natural (rotate_cluster svd) thr evals evals.length
    fuel fuel 0 [] _ b1
  rw [List.nil_append, List.nil_append] at e3
  subst e3
  rw [e4, foldl_fixed_mem]
  intro c hc
  exact rotate_cluster_identity svd hsvd _ _ _ (le_of_lt (b2 c hc).1) (b2 c hc).2

theorem diag_fill (m : Nat) (g : Nat → ℚ) :
    ∀ k, k ≤ m →
      HasShape m m ((List.range k).foldl (fun t i => set2 t i i (g i)) (zeros2 m m)) ∧
      ∀ i j, get2 ((List.range k).foldl (fun t i => set2 t i i (g i)) (zeros2 m m)) i j
        = if i = j ∧ i < k then g i else 0 := by
  intro k
  induction k with
  | zero =>
    intro _
    exact ⟨zeros2_shape m m, fun i j => by simp [get2_zeros2]⟩
  | succ k ih =>
    intro hk
    obtain ⟨s, e⟩ := ih (by omega)
    rw [List.range_succ, List.foldl_append]
    simp only [List.foldl_cons, List.foldl_nil]
    refine ⟨set2_shape _ _ _ _ _ _ s, ?_⟩
    intro i j
    by_cases hc : i = k ∧ j = k
    · obtain ⟨rfl, rfl⟩ := hc
      rw [get2_set2_same m m _ _ _ _ s (by omega) (by omega)]
      simp
    · rw [get2_set2_other _ _ _ _ _ _ hc, e]
      by_cases hij : i = j
      · subst hij
        have hik : i ≠ k := fun h => hc ⟨h, h⟩
        by_cases hlt : i < k
        · simp [hlt, Nat.lt_succ_of_lt hlt]
        · have : ¬ i < k + 1 := by omega
          simp [hlt, this]
      · simp [hij]

theorem diag_fill_eq (evals : List ℚ) :
    (List.range evals.length).foldl (fun t i => set2 t i i (evals.getD i 0))
        (zeros2 evals.length evals.length) = diag2 evals := by
  obtain ⟨s, e⟩ := diag_fill evals.length (fun i => evals.getD i 0) evals.length (le_refl _)
  apply ext2 evals.length evals.length _ _ s (tabulate2_shape _ _ _)
  intro i j hi hj
  rw [e, get2_tabulate2 _ _ _ _ _ hi hj]
  by_cases hij : i = j
  · subst hij; simp [hi]
  · simp [hij]

theorem dim_of_shape (m : Nat) (t : List (List ℚ)) (h : HasShape m m t) :
    dim t 0 = m ∧ dim t 1 = m := by
  refine ⟨h.1, ?_⟩
  unfold dim
  simp only [one_ne_zero, if_false]
  by_cases hm : 0 < m
  · exact shape_row_length m m t h 0 hm
  · have : t = [] := List.length_eq_zero.1 (by rw [h.1]; omega)
    subst this
    simp
    omega

theorem foldl_range_step {α : Type} (g : α → Nat → α) (S : Nat → α) (k : Nat)
    (h : ∀ n, n < k → g (S n) n = S (n + 1)) : (List.range k).foldl g (S 0) = S k := by
  induction k with
  | zero => rfl
  | succ k ih =>
    rw [List.range_succ, List.foldl_append, ih (fun n hn => h n (by omega))]
    simp only [List.foldl_cons, List.foldl_nil]
    exact h k (by omega)

theorem set_getD_self {α : Type} (l : List α) (n : Nat) (d : α) : l.set n (l.getD n d) = l := by
  induction l generalizing n with
  | nil => rfl
  | cons a rest ih =>
    cases n with
    | zero => rfl
    | succ n =>
      simp only [List.set_cons_succ, List.getD_cons_succ]
      rw [ih]

theorem set_column_self (rows : List (List ℚ)) (n : Nat) :
    set_column rows n (column 0 rows n) = rows := by
  unfold set_column column
  rw [List.zipWith_map_right, List.zipWith_same]
  conv_rhs => rw [← List.map_id rows]
  apply List.map_congr_left
  intro row _
  exact set_getD_self row n 0

theorem find_index_sorted_input (evals : List ℚ) (n : Nat) (hn : n < evals.length)
    (hmark : match_tol < |evals.getD n 0 - taken_mark|) :
    find_index (evals.getD n 0) (List.replicate n taken_mark ++ evals.drop n) evals.length
      (evals.length + 1) 0 = n := by
  obtain ⟨_, a2, a3, a4⟩ := find_index_spec (evals.getD n 0)
    (List.replicate n taken_mark ++ evals.drop n) evals.length (evals.length + 1) 0
    (Nat.zero_le _) (by omega)
  have hat : ∀ t, t < n →
      (List.replicate n taken_mark ++ evals.drop n).getD t 0 = taken_mark := by
    intro t ht
    rw [List.getD_eq_getElem?_getD, List.getElem?_append_left (by simpa using ht)]
    simp [ht]
  have hn2 : (List.replicate n taken_mark ++ evals.drop n).getD n 0 = evals.getD n 0 := by
    rw [List.getD_eq_getElem?_getD, List.getElem?_append_right (by simp)]
    simp [List.getD_eq_getElem?_getD]
  rcases Nat.lt_trichotomy
    (find_index (evals.getD n 0) (List.replicate n taken_mark ++ evals.drop n) evals.length
      (evals.length + 1) 0) n with h | h | h
  · have := a3 (by omega)
    rw [hat _ h] at this
    exact absurd hmark (not_lt.2 this)
  · exact h
  · have := a4 n (Nat.zero_le _) h
    rw [hn2, sub_self, abs_zero] at this
    exact absurd this (not_lt.2 (le_of_lt match_tol_pos))

theorem sort_eigenvalues_sorted_input (evals : List ℚ) (vecs : List (List ℚ))
    (hcols : ∀ row ∈ vecs, row.length = evals.length)
    (hsorted : evals.Sorted (· ≤ ·))
    (hmark : ∀ v ∈ evals, match_tol < |v - taken_mark|) :
    sort_eigenvalues evals vecs =
      Except.ok
        { vals := evals, vecs := vecs, selected := List.range evals.length,
          vals_copy2 := List.replicate evals.length taken_mark } := by
  have hstd : std_sort evals = evals := List.Sorted.insertionSort_eq hsorted
  unfold sort_eigenvalues
  simp only [hstd]
  have key := for_except_range (sort_eigenvalues_step evals.length evals vecs)
    (fun n =>
      { vals := evals
        vecs := vecs
        selected := List.range n ++ List.replicate (evals.length - n) 0
        vals_copy2 := List.replicate n taken_mark ++ evals.drop n })
    evals.length
    (by
      intro n hn
      unfold sort_eigenvalues_step
      have hv : evals.getD n 0 ∈ evals := by
        rw [List.getD_eq_getElem _ _ hn]
        exact List.getElem_mem hn
      simp only [find_index_sorted_input evals n hn (hmark _ hv), set_getD_self,
        set_column_self]
      rw [if_pos ⟨hn, fun row hrow => by rw [hcols row hrow]; exact ⟨hn, hn⟩⟩]
      congr 2
      · rw [List.set_append_right _ _ (by simp), List.length_range, Nat.sub_self,
          (by omega : evals.length - n = (evals.length - (n + 1)) + 1), List.replicate_succ,
          List.set_cons_zero, List.range_succ, List.append_assoc]
        rfl
      · rw [List.set_append_right _ _ (by simp), List.length_replicate, Nat.sub_self,
          List.drop_eq_getElem_cons hn, List.set_cons_zero, List.replicate_succ',
          List.append_assoc]
        rfl)
  simp only [List.range_zero, List.nil_append, Nat.sub_zero, List.replicate_zero,
    List.drop_zero, Nat.sub_self, List.append_nil, List.drop_length] at key
  exact key

theorem gaxpy_keep {F : Type} [AddCommGroup F] [Module ℚ F] (a b : List F)
    (h : a.length = b.length) : gaxpy 1 a 0 b = a := by
  unfold gaxpy
  induction a generalizing b with
  | nil => simp
  | cons x rest ih =>
    cases b with
    | nil => simp at h
    | cons y rest2 =>
      simp only [List.zipWith_cons_cons, one_smul, zero_smul, add_zero]
      have := ih rest2 (by simpa using h)
      simp only [one_smul, zero_smul, add_zero] at this
      rw [this]

theorem gaxpy_take {F : Type} [AddCommGroup F] [Module ℚ F] (b : List F) :
    gaxpy 1 (List.replicate b.length (0 : F)) 1 b = b := by
  unfold gaxpy
  induction b with
  | nil => simp
  | cons y rest ih =>
    simp only [List.length_cons, List.replicate_succ, List.zipWith_cons_cons, one_smul,
      zero_add]
    simp only [one_smul] at ih
    rw [ih]

theorem take_succ_getD {α : Type} (l : List α) (k : Nat) (d : α) (h : k < l.length) :
    l.take k ++ [l.getD k d] = l.take (k + 1) := by
  induction l generalizing k with
  | nil => simp at h
  | cons a rest ih =>
    cases k with
    | zero => rfl
    | succ k =>
      simp only [List.take_succ_cons, List.cons_append, List.getD_cons_succ]
      rw [ih k (by simpa using h)]

theorem transform_row_identity {F : Type} [AddCommGroup F] [Module ℚ F] (f : List (List F))
    (m n i : Nat) (hf : HasShape m n f) (hi : i < m) :
    (List.range m).foldl
        (fun temp j => gaxpy 1 temp (get2 (identity2 m) j i) (f.getD j []))
        (List.replicate n (0 : F)) = f.getD i [] := by
  have key := foldl_range_step
    (fun temp j => gaxpy 1 temp (get2 (identity2 m) j i) (f.getD j []))
    (fun k => if i < k then f.getD i [] else List.replicate n (0 : F)) m
    (by
      intro k hk
      have hrow : ∀ t, t < m → (f.getD t []).length = n :=
        fun t ht => shape_row_length m n f hf t ht
      simp only [get2_identity2 m k i hk hi]
      rcases Nat.lt_trichotomy k i with h | h | h
      · have h1 : ¬ i < k := by omega
        have h2 : ¬ i < k + 1 := by omega
        have h3 : ¬ k = i := by omega
        rw [if_neg h1, if_neg h2, if_neg h3]
        exact gaxpy_keep _ _ (by rw [List.length_replicate, hrow k hk])
      · subst h
        have h1 : ¬ k < k := by omega
        have h2 : k < k + 1 := by omega
        rw [if_neg h1, if_pos h2, if_pos rfl, ← hrow k hk]
        exact gaxpy_take _
      · have h1 : i < k := h
        have h2 : i < k + 1 := by omega
        have h3 : ¬ k = i := by omega
        rw [if_pos h1, if_pos h2, if_neg h3]
        exact gaxpy_keep _ _ (by rw [hrow i hi, hrow k hk]))
  simp only [Nat.not_lt_zero, if_false, hi, if_true] at key
  exact key

theorem transform_identity {F : Type} [AddCommGroup F] [Module ℚ F] (ops : FieldOps F)
    (htrunc : ∀ g, ops.trunc g = g) (f : List (List F)) (m n : Nat) (hf : HasShape m n f) :
    transform ops f (identity2 m) = f := by
  unfold transform
  have hres : (List.range f.length).foldl
      (fun result i =>
        result ++ [(List.range f.length).foldl
          (fun temp j => gaxpy 1 temp (get2 (identity2 m) j i) (f.getD j []))
          (List.replicate (f.getD 0 []).length (0 : F))]) [] = f := by
    have key := foldl_range_step
      (fun result i =>
        result ++ [(List.range f.length).foldl
          (fun temp j => gaxpy 1 temp (get2 (identity2 m) j i) (f.getD j []))
          (List.replicate (f.getD 0 []).length (0 : F))])
      (fun k => f.take k) f.length
      (by
        intro k hk
        have hk2 : k < m := by rw [← hf.1]; exact hk
        simp only
        rw [hf.1, shape_row_length m n f hf 0 (by omega), transform_row_identity f m n k hf hk2]
        exact take_succ_getD f k [] hk)
    simp only [List.take_zero, List.take_length] at key
    exact key
  show truncate ops _ = f
  rw [hres]
  unfold truncate
  have hid : ops.trunc = id := funext htrunc
  rw [hid]
  simp

theorem truncate_id {F : Type} (ops : FieldOps F) (htrunc : ∀ g, ops.trunc g = g)
    (f : List (List F)) : truncate ops f = f := by
  unfold truncate
  have hid : ops.trunc = id := funext htrunc
  rw [hid]
  simp

theorem get_fock_transformation_identity
    (sygvp : List (List ℚ) → List (List ℚ) → List (List ℚ) × List ℚ)
    (svd : List (List ℚ) → List (List ℚ) × List ℚ × List (List ℚ))
    (hsvd : ∀ c, inner2 (svd (identity2 c)).1 (svd (identity2 c)).2.2 = identity2 c)
    (fuel : Nat) (overlap fock : List (List ℚ)) (thresh : ℚ) (evals : List ℚ)
    (hfuel : evals.length + 1 ≤ fuel) (hshape : HasShape evals.length evals.length fock)
    (hs : sygvp fock overlap = (identity2 evals.length, evals)) :
    get_fock_transformation sygvp svd fuel overlap fock thresh
      = some (Except.ok { U := identity2 evals.length, fock := diag2 evals, evals := evals }) := by
  obtain ⟨f, rfl⟩ : ∃ f, fuel = f + 1 := ⟨fuel - 1, by omega⟩
  obtain ⟨d0, d1⟩ := dim_of_shape _ _ hshape
  unfold get_fock_transformation
  simp only [hs, d0, d1, swap_loop_identity, fix_phases_identity,
    cluster_loop_identity svd hsvd thresh evals (f + 1) (by omega) (by omega), diag_fill_eq]

/-- Where the identity is kept: when the eigensolver returns the identity matrix
with ascending eigenvalues none of which lies within `1e-8` of the mark `10000`, and the
singular value decomposition of an identity block yields factors with `W * VH` the identity
(as every decomposition into orthogonal factors does), `diag_fock_matrix` leaves `U` the
identity, the matrix becomes `diag(evals)`, the selection is `0, 1, ..., m-1` and, truncation
being exact, the transformed vector lists are the lists passed in. -/
theorem diag_fock_matrix_identity_kept {F : Type} [AddCommGroup F] [Module ℚ F]
    (ops : FieldOps F) (htrunc : ∀ g, ops.trunc g = g)
    (sygvp : List (List ℚ) → List (List ℚ) → List (List ℚ) × List ℚ)
    (svd : List (List ℚ) → List (List ℚ) × List ℚ × List (List ℚ))
    (hsvd : ∀ c, inner2 (svd (identity2 c)).1 (svd (identity2 c)).2.2 = identity2 c)
    (fuel : Nat) (overlap fock : List (List ℚ)) (thresh : ℚ) (evals : List ℚ) (n : Nat)
    (psi Vpsi gamma fe : List (List F))
    (hfuel : evals.length + 1 ≤ fuel) (hshape : HasShape evals.length evals.length fock)
    (hs : sygvp fock overlap = (identity2 evals.length, evals))
    (hsorted : evals.Sorted (· ≤ ·))
    (hmark : ∀ v ∈ evals, match_tol < |v - taken_mark|)
    (hpsi : HasShape evals.length n psi) (hVpsi : HasShape evals.length n Vpsi)
    (hgamma : HasShape evals.length n gamma) (hfe : HasShape evals.length n fe) :
    ∃ r, diag_fock_matrix ops sygvp svd fuel fock psi Vpsi gamma fe overlap thresh
        = some (Except.ok r) ∧
      r.U = identity2 evals.length ∧ r.fock = diag2 evals ∧ r.evals = evals ∧
      r.selected = List.range evals.length ∧
      transform ops psi r.U = psi ∧ r.Vpsi = Vpsi ∧ r.gamma = gamma ∧ r.fe = fe ∧
      r.psi = normalize ops.ip ops.sqrt psi := by
  unfold diag_fock_matrix
  simp only [get_fock_transformation_identity sygvp svd hsvd fuel overlap fock thresh evals
    hfuel hshape hs,
    sort_eigenvalues_sorted_input evals (identity2 evals.length)
      (tabulate2_shape evals.length evals.length _).2 hsorted hmark,
    transform_identity ops htrunc _ _ n hpsi, transform_identity ops htrunc _ _ n hVpsi,
    transform_identity ops htrunc _ _ n hgamma, transform_identity ops htrunc _ _ n hfe,
    truncate_id ops htrunc]
  exact ⟨_, rfl, rfl, rfl, rfl, rfl, transform_identity ops htrunc _ _ n hpsi, rfl, rfl, rfl,
    rfl⟩

theorem inner2_identity2 (c : Nat) : inner2 (identity2 c) (identity2 c) = identity2 c := by
  have sc : HasShape c c (identity2 c) := tabulate2_shape _ _ _
  by_cases hc : 0 < c
  · apply ext2 c c _ _ (inner2_shape _ _ _ _ _ sc.1 sc hc) sc
    intro i j hi hj
    rw [get2_inner2 _ _ c c c sc.1 sc hc i j hi hj, Finset.sum_eq_single j]
    · rw [get2_identity2 _ _ _ hj hj, if_pos rfl, mul_one]
    · intro b hb hbj
      rw [get2_identity2 _ _ _ (Finset.mem_range.1 hb) hj, if_neg hbj, mul_zero]
    · intro hj2
      exact absurd (Finset.mem_range.2 hj) hj2
  · have : c = 0 := by omega
    subst this
    rfl

theorem diag_fock_matrix_identity_kept_sample :
    ∃ r, diag_fock_matrix sample_ops (fun _ _ => (identity2 2, [5, 7])) (fun q => (q, [], q)) 3
          [[5, 0], [0, 7]] [[3], [4]] [[1], [2]] [[1], [2]] [[1], [2]] (identity2 2)
          (1 / 10000) = some (Except.ok r) ∧
      r.U = identity2 2 ∧ r.selected = [0, 1] ∧ r.Vpsi = [[1], [2]] := by
  obtain ⟨r, h1, h2, _, _, h5, _, h7, _⟩ := diag_fock_matrix_identity_kept sample_ops
    (fun _ => rfl) (fun _ _ => (identity2 2, [5, 7])) (fun q => (q, [], q))
    (fun c => inner2_identity2 c) 3 (identity2 2) [[5, 0], [0, 7]] (1 / 10000) [5, 7] 1
    [[3], [4]] [[1], [2]] [[1], [2]] [[1], [2]] (by decide)
    ⟨rfl, by intro row hrow; simp at hrow; rcases hrow with rfl | rfl <;> rfl⟩ rfl
    (by simp [List.Sorted]; norm_num)
    (by intro v hv; simp at hv; rcases hv with rfl | rfl <;>
      norm_num [match_tol, taken_mark, lt_abs])
    ⟨rfl, by intro row hrow; simp at hrow; rcases hrow with rfl | rfl <;> rfl⟩
    ⟨rfl, by intro row hrow; simp at hrow; rcases hrow with rfl | rfl <;> rfl⟩
    ⟨rfl, by intro row hrow; simp at hrow; rcases hrow with rfl | rfl <;> rfl⟩
    ⟨rfl, by intro row hrow; simp at hrow; rcases hrow with rfl | rfl <;> rfl⟩
  exact ⟨r, h1, h2, h5, h7⟩

/-! ### Saving and loading -/

/-- C20, the claim as stated fails: a state with one response state, one ground orbital and
one property operator, saved under a label other than "dipole" and "nuclear", is loaded with
`Rparams.states = 1` and `Gparams.num_orbitals = 1` into an object that holds no property
operator. `LoadDensity` then reads no operator record, takes the saved operator for `P` and
the saved `P` for `Q`, and leaves the last record unread. -/
theorem load_density_operator_count_counterexample :
    sample_density.num_response_states = 1 ∧ sample_density.num_ground_states = 1 ∧
    SaveDensity sample_density
      = [Record.str "excited", Record.tensor [[1 / 2]], Record.num 1, Record.num 1,
          Record.func 1, Record.func 2, Record.func 3, Record.func 7, Record.func 4,
          Record.func 5] ∧
    ∃ r, LoadDensity sample_dipole sample_dipole 1 1 sample_receiver (SaveDensity sample_density)
        = Except.ok (r, [Record.func 5]) ∧
      r.P = [[7]] ∧ r.P ≠ sample_density.P ∧ r.Q = [[4]] ∧ r.Q ≠ sample_density.Q := by
  refine ⟨rfl, rfl, rfl, ?_⟩
  exact ⟨_, rfl, rfl, by decide, rfl, by decide⟩

theorem foldl_append_range {α : Type} (h : Nat → α) (a : List α) (m : Nat) :
    (List.range m).foldl (fun ar j => ar ++ [h j]) a = a ++ (List.range m).map h := by
  induction m with
  | zero => simp
  | succ m ihm =>
    rw [List.range_succ, List.foldl_append, ihm]
    simp

theorem save_vector_eq {F : Type} [Zero F] (n : Nat) (v : List F) (ar : List (Record F)) :
    save_vector n v ar = ar ++ (List.range n).map (fun i => Record.func (v.getD i 0)) := by
  unfold save_vector
  induction n with
  | zero => simp
  | succ n ih =>
    rw [List.range_succ, List.foldl_append, ih]
    simp

theorem save_table_eq {F : Type} [Zero F] (n m : Nat) (t : List (List F))
    (ar : List (Record F)) :
    save_table n m t ar
      = ar ++ ((List.range n).map
          (fun i => (List.range m).map (fun j => Record.func (getF t i j)))).flatten := by
  unfold save_table for2
  induction n with
  | zero => simp
  | succ n ih =>
    rw [List.range_succ, List.foldl_append, ih]
    simp only [List.foldl_cons, List.foldl_nil, List.map_append, List.map_cons, List.map_nil,
      List.flatten_append, List.flatten_cons, List.flatten_nil, List.append_nil]
    rw [foldl_append_range (fun j => Record.func (getF t n j)), List.append_assoc]

theorem set_prefix {α : Type} (pre v : List α) (k : Nat) (a : α) (hpre : pre.length = k)
    (hk : k < v.length) : (pre ++ v.drop k).set k a = (pre ++ [a]) ++ v.drop (k + 1) := by
  rw [List.set_append_right _ _ (by omega), hpre, Nat.sub_self, List.drop_eq_getElem_cons hk,
    List.set_cons_zero, List.append_assoc]
  rfl

theorem getD_prefix {α : Type} (pre v : List α) (k : Nat) (d : α) (hpre : pre.length = k) :
    (pre ++ v.drop k).getD k d = v.getD k d := by
  rw [List.getD_eq_getElem?_getD, List.getElem?_append_right (by omega), hpre, Nat.sub_self,
    List.getD_eq_getElem?_getD, List.getElem?_drop]
  rfl

theorem drop_map_range_cons {α : Type} (h : Nat → α) (n k : Nat) (hk : k < n) :
    ((List.range n).map h).drop k = h k :: ((List.range n).map h).drop (k + 1) := by
  rw [List.drop_eq_getElem_cons (by simpa using hk)]
  simp

theorem load_vector_spec {F : Type} (g : Nat → F) (v : List F) (n : Nat) (hn : n ≤ v.length)
    (rest : List (Record F)) :
    load_vector n (v, (List.range n).map (fun i => Record.func (g i)) ++ rest)
      = Except.ok ((List.range n).map g ++ v.drop n, rest) := by
  have key := for_except_range load_entry
    (fun k => ((List.range k).map g ++ v.drop k,
      ((List.range n).map (fun i => Record.func (g i))).drop k ++ rest)) n
    (by
      intro k hk
      unfold load_entry
      simp only [drop_map_range_cons (fun i => Record.func (g i)) n k hk, List.cons_append]
      have hlen : k < ((List.range k).map g ++ v.drop k).length := by
        simp only [List.length_append, List.length_map, List.length_range, List.length_drop]
        omega
      rw [if_pos hlen, set_prefix _ _ _ _ (by simp) (by omega), List.range_succ,
        List.map_append]
      rfl)
  simp only [List.range_zero, List.map_nil, List.nil_append, List.drop_zero] at key
  unfold load_vector
  rw [key]
  simp

theorem load_row_spec {F : Type} (g : Nat → F) (t : List (List F)) (m i : Nat)
    (hi : i < t.length) (hm : m ≤ (t.getD i []).length) (rest : List (Record F)) :
    load_row m i (t, (List.range m).map (fun j => Record.func (g j)) ++ rest)
      = Except.ok (t.set i ((List.range m).map g ++ (t.getD i []).drop m), rest) := by
  have key := for_except_range (load_cell i)
    (fun k => (t.set i ((List.range k).map g ++ (t.getD i []).drop k),
      ((List.range m).map (fun j => Record.func (g j))).drop k ++ rest)) m
    (by
      intro k hk
      unfold load_cell
      simp only [drop_map_range_cons (fun j => Record.func (g j)) m k hk, List.cons_append]
      have hrow : (t.set i ((List.range k).map g ++ (t.getD i []).drop k)).getD i []
          = (List.range k).map g ++ (t.getD i []).drop k := getD_set_eq _ _ _ _ hi
      have hlen : i < (t.set i ((List.range k).map g ++ (t.getD i []).drop k)).length ∧
          k < ((t.set i ((List.range k).map g ++ (t.getD i []).drop k)).getD i []).length := by
        rw [hrow]
        simp only [List.length_set, List.length_append, List.length_map, List.length_range,
          List.length_drop]
        omega
      rw [if_pos hlen, hrow, List.set_set, set_prefix _ _ _ _ (by simp) (by omega),
        List.range_succ, List.map_append]
      rfl)
  simp only [List.range_zero, List.map_nil, List.nil_append, List.drop_zero,
    set_getD_self] at key
  unfold load_row
  rw [key]
  simp

theorem load_table_spec {F : Type} (g : Nat → Nat → F) (t : List (List F)) (n m : Nat)
    (ht : HasShape n m t) (rest : List (Record F)) :
    load_table n m (t, ((List.range n).map
        (fun i => (List.range m).map (fun j => Record.func (g i j)))).flatten ++ rest)
      = Except.ok ((List.range n).map (fun i => (List.range m).map (g i)), rest) := by
  have key := for_except_range (load_row m)
    (fun k => ((List.range k).map (fun i => (List.range m).map (g i)) ++ t.drop k,
      (((List.range n).map
        (fun i => (List.range m).map (fun j => Record.func (g i j)))).drop k).flatten ++ rest)) n
    (by
      intro k hk
      simp only [drop_map_range_cons
        (fun i => (List.range m).map (fun j => Record.func (g i j))) n k hk,
        List.flatten_cons, List.append_assoc]
      have hkt : k < t.length := by rw [ht.1]; exact hk
      have hrow : ((List.range k).map (fun i => (List.range m).map (g i)) ++ t.drop k).getD k []
          = t.getD k [] := getD_prefix _ _ _ _ (by simp)
      have hrl : (t.getD k []).length = m := shape_row_length n m t ht k hk
      have hd : (t.getD k []).drop m = [] := List.drop_of_length_le (by omega)
      have hlen : k < ((List.range k).map (fun i => (List.range m).map (g i))
          ++ t.drop k).length := by
        simp only [List.length_append, List.length_map, List.length_range, List.length_drop]
        omega
      rw [load_row_spec (g k)
        ((List.range k).map (fun i => (List.range m).map (g i)) ++ t.drop k) m k hlen
        (by rw [hrow, hrl]), hrow, hd, List.append_nil,
        set_prefix _ _ _ _ (by simp) hkt, List.range_succ, List.map_append]
      rfl)
  simp only [List.range_zero, List.map_nil, List.nil_append, List.drop_zero] at key
  unfold load_table
  rw [key]
  have h1 : t.drop n = [] := List.drop_of_length_le (by rw [ht.1])
  have h2 : ((List.range n).map
      (fun i => (List.range m).map (fun j => Record.func (g i j)))).drop n = [] :=
    List.drop_of_length_le (by simp)
  rw [h1, h2]
  simp

theorem table_of_entries {F : Type} [Zero F] (x : List (List F)) (n m : Nat)
    (hx : HasShape n m x) :
    (List.range n).map (fun i => (List.range m).map (fun j => getF x i j)) = x := by
  apply List.ext_getElem
  · simp [hx.1]
  · intro i h1 h2
    have hrow : x[i].length = m := hx.2 _ (List.getElem_mem h2)
    simp only [List.getElem_map, List.getElem_range]
    apply List.ext_getElem
    · simp [hrow]
    · intro j h3 h4
      simp [getF, List.getD_eq_getElem?_getD, List.getElem?_eq_getElem h2,
        List.getElem?_eq_getElem h4]

theorem response_function_shape {F : Type} [Zero F] (n m : Int) :
    HasShape n.toNat m.toNat (ResponseFunction n m : List (List F)) := by
  unfold ResponseFunction
  refine ⟨by simp, ?_⟩
  intro row hrow
  rw [List.eq_of_mem_replicate hrow]
  simp

/-- C20 (amended). For every `FirstOrderDensity` state whose `x`, `y`, `P` and `Q` hold
`num_response_states` vectors of `num_ground_states` functions, whose `rho_omega` holds
`num_response_states` densities and whose operator vector holds `num_operators` functions,
written by `SaveDensity`: `LoadDensity` called with `Rparams.states` equal to the saved number
of response states and `Gparams.num_orbitals` equal to the saved number of ground orbitals,
when the property operator it works with for the saved label (`Property(world, "dipole")`,
`Property(world, "nuclear", Gparams.molecule)`, or for any other label the one the receiving
object holds) has the saved number of operators and an operator vector of that length, reads
every record written, in order, leaves none unread, and restores the label, omega, both
counts, every `x` and `y` function, every transition density, the property-operator vector and
every `P` and `Q` function equal to the saved values. -/
theorem load_density_restores_saved {F : Type} [Zero F] (dipole nuclear : Property F)
    (Rparams_states : Int) (Gparams_num_orbitals : Nat) (self st : FirstOrderDensity F)
    (hR : Rparams_states = st.num_response_states)
    (hG : (Gparams_num_orbitals : Int) = st.num_ground_states)
    (hx : HasShape st.num_response_states.toNat st.num_ground_states.toNat st.x)
    (hy : HasShape st.num_response_states.toNat st.num_ground_states.toNat st.y)
    (hP : HasShape st.num_response_states.toNat st.num_ground_states.toNat st.P)
    (hQ : HasShape st.num_response_states.toNat st.num_ground_states.toNat st.Q)
    (hrho : st.rho_omega.length = st.num_response_states.toNat)
    (hop : st.property_operator.operator_vector.length
      = st.property_operator.num_operators.toNat)
    (hcount : (select_property dipole nuclear self.property_operator st.property).num_operators
      = st.property_operator.num_operators)
    (hvec : (select_property dipole nuclear self.property_operator
        st.property).operator_vector.length
      = st.property_operator.num_operators.toNat) :
    LoadDensity dipole nuclear Rparams_states Gparams_num_orbitals self (SaveDensity st)
      = Except.ok (st, []) := by
  subst hR
  have hG2 : st.num_ground_states.toNat = Gparams_num_orbitals := by
    rw [← hG]
    exact Int.toNat_ofNat _
  have e1 : SaveDensity st
      = Record.str st.property :: Record.tensor st.omega ::
        Record.num st.num_response_states :: Record.num st.num_ground_states ::
        (((List.range st.num_response_states.toNat).map
            (fun i => (List.range st.num_ground_states.toNat).map
              (fun j => Record.func (getF st.x i j)))).flatten ++
        (((List.range st.num_response_states.toNat).map
            (fun i => (List.range st.num_ground_states.toNat).map
              (fun j => Record.func (getF st.y i j)))).flatten ++
        ((List.range st.num_response_states.toNat).map
            (fun i => Record.func (st.rho_omega.getD i 0)) ++
        ((List.range st.property_operator.num_operators.toNat).map
            (fun i => Record.func (st.property_operator.operator_vector.getD i 0)) ++
        (((List.range st.num_response_states.toNat).map
            (fun i => (List.range st.num_ground_states.toNat).map
              (fun j => Record.func (getF st.P i j)))).flatten ++
        (((List.range st.num_response_states.toNat).map
            (fun i => (List.range st.num_ground_states.toNat).map
              (fun j => Record.func (getF st.Q i j)))).flatten ++ [])))))) := by
    unfold SaveDensity
    simp only [save_table_eq, save_vector_eq, List.cons_append, List.nil_append,
      List.append_assoc, List.append_nil]
  rw [e1]
  unfold LoadDensity
  simp only [← hG2]
  rw [load_table_spec (fun i j => getF st.x i j) _ _ _ (response_function_shape _ _)]
  simp only
  rw [load_table_spec (fun i j => getF st.y i j) _ _ _ (response_function_shape _ _)]
  simp only
  rw [load_vector_spec (fun i => st.rho_omega.getD i 0) _ _ (by simp)]
  simp only
  rw [hcount, load_vector_spec (fun i => st.property_operator.operator_vector.getD i 0) _ _
    (by rw [hvec])]
  simp only
  rw [load_table_spec (fun i j => getF st.P i j) _ _ _ (response_function_shape _ _)]
  simp only
  rw [load_table_spec (fun i j => getF st.Q i j) _ _ _ (response_function_shape _ _)]
  simp only
  rw [table_of_entries st.x _ _ hx, table_of_entries st.y _ _ hy,
    table_of_entries st.P _ _ hP, table_of_entries st.Q _ _ hQ]
  have h1 : (List.range st.num_response_states.toNat).map (fun i => st.rho_omega.getD i 0)
      = st.rho_omega := by
    rw [← hrho]
    exact map_getD_range_gen 0 _
  have h2 : (List.range st.property_operator.num_operators.toNat).map
      (fun i => st.property_operator.operator_vector.getD i 0)
      = st.property_operator.operator_vector := by
    rw [← hop]
    exact map_getD_range_gen 0 _
  rw [h1, h2, List.drop_of_length_le (by simp), List.drop_of_length_le (by rw [hvec])]
  simp only [List.append_nil]

theorem load_density_restores_saved_witness :
    ((1 : Int) = sample_density.num_response_states) ∧
    (((1 : Nat) : Int) = sample_density.num_ground_states) ∧
    (select_property sample_dipole sample_dipole sample_density.property_operator
        sample_density.property).num_operators
      = sample_density.property_operator.num_operators ∧
    LoadDensity sample_dipole sample_dipole 1 1 sample_density (SaveDensity sample_density)
      = Except.ok (sample_density, []) :=
  ⟨rfl, rfl, rfl,
    load_density_restores_saved sample_dipole sample_dipole 1 1 sample_density sample_density
      rfl rfl (by simp [HasShape, sample_density]) (by simp [HasShape, sample_density])
      (by simp [HasShape, sample_density]) (by simp [HasShape, sample_density]) rfl rfl rfl
      rfl⟩

/-! ### The frequency shift -/

theorem x_shifts_cancels (energies : List ℚ) (Rparams_omega : ℚ)
    (h : energies.getD (energies.length - 1) 0 + |Rparams_omega| ≥ 0) :
    energies.getD (energies.length - 1) 0 + |Rparams_omega| + x_shifts energies Rparams_omega
      = 0 := by
  unfold x_shifts
  simp only [h, if_true]
  ring

theorem x_shifts_zero_otherwise (energies : List ℚ) (Rparams_omega : ℚ)
    (h : ¬ energies.getD (energies.length - 1) 0 + |Rparams_omega| ≥ 0) :
    x_shifts energies Rparams_omega = 0 := by
  unfold x_shifts
  simp only [h, if_false]

/-- C22. For the ground energies `[-1/2]` and `Rparams.omega = 1` the test
`energies[n-1] + omega_n >= 0` holds (`1/2 >= 0`), `x_shifts` is set to `-1/2`, and the shifted
energy `energies[n-1] + omega_n + x_shifts` is `0`, not a negative number. -/
theorem x_shifts_leaves_zero :
    ([-1 / 2] : List ℚ).getD (([-1 / 2] : List ℚ).length - 1) 0 + |(1 : ℚ)| ≥ 0 ∧
    x_shifts [-1 / 2] 1 = -1 / 2 ∧
    ([-1 / 2] : List ℚ).getD (([-1 / 2] : List ℚ).length - 1) 0 + |(1 : ℚ)|
      + x_shifts [-1 / 2] 1 = 0 ∧
    ¬ (([-1 / 2] : List ℚ).getD (([-1 / 2] : List ℚ).length - 1) 0 + |(1 : ℚ)|
      + x_shifts [-1 / 2] 1 < 0) := by
  norm_num [x_shifts]

/-! ### In-place addition and subtraction -/

theorem add_assign_compresses {α : Type} [Add α] [SMul ℚ α] (a b : FunctionImpl α) :
    ∃ r, MraFunction.add_assign { impl := some a } { impl := some b } = Except.ok r ∧
      r.1.is_compressed = true ∧ r.2.is_compressed = true ∧
      r.1.impl = some { compressed := true, coeffs := (1 : ℚ) • a.coeffs + (1 : ℚ) • b.coeffs } ∧
      r.2.impl = some { b with compressed := true } := by
  obtain ⟨ca, va⟩ := a
  obtain ⟨cb, vb⟩ := b
  cases ca <;> cases cb <;>
    exact ⟨_, rfl, rfl, rfl, rfl, rfl⟩

theorem sub_assign_fails_iff {α : Type} [Add α] [SMul ℚ α] (a b : FunctionImpl α) :
    (b.compressed = false →
      MraFunction.sub_assign { impl := some a } { impl := some b }
        = Except.error "MADNESS_ASSERT(is_compressed() && other.is_compressed())") ∧
    (b.compressed = true →
      MraFunction.sub_assign { impl := some a } { impl := some b }
        = Except.ok ({ impl := some { compressed := true,
                                      coeffs := (1 : ℚ) • a.coeffs + (-1 : ℚ) • b.coeffs } },
            { impl := some b })) := by
  obtain ⟨ca, va⟩ := a
  obtain ⟨cb, vb⟩ := b
  cases ca <;> cases cb <;> constructor <;> intro h <;> first | rfl | cases h

/-- C30. For two initialized functions `f` (compressed or reconstructed) and `g`
(reconstructed), `f -= g` does not compress `g`: its second line calls `compress()` on `f`
again, so the assertion `is_compressed() && other.is_compressed()` of `gaxpy` fails, while
`f += g` on the same operands compresses both and completes. -/
theorem sub_assign_reconstructed_operand_fails (cf : Bool) (vf vg : ℚ) :
    MraFunction.sub_assign { impl := some { compressed := cf, coeffs := vf } }
        { impl := some { compressed := false, coeffs := vg } }
      = Except.error "MADNESS_ASSERT(is_compressed() && other.is_compressed())" ∧
    ∃ r, MraFunction.add_assign { impl := some { compressed := cf, coeffs := vf } }
        { impl := some { compressed := false, coeffs := vg } } = Except.ok r ∧
      r.1.is_compressed = true ∧ r.2.is_compressed = true := by
  cases cf <;> exact ⟨rfl, _, rfl, rfl, rfl⟩

/-! ### Saving a response calculation -/

theorem save_without_tda {F : Type} (self : RestartState F) (h : self.tda = false) :
    save self = save_functions self.states.toNat self.num_orbitals self.x_response
      [RestartRecord.str self.inFile, RestartRecord.flag false,
        RestartRecord.num self.num_orbitals, RestartRecord.num self.states,
        RestartRecord.energies self.x_omega] := by
  unfold save
  rw [h]
  simp only []
  generalize save_functions self.states.toNat self.num_orbitals self.x_response
      [RestartRecord.str self.inFile, RestartRecord.flag false,
        RestartRecord.num self.num_orbitals, RestartRecord.num self.states,
        RestartRecord.energies self.x_omega] = r
  cases r <;> simp

/-- C21. `save` tests `if(Rparams.tda)` before it writes the `y` records, the opposite of
the condition under which a `y` branch exists. For a calculation that is not Tamm-Dancoff,
with `x` and `y` of one state and one orbital, it writes the five header records and the `x`
function and stops: neither the `y` energies nor the `y` function are written. For a
Tamm-Dancoff calculation, which holds no `y` functions, it goes on to write `y_omega` and to
read `y_response[0][0]`, a function the state does not hold. -/
theorem save_writes_y_under_tda :
    sample_restart_full.tda = false ∧
    save sample_restart_full
      = Except.ok [RestartRecord.str "ground", RestartRecord.flag false, RestartRecord.num 1,
          RestartRecord.num 1, RestartRecord.energies [3], RestartRecord.func 1] ∧
    sample_restart_tda.tda = true ∧ sample_restart_tda.y_response = [] ∧
    save sample_restart_tda = Except.error "index out of range" := by
  exact ⟨rfl, rfl, rfl, rfl, rfl⟩

/-! ### Trial functions -/

theorem trial_size_ge (n symm_size : Nat) (k : Int) (hn : 1 ≤ n) :
    k ≤ trial_size n symm_size k := by
  unfold trial_size
  by_cases h : ((n * symm_size : Nat) : Int) ≥ k
  · rw [if_pos h]
    exact h
  · rw [if_neg h]
    have hn0 : (0 : Int) < (n : Int) := by omega
    have h1 := Int.lt_tdiv_add_one_mul_self k hn0
    have h2 : (Int.tdiv k n + 1) * (n : Int) = k.tdiv n * n + n := by ring
    omega

/-- C29. For one occupied orbital and `k = 10` requested vectors, `create_trial_functions`
allocates `size = (10/1 + 1) * 1 = 11` trial vectors (`9 * 1 < 10`), writes the vectors
`0..8` in its first loop nest and enters the `while` loop with `count = 9 < 11`; one pass of
that loop writes nine more vectors, `trials[9]`, `trials[10]` and then `trials[11]`, which is
not below the number of vectors allocated. -/
theorem create_trial_functions_writes_beyond_size :
    trial_size 1 (symmetry (1 : ℚ) 1 1 1).length 10 = 11 ∧
    create_trial_functions sample_ops 1 (symmetry (1 : ℚ) 1 1 1) 10 [1]
      = some (Except.error "index out of range") ∧
    ∀ fuel, create_trial_functions sample_ops (fuel + 1) (symmetry (1 : ℚ) 1 1 1) 10 [1]
      = some (Except.error "index out of range") := by
  refine ⟨by decide, rfl, ?_⟩
  intro fuel
  rfl

/-! ### The index search on close eigenvalues -/

theorem std_sort_close_sample :
    std_sort [3 / 500000000, 3 / 250000000, 0] = [0, 3 / 500000000, 3 / 250000000] := by
  norm_num [std_sort, List.insertionSort, List.orderedInsert]

/-- C25. On the eigenvalues `[6e-9, 1.2e-8, 0]` (`k = 3`) the sorted value `0` is matched
with entry `0` (`6e-9`, within `1e-8`) and the sorted value `6e-9` with entry `1`, which
leaves `selected = [0, 1, _]` and `vals_copy2 = [10000, 10000, 0]`; the search for the sorted
value `1.2e-8` then finds the mark `10000` at entries `0` and `1`, the value `0` at entry
`2`, more than `1e-8` away, and stops at `j = 3 = k` after reading `vals_copy2[3]`: the
index `3` the source assigns to `selected(2)` is not an index of the list, and
`sort_eigenvalues` and `sort` alike read and write beyond their tensors. -/
theorem index_search_leaves_the_list :
    for_except
        (sort_eigenvalues_step 3 [0, 3 / 500000000, 3 / 250000000] (identity2 3)) [0, 1]
        { vals := [3 / 500000000, 3 / 250000000, 0], vecs := identity2 3,
          selected := [0, 0, 0], vals_copy2 := [3 / 500000000, 3 / 250000000, 0] }
      = Except.ok
          { vals := [0, 3 / 500000000, 0], vecs := [[1, 0, 0], [0, 1, 0], [0, 0, 1]],
            selected := [0, 1, 0], vals_copy2 := [taken_mark, taken_mark, 0] } ∧
    find_index (3 / 250000000) [taken_mark, taken_mark, 0] 3 (3 + 1) 0 = 3 ∧
    sort_eigenvalues [3 / 500000000, 3 / 250000000, 0] (identity2 3)
      = Except.error "index out of range" ∧
    sort [3 / 500000000, 3 / 250000000, 0] [1, 2, 3] [[(1 : ℚ)], [2], [3]]
      [[4], [5], [6]] = Except.error "index out of range" := by
  refine ⟨?_, ?_, ?_, ?_⟩
  · norm_num [for_except, sort_eigenvalues_step, find_index, match_tol, taken_mark,
      identity2, tabulate2, column, set_column, List.range, List.range.loop,
      List.replicate, lt_abs, abs_lt]
  · norm_num [find_index, match_tol, taken_mark, lt_abs]
  · unfold sort_eigenvalues
    rw [std_sort_close_sample]
    norm_num [for_except, sort_eigenvalues_step, find_index, match_tol, taken_mark,
      identity2, tabulate2, column, set_column, List.range, List.range.loop,
      List.replicate, lt_abs, abs_lt]
  · unfold sort
    rw [std_sort_close_sample]
    norm_num [for_except, sort_step, find_index, match_tol, taken_mark, List.range,
      List.range.loop, List.replicate, lt_abs, abs_lt]

/-! ### The exchange derivative -/

theorem setF_shape {F : Type} (m n : Nat) (t : List (List F)) (k p : Nat) (v : F)
    (h : HasShape m n t) : HasShape m n (setF t k p v) := by
  refine ⟨by simp [setF, h.1], ?_⟩
  intro row hrow
  unfold setF at hrow
  by_cases hk : k < t.length
  · rcases List.mem_or_eq_of_mem_set hrow with h1 | h1
    · exact h.2 row h1
    · rw [h1, List.length_set, List.getD_eq_getElem _ _ hk]
      exact h.2 _ (List.getElem_mem hk)
  · rw [List.set_eq_of_length_le (by omega)] at hrow
    exact h.2 row hrow

theorem getF_setF_same {F : Type} [Zero F] (m n : Nat) (t : List (List F)) (k p : Nat) (v : F)
    (h : HasShape m n t) (hk : k < m) (hp : p < n) : getF (setF t k p v) k p = v := by
  have hk2 : k < t.length := by rw [h.1]; exact hk
  unfold getF setF
  rw [getD_set_eq _ _ _ _ hk2]
  apply getD_set_eq
  rw [List.getD_eq_getElem _ _ hk2, h.2 _ (List.getElem_mem hk2)]; exact hp

theorem getF_setF_other {F : Type} [Zero F] (t : List (List F)) (k p k2 p2 : Nat) (v : F)
    (hne : ¬ (k2 = k ∧ p2 = p)) : getF (setF t k p v) k2 p2 = getF t k2 p2 := by
  unfold getF setF
  by_cases hk : k = k2
  · subst hk
    by_cases hlt : k < t.length
    · rw [getD_set_eq _ _ _ _ hlt]
      exact getD_set_ne _ _ _ _ _ (fun e => hne ⟨rfl, e.symm⟩)
    · rw [List.set_eq_of_length_le (by omega)]
  · rw [getD_set_ne _ _ _ _ _ hk]

theorem accumulate_inner {F : Type} [NonUnitalNonAssocSemiring F] (m n : Nat) (term : Nat → F)
    (k p : Nat) (hk : k < m) (hp : p < n) (d : List (List F)) (hd : HasShape m n d) :
    ∀ c,
      HasShape m n
        ((List.range c).foldl (fun d i => setF d k p (getF d k p + term i)) d) ∧
      getF ((List.range c).foldl (fun d i => setF d k p (getF d k p + term i)) d) k p
        = getF d k p + ∑ i in Finset.range c, term i := by
  intro c
  induction c with
  | zero => exact ⟨hd, by simp⟩
  | succ c ih =>
    obtain ⟨s, e⟩ := ih
    rw [List.range_succ, List.foldl_append]
    simp only [List.foldl_cons, List.foldl_nil]
    refine ⟨setF_shape _ _ _ _ _ _ s, ?_⟩
    rw [getF_setF_same m n _ _ _ _ s hk hp, e, Finset.sum_range_succ, add_assoc]

theorem accumulate_inner_other {F : Type} [NonUnitalNonAssocSemiring F] (term : Nat → F)
    (k p k2 p2 : Nat) (hne : ¬ (k2 = k ∧ p2 = p)) (d : List (List F)) :
    ∀ c, getF ((List.range c).foldl (fun d i => setF d k p (getF d k p + term i)) d) k2 p2
      = getF d k2 p2 := by
  intro c
  induction c with
  | zero => rfl
  | succ c ih =>
    rw [List.range_succ, List.foldl_append]
    simp only [List.foldl_cons, List.foldl_nil]
    rw [getF_setF_other _ _ _ _ _ _ hne, ih]

theorem accumulate_entries {F : Type} [NonUnitalNonAssocSemiring F] (m n : Nat)
    (term : Nat → Nat → Nat → F) (init : List (List F)) (h0 : HasShape m n init) :
    HasShape m n (for2 n m (fun p k d =>
      (List.range n).foldl (fun d i => setF d k p (getF d k p + term p k i)) d) init) ∧
    ∀ k p, k < m → p < n →
      getF (for2 n m (fun p k d =>
        (List.range n).foldl (fun d i => setF d k p (getF d k p + term p k i)) d) init) k p
        = getF init k p + ∑ i in Finset.range n, term p k i := by
  obtain ⟨h1, h2⟩ := for2_spec (HasShape m n) (fun t p k => getF t k p)
    (fun p k old => old + ∑ i in Finset.range n, term p k i) n m
    (fun p k d => (List.range n).foldl (fun d i => setF d k p (getF d k p + term p k i)) d)
    (fun p k t hp hk ht => (accumulate_inner m n (term p k) k p hk hp t ht n).1)
    (fun p k t p2 k2 hne =>
      accumulate_inner_other (term p k) k p k2 p2 (fun e => hne ⟨e.2, e.1⟩) t n)
    (fun p k t ht hp hk => (accumulate_inner m n (term p k) k p hk hp t ht n).2)
    init h0
  refine ⟨h1, ?_⟩
  intro k p hk hp
  rw [h2 p k, if_pos ⟨hp, hk⟩]

theorem foldl_congr_mem {α β : Type} (g g2 : α → β → α) (l : List β)
    (h : ∀ a, ∀ b ∈ l, g a b = g2 a b) : ∀ a, l.foldl g a = l.foldl g2 a := by
  induction l with
  | nil => intro a; rfl
  | cons b rest ih =>
    intro a
    rw [List.foldl_cons, List.foldl_cons, h a b (List.mem_cons_self _ _)]
    exact ih (fun a c hc => h a c (List.mem_cons_of_mem _ hc)) _

theorem response_zero_functions_shape {F : Type} [Zero F] (m n : Nat) :
    HasShape m n (response_zero_functions m n : List (List F)) := by
  unfold response_zero_functions
  refine ⟨by simp, ?_⟩
  intro row hrow
  rw [List.eq_of_mem_replicate hrow]
  simp

theorem getF_response_zero_functions {F : Type} [Zero F] (m n k p : Nat) :
    getF (response_zero_functions m n : List (List F)) k p = 0 := by
  unfold getF response_zero_functions
  simp only [List.getD_eq_getElem?_getD, List.getElem?_replicate]
  split_ifs
  · simp only [Option.getD_some, List.getElem?_replicate]
    split_ifs <;> rfl
  · rfl

theorem stored_potential_entries {F : Type} [Zero F] [Mul F] (ops : FieldOps F)
    (htrunc : ∀ g, ops.trunc g = g) (op : F → F) (f : List F) (i p : Nat)
    (hi : i < f.length) (hp : p < f.length) :
    getF (stored_potential ops op f) i p = op (f.getD i 0 * f.getD p 0) := by
  have key := foldl_range_step
    (fun (sp : List (List F)) i =>
      sp ++ [(((f.map (fun g => f.getD i 0 * g)).map ops.trunc).map op).map ops.trunc])
    (fun k => (List.range k).map
      (fun i => (((f.map (fun g => f.getD i 0 * g)).map ops.trunc).map op).map ops.trunc))
    f.length
    (by
      intro k _
      simp only [List.range_succ, List.map_append, List.map_cons, List.map_nil])
  unfold stored_potential getF
  simp only [List.range_zero, List.map_nil] at key
  rw [key, getD_map_lt _ _ i 0 [] (by simpa using hi), List.map_map, List.map_map,
    List.map_map, getD_map_lt _ _ p 0 0 hp]
  have hr : (List.range f.length).getD i 0 = i := by
    rw [List.getD_eq_getElem _ _ (by simpa using hi), List.getElem_range]
  simp only [Function.comp, htrunc, hr]

/-- C23. When `stored_potential[i][p]` holds `op(orbitals[i] * orbitals[p])` for all
`i, p < n`, as `create_ground_hamiltonian` stores it under exact truncation,
`create_exchange_derivative` on `m` vectors of `n` functions returns the same table with
`store_potential` switched on and switched off, and its entry `deriv_k[k][p]` is
`Σ_i op(orbitals[i] * orbitals[p]) * f[k][i]` for every `k < m` and `p < n`. -/
theorem create_exchange_derivative_store_independent {F : Type}
    [NonUnitalNonAssocSemiring F] (stored : List (List F)) (op : F → F)
    (f : List (List F)) (orbitals : List F)
    (hf : ∀ row ∈ f, row.length = (f.getD 0 []).length)
    (hstored : ∀ i p, i < (f.getD 0 []).length → p < (f.getD 0 []).length →
      getF stored i p = op (orbitals.getD i 0 * orbitals.getD p 0)) :
    create_exchange_derivative true stored op f orbitals
      = create_exchange_derivative false stored op f orbitals ∧
    HasShape f.length (f.getD 0 []).length
      (create_exchange_derivative false stored op f orbitals) ∧
    ∀ k p, k < f.length → p < (f.getD 0 []).length →
      getF (create_exchange_derivative false stored op f orbitals) k p
        = ∑ i in Finset.range (f.getD 0 []).length,
            op (orbitals.getD i 0 * orbitals.getD p 0) * getF f k i := by
  have _ := hf
  refine ⟨?_, ?_⟩
  · unfold create_exchange_derivative for2
    simp only [if_true, Bool.false_eq_true, if_false]
    apply foldl_congr_mem
    intro a p hp
    apply foldl_congr_mem
    intro a2 k _
    apply foldl_congr_mem
    intro a3 i hi
    rw [hstored i p (List.mem_range.1 hi) (List.mem_range.1 hp)]
  · obtain ⟨h1, h2⟩ := accumulate_entries f.length (f.getD 0 []).length
      (fun p k i => op (orbitals.getD i 0 * orbitals.getD p 0) * getF f k i)
      (response_zero_functions f.length (f.getD 0 []).length)
      (response_zero_functions_shape _ _)
    have hdef : create_exchange_derivative false stored op f orbitals
        = for2 (f.getD 0 []).length f.length (fun p k d =>
            (List.range (f.getD 0 []).length).foldl (fun d i => setF d k p (getF d k p
              + op (orbitals.getD i 0 * orbitals.getD p 0) * getF f k i)) d)
            (response_zero_functions f.length (f.getD 0 []).length) := by
      unfold create_exchange_derivative
      simp only [Bool.false_eq_true, if_false]
    rw [hdef]
    refine ⟨h1, ?_⟩
    intro k p hk hp
    rw [h2 k p hk hp, getF_response_zero_functions, zero_add]

theorem create_exchange_derivative_store_independent_witness :
    (∀ row ∈ ([[1, 2], [3, 4]] : List (List ℚ)),
      row.length = (([[1, 2], [3, 4]] : List (List ℚ)).getD 0 []).length) ∧
    create_exchange_derivative true (stored_potential sample_ops (fun g => 2 * g) [5, 7])
        (fun g => 2 * g) [[1, 2], [3, 4]] [5, 7]
      = create_exchange_derivative false (stored_potential sample_ops (fun g => 2 * g) [5, 7])
        (fun g => 2 * g) [[1, 2], [3, 4]] [5, 7] ∧
    getF (create_exchange_derivative false
        (stored_potential sample_ops (fun g => 2 * g) [5, 7])
        (fun g => 2 * g) [[1, 2], [3, 4]] [5, 7]) 1 0
      = ∑ i in Finset.range 2,
          (fun g => 2 * g) (([5, 7] : List ℚ).getD i 0 * ([5, 7] : List ℚ).getD 0 0)
            * getF ([[1, 2], [3, 4]] : List (List ℚ)) 1 i :=
  ⟨by simp,
    (create_exchange_derivative_store_independent
      (stored_potential sample_ops (fun g => 2 * g) [5, 7]) (fun g => 2 * g) [[1, 2], [3, 4]]
      [5, 7] (by simp)
      (fun i p hi hp => stored_potential_entries sample_ops (fun _ => rfl) (fun g => 2 * g)
        [5, 7] i p hi hp)).1,
    (create_exchange_derivative_store_independent
      (stored_potential sample_ops (fun g => 2 * g) [5, 7]) (fun g => 2 * g) [[1, 2], [3, 4]]
      [5, 7] (by simp)
      (fun i p hi hp => stored_potential_entries sample_ops (fun _ => rfl) (fun g => 2 * g)
        [5, 7] i p hi hp)).2.2 1 0 (by decide) (by decide)⟩

/-! ### The symmetric factor left by the cluster rotation -/

theorem get2_inner2_diag2 (W : List (List ℚ)) (sigma : List ℚ) (c : Nat) (hc : 0 < c)
    (hW : HasShape c c W) (hsig : sigma.length = c) (a u : Nat) (ha : a < c) (hu : u < c) :
    get2 (inner2 W (diag2 sigma)) a u = get2 W a u * sigma.getD u 0 := by
  have sD : HasShape c c (diag2 sigma) := by
    unfold diag2; rw [hsig]; exact tabulate2_shape _ _ _
  rw [get2_inner2 _ _ c c c hW.1 sD hc a u ha hu, Finset.sum_eq_single u]
  · unfold diag2
    rw [hsig, get2_tabulate2 _ _ _ _ _ hu hu, if_pos rfl]
  · intro t ht htu
    unfold diag2
    rw [hsig, get2_tabulate2 _ _ _ _ _ (Finset.mem_range.1 ht) hu, if_neg htu, mul_zero]
  · intro h
    exact absurd (Finset.mem_range.2 hu) h

theorem rotate_cluster_polar_entries
    (svd : List (List ℚ) → List (List ℚ) × List ℚ × List (List ℚ))
    (U : List (List ℚ)) (nmo ilo ihi : Nat) (hU : HasShape nmo nmo U)
    (hlo : ilo ≤ ihi) (hhi : ihi < nmo) (W VH : List (List ℚ)) (sigma : List ℚ)
    (hsvd : svd (slice2 U ilo ihi ilo ihi) = (W, sigma, VH))
    (hW : HasShape (ihi + 1 - ilo) (ihi + 1 - ilo) W)
    (hVH : HasShape (ihi + 1 - ilo) (ihi + 1 - ilo) VH)
    (hsig : sigma.length = ihi + 1 - ilo)
    (hq : slice2 U ilo ihi ilo ihi = inner2 (inner2 W (diag2 sigma)) VH)
    (horth : inner2 VH (transpose2 VH) = identity2 (ihi + 1 - ilo)) :
    ∀ a b, a < ihi + 1 - ilo → b < ihi + 1 - ilo →
      get2 (rotate_cluster svd U ilo ihi) (ilo + a) (ilo + b)
        = ∑ u in Finset.range (ihi + 1 - ilo), get2 W a u * sigma.getD u 0 * get2 W b u := by
  have hc : 0 < ihi + 1 - ilo := by omega
  have hW2 : HasShape (ihi + 1 - ilo) (ihi + 1 - ilo) (svd (slice2 U ilo ihi ilo ihi)).1 := by
    rw [hsvd]; exact hW
  have hVH2 : HasShape (ihi + 1 - ilo) (ihi + 1 - ilo)
      (svd (slice2 U ilo ihi ilo ihi)).2.2 := by
    rw [hsvd]; exact hVH
  obtain ⟨_, e1, _⟩ := rotate_cluster_entries svd U nmo ilo ihi hU hlo hhi hW2 hVH2
  rw [hsvd] at e1
  simp only at e1
  have sD : HasShape (ihi + 1 - ilo) (ihi + 1 - ilo) (diag2 sigma) := by
    unfold diag2; rw [hsig]; exact tabulate2_shape _ _ _
  have sX := inner2_shape _ _ _ _ _ hW.1 sD hc
  have sVt := transpose2_shape _ _ _ hVH hc
  intro a b ha hb
  rw [e1 (ilo + a) b (by omega) hb]
  have hq0 : ∀ t, t < ihi + 1 - ilo →
      get2 U (ilo + a) (ilo + t) = get2 (slice2 U ilo ihi ilo ihi) a t := by
    intro t ht
    unfold slice2
    rw [get2_tabulate2 _ _ _ _ _ ha ht]
  have key := polar_algebra (ihi + 1 - ilo) (get2 (inner2 W (diag2 sigma))) (get2 W)
    (get2 VH)
    (by
      intro u v hu hv
      have h1 := get2_inner2 _ _ _ _ _ hVH.1 sVt hc u v hu hv
      rw [horth] at h1
      unfold identity2 at h1
      rw [get2_tabulate2 _ _ _ _ _ hu hv] at h1
      rw [h1]
      apply Finset.sum_congr rfl
      intro t ht
      rw [get2_transpose2 _ _ _ hVH hc t v (Finset.mem_range.1 ht) hv])
    a b
  have lhs_eq : ∀ t, t ∈ Finset.range (ihi + 1 - ilo) →
      get2 U (ilo + a) (ilo + t) * get2 (inner2 W VH) b t
        = (∑ u in Finset.range (ihi + 1 - ilo),
            get2 (inner2 W (diag2 sigma)) a u * get2 VH u t)
          * (∑ v in Finset.range (ihi + 1 - ilo), get2 W b v * get2 VH v t) := by
    intro t ht
    have ht2 := Finset.mem_range.1 ht
    rw [hq0 t ht2, get2_inner2 _ _ _ _ _ hW.1 hVH hc b t hb ht2, hq,
      get2_inner2 _ _ _ _ _ sX.1 hVH hc a t ha ht2]
  rw [Finset.sum_congr rfl lhs_eq, key]
  apply Finset.sum_congr rfl
  intro u hu
  rw [get2_inner2_diag2 W sigma _ hc hW hsig a u ha (Finset.mem_range.1 hu)]

/-- C26. In the cluster rotation, given a singular value decomposition
`q = W*diag(sigma)*VH` of the cluster's sub-block `q = U[ilo..ihi, ilo..ihi]` with `VH`
orthogonal and `sigma >= 0`, the sub-block after the step equals
`W*diag(sigma)*transpose(W)`; it is symmetric and positive semidefinite (`v^T B v >= 0` for
every vector `v`), its diagonal entries are non-negative, and the columns outside the cluster
are unchanged. -/
theorem rotate_cluster_symmetric_psd
    (svd : List (List ℚ) → List (List ℚ) × List ℚ × List (List ℚ))
    (U : List (List ℚ)) (nmo ilo ihi : Nat) (hU : HasShape nmo nmo U)
    (hlo : ilo ≤ ihi) (hhi : ihi < nmo) (W VH : List (List ℚ)) (sigma : List ℚ)
    (hsvd : svd (slice2 U ilo ihi ilo ihi) = (W, sigma, VH))
    (hW : HasShape (ihi + 1 - ilo) (ihi + 1 - ilo) W)
    (hVH : HasShape (ihi + 1 - ilo) (ihi + 1 - ilo) VH)
    (hsig : sigma.length = ihi + 1 - ilo)
    (hq : slice2 U ilo ihi ilo ihi = inner2 (inner2 W (diag2 sigma)) VH)
    (horth : inner2 VH (transpose2 VH) = identity2 (ihi + 1 - ilo))
    (hpos : ∀ u, 0 ≤ sigma.getD u 0) :
    slice2 (rotate_cluster svd U ilo ihi) ilo ihi ilo ihi
      = inner2 (inner2 W (diag2 sigma)) (transpose2 W) ∧
    (∀ a b, a < ihi + 1 - ilo → b < ihi + 1 - ilo →
      get2 (rotate_cluster svd U ilo ihi) (ilo + a) (ilo + b)
        = get2 (rotate_cluster svd U ilo ihi) (ilo + b) (ilo + a)) ∧
    (∀ v : Nat → ℚ,
      0 ≤ ∑ a in Finset.range (ihi + 1 - ilo), ∑ b in Finset.range (ihi + 1 - ilo),
        v a * get2 (rotate_cluster svd U ilo ihi) (ilo + a) (ilo + b) * v b) ∧
    (∀ a, a < ihi + 1 - ilo → 0 ≤ get2 (rotate_cluster svd U ilo ihi) (ilo + a) (ilo + a)) ∧
    (∀ r c, ¬ (ilo ≤ c ∧ c ≤ ihi) → get2 (rotate_cluster svd U ilo ihi) r c = get2 U r c) := by
  have hc : 0 < ihi + 1 - ilo := by omega
  have E := rotate_cluster_polar_entries svd U nmo ilo ihi hU hlo hhi W VH sigma hsvd hW hVH
    hsig hq horth
  have hW2 : HasShape (ihi + 1 - ilo) (ihi + 1 - ilo) (svd (slice2 U ilo ihi ilo ihi)).1 := by
    rw [hsvd]; exact hW
  have hVH2 : HasShape (ihi + 1 - ilo) (ihi + 1 - ilo)
      (svd (slice2 U ilo ihi ilo ihi)).2.2 := by
    rw [hsvd]; exact hVH
  obtain ⟨_, _, o1⟩ := rotate_cluster_entries svd U nmo ilo ihi hU hlo hhi hW2 hVH2
  have sD : HasShape (ihi + 1 - ilo) (ihi + 1 - ilo) (diag2 sigma) := by
    unfold diag2; rw [hsig]; exact tabulate2_shape _ _ _
  have sX := inner2_shape _ _ _ _ _ hW.1 sD hc
  have sWt := transpose2_shape _ _ _ hW hc
  refine ⟨?_, ?_, ?_, ?_, o1⟩
  · apply ext2 _ _ _ _ (tabulate2_shape _ _ _) (inner2_shape _ _ _ _ _ sX.1 sWt hc)
    intro a b ha hb
    rw [get2_tabulate2 _ _ _ _ _ ha hb, E a b ha hb,
      get2_inner2 _ _ _ _ _ sX.1 sWt hc a b ha hb]
    apply Finset.sum_congr rfl
    intro u hu
    rw [get2_inner2_diag2 W sigma _ hc hW hsig a u ha (Finset.mem_range.1 hu),
      get2_transpose2 _ _ _ hW hc u b (Finset.mem_range.1 hu) hb]
  · intro a b ha hb
    rw [E a b ha hb, E b a hb ha]
    apply Finset.sum_congr rfl
    intro u _
    ring
  · intro v
    have h1 : ∑ a in Finset.range (ihi + 1 - ilo), ∑ b in Finset.range (ihi + 1 - ilo),
          v a * get2 (rotate_cluster svd U ilo ihi) (ilo + a) (ilo + b) * v b
        = ∑ u in Finset.range (ihi + 1 - ilo),
            sigma.getD u 0 * ((∑ a in Finset.range (ihi + 1 - ilo), v a * get2 W a u)
              * (∑ b in Finset.range (ihi + 1 - ilo), v b * get2 W b u)) := by
      have h2 : ∀ a, a ∈ Finset.range (ihi + 1 - ilo) →
          ∑ b in Finset.range (ihi + 1 - ilo),
            v a * get2 (rotate_cluster svd U ilo ihi) (ilo + a) (ilo + b) * v b
          = ∑ b in Finset.range (ihi + 1 - ilo), ∑ u in Finset.range (ihi + 1 - ilo),
              sigma.getD u 0 * ((v a * get2 W a u) * (v b * get2 W b u)) := by
        intro a ha
        apply Finset.sum_congr rfl
        intro b hb
        rw [E a b (Finset.mem_range.1 ha) (Finset.mem_range.1 hb), Finset.mul_sum,
          Finset.sum_mul]
        apply Finset.sum_congr rfl
        intro u _
        ring
      rw [Finset.sum_congr rfl h2]
      have h3 : ∀ a, a ∈ Finset.range (ihi + 1 - ilo) →
          ∑ b in Finset.range (ihi + 1 - ilo), ∑ u in Finset.range (ihi + 1 - ilo),
              sigma.getD u 0 * ((v a * get2 W a u) * (v b * get2 W b u))
          = ∑ u in Finset.range (ihi + 1 - ilo), ∑ b in Finset.range (ihi + 1 - ilo),
              sigma.getD u 0 * ((v a * get2 W a u) * (v b * get2 W b u)) :=
        fun a _ => Finset.sum_comm
      rw [Finset.sum_congr rfl h3, Finset.sum_comm]
      apply Finset.sum_congr rfl
      intro u _
      rw [Finset.sum_mul_sum, Finset.mul_sum]
      apply Finset.sum_congr rfl
      intro a _
      rw [Finset.mul_sum]
    rw [h1]
    apply Finset.sum_nonneg
    intro u _
    exact mul_nonneg (hpos u) (mul_self_nonneg _)
  · intro a ha
    rw [E a a ha ha]
    apply Finset.sum_nonneg
    intro u _
    have : get2 W a u * sigma.getD u 0 * get2 W a u
        = sigma.getD u 0 * (get2 W a u * get2 W a u) := by ring
    rw [this]
    exact mul_nonneg (hpos u) (mul_self_nonneg _)

theorem rotate_cluster_symmetric_psd_witness :
    HasShape 2 2 ([[4 / 5, -3 / 5], [3 / 5, 4 / 5]] : List (List ℚ)) ∧
    slice2 [[4 / 5, -3 / 5], [3 / 5, 4 / 5]] 0 1 0 1
      = inner2 (inner2 [[4 / 5, -3 / 5], [3 / 5, 4 / 5]] (diag2 [1, 1])) [[1, 0], [0, 1]] ∧
    inner2 [[1, 0], [0, 1]] (transpose2 [[1, 0], [0, 1]]) = identity2 2 ∧
    (∀ u, (0 : ℚ) ≤ ([1, 1] : List ℚ).getD u 0) ∧
    slice2 (rotate_cluster
        (fun _ => ([[4 / 5, -3 / 5], [3 / 5, 4 / 5]], [1, 1], [[1, 0], [0, 1]]))
        [[4 / 5, -3 / 5], [3 / 5, 4 / 5]] 0 1) 0 1 0 1
      = inner2 (inner2 [[4 / 5, -3 / 5], [3 / 5, 4 / 5]] (diag2 [1, 1]))
          (transpose2 [[4 / 5, -3 / 5], [3 / 5, 4 / 5]]) ∧
    (0 : ℚ) ≤ get2 (rotate_cluster
        (fun _ => ([[4 / 5, -3 / 5], [3 / 5, 4 / 5]], [1, 1], [[1, 0], [0, 1]]))
        [[4 / 5, -3 / 5], [3 / 5, 4 / 5]] 0 1) (0 + 1) (0 + 1) := by
  have hU : HasShape 2 2 ([[4 / 5, -3 / 5], [3 / 5, 4 / 5]] : List (List ℚ)) := by
    simp [HasShape]
  have hW : HasShape (1 + 1 - 0) (1 + 1 - 0)
      ([[4 / 5, -3 / 5], [3 / 5, 4 / 5]] : List (List ℚ)) := by simp [HasShape]
  have hVH : HasShape (1 + 1 - 0) (1 + 1 - 0) ([[1, 0], [0, 1]] : List (List ℚ)) := by
    simp [HasShape]
  have hq : slice2 [[4 / 5, -3 / 5], [3 / 5, 4 / 5]] 0 1 0 1
      = inner2 (inner2 [[4 / 5, -3 / 5], [3 / 5, 4 / 5]] (diag2 [1, 1])) [[1, 0], [0, 1]] := by
    norm_num [slice2, inner2, diag2, tabulate2, get2, List.range, List.range.loop,
      Finset.sum_range_succ]
  have horth : inner2 [[1, 0], [0, 1]] (transpose2 [[1, 0], [0, 1]]) = identity2 2 := by
    norm_num [inner2, transpose2, identity2, tabulate2, get2, List.range, List.range.loop,
      Finset.sum_range_succ]
  have hpos : ∀ u, (0 : ℚ) ≤ ([1, 1] : List ℚ).getD u 0 := by
    intro u
    rcases u with _ | _ | u <;> simp
  have main := rotate_cluster_symmetric_psd
    (fun _ => ([[4 / 5, -3 / 5], [3 / 5, 4 / 5]], [1, 1], [[1, 0], [0, 1]]))
    [[4 / 5, -3 / 5], [3 / 5, 4 / 5]] 2 0 1 hU (by decide) (by decide)
    [[4 / 5, -3 / 5], [3 / 5, 4 / 5]] [[1, 0], [0, 1]] [1, 1] rfl hW hVH rfl hq horth hpos
  exact ⟨hU, hq, horth, hpos, main.1, main.2.2.2.1 1 (by decide)⟩

/-! ### Diagonalisation of the full response matrix -/

/-- C27. For one state (`m = 1`) with `x = [(3, 4)]`, `y = [(4, 3)]` and an eigensolver that
returns the identity as eigenvector matrix with the eigenvalues `-1` (column 0) and `1`
(column 1), `diag_full_response` returns `vecs` the identity, the `x` vector built from
column 0 (the input `x`, normalized) and the `y` vector built from column 1 (the input `y`,
normalized), but `x_evals(0) = 1`, the eigenvalue of column 1, and `y_evals(0) = -1`, the
eigenvalue of column 0: each returned vector is paired with the eigenvalue of the column that
produced the other one. -/
theorem diag_full_response_crosses_eigenvalues :
    ∃ r, diag_full_response sample_ops (fun _ _ => (identity2 2, [(-1, 0), (1, 0)]))
          (fun q => (q, [], q)) 2 [[-25, 0], [0, 25]] [[3, 4]] [[1, 1]] [[1, 0]] [[4, 3]]
          [[0, 1]] [[2, 2]] (1 / 10000) = Except.ok (some r) ∧
      r.vecs = [[1, 0], [0, 1]] ∧
      transform sample_ops [[3, 4], [4, 3]] r.vecs = [[3, 4], [4, 3]] ∧
      r.x = [[3 / 5, 4 / 5]] ∧ r.y = [[4 / 5, 3 / 5]] ∧
      r.x_evals = [1] ∧ r.y_evals = [-1] ∧
      r.x.length = 1 ∧ r.Vx.length = 1 ∧ r.x_g.length = 1 ∧
      r.y.length = 1 ∧ r.Vy.length = 1 ∧ r.y_g.length = 1 := by
  have hover : create_overlap sample_ops [[3, 4], [4, 3]] [[3, 4], [4, 3]]
      = [[25, 24], [24, 25]] := by
    norm_num [create_overlap, for2, set2, zeros2, inner, sample_ops, List.range,
      List.range.loop, List.replicate]
  have hpost : full_response_post (fun q => (q, [], q)) 2 [[25, 24], [24, 25]]
      [[-25, 0], [0, 25]] (1 / 10000) [[1, 0], [0, 1]] [-1, 1]
      = Except.ok (some { U := [[1, 0], [0, 1]], full_response := [[-1, 0], [0, 1]],
                          evals := [-1, 1] }) := by
    have hsort : sort_eigenvalues [-1, 1] [[1, 0], [0, 1]]
        = Except.ok { vals := [-1, 1], vecs := [[1, 0], [0, 1]], selected := [0, 1],
                      vals_copy2 := [taken_mark, taken_mark] } := by
      norm_num [sort_eigenvalues, for_except, sort_eigenvalues_step, std_sort, find_index,
        match_tol, taken_mark, set_column, column, List.range, List.range.loop,
        List.replicate, abs_lt, lt_abs, List.insertionSort, List.orderedInsert]
    have hpre : cluster_loop (rotate_cluster (fun q => (q, [], q))) (1 / 10000) [-1, 1] 2 2 2 0
        [[1, 0], [0, 1]] = some (Except.ok [[1, 0], [0, 1]]) := by
      norm_num [cluster_loop, scan_ihi, abs_lt]
    have hswap : swap_loop 2 2 { U := [[1, 0], [0, 1]], evals := [-1, 1], switched := true }
        = some { U := [[1, 0], [0, 1]], evals := [-1, 1], switched := false } := by
      norm_num [swap_loop, swap_pass, swap_body, get2, List.range, List.range.loop]
    have hfix : fix_phases 2 [[1, 0], [0, 1]] = [[1, 0], [0, 1]] := by
      norm_num [fix_phases, get2, List.range, List.range.loop]
    unfold full_response_post
    simp only [dim, if_true, List.length_cons, List.length_nil, hswap, hfix, hpre, hsort]
    norm_num [zeros2, set2, List.range, List.range.loop, List.replicate]
  have hid : identity2 2 = [[1, 0], [0, 1]] := by
    norm_num [identity2, tabulate2, List.range, List.range.loop]
  have htrans : get_full_response_transformation (fun _ _ => (identity2 2, [(-1, 0), (1, 0)]))
      (full_response_post (fun q => (q, [], q)) 2 [[25, 24], [24, 25]] [[-25, 0], [0, 25]]
        (1 / 10000)) [[25, 24], [24, 25]] [[-25, 0], [0, 25]]
      = Except.ok (some { U := [[1, 0], [0, 1]], full_response := [[-1, 0], [0, 1]],
                          evals := [-1, 1] }) := by
    have hreal : real_eigenvalues [((-1 : ℚ), (0 : ℚ)), (1, 0)] = Except.ok [-1, 1] := by
      norm_num [real_eigenvalues, tensor_max]
    unfold get_full_response_transformation
    simp only [hreal, hid]
    exact hpost
  have ht1 : transform sample_ops [[3, 4], [4, 3]] [[1, 0], [0, 1]] = [[3, 4], [4, 3]] := by
    norm_num [transform, gaxpy, truncate, sample_ops, get2, List.range, List.range.loop,
      List.replicate]
  have ht2 : transform sample_ops [[1, 1], [0, 1]] [[1, 0], [0, 1]] = [[1, 1], [0, 1]] := by
    norm_num [transform, gaxpy, truncate, sample_ops, get2, List.range, List.range.loop,
      List.replicate]
  have ht3 : transform sample_ops [[1, 0], [2, 2]] [[1, 0], [0, 1]] = [[1, 0], [2, 2]] := by
    norm_num [transform, gaxpy, truncate, sample_ops, get2, List.range, List.range.loop,
      List.replicate]
  have hn1 : normalize sample_ops.ip sample_ops.sqrt (truncate sample_ops [[3, 4]]) = [[3 / 5, 4 / 5]] := by
    norm_num [normalize, truncate, inner, sample_ops, List.range, List.range.loop]
  have hn2 : normalize sample_ops.ip sample_ops.sqrt (truncate sample_ops [[4, 3]]) = [[4 / 5, 3 / 5]] := by
    norm_num [normalize, truncate, inner, sample_ops, List.range, List.range.loop]
  unfold diag_full_response
  simp only [List.length_cons, List.length_nil, List.range, List.range.loop, List.foldl_cons,
    List.foldl_nil, List.getD_cons_zero, List.cons_append, List.nil_append, hover, htrans,
    ht1, ht2, ht3, Nat.zero_add, List.getD_cons_succ, List.dropLast, hn1, hn2]
  refine ⟨_, rfl, rfl, ht1, rfl, rfl, ?_, ?_, rfl, rfl, rfl, rfl, rfl, rfl⟩
  · norm_num [slice1]
  · norm_num [slice1]

theorem push_back_range {α : Type} (d : α) (x y : List α) :
    (List.range y.length).foldl (fun x i => x ++ [y.getD i d]) x = x ++ y := by
  rw [foldl_append_range (fun i => y.getD i d), map_getD_range_gen]

theorem transform_eq_map {F : Type} [AddCommGroup F] [Module ℚ F] (ops : FieldOps F)
    (f : List (List F)) (U : List (List ℚ)) :
    transform ops f U = truncate ops ((List.range f.length).map (fun i =>
      (List.range f.length).foldl
        (fun temp j => gaxpy 1 temp (get2 U j i) (f.getD j []))
        (List.replicate (f.getD 0 []).length (0 : F)))) := by
  unfold transform
  have h := foldl_append_range (fun i =>
      (List.range f.length).foldl
        (fun temp j => gaxpy 1 temp (get2 U j i) (f.getD j []))
        (List.replicate (f.getD 0 []).length (0 : F))) [] f.length
  rw [List.nil_append] at h
  show truncate ops _ = _
  rw [h]

theorem truncate_length {F : Type} (ops : FieldOps F) (f : List (List F)) :
    (truncate ops f).length = f.length := by
  simp [truncate]

theorem normalize_length {K F : Type} [Add K] [Zero K] [One K] [Div K] [SMul K F]
    (ip : F → F → K) (sqrt : K → K) (f : List (List F)) :
    (normalize ip sqrt f).length = f.length := by
  rw [normalize_eq_map]
  simp

theorem transform_length {F : Type} [AddCommGroup F] [Module ℚ F] (ops : FieldOps F)
    (f : List (List F)) (U : List (List ℚ)) : (transform ops f U).length = f.length := by
  rw [transform_eq_map, truncate_length]
  simp

theorem pop_back_range {α : Type} (l : List α) (k : Nat) :
    (List.range k).foldl (fun l (_ : Nat) => l.dropLast) l = l.take (l.length - k) := by
  induction k with
  | zero => simp
  | succ k ih =>
    rw [List.range_succ, List.foldl_append, ih]
    simp only [List.foldl_cons, List.foldl_nil]
    rw [take_dropLast _ _ (by omega)]
    congr 1

theorem upper_half_range {α : Type} (d : α) (X : List α) (m : Nat) (hX : X.length = m + m) :
    (List.range m).foldl (fun y i => y ++ [X.getD (i + m) d]) [] = X.drop m := by
  rw [foldl_append_range (fun i => X.getD (i + m) d), List.nil_append]
  apply List.ext_getElem
  · simp [hX]
  · intro i h1 h2
    simp only [List.getElem_map, List.getElem_range, List.getElem_drop]
    rw [List.getD_eq_getElem _ _ (by simp at h1; omega)]
    congr 1
    omega

theorem diag_full_response_pairs {F : Type} [AddCommGroup F] [Module ℚ F] (ops : FieldOps F)
    (ggevp : List (List ℚ) → List (List ℚ) → List (List ℚ) × List (ℚ × ℚ))
    (svd : List (List ℚ) → List (List ℚ) × List ℚ × List (List ℚ))
    (fuel : Nat) (full_response : List (List ℚ)) (x Vx x_g y Vy y_g : List (List F))
    (thresh : ℚ) (r : FullTransformation)
    (hVx : Vx.length = x.length) (hxg : x_g.length = x.length) (hy : y.length = x.length)
    (hVy : Vy.length = x.length) (hyg : y_g.length = x.length)
    (hr : get_full_response_transformation ggevp
        (full_response_post svd fuel (create_overlap ops (x ++ y) (x ++ y)) full_response
          thresh) (create_overlap ops (x ++ y) (x ++ y)) full_response
      = Except.ok (some r)) :
    ∃ out, diag_full_response ops ggevp svd fuel full_response x Vx x_g y Vy y_g thresh
        = Except.ok (some out) ∧
      out.vecs = r.U ∧
      out.x_evals = slice1 r.evals x.length (2 * x.length - 1) ∧
      out.y_evals = slice1 r.evals 0 (x.length - 1) ∧
      out.x = normalize ops.ip ops.sqrt (truncate ops ((transform ops (x ++ y) r.U).take x.length)) ∧
      out.y = normalize ops.ip ops.sqrt (truncate ops ((transform ops (x ++ y) r.U).drop x.length)) ∧
      out.x.length = x.length ∧ out.Vx.length = x.length ∧ out.x_g.length = x.length ∧
      out.y.length = x.length ∧ out.Vy.length = x.length ∧ out.y_g.length = x.length := by
  have p1 : (List.range x.length).foldl (fun x i => x ++ [y.getD i []]) x = x ++ y := by
    rw [← hy]; exact push_back_range [] x y
  have p2 : (List.range x.length).foldl (fun x_g i => x_g ++ [y_g.getD i []]) x_g
      = x_g ++ y_g := by
    rw [← hyg]; exact push_back_range [] x_g y_g
  have p3 : (List.range x.length).foldl (fun Vx i => Vx ++ [Vy.getD i []]) Vx = Vx ++ Vy := by
    rw [← hVy]; exact push_back_range [] Vx Vy
  have l1 : (transform ops (x ++ y) r.U).length = x.length + x.length := by
    rw [transform_length, List.length_append, hy]
  have l2 : (transform ops (x_g ++ y_g) r.U).length = x.length + x.length := by
    rw [transform_length, List.length_append, hxg, hyg]
  have l3 : (transform ops (Vx ++ Vy) r.U).length = x.length + x.length := by
    rw [transform_length, List.length_append, hVx, hVy]
  unfold diag_full_response
  simp only [p1, p2, p3, hr, upper_half_range [] _ x.length l1,
    upper_half_range [] _ x.length l2, upper_half_range [] _ x.length l3, pop_back_range,
    l1, l2, l3, Nat.add_sub_cancel]
  refine ⟨_, rfl, rfl, rfl, rfl, rfl, rfl, ?_, ?_, ?_, ?_, ?_, ?_⟩ <;>
    simp [normalize_length, truncate_length, l1, l2, l3]

/-! ### Termination of the column-swap loop -/

theorem get2_set_column (n : Nat) (U : List (List ℚ)) (hU : HasShape n n U) (i : Nat)
    (hi : i < n) (col : List ℚ) (hcol : col.length = n) (r c : Nat) (hr : r < n) :
    get2 (set_column U i col) r c = if c = i then col.getD r 0 else get2 U r c := by
  have hr2 : r < U.length := by rw [hU.1]; exact hr
  have hrow : (U.getD r []).length = n := shape_row_length n n U hU r hr
  unfold get2 set_column
  rw [getD_zipWith_lt _ _ _ r [] 0 [] hr2 (by rw [hcol]; exact hr)]
  by_cases hc : c = i
  · subst hc
    rw [if_pos rfl]
    exact getD_set_eq _ _ _ _ (by rw [hrow]; exact hi)
  · rw [if_neg hc]
    exact getD_set_ne _ _ _ _ _ (fun e => hc e.symm)

theorem set_column_shape (n : Nat) (U : List (List ℚ)) (hU : HasShape n n U) (i : Nat)
    (col : List ℚ) (hcol : col.length = n) : HasShape n n (set_column U i col) :=
  ⟨by rw [set_column_length _ _ _ (by rw [hcol, hU.1]), hU.1],
    set_column_row_length _ _ _ _ hU.2⟩

theorem column_getD (n : Nat) (U : List (List ℚ)) (hU : HasShape n n U) (j r : Nat)
    (hr : r < n) : (column 0 U j).getD r 0 = get2 U r j := by
  unfold column get2
  rw [getD_map_lt _ _ r [] 0 (by rw [hU.1]; exact hr)]

theorem swap_columns_spec (n : Nat) (U : List (List ℚ)) (hU : HasShape n n U) (i j : Nat)
    (hi : i < n) (hj : j < n) :
    HasShape n n (swap_columns U i j) ∧
    ∀ r c, r < n →
      get2 (swap_columns U i j) r c
        = if c = j then get2 U r i else if c = i then get2 U r j else get2 U r c := by
  have hc1 : (column 0 U j).length = n := by rw [column_length, hU.1]
  have hc2 : (column 0 U i).length = n := by rw [column_length, hU.1]
  have s1 := set_column_shape n U hU i _ hc1
  refine ⟨set_column_shape n _ s1 j _ hc2, ?_⟩
  intro r c hr
  unfold swap_columns
  simp only
  rw [get2_set_column n _ s1 j hj _ hc2 r c hr, get2_set_column n U hU i hi _ hc1 r c hr,
    column_getD n U hU i r hr, column_getD n U hU j r hr]

theorem diag_weight_mem (n : Nat) (U0 U : List (List ℚ)) (h : ColumnsOf n U0 U) :
    diag_weight n U ∈ diag_weights n U0 := by
  obtain ⟨_, φ, hφ⟩ := h
  unfold diag_weights diag_weight
  rw [Finset.mem_image]
  refine ⟨φ, Finset.mem_univ _, ?_⟩
  rw [Finset.sum_range]
  apply Finset.sum_congr rfl
  intro c _
  rw [hφ c c c.2]

theorem swap_body_spec (n : Nat) (U0 : List (List ℚ)) (st : SwapState) (i j : Nat)
    (hij : i < j) (hj : j < n) (hcols : ColumnsOf n U0 st.U) :
    ColumnsOf n U0 (swap_body i j st).U ∧
    (¬ swap_gain st.U i j → swap_body i j st = st) ∧
    (swap_gain st.U i j → (swap_body i j st).switched = true ∧
      diag_weight n (swap_body i j st).U > diag_weight n st.U) := by
  by_cases hg : swap_gain st.U i j
  · have hb : swap_body i j st
        = { U := swap_columns st.U i j, evals := swap_entries st.evals i j,
            switched := true } := by
      unfold swap_body
      unfold swap_gain at hg
      simp only [hg, if_true]
    obtain ⟨hU, φ, hφ⟩ := hcols
    obtain ⟨s1, e1⟩ := swap_columns_spec n st.U hU i j (by omega) hj
    rw [hb]
    refine ⟨⟨s1, ?_⟩, fun h => absurd hg h, fun _ => ⟨rfl, ?_⟩⟩
    · refine ⟨fun c => φ (if (c : Nat) = j then ⟨i, by omega⟩
          else if (c : Nat) = i then ⟨j, hj⟩ else c), ?_⟩
      intro r c hr
      simp only
      rw [e1 r c hr]
      by_cases h1 : (c : Nat) = j
      · rw [if_pos h1, if_pos h1]
        exact hφ r ⟨i, by omega⟩ hr
      · rw [if_neg h1, if_neg h1]
        by_cases h2 : (c : Nat) = i
        · rw [if_pos h2, if_pos h2]
          exact hφ r ⟨j, hj⟩ hr
        · rw [if_neg h2, if_neg h2]
          exact hφ r c hr
    · simp only
      have hdiff : diag_weight n (swap_columns st.U i j) - diag_weight n st.U
          = (get2 st.U i j * get2 st.U i j - get2 st.U i i * get2 st.U i i)
            + (get2 st.U j i * get2 st.U j i - get2 st.U j j * get2 st.U j j) := by
        unfold diag_weight
        rw [← Finset.sum_sub_distrib]
        rw [Finset.sum_eq_add_of_mem i j (Finset.mem_range.2 (by omega))
          (Finset.mem_range.2 hj) (by omega)]
        · rw [e1 i i (by omega), e1 j j hj]
          have hne : ¬ i = j := by omega
          simp only [hne, if_false, if_true]
        · intro c hc hne
          rw [e1 c c (Finset.mem_range.1 hc), if_neg hne.2, if_neg hne.1, sub_self]
      unfold swap_gain at hg
      have hD : diag_weight n (swap_columns st.U i j)
          = diag_weight n st.U + ((get2 st.U i j * get2 st.U i j
              - get2 st.U i i * get2 st.U i i)
            + (get2 st.U j i * get2 st.U j i - get2 st.U j j * get2 st.U j j)) := by
        rw [← hdiff]; ring
      rw [hD]
      linarith
  · have hb : swap_body i j st = st := by
      unfold swap_body
      unfold swap_gain at hg
      simp only [hg, if_false]
    rw [hb]
    exact ⟨hcols, fun _ => rfl, fun h => absurd h hg⟩

theorem pass_inv_step (n : Nat) (U0 U1 : List (List ℚ)) (ev1 : List ℚ) (k e : Nat)
    (st : SwapState) (hke : k + 1 + e < n) (h : PassInv n U0 U1 ev1 k e st) :
    PassInv n U0 U1 ev1 k (e + 1) (swap_body k (k + 1 + e) st) := by
  obtain ⟨c1, c2, c3, c4⟩ := h
  obtain ⟨b1, b2, b3⟩ := swap_body_spec n U0 st k (k + 1 + e) (by omega) hke c1
  by_cases hg : swap_gain st.U k (k + 1 + e)
  · obtain ⟨g1, g2⟩ := b3 hg
    refine ⟨b1, by linarith, (fun _ => by linarith), ?_⟩
    intro hs
    rw [g1] at hs
    cases hs
  · rw [b2 hg]
    refine ⟨c1, c2, c3, ?_⟩
    intro hs
    obtain ⟨d1, d2, d3⟩ := c4 hs
    refine ⟨d1, d2, ?_⟩
    intro i j hij hj hcase
    by_cases hnew : i = k ∧ j = k + 1 + e
    · obtain ⟨rfl, rfl⟩ := hnew
      rw [← d1]
      exact hg
    · apply d3 i j hij hj
      rcases hcase with hc | ⟨hc1, hc2⟩
      · exact Or.inl hc
      · refine Or.inr ⟨hc1, ?_⟩
        have : j ≠ k + 1 + e := fun e2 => hnew ⟨hc1, e2⟩
        omega

theorem pass_inv_inner (n : Nat) (U0 U1 : List (List ℚ)) (ev1 : List ℚ) (k : Nat)
    (st : SwapState) (h : PassInv n U0 U1 ev1 k 0 st) :
    ∀ e, k + 1 + e ≤ n →
      PassInv n U0 U1 ev1 k e
        ((List.range e).foldl (fun st d => swap_body k (k + 1 + d) st) st) := by
  intro e
  induction e with
  | zero => intro _; exact h
  | succ e ih =>
    intro he
    rw [List.range_succ, List.foldl_append]
    simp only [List.foldl_cons, List.foldl_nil]
    exact pass_inv_step n U0 U1 ev1 k e _ (by omega) (ih (by omega))

theorem pass_inv_next (n : Nat) (U0 U1 : List (List ℚ)) (ev1 : List ℚ) (k : Nat)
    (st : SwapState) (h : PassInv n U0 U1 ev1 k (n - (k + 1)) st) (hk : k < n) :
    PassInv n U0 U1 ev1 (k + 1) 0 st := by
  obtain ⟨c1, c2, c3, c4⟩ := h
  refine ⟨c1, c2, c3, ?_⟩
  intro hs
  obtain ⟨d1, d2, d3⟩ := c4 hs
  refine ⟨d1, d2, ?_⟩
  intro i j hij hj hcase
  apply d3 i j hij hj
  rcases hcase with hc | ⟨hc1, hc2⟩
  · by_cases hik : i < k
    · exact Or.inl hik
    · exact Or.inr ⟨by omega, by omega⟩
  · omega

theorem pass_inv_outer (n : Nat) (U0 U1 : List (List ℚ)) (ev1 : List ℚ) (st : SwapState)
    (h : PassInv n U0 U1 ev1 0 0 st) :
    ∀ k, k ≤ n →
      PassInv n U0 U1 ev1 k 0
        ((List.range k).foldl
          (fun st i => (List.range (n - (i + 1))).foldl
            (fun st d => swap_body i (i + 1 + d) st) st) st) := by
  intro k
  induction k with
  | zero => intro _; exact h
  | succ k ih =>
    intro hk
    rw [List.range_succ, List.foldl_append]
    simp only [List.foldl_cons, List.foldl_nil]
    exact pass_inv_next n U0 U1 ev1 k _
      (pass_inv_inner n U0 U1 ev1 k _ (ih (by omega)) (n - (k + 1)) (by omega)) (by omega)

theorem swap_pass_spec (n : Nat) (U0 : List (List ℚ)) (st : SwapState)
    (hcols : ColumnsOf n U0 st.U) :
    ColumnsOf n U0 (swap_pass n st).U ∧
    ((swap_pass n st).switched = true →
      diag_weight n st.U < diag_weight n (swap_pass n st).U) ∧
    ((swap_pass n st).switched = false →
      (swap_pass n st).U = st.U ∧ (swap_pass n st).evals = st.evals ∧
      ∀ i j, i < j → j < n → ¬ swap_gain st.U i j) := by
  have h0 : PassInv n U0 st.U st.evals 0 0 { st with switched := false } := by
    refine ⟨hcols, le_refl _, (fun h => by cases h), fun _ => ⟨rfl, rfl, ?_⟩⟩
    intro i j hij _ hcase
    omega
  obtain ⟨c1, _, c3, c4⟩ := pass_inv_outer n U0 st.U st.evals _ h0 n (le_refl _)
  refine ⟨c1, c3, ?_⟩
  intro hs
  obtain ⟨d1, d2, d3⟩ := c4 hs
  exact ⟨d1, d2, fun i j hij hj => d3 i j hij hj (Or.inl (by omega))⟩

theorem swap_loop_terminates_aux (n : Nat) (U0 : List (List ℚ)) :
    ∀ N (st : SwapState), ColumnsOf n U0 st.U →
      ((diag_weights n U0).filter (fun v => diag_weight n st.U < v)).card ≤ N →
      ∃ fuel st2, swap_loop n fuel st = some st2 ∧ ColumnsOf n U0 st2.U ∧
        ∀ i j, i < j → j < n → ¬ swap_gain st2.U i j := by
  intro N
  induction N with
  | zero =>
    intro st hcols hcard
    obtain ⟨p1, p2, p3⟩ := swap_pass_spec n U0 st hcols
    by_cases hs : (swap_pass n st).switched = true
    · exfalso
      have hmem : diag_weight n (swap_pass n st).U
          ∈ (diag_weights n U0).filter (fun v => diag_weight n st.U < v) :=
        Finset.mem_filter.2 ⟨diag_weight_mem n U0 _ p1, p2 hs⟩
      have := Finset.card_pos.2 ⟨_, hmem⟩
      omega
    · have hs2 : (swap_pass n st).switched = false := by
        cases h : (swap_pass n st).switched
        · rfl
        · exact absurd h hs
      obtain ⟨d1, _, d3⟩ := p3 hs2
      refine ⟨1, swap_pass n st, ?_, p1, ?_⟩
      · unfold swap_loop
        rw [if_neg hs]
      · rw [d1]; exact d3
  | succ N ih =>
    intro st hcols hcard
    obtain ⟨p1, p2, p3⟩ := swap_pass_spec n U0 st hcols
    by_cases hs : (swap_pass n st).switched = true
    · have hlt : ((diag_weights n U0).filter
          (fun v => diag_weight n (swap_pass n st).U < v)).card
          < ((diag_weights n U0).filter (fun v => diag_weight n st.U < v)).card := by
        apply Finset.card_lt_card
        rw [Finset.ssubset_iff_of_subset]
        · refine ⟨diag_weight n (swap_pass n st).U,
            Finset.mem_filter.2 ⟨diag_weight_mem n U0 _ p1, p2 hs⟩, ?_⟩
          intro hmem
          exact lt_irrefl _ (Finset.mem_filter.1 hmem).2
        · intro v hv
          obtain ⟨hv1, hv2⟩ := Finset.mem_filter.1 hv
          exact Finset.mem_filter.2 ⟨hv1, lt_trans (p2 hs) hv2⟩
      obtain ⟨fuel, st2, e1, e2, e3⟩ := ih (swap_pass n st) p1 (by omega)
      refine ⟨fuel + 1, st2, ?_, e2, e3⟩
      unfold swap_loop
      rw [if_pos hs]
      exact e1
    · have hs2 : (swap_pass n st).switched = false := by
        cases h : (swap_pass n st).switched
        · rfl
        · exact absurd h hs
      obtain ⟨d1, _, d3⟩ := p3 hs2
      refine ⟨1, swap_pass n st, ?_, p1, ?_⟩
      · unfold swap_loop
        rw [if_neg hs]
      · rw [d1]; exact d3

theorem columns_of_self (n : Nat) (U : List (List ℚ)) (hU : HasShape n n U) :
    ColumnsOf n U U :=
  ⟨hU, fun c => c, fun _ _ _ => rfl⟩

theorem swap_loop_mono (n : Nat) :
    ∀ fuel (st r : SwapState) (k : Nat), swap_loop n fuel st = some r →
      swap_loop n (fuel + k) st = some r := by
  intro fuel
  induction fuel with
  | zero =>
    intro st r k h
    simp [swap_loop] at h
  | succ fuel ih =>
    intro st r k h
    rw [Nat.add_right_comm]
    unfold swap_loop at h ⊢
    by_cases hs : (swap_pass n st).switched = true
    · rw [if_pos hs] at h ⊢
      exact ih _ _ k h
    · rw [if_neg hs] at h ⊢
      exact h

theorem swap_loop_sample :
    swap_loop 2 2 { U := [[0, 1], [1, 0]], evals := [1, 2], switched := true }
      = some { U := [[1, 0], [0, 1]], evals := [2, 1], switched := false } := by
  norm_num [swap_loop, swap_pass, swap_body, swap_columns, swap_entries, set_column, column,
    get2, List.range, List.range.loop]

/-- C24. For every `n`-by-`n` matrix `U` and every eigenvalue list, the column-swap loop
`while (switched)` returns after finitely many passes, each of finitely many swaps, and on
exit no pair `i < j < n` has `U(i,j)^2 + U(j,i)^2 > U(i,i)^2 + U(j,j)^2`; the matrix on exit
is `n`-by-`n` and each of its columns is a column of the matrix on entry. -/
theorem swap_loop_terminates (n : Nat) (U : List (List ℚ)) (evals : List ℚ) (sw : Bool)
    (hU : HasShape n n U) :
    ∃ fuel st, swap_loop n fuel { U := U, evals := evals, switched := sw } = some st ∧
      ColumnsOf n U st.U ∧
      ∀ i j, i < j → j < n →
        ¬ (get2 st.U i j * get2 st.U i j + get2 st.U j i * get2 st.U j i
            > get2 st.U i i * get2 st.U i i + get2 st.U j j * get2 st.U j j) :=
  swap_loop_terminates_aux n U _ { U := U, evals := evals, switched := sw }
    (columns_of_self n U hU) (le_refl _)

theorem swap_loop_terminates_witness :
    HasShape 2 2 ([[0, 1], [1, 0]] : List (List ℚ)) ∧
    ∃ fuel st, swap_loop 2 fuel { U := [[0, 1], [1, 0]], evals := [1, 2], switched := true }
        = some st ∧
      ColumnsOf 2 [[0, 1], [1, 0]] st.U ∧
      ∀ i j, i < j → j < 2 →
        ¬ (get2 st.U i j * get2 st.U i j + get2 st.U j i * get2 st.U j i
            > get2 st.U i i * get2 st.U i i + get2 st.U j j * get2 st.U j j) :=
  ⟨by simp [HasShape],
    swap_loop_terminates 2 [[0, 1], [1, 0]] [1, 2] true (by simp [HasShape])⟩

/-! ### The diagonalisation stage of the Tamm-Dancoff branch -/

theorem foldl_preserves {α β : Type} (P : α → Prop) (g : α → β → α) (l : List β)
    (h : ∀ a b, P a → P (g a b)) : ∀ a, P a → P (l.foldl g a) := by
  induction l with
  | nil => intro a ha; exact ha
  | cons b rest ih => intro a ha; exact ih _ (h a b ha)

theorem swap_body_evals_length (i j : Nat) (st : SwapState) :
    (swap_body i j st).evals.length = st.evals.length := by
  unfold swap_body
  simp only
  split_ifs
  · simp [swap_entries]
  · rfl

theorem swap_pass_evals_length (n : Nat) (st : SwapState) :
    (swap_pass n st).evals.length = st.evals.length := by
  unfold swap_pass
  apply foldl_preserves (fun s : SwapState => s.evals.length = st.evals.length)
  · intro a i ha
    apply foldl_preserves (fun s : SwapState => s.evals.length = st.evals.length)
    · intro b d hb
      show (swap_body i (i + 1 + d) b).evals.length = st.evals.length
      rw [swap_body_evals_length]
      exact hb
    · exact ha
  · rfl

theorem swap_loop_evals_length (n : Nat) :
    ∀ fuel (st r : SwapState), swap_loop n fuel st = some r →
      r.evals.length = st.evals.length := by
  intro fuel
  induction fuel with
  | zero =>
    intro st r h
    simp [swap_loop] at h
  | succ fuel ih =>
    intro st r h
    unfold swap_loop at h
    split_ifs at h with hs
    · rw [ih _ _ h, swap_pass_evals_length]
    · cases h
      exact swap_pass_evals_length n st

theorem get_fock_transformation_evals
    (sygvp : List (List ℚ) → List (List ℚ) → List (List ℚ) × List ℚ)
    (svd : List (List ℚ) → List (List ℚ) × List ℚ × List (List ℚ))
    (fuel : Nat) (overlap fock : List (List ℚ)) (thresh : ℚ) (r : FockTransformation)
    (h : get_fock_transformation sygvp svd fuel overlap fock thresh = some (Except.ok r)) :
    r.evals.length = (sygvp fock overlap).2.length := by
  unfold get_fock_transformation at h
  simp only at h
  cases hs : swap_loop (dim fock 0) fuel
      { U := (sygvp fock overlap).1, evals := (sygvp fock overlap).2, switched := true } with
  | none => rw [hs] at h; cases h
  | some st =>
    rw [hs] at h
    simp only at h
    have hl := swap_loop_evals_length _ _ _ _ hs
    cases hc : cluster_loop (rotate_cluster svd) thresh st.evals (dim fock 0) fuel fuel 0
        (fix_phases (dim fock 0) st.U) with
    | none => rw [hc] at h; cases h
    | some res =>
      rw [hc] at h
      cases res with
      | error e => cases h
      | ok U =>
        simp only [Option.some.injEq, Except.ok.injEq] at h
        rw [← h]
        exact hl

theorem diag_fock_matrix_lengths {F : Type} [AddCommGroup F] [Module ℚ F] (ops : FieldOps F)
    (sygvp : List (List ℚ) → List (List ℚ) → List (List ℚ) × List ℚ)
    (svd : List (List ℚ) → List (List ℚ) × List ℚ × List (List ℚ))
    (fuel : Nat) (fock : List (List ℚ)) (psi Vpsi gamma fe : List (List F))
    (overlap : List (List ℚ)) (thresh : ℚ) (d : DiagFock F)
    (h : diag_fock_matrix ops sygvp svd fuel fock psi Vpsi gamma fe overlap thresh
      = some (Except.ok d)) :
    d.psi.length = psi.length ∧ d.Vpsi.length = Vpsi.length ∧ d.gamma.length = gamma.length ∧
      d.fe.length = fe.length ∧ d.evals.length = (sygvp fock overlap).2.length := by
  unfold diag_fock_matrix at h
  cases hg : get_fock_transformation sygvp svd fuel overlap fock thresh with
  | none => rw [hg] at h; cases h
  | some res =>
    rw [hg] at h
    cases res with
    | error e => cases h
    | ok r =>
      simp only at h
      cases hs : sort_eigenvalues r.evals r.U with
      | error e => rw [hs] at h; cases h
      | ok sorted =>
        rw [hs] at h
        simp only [Option.some.injEq, Except.ok.injEq] at h
        rw [← h]
        refine ⟨?_, ?_, ?_, ?_, ?_⟩
        · simp only [normalize_length, truncate_length, transform_length]
        · simp only [truncate_length, transform_length]
        · simp only [truncate_length, transform_length]
        · simp only [truncate_length, transform_length]
        · simp only [sort_eigenvalues_vals r.evals r.U sorted hs, std_sort_length]
          exact get_fock_transformation_evals sygvp svd fuel overlap fock thresh r hg

theorem set_slice_shape_any (M N : Nat) (t : List (List ℚ)) (rlo rhi clo chi : Nat)
    (src : List (List ℚ)) (ht : HasShape M N t) :
    HasShape M N (set_slice t rlo rhi clo chi src) := by
  unfold set_slice for2
  apply foldl_preserves (HasShape M N)
  · intro a i ha
    apply foldl_preserves (HasShape M N)
    · intro b j hb
      exact set2_shape _ _ _ _ _ _ hb
    · exact ha
  · exact ht

theorem symmetrized_length (n : Nat) (hn : 0 < n) (T : List (List ℚ))
    (hT : HasShape n n T) : (scale2 (1 / 2) (add2 T (transpose2 T))).length = n := by
  have h1 := transpose2_shape T n n hT hn
  have h2 : HasShape n n (add2 T (transpose2 T)) :=
    shape_zip (fun a b : ℚ => a + b) T (transpose2 T) _ _ hT h1
  exact (shape_map _ _ _ _ h2).1

theorem augment_lengths {F : Type} [Add F] (ops : FieldOps F) (st : Subspace F) (m : Nat)
    (hm : 0 < m) (hg : st.x_gamma.length = m) :
    (augment ops st).x_response.length = st.x_response.length + m ∧
    (augment ops st).x_gamma.length = m + m ∧
    (augment ops st).V_x_response.length = st.V_x_response.length + m ∧
    (augment ops st).x_fe.length = st.x_fe.length + m ∧
    (augment ops st).A_x.length = 2 * m ∧
    (augment ops st).old_x_gamma = st.old_x_gamma ∧
    (augment ops st).old_V_x_response = st.old_V_x_response ∧
    (augment ops st).old_x_fe = st.old_x_fe ∧
    (augment ops st).old_S_x = st.old_S_x ∧
    (augment ops st).old_A_x = st.old_A_x ∧
    (augment ops st).old_x_response = st.old_x_response := by
  unfold augment
  simp only [augment_push, hg]
  refine ⟨by simp, by simp [hg], by simp, by simp, ?_, trivial, trivial, trivial, trivial,
    trivial, trivial⟩
  apply symmetrized_length (2 * m) (by omega)
  apply set_slice_shape_any
  apply set_slice_shape_any
  apply set_slice_shape_any
  apply set_slice_shape_any
  exact zeros2_shape _ _

theorem unaugment_lengths {F : Type} (m : Nat) (iter : Int) (selected : List Nat)
    (st : Subspace F) (hm : 0 < m) :
    (unaugment m iter selected st).x_omega.length = min m st.x_omega.length ∧
    (unaugment m iter selected st).x_response.length
      = (if iter > 0 then st.x_response.length - m else st.x_response.length) ∧
    (unaugment m iter selected st).x_gamma.length
      = (if iter > 0 then st.x_gamma.length - m else st.x_gamma.length) ∧
    (unaugment m iter selected st).V_x_response.length
      = (if iter > 0 then st.V_x_response.length - m else st.V_x_response.length) ∧
    (unaugment m iter selected st).x_fe.length
      = (if iter > 0 then st.x_fe.length - m else st.x_fe.length) ∧
    (unaugment m iter selected st).old_x_gamma = (unaugment m iter selected st).x_gamma ∧
    (unaugment m iter selected st).old_V_x_response
      = (unaugment m iter selected st).V_x_response ∧
    (unaugment m iter selected st).old_x_fe = (unaugment m iter selected st).x_fe ∧
    HasShape m m (unaugment m iter selected st).old_S_x ∧
    HasShape m m (unaugment m iter selected st).old_A_x ∧
    (unaugment m iter selected st).old_x_response = st.old_x_response := by
  have hom : (slice1 st.x_omega 0 (m - 1)).length = min m st.x_omega.length := by
    unfold slice1
    simp only [List.drop_zero, List.length_take]
    congr 1
    omega
  unfold unaugment
  by_cases hi : iter > 0
  · simp only [hi, if_true, unaugment_pop, identity_fill_eq]
    refine ⟨hom, ?_, ?_, ?_, ?_, trivial, trivial, trivial, tabulate2_shape _ _ _,
      (unaugment_old_A m selected _).1, trivial⟩
    · simp only [List.length_take]; omega
    · simp only [List.length_take]; omega
    · simp only [List.length_take]; omega
    · simp only [List.length_take]; omega
  · simp only [hi, if_false, identity_fill_eq]
    exact ⟨hom, trivial, trivial, trivial, trivial, trivial, trivial, trivial,
      tabulate2_shape _ _ _, (unaugment_old_A m selected _).1, trivial⟩

theorem create_response_matrix_lengths {F : Type} [AddCommGroup F] [Module ℚ F]
    (ops : FieldOps F) (scale_2d : List (List F) → List (List ℚ) → List (List F))
    (hscale : ∀ f h, (scale_2d f h).length = f.length)
    (gamma V f : List (List F)) (hamiltonian : List (List ℚ)) (m : Nat)
    (hV : V.length = m) (hf : f.length = m) :
    (create_response_matrix ops scale_2d gamma V f hamiltonian).1.length = m ∧
    (create_response_matrix ops scale_2d gamma V f hamiltonian).2.length = m := by
  unfold create_response_matrix
  simp only [hV]
  constructor
  · exact (inner_fill_spec ops.ip f _ m m).1.1
  · simp [operator_sub, create_fock, truncate, operator_add, scale, apply, hscale, hV, hf]

theorem unaugment_holds {F : Type} (m : Nat) (iter : Int) (selected : List Nat)
    (s : Subspace F) (hm : 0 < m)
    (hx : s.x_response.length = if iter > 0 then 2 * m else m)
    (hg : s.x_gamma.length = if iter > 0 then 2 * m else m)
    (hV : s.V_x_response.length = if iter > 0 then 2 * m else m)
    (hfe : s.x_fe.length = if iter > 0 then 2 * m else m)
    (ho : s.x_omega.length = if iter > 0 then 2 * m else m) :
    HoldsStates m (unaugment m iter selected s) ∧
      SnapshotStored m (unaugment m iter selected s) := by
  obtain ⟨u1, u2, u3, u4, u5, u6, u7, u8, u9, u10, _⟩ :=
    unaugment_lengths m iter selected s hm
  have e2 : (unaugment m iter selected s).x_response.length = m := by
    rw [u2, hx]; split_ifs <;> omega
  have e3 : (unaugment m iter selected s).x_gamma.length = m := by
    rw [u3, hg]; split_ifs <;> omega
  have e4 : (unaugment m iter selected s).V_x_response.length = m := by
    rw [u4, hV]; split_ifs <;> omega
  have e5 : (unaugment m iter selected s).x_fe.length = m := by
    rw [u5, hfe]; split_ifs <;> omega
  have e1 : (unaugment m iter selected s).x_omega.length = m := by
    rw [u1, ho]; split_ifs <;> omega
  refine ⟨⟨e2, e3, e4, e5, e1⟩, ?_, ?_, ?_, u9, u10⟩
  · rw [u6]; exact e3
  · rw [u7]; exact e4
  · rw [u8]; exact e5

theorem tda_diagonalization_spec {F : Type} [AddCommGroup F] [Module ℚ F] (ops : FieldOps F)
    (scale_2d : List (List F) → List (List ℚ) → List (List F))
    (sygvp : List (List ℚ) → List (List ℚ) → List (List ℚ) × List ℚ)
    (svd : List (List ℚ) → List (List ℚ) × List ℚ × List (List ℚ))
    (fuel m : Nat) (larger_subspace : Int) (hamiltonian : List (List ℚ)) (thresh : ℚ)
    (hm : 0 < m) (hscale : ∀ f h, (scale_2d f h).length = f.length)
    (hsygvp : ∀ A S, (sygvp A S).2.length = dim A 0)
    (iteration : Int) (st : Subspace F) (t : StageTrace F)
    (hx : st.x_response.length = m) (hg : st.x_gamma.length = m)
    (hV : st.V_x_response.length = m)
    (h : tda_diagonalization ops scale_2d sygvp svd fuel m larger_subspace hamiltonian thresh
      iteration st = some (Except.ok t)) :
    t.iteration = iteration ∧ t.entry = st ∧
    t.augmented = decide (iteration < larger_subspace ∧ iteration > 0) ∧
    t.unaugmented = decide (iteration < larger_subspace) ∧
    HoldsStates m t.exit ∧
    (iteration < larger_subspace → SnapshotStored m t.exit) := by
  obtain ⟨hrA, hrfe⟩ := create_response_matrix_lengths ops scale_2d hscale st.x_gamma
    st.V_x_response st.x_response hamiltonian m hV hx
  have hdim : ∀ A : List (List ℚ), dim A 0 = A.length := fun A => by simp [dim]
  unfold tda_diagonalization at h
  simp only at h
  by_cases h1 : iteration < larger_subspace
  · by_cases h2 : iteration > 0
    · simp only [h1, h2, and_self, if_true] at h
      split at h
      · cases h
      · cases h
      · rename_i d heq
        obtain ⟨d1, d2, d3, d4, d5⟩ := diag_fock_matrix_lengths _ _ _ _ _ _ _ _ _ _ _ _ heq
        obtain ⟨a1, a2, a3, a4, a5, _⟩ := augment_lengths ops
          { st with
            S_x := create_overlap ops st.x_response st.x_response
            A_x := (create_response_matrix ops scale_2d st.x_gamma st.V_x_response
              st.x_response hamiltonian).1
            x_fe := (create_response_matrix ops scale_2d st.x_gamma st.V_x_response
              st.x_response hamiltonian).2 } m hm hg
        have q1 : d.psi.length = if iteration > 0 then 2 * m else m := by
          rw [if_pos h2, d1, a1]
          show st.x_response.length + m = 2 * m
          rw [hx]; omega
        have q2 : d.Vpsi.length = if iteration > 0 then 2 * m else m := by
          rw [if_pos h2, d2, a3]
          show st.V_x_response.length + m = 2 * m
          rw [hV]; omega
        have q3 : d.gamma.length = if iteration > 0 then 2 * m else m := by
          rw [if_pos h2, d3, a2]; omega
        have q4 : d.fe.length = if iteration > 0 then 2 * m else m := by
          rw [if_pos h2, d4, a4]
          show (create_response_matrix ops scale_2d st.x_gamma st.V_x_response
            st.x_response hamiltonian).2.length + m = 2 * m
          rw [hrfe]; omega
        have q5 : d.evals.length = if iteration > 0 then 2 * m else m := by
          rw [if_pos h2, d5, hsygvp, hdim, a5]
        simp only [Option.some.injEq, Except.ok.injEq] at h
        subst h
        exact ⟨rfl, rfl, by simp [h1, h2], by simp [h1],
          And.left (unaugment_holds m iteration d.selected _ hm q1 q3 q2 q4 q5),
          fun _ => And.right (unaugment_holds m iteration d.selected _ hm q1 q3 q2 q4 q5)⟩
    · simp only [h1, h2, and_false, if_true, if_false] at h
      split at h
      · cases h
      · cases h
      · rename_i d heq
        obtain ⟨d1, d2, d3, d4, d5⟩ := diag_fock_matrix_lengths _ _ _ _ _ _ _ _ _ _ _ _ heq
        have q1 : d.psi.length = if iteration > 0 then 2 * m else m := by
          rw [if_neg h2]; exact d1.trans hx
        have q2 : d.Vpsi.length = if iteration > 0 then 2 * m else m := by
          rw [if_neg h2]; exact d2.trans hV
        have q3 : d.gamma.length = if iteration > 0 then 2 * m else m := by
          rw [if_neg h2]; exact d3.trans hg
        have q4 : d.fe.length = if iteration > 0 then 2 * m else m := by
          rw [if_neg h2]; exact d4.trans hrfe
        have q5 : d.evals.length = if iteration > 0 then 2 * m else m := by
          rw [if_neg h2, d5, hsygvp, hdim]; exact hrA
        simp only [Option.some.injEq, Except.ok.injEq] at h
        subst h
        exact ⟨rfl, rfl, by simp [h2], by simp [h1],
          And.left (unaugment_holds m iteration d.selected _ hm q1 q3 q2 q4 q5),
          fun _ => And.right (unaugment_holds m iteration d.selected _ hm q1 q3 q2 q4 q5)⟩
  · simp only [h1, false_and, if_false] at h
    split at h
    · cases h
    · cases h
    · rename_i d heq
      obtain ⟨d1, d2, d3, d4, d5⟩ := diag_fock_matrix_lengths _ _ _ _ _ _ _ _ _ _ _ _ heq
      rw [hsygvp, hdim] at d5
      simp only [Option.some.injEq, Except.ok.injEq] at h
      subst h
      refine ⟨rfl, rfl, by simp [h1], by simp [h1], ⟨?_, ?_, ?_, ?_, ?_⟩,
        fun hc => absurd hc h1⟩
      · exact d1.trans hx
      · exact d3.trans hg
      · exact d2.trans hV
      · exact d4.trans hrfe
      · exact d5.trans hrA

theorem projector_loop_length {F : Type} (projector : List F → List F) (m : Nat)
    (x : List (List F)) :
    ((List.range m).foldl (fun x i => x.set i (projector (x.getD i []))) x).length
      = x.length := by
  apply foldl_preserves (fun y : List (List F) => y.length = x.length)
  · intro a i ha
    simp only [List.length_set]
    exact ha
  · rfl

theorem tda_prepare_lengths {F : Type} (projector : List F → List F)
    (create_gamma create_potential : List (List F) → List (List F)) (m : Nat)
    (hgamma : ∀ x, (create_gamma x).length = x.length)
    (hpot : ∀ x, (create_potential x).length = x.length)
    (st : Subspace F) (hx : st.x_response.length = m) :
    (tda_prepare projector create_gamma create_potential m st).x_response.length = m ∧
    (tda_prepare projector create_gamma create_potential m st).x_gamma.length = m ∧
    (tda_prepare projector create_gamma create_potential m st).V_x_response.length = m := by
  unfold tda_prepare
  simp only [hgamma, hpot, projector_loop_length]
  exact ⟨hx, hx, hx⟩

theorem tda_update_lengths {F : Type} (projector : List F → List F)
    (bsh_update : Subspace F → List (List F)) (m : Nat)
    (hbsh : ∀ s, (bsh_update s).length = s.x_response.length)
    (st : Subspace F) (hx : st.x_response.length = m) :
    (tda_update projector bsh_update m st).x_response.length = m ∧
    (tda_update projector bsh_update m st).old_x_response.length = m := by
  unfold tda_update
  simp only [hbsh, projector_loop_length]
  exact ⟨hx, hx⟩

theorem tda_passes_spec {F : Type} [AddCommGroup F] [Module ℚ F] (ops : FieldOps F)
    (scale_2d : List (List F) → List (List ℚ) → List (List F))
    (sygvp : List (List ℚ) → List (List ℚ) → List (List ℚ) × List ℚ)
    (svd : List (List ℚ) → List (List ℚ) × List ℚ × List (List ℚ))
    (projector : List F → List F)
    (create_gamma create_potential : List (List F) → List (List F))
    (bsh_update : Subspace F → List (List F))
    (fuel m : Nat) (larger_subspace : Int) (hamiltonian : List (List ℚ)) (thresh : ℚ)
    (hm : 0 < m) (hscale : ∀ f h, (scale_2d f h).length = f.length)
    (hsygvp : ∀ A S, (sygvp A S).2.length = dim A 0)
    (hgamma : ∀ x, (create_gamma x).length = x.length)
    (hpot : ∀ x, (create_potential x).length = x.length)
    (hbsh : ∀ s, (bsh_update s).length = s.x_response.length) :
    ∀ passes (it : Int) (st : Subspace F) (stages : List (StageTrace F)),
      st.x_response.length = m →
      tda_passes ops scale_2d sygvp svd projector create_gamma create_potential bsh_update
        fuel m larger_subspace hamiltonian thresh passes it st = some (Except.ok stages) →
      stages.length = passes ∧
      (∀ t : StageTrace F, stages[0]? = some t →
        t.entry = tda_prepare projector create_gamma create_potential m st) ∧
      ∀ (k : Nat) (t : StageTrace F), stages[k]? = some t →
        t.iteration = it + (k : Int) ∧
        t.augmented = decide (t.iteration < larger_subspace ∧ t.iteration > 0) ∧
        t.unaugmented = decide (t.iteration < larger_subspace) ∧
        HoldsStates m t.exit ∧
        (t.iteration < larger_subspace → SnapshotStored m t.exit) ∧
        ∀ p, 0 < k → stages[k - 1]? = some p →
          t.entry.old_x_gamma = p.exit.old_x_gamma ∧
          t.entry.old_V_x_response = p.exit.old_V_x_response ∧
          t.entry.old_x_fe = p.exit.old_x_fe ∧
          t.entry.old_S_x = p.exit.old_S_x ∧
          t.entry.old_A_x = p.exit.old_A_x ∧
          t.entry.old_x_response.length = m := by
  intro passes
  induction passes with
  | zero =>
    intro it st stages _ h
    unfold tda_passes at h
    simp only [Option.some.injEq, Except.ok.injEq] at h
    subst h
    exact ⟨rfl, fun t ht => by simp at ht, fun k t ht => by simp at ht⟩
  | succ passes ih =>
    intro it st stages hx h
    unfold tda_passes at h
    obtain ⟨px, pg, pV⟩ := tda_prepare_lengths projector create_gamma create_potential m
      hgamma hpot st hx
    cases hstage : tda_diagonalization ops scale_2d sygvp svd fuel m larger_subspace hamiltonian
        thresh it (tda_prepare projector create_gamma create_potential m st) with
    | none => rw [hstage] at h; cases h
    | some res =>
      rw [hstage] at h
      cases res with
      | error e => cases h
      | ok t0 =>
        simp only at h
        obtain ⟨s1, s2, s3, s4, s5, s6⟩ := tda_diagonalization_spec ops scale_2d sygvp svd fuel
          m larger_subspace hamiltonian thresh hm hscale hsygvp it _ t0 px pg pV hstage
        obtain ⟨ux, uo⟩ := tda_update_lengths projector bsh_update m hbsh t0.exit s5.1
        cases hrest : tda_passes ops scale_2d sygvp svd projector create_gamma create_potential
            bsh_update fuel m larger_subspace hamiltonian thresh passes (it + 1)
            (tda_update projector bsh_update m t0.exit) with
        | none => rw [hrest] at h; cases h
        | some res2 =>
          rw [hrest] at h
          cases res2 with
          | error e => cases h
          | ok l =>
            simp only [Option.some.injEq, Except.ok.injEq] at h
            obtain ⟨r1, r2, r3⟩ := ih (it + 1) _ l ux hrest
            subst h
            refine ⟨by simp [r1], ?_, ?_⟩
            · intro t ht
              simp only [List.getElem?_cons_zero, Option.some.injEq] at ht
              subst ht
              exact s2
            · intro k t ht
              cases k with
              | zero =>
                simp only [List.getElem?_cons_zero, Option.some.injEq] at ht
                subst ht
                refine ⟨by simp [s1], by rw [s3, s1], by rw [s4, s1], s5,
                  by rw [s1]; exact s6, ?_⟩
                intro p hp
                exact absurd hp (lt_irrefl 0)
              | succ j =>
                simp only [List.getElem?_cons_succ] at ht
                obtain ⟨e1, e2, e3, e4, e5, e6⟩ := r3 j t ht
                refine ⟨by rw [e1]; push_cast; ring, e2, e3, e4, e5, ?_⟩
                intro p _ hp
                simp only [Nat.add_sub_cancel] at hp
                cases j with
                | zero =>
                  simp only [List.getElem?_cons_zero, Option.some.injEq] at hp
                  subst hp
                  rw [r2 t ht]
                  exact ⟨rfl, rfl, rfl, rfl, rfl, uo⟩
                | succ i =>
                  simp only [List.getElem?_cons_succ] at hp
                  exact e6 p (Nat.succ_pos i) (by simpa using hp)

/-- C28. In a run of the Tamm-Dancoff branch of `TDHF::iterate` that starts in pass `0` with
`m > 0` response vectors (with a symmetric eigensolver that returns as many eigenvalues as
the matrix has rows, and with `scale_2d`, `create_gamma`, `create_potential` and the update
of the response vectors keeping the number of vectors), the diagonalisation stage of pass
`k` invokes `augment` exactly when `0 < k < larger_subspace` and `unaugment` exactly when
`k < larger_subspace`. Whenever `augment` is invoked, the stage of pass `k - 1` invoked
`unaugment`, which stored `old_x_gamma`, `old_V_x_response`, `old_x_fe` with `m` vectors
each and `old_S_x`, `old_A_x` as `m`-by-`m` matrices; these are the values `augment` finds,
together with an `old_x_response` of `m` vectors. At the end of the stage of every pass
`x_response`, `x_gamma`, `V_x_response` and `x_fe` hold `m` vectors each and `x_omega` holds
`m` energies. -/
theorem tda_augment_follows_unaugment {F : Type} [AddCommGroup F] [Module ℚ F]
    (ops : FieldOps F)
    (scale_2d : List (List F) → List (List ℚ) → List (List F))
    (sygvp : List (List ℚ) → List (List ℚ) → List (List ℚ) × List ℚ)
    (svd : List (List ℚ) → List (List ℚ) × List ℚ × List (List ℚ))
    (projector : List F → List F)
    (create_gamma create_potential : List (List F) → List (List F))
    (bsh_update : Subspace F → List (List F))
    (fuel m : Nat) (larger_subspace : Int) (hamiltonian : List (List ℚ)) (thresh : ℚ)
    (hm : 0 < m) (hscale : ∀ f h, (scale_2d f h).length = f.length)
    (hsygvp : ∀ A S, (sygvp A S).2.length = dim A 0)
    (hgamma : ∀ x, (create_gamma x).length = x.length)
    (hpot : ∀ x, (create_potential x).length = x.length)
    (hbsh : ∀ s, (bsh_update s).length = s.x_response.length)
    (passes : Nat) (st : Subspace F) (stages : List (StageTrace F))
    (hx : st.x_response.length = m)
    (hrun : tda_passes ops scale_2d sygvp svd projector create_gamma create_potential
      bsh_update fuel m larger_subspace hamiltonian thresh passes 0 st
        = some (Except.ok stages)) :
    stages.length = passes ∧
    ∀ (k : Nat) (t : StageTrace F), stages[k]? = some t →
      t.iteration = (k : Int) ∧
      (t.augmented = true ↔ 0 < k ∧ (k : Int) < larger_subspace) ∧
      (t.unaugmented = true ↔ (k : Int) < larger_subspace) ∧
      (t.augmented = true →
        ∃ p, stages[k - 1]? = some p ∧ p.iteration = (k : Int) - 1 ∧
          p.unaugmented = true ∧ SnapshotStored m p.exit ∧
          t.entry.old_x_gamma = p.exit.old_x_gamma ∧
          t.entry.old_V_x_response = p.exit.old_V_x_response ∧
          t.entry.old_x_fe = p.exit.old_x_fe ∧
          t.entry.old_S_x = p.exit.old_S_x ∧
          t.entry.old_A_x = p.exit.old_A_x ∧
          t.entry.old_x_response.length = m) ∧
      HoldsStates m t.exit := by
  obtain ⟨r1, _, r3⟩ := tda_passes_spec ops scale_2d sygvp svd projector create_gamma
    create_potential bsh_update fuel m larger_subspace hamiltonian thresh hm hscale hsygvp
    hgamma hpot hbsh passes 0 st stages hx hrun
  refine ⟨r1, ?_⟩
  intro k t ht
  obtain ⟨e1, e2, e3, e4, _, e6⟩ := r3 k t ht
  have hit : t.iteration = (k : Int) := by rw [e1]; simp
  have haug : t.augmented = true ↔ 0 < k ∧ (k : Int) < larger_subspace := by
    rw [e2, hit, decide_eq_true_eq]
    constructor
    · rintro ⟨a, b⟩
      exact ⟨by omega, a⟩
    · rintro ⟨a, b⟩
      exact ⟨b, by omega⟩
  have hun : t.unaugmented = true ↔ (k : Int) < larger_subspace := by
    rw [e3, hit, decide_eq_true_eq]
  refine ⟨hit, haug, hun, ?_, e4⟩
  intro ha
  obtain ⟨hk, hls⟩ := haug.1 ha
  have hklt : k < stages.length := by
    by_contra hc
    rw [List.getElem?_eq_none (by omega)] at ht
    cases ht
  cases hp : stages[k - 1]? with
  | none =>
    have hsome := List.getElem?_eq_getElem (show k - 1 < stages.length by omega)
    rw [hp] at hsome
    cases hsome
  | some p =>
    obtain ⟨f1, _, f3, _, f5, _⟩ := r3 (k - 1) p hp
    have hpit : p.iteration = (k : Int) - 1 := by rw [f1]; omega
    have hpls : p.iteration < larger_subspace := by rw [hpit]; omega
    have hpun : p.unaugmented = true := by rw [f3, decide_eq_true_eq]; exact hpls
    obtain ⟨g1, g2, g3, g4, g5, g6⟩ := e6 p hk hp
    exact ⟨p, rfl, hpit, hpun, f5 hpls, g1, g2, g3, g4, g5, g6⟩

theorem sample_diag_one_state :
    diag_fock_matrix sample_ops sample_sygvp (fun q => (q, [], q)) 3 [[-(75 / 2)]]
      [[5]] [[5]] [[5]] [[-(25 / 2)]] [[25]] (1 / 10000)
      = some (Except.ok
          { selected := [0]
            U := [[1]]
            fock := [[-75 / 2]]
            evals := [-75 / 2]
            psi := [[1]]
            Vpsi := [[5]]
            gamma := [[5]]
            fe := [[-25 / 2]] }) := by
  norm_num [diag_fock_matrix, get_fock_transformation, sample_sygvp, dim, swap_loop,
    swap_pass, swap_body, fix_phases, cluster_loop, scan_ihi, identity2, tabulate2, get2,
    set2, zeros2, sort_eigenvalues, for_except, sort_eigenvalues_step, std_sort, find_index,
    match_tol,
    taken_mark, set_column, column, transform, gaxpy, truncate, normalize, inner,
    sample_ops, List.range, List.range.loop, List.replicate, abs_lt, lt_abs]

theorem sample_response_matrix :
    create_response_matrix sample_ops (fun f _ => f) [[5]] [[5]] [[5]] [[1]]
      = ([[-75 / 2]], [[-25 / 2]]) := by
  norm_num [create_response_matrix, create_fock, operator_add, operator_sub, scale, apply,
    truncate, for2, set2, zeros2, inner, sample_ops, List.range, List.range.loop,
    List.replicate]

theorem sample_overlap : create_overlap sample_ops [[5]] [[5]] = [[25]] := by
  norm_num [create_overlap, for2, set2, zeros2, inner, sample_ops, List.range,
    List.range.loop, List.replicate]

theorem tda_stage_sample_first :
    tda_diagonalization sample_ops (fun f _ => f) sample_sygvp (fun q => (q, [], q)) 3 1 2
      [[1]] (1 / 10000) 0 sample_stage_first.entry = some (Except.ok sample_stage_first) := by
  unfold tda_diagonalization
  simp only [sample_stage_first, sample_overlap, sample_response_matrix]
  norm_num [sample_diag_one_state, unaugment, slice1, for2, set2, get2, zeros2, List.range,
    List.range.loop, List.replicate]

theorem tda_stage_sample_third :
    tda_diagonalization sample_ops (fun f _ => f) sample_sygvp (fun q => (q, [], q)) 3 1 2
      [[1]] (1 / 10000) 2 sample_stage_third.entry = some (Except.ok sample_stage_third) := by
  unfold tda_diagonalization
  simp only [sample_stage_third, sample_overlap, sample_response_matrix]
  norm_num [sample_diag_one_state]

theorem sample_augment :
    augment sample_ops
      { x_omega := [-(75 / 2)]
        S_x := [[1]]
        A_x := [[-(3 / 2)]]
        x_gamma := [[1]]
        x_response := [[1]]
        V_x_response := [[1]]
        x_fe := [[-(5 / 2)]]
        old_S_x := [[1]]
        old_A_x := [[-(75 / 2)]]
        old_x_gamma := [[5]]
        old_x_response := [[1]]
        old_V_x_response := [[5]]
        old_x_fe := [[-(25 / 2)]] }
      = { x_omega := [-(75 / 2)]
          S_x := [[1, 1], [1, 1]]
          A_x := [[-(3 / 2), -(9 / 2)], [-(9 / 2), -(75 / 2)]]
          x_gamma := [[1], [5]]
          x_response := [[1], [1]]
          V_x_response := [[1], [5]]
          x_fe := [[-(5 / 2)], [-(25 / 2)]]
          old_S_x := [[1]]
          old_A_x := [[-(75 / 2)]]
          old_x_gamma := [[5]]
          old_x_response := [[1]]
          old_V_x_response := [[5]]
          old_x_fe := [[-(25 / 2)]] } := by
  norm_num [augment, operator_add, for2, set2, get2, set_slice, zeros2, scale2, add2,
    transpose2, tabulate2, create_overlap, inner, sample_ops, List.range, List.range.loop,
    List.replicate]

theorem sample_diag_two_states :
    diag_fock_matrix sample_ops sample_sygvp (fun q => (q, [], q)) 3
      [[-(3 / 2), -(9 / 2)], [-(9 / 2), -(75 / 2)]] [[1], [1]] [[1], [5]] [[1], [5]]
      [[-(5 / 2)], [-(25 / 2)]] [[1, 1], [1, 1]] (1 / 10000)
      = some (Except.ok
          { selected := [1, 0]
            U := [[0, 1], [1, 0]]
            fock := [[-3 / 2, 0], [0, -75 / 2]]
            evals := [-75 / 2, -3 / 2]
            psi := [[5], [5]]
            Vpsi := [[5], [1]]
            gamma := [[5], [1]]
            fe := [[-25 / 2], [-5 / 2]] }) := by
  have habs : |(3 : ℚ) / 2| = 3 / 2 := abs_of_pos (by norm_num)
  have hmax : ((3 : ℚ) / 2) ⊔ 1 = 3 / 2 := max_eq_left (by norm_num)
  norm_num [habs, hmax, diag_fock_matrix, get_fock_transformation, sample_sygvp, dim, swap_loop,
    swap_pass, swap_body, fix_phases, cluster_loop, scan_ihi, identity2, tabulate2, get2,
    set2, zeros2, sort_eigenvalues, for_except, sort_eigenvalues_step, std_sort, find_index,
    match_tol,
    taken_mark, set_column, column, transform, gaxpy, truncate, normalize, inner,
    sample_ops, List.range, List.range.loop, List.replicate, abs_lt, lt_abs,
    List.insertionSort, List.orderedInsert]

theorem sample_response_matrix_unit :
    create_response_matrix sample_ops (fun f _ => f) [[1]] [[1]] [[1]] [[1]]
      = ([[-(3 / 2)]], [[-(5 / 2)]]) := by
  norm_num [create_response_matrix, create_fock, operator_add, operator_sub, scale, apply,
    truncate, for2, set2, zeros2, inner, sample_ops, List.range, List.range.loop,
    List.replicate]

theorem sample_overlap_unit : create_overlap sample_ops [[1]] [[1]] = [[1]] := by
  norm_num [create_overlap, for2, set2, zeros2, inner, sample_ops, List.range,
    List.range.loop, List.replicate]

theorem tda_stage_sample_second :
    tda_diagonalization sample_ops (fun f _ => f) sample_sygvp (fun q => (q, [], q)) 3 1 2
      [[1]] (1 / 10000) 1 sample_stage_second.entry
      = some (Except.ok sample_stage_second) := by
  unfold tda_diagonalization
  simp only [sample_stage_second, sample_overlap_unit, sample_response_matrix_unit]
  norm_num [sample_augment, sample_diag_two_states, unaugment, slice1, for2, set2, get2,
    zeros2, List.range, List.range.loop, List.replicate]

theorem tda_passes_sample :
    tda_passes sample_ops (fun f _ => f) sample_sygvp (fun q => (q, [], q)) (fun v => v)
      (fun x => x) (fun x => x) (fun s => s.x_response) 3 1 2 [[1]] (1 / 10000) 3 0
      sample_tda_start = some (Except.ok sample_tda_stages) := by
  have h0 : tda_prepare (fun v => v) (fun x => x) (fun x => x) 1 sample_tda_start
      = sample_stage_first.entry := by
    simp [tda_prepare, sample_tda_start, sample_stage_first, List.range, List.range.loop]
  have h1 : tda_prepare (fun v => v) (fun x => x) (fun x => x) 1
      (tda_update (fun v => v) (fun s => s.x_response) 1 sample_stage_first.exit)
      = sample_stage_second.entry := by
    simp [tda_prepare, tda_update, sample_stage_first, sample_stage_second, List.range,
      List.range.loop]
  have h2 : tda_prepare (fun v => v) (fun x => x) (fun x => x) 1
      (tda_update (fun v => v) (fun s => s.x_response) 1 sample_stage_second.exit)
      = sample_stage_third.entry := by
    simp [tda_prepare, tda_update, sample_stage_second, sample_stage_third, List.range,
      List.range.loop]
  unfold tda_passes
  rw [h0, tda_stage_sample_first]
  simp only
  unfold tda_passes
  rw [show (0 : Int) + 1 = 1 from rfl, h1, tda_stage_sample_second]
  simp only
  unfold tda_passes
  rw [show (1 : Int) + 1 = 2 from rfl, h2, tda_stage_sample_third]
  simp only
  unfold tda_passes
  rfl

theorem tda_augment_follows_unaugment_witness :
    0 < 1 ∧ sample_tda_start.x_response.length = 1 ∧
    tda_passes sample_ops (fun f _ => f) sample_sygvp (fun q => (q, [], q)) (fun v => v)
      (fun x => x) (fun x => x) (fun s => s.x_response) 3 1 2 [[1]] (1 / 10000) 3 0
      sample_tda_start = some (Except.ok sample_tda_stages) ∧
    sample_tda_stages.length = 3 ∧
    ∀ (k : Nat) (t : StageTrace ℚ), sample_tda_stages[k]? = some t →
      t.iteration = (k : Int) ∧
      (t.augmented = true ↔ 0 < k ∧ (k : Int) < 2) ∧
      (t.unaugmented = true ↔ (k : Int) < 2) ∧
      (t.augmented = true →
        ∃ p, sample_tda_stages[k - 1]? = some p ∧ p.iteration = (k : Int) - 1 ∧
          p.unaugmented = true ∧ SnapshotStored 1 p.exit ∧
          t.entry.old_x_gamma = p.exit.old_x_gamma ∧
          t.entry.old_V_x_response = p.exit.old_V_x_response ∧
          t.entry.old_x_fe = p.exit.old_x_fe ∧
          t.entry.old_S_x = p.exit.old_S_x ∧
          t.entry.old_A_x = p.exit.old_A_x ∧
          t.entry.old_x_response.length = 1) ∧
      HoldsStates 1 t.exit :=
  ⟨by decide, rfl, tda_passes_sample,
    tda_augment_follows_unaugment sample_ops (fun f _ => f) sample_sygvp (fun q => (q, [], q))
      (fun v => v) (fun x => x) (fun x => x) (fun s => s.x_response) 3 1 2 [[1]] (1 / 10000)
      (by decide) (fun _ _ => rfl) (fun A _ => by simp [sample_sygvp]) (fun _ => rfl)
      (fun _ => rfl) (fun _ => rfl) 3 sample_tda_start sample_tda_stages rfl
      tda_passes_sample⟩

end TDHF
